import Mathlib

/-!
# Device model and checkpoint store of the GPU DRA kubelet plugin

A shallow embedding of

* `cmd/gpu-kubeletplugin/allocatable.go` (`AllocatableDevice`),
* `cmd/dra-example-kubeletplugin/deviceinfo.go` (`AmdGpuInfo`, `AmdPartitionInfo`,
  the types used by `cmd/gpu-kubeletplugin`),
* `cmd/gpu-kubeletplugin/discovery.go` (`getDeviceName`, `parseDeviceName`,
  `getMemoryBytes`, `enumerateAllPossibleDevices`),
* `pkg/amdgpu/amdgpu.go` (`GetTopologyInfo`, `GetAMDGPUs`),
* `cmd/gpu-kubeletplugin/checkpoint.go` (`Checkpoint`),

followed by the properties proved about them.

Conventions: in the device model Go `string` values are Lean `String`s
(texts, that is, valid UTF-8); in the checkpoint store they are byte strings
(`GoString`), which need not be valid UTF-8, as `json.Marshal` treats the two
differently. Go `int` values are `Int`, `uint64` values are `Nat` (reduced
modulo `2^64` where a conversion happens), nil-able pointers are `Option`s, a Go
map is an association list read through `GoMap.get` or `ByteMap.get`, a function
that can panic returns `Except Panic _`, and a method that assigns to its
receiver returns the receiver as it leaves it. The library calls `json.Marshal`, `json.Unmarshal`
and `checksum.New` are fields of `Lib`; `goLib` fills the first two with a
model of `encoding/json` at the type `Checkpoint` and leaves the hash open.
What `GetAMDGPUs` reads of the kernel is a value of `Kernel`, with file contents
taken after `strings.TrimSpace` and `strings.ToLower`; the order in which a
`range` visits a Go map is a parameter (`visit`, or the order of a list); log
output is left out. `strconv.Atoi`, `strconv.ParseInt` and `fmt.Sscanf` are
modelled on the inputs and formats that the code passes to them.
-/

namespace GpuDra

/-! ## Go runtime pieces -/

/-- A Go run-time panic: a nil pointer dereference, an explicit `panic(msg)`, a
slice expression `s[:hi]` on a string of `len < hi` bytes, a failed type
assertion on the map entry `key`, or an integer division by zero. -/
inductive Panic where
  | nilDereference
  | message (msg : String)
  | sliceBounds (hi len : Nat)
  | typeAssertion (key : String)
  | divideByZero
  deriving DecidableEq

/-- A Go map with string keys, kept as an association list in which every key
occurs at most once when it is built with `GoMap.set`. -/
abbrev GoMap (ν : Type) := List (String × ν)

/-- Map read `m[k]`, with `none` for an absent key. -/
def GoMap.get {ν : Type} : GoMap ν → String → Option ν
  | [], _ => none
  | (k', v) :: rest, k => if k' = k then some v else GoMap.get rest k

/-- Map write `m[k] = v`: replaces the binding of `k` or adds one. -/
def GoMap.set {ν : Type} : GoMap ν → String → ν → GoMap ν
  | [], k, v => [(k, v)]
  | (k', v') :: rest, k, v =>
    if k' = k then (k, v) :: rest else (k', v') :: GoMap.set rest k v

/-- The keys of a map. -/
def GoMap.keys {ν : Type} (m : GoMap ν) : List String := m.map Prod.fst

/-- The character of a decimal digit `d < 10`. -/
def digitChar (d : Nat) : Char := Char.ofNat (48 + d)

/-- Decimal digits of `n`, most significant first, pushed in front of `acc`. -/
def natDigitsAux : Nat → Nat → List Char → List Char
  | 0, _, acc => acc
  | fuel + 1, n, acc =>
    if n < 10 then digitChar n :: acc
    else natDigitsAux fuel (n / 10) (digitChar (n % 10) :: acc)

/-- Decimal rendering of a natural number (`strconv.FormatUint(n, 10)`). -/
def fmtNat (n : Nat) : List Char := natDigitsAux (n + 1) n []

/-- Decimal rendering of a Go `int` under the verbs `%d` and `%v`. -/
def fmtInt : Int → List Char
  | Int.ofNat n => fmtNat n
  | Int.negSucc n => '-' :: fmtNat (n + 1)

/-- A character is a decimal digit. -/
def isDigit (c : Char) : Bool := decide (48 ≤ c.toNat ∧ c.toNat ≤ 57)

/-- The decimal value of a digit string, as `strconv` accumulates it. -/
def digitsValue (cs : List Char) : Nat := cs.foldl (fun a c => 10 * a + (c.toNat - 48)) 0

/-- Conversion `int64(x)` of a `uint64` value: the same 64 bits read as a
two's-complement number. -/
def int64OfUint64 (x : Nat) : Int :=
  if x % 2 ^ 64 < 2 ^ 63 then Int.ofNat (x % 2 ^ 64) else Int.ofNat (x % 2 ^ 64) - 2 ^ 64

/-! ## External declarations used by the device model -/

/-- What the device model takes as parameters: the three device-type constants
`AmdGpuDeviceType`, `AmdPartitionDeviceType` and `UnknownDeviceType`, which are
declared outside the given sources, and the library function `uuid.NewSHA1`,
where `NewSHA1 ns name` stands for the text of
`uuid.NewSHA1(ns, []byte(name)).String()` with the namespace given by its
textual form. -/
structure Env where
  AmdGpuDeviceType : String
  AmdPartitionDeviceType : String
  UnknownDeviceType : String
  NewSHA1 : String → String → String

/-- The value of `resourceapi.DeviceAttribute`: at most one field is set. -/
structure DeviceAttribute where
  IntValue : Option Int := none
  BoolValue : Option Bool := none
  StringValue : Option String := none
  VersionValue : Option String := none
  deriving DecidableEq

/-- The named attribute of `deviceattribute.DeviceAttribute`. -/
structure NamedAttribute where
  Name : String
  Value : DeviceAttribute
  deriving DecidableEq

/-- The format of `resource.Quantity`. -/
inductive QuantityFormat where
  | DecimalExponent
  | BinarySI
  | DecimalSI
  deriving DecidableEq

/-- The result of `resource.NewQuantity(value, format)`. -/
structure Quantity where
  value : Int
  format : QuantityFormat
  deriving DecidableEq

/-- The capacity entry `resourceapi.DeviceCapacity`. -/
structure DeviceCapacity where
  Value : Quantity
  deriving DecidableEq

/-- The fields of `resourceapi.Device` set by this program. -/
structure Device where
  Name : String
  Attributes : GoMap DeviceAttribute
  Capacity : GoMap DeviceCapacity
  deriving DecidableEq

/-! ## deviceinfo.go -/

/-- The namespace `amdGpuNamespace` of the deterministic UUIDs. -/
def amdGpuNamespace : String := "12345678-1234-5678-9abc-123456789012"

/-- A full AMD GPU device (`AmdGpuInfo`). -/
structure AmdGpuInfo where
  UUID : String
  RenderIndex : Int
  CardIndex : Int
  ProductName : String
  Family : String
  DeviceID : String
  DriverVersion : String
  DriverSrcVersion : String
  PCIAddress : String
  PartitionProfile : String
  MemoryBytes : Nat
  ComputeUnits : Int
  SimdUnits : Int
  pcieRootAttr : NamedAttribute
  deriving DecidableEq

/-- A partition of an AMD GPU (`AmdPartitionInfo`); `Parent` is a pointer. -/
structure AmdPartitionInfo where
  Parent : Option AmdGpuInfo
  UUID : String
  RenderIndex : Int
  CardIndex : Int
  PartitionProfile : String
  MemoryBytes : Nat
  ComputeUnits : Int
  SimdUnits : Int
  deriving DecidableEq

/-- The text `fmt.Sprintf("gpu-%v-%v", card, renderD)`. -/
def getDeviceName (card renderD : Int) : String :=
  String.mk ("gpu-".data ++ fmtInt card ++ "-".data ++ fmtInt renderD)

/-- The text `fmt.Sprintf("%s-card%d-render%d", devID, card, renderD)` that is
hashed into the UUID. -/
def uniqueID (devID : String) (card renderD : Int) : String :=
  String.mk (devID.data ++ "-card".data ++ fmtInt card ++ "-render".data ++ fmtInt renderD)

/-- `AmdGpuInfo.CanonicalName`. -/
def AmdGpuInfo.CanonicalName (d : AmdGpuInfo) : String :=
  String.mk ("gpu-".data ++ fmtInt d.CardIndex ++ "-".data ++ fmtInt d.RenderIndex)

/-- `AmdGpuInfo.GenerateUUID`. -/
def AmdGpuInfo.GenerateUUID (E : Env) (d : AmdGpuInfo) : String :=
  E.NewSHA1 amdGpuNamespace (uniqueID d.DeviceID d.CardIndex d.RenderIndex)

/-- The three capacities, shared by both `GetDevice` bodies. -/
def capacityOf (memoryBytes : Nat) (computeUnits simdUnits : Int) : GoMap DeviceCapacity :=
  [ ("memory", { Value := ⟨int64OfUint64 memoryBytes, QuantityFormat.BinarySI⟩ }),
    ("computeUnits", { Value := ⟨computeUnits, QuantityFormat.BinarySI⟩ }),
    ("simdUnits", { Value := ⟨simdUnits, QuantityFormat.BinarySI⟩ }) ]

/-- `AmdGpuInfo.GetDevice`: the DRA representation of a full GPU. -/
def AmdGpuInfo.GetDevice (E : Env) (d : AmdGpuInfo) : Device :=
  let attributes : GoMap DeviceAttribute :=
    [ ("type", { StringValue := some E.AmdGpuDeviceType }),
      ("uuid", { StringValue := some (d.GenerateUUID E) }),
      ("pciAddr", { StringValue := some d.PCIAddress }),
      ("cardIndex", { IntValue := some d.CardIndex }),
      ("renderIndex", { IntValue := some d.RenderIndex }),
      ("deviceID", { StringValue := some d.DeviceID }),
      ("family", { StringValue := some d.Family }),
      ("productName", { StringValue := some d.ProductName }),
      ("driverVersion", { VersionValue := some d.DriverVersion }),
      ("driverSrcVersion", { StringValue := some d.DriverSrcVersion }),
      ("partitionProfile", { StringValue := some d.PartitionProfile }) ]
  let attributes :=
    if d.pcieRootAttr.Name ≠ "" then
      attributes.set d.pcieRootAttr.Name d.pcieRootAttr.Value
    else attributes
  { Name := d.CanonicalName
    Attributes := attributes
    Capacity := capacityOf d.MemoryBytes d.ComputeUnits d.SimdUnits }

/-- `AmdPartitionInfo.CanonicalName`. -/
def AmdPartitionInfo.CanonicalName (d : AmdPartitionInfo) : String :=
  String.mk ("gpu-".data ++ fmtInt d.CardIndex ++ "-".data ++ fmtInt d.RenderIndex)

/-- `AmdPartitionInfo.GenerateUUID`; reading `d.Parent.DeviceID` through a nil
`Parent` panics. -/
def AmdPartitionInfo.GenerateUUID (E : Env) (d : AmdPartitionInfo) : Except Panic String :=
  match d.Parent with
  | none => .error Panic.nilDereference
  | some parent =>
    .ok (E.NewSHA1 amdGpuNamespace (uniqueID parent.DeviceID d.CardIndex d.RenderIndex))

/-- `AmdPartitionInfo.GetDevice`: the DRA representation of a partition. Every
read of a `Parent` field panics when `Parent` is nil; the first one is the read
in `GenerateUUID`. -/
def AmdPartitionInfo.GetDevice (E : Env) (d : AmdPartitionInfo) : Except Panic Device :=
  match d.GenerateUUID E, d.Parent with
  | .error p, _ => .error p
  | .ok _, none => .error Panic.nilDereference
  | .ok uuid, some parent =>
    let attributes : GoMap DeviceAttribute :=
      [ ("type", { StringValue := some E.AmdPartitionDeviceType }),
        ("uuid", { StringValue := some uuid }),
        ("parentPciAddr", { StringValue := some parent.PCIAddress }),
        ("cardIndex", { IntValue := some d.CardIndex }),
        ("renderIndex", { IntValue := some d.RenderIndex }),
        ("parentDeviceID", { StringValue := some parent.DeviceID }),
        ("family", { StringValue := some parent.Family }),
        ("productName", { StringValue := some parent.ProductName }),
        ("driverVersion", { VersionValue := some parent.DriverVersion }),
        ("driverSrcVersion", { StringValue := some parent.DriverSrcVersion }),
        ("partitionProfile", { StringValue := some d.PartitionProfile }) ]
    let attributes :=
      if parent.pcieRootAttr.Name ≠ "" then
        attributes.set parent.pcieRootAttr.Name parent.pcieRootAttr.Value
      else attributes
    .ok { Name := d.CanonicalName
          Attributes := attributes
          Capacity := capacityOf d.MemoryBytes d.ComputeUnits d.SimdUnits }

/-! ## allocatable.go -/

/-- An `AllocatableDevice` wraps either a full GPU or a partition; both fields
are pointers. -/
structure AllocatableDevice where
  AmdGpu : Option AmdGpuInfo
  AmdPartition : Option AmdPartitionInfo
  deriving DecidableEq

/-- `AllocatableDevice.Type`. -/
def AllocatableDevice.Type (E : Env) (d : AllocatableDevice) : String :=
  if d.AmdGpu ≠ none then E.AmdGpuDeviceType
  else if d.AmdPartition ≠ none then E.AmdPartitionDeviceType
  else E.UnknownDeviceType

/-- `AllocatableDevice.CanonicalName`: a tagless `switch` over `d.Type()` whose
first matching case runs, and a panic after it. A method called through a nil
pointer panics at its first field read. -/
def AllocatableDevice.CanonicalName (E : Env) (d : AllocatableDevice) : Except Panic String :=
  if d.Type E = E.AmdGpuDeviceType then
    match d.AmdGpu with
    | some gpu => .ok gpu.CanonicalName
    | none => .error Panic.nilDereference
  else if d.Type E = E.AmdPartitionDeviceType then
    match d.AmdPartition with
    | some part => .ok part.CanonicalName
    | none => .error Panic.nilDereference
  else .error (Panic.message ("unexpected device type: " ++ d.Type E))

/-- `AllocatableDevice.GetDevice`. -/
def AllocatableDevice.GetDevice (E : Env) (d : AllocatableDevice) : Except Panic Device :=
  if d.Type E = E.AmdGpuDeviceType then
    match d.AmdGpu with
    | some gpu => .ok (gpu.GetDevice E)
    | none => .error Panic.nilDereference
  else if d.Type E = E.AmdPartitionDeviceType then
    match d.AmdPartition with
    | some part => part.GetDevice E
    | none => .error Panic.nilDereference
  else .error (Panic.message ("unexpected device type: " ++ d.Type E))

/-! ## Sample values -/

/-- A sample environment: the device-type names of the plugin and a stand-in
for the name-based UUID function. -/
def sampleEnv : Env where
  AmdGpuDeviceType := "amdgpu"
  AmdPartitionDeviceType := "amdgpu-partition"
  UnknownDeviceType := "unknown"
  NewSHA1 := fun ns name => ns ++ "/" ++ name

/-- A sample full device. -/
def sampleGpu : AmdGpuInfo where
  UUID := ""
  RenderIndex := 128
  CardIndex := 1
  ProductName := "AMD_Instinct_MI300X"
  Family := "AI"
  DeviceID := "0x74a1"
  DriverVersion := "6.10.5"
  DriverSrcVersion := "ABCDEF"
  PCIAddress := "0000:19:00.0"
  PartitionProfile := "spx_nps1"
  MemoryBytes := 206141652992
  ComputeUnits := 304
  SimdUnits := 1216
  pcieRootAttr := ⟨"resource.kubernetes.io/pcieRoot", { StringValue := some "pci0000:16" }⟩

/-- A sample partition of `sampleGpu`. -/
def samplePartition : AmdPartitionInfo where
  Parent := some sampleGpu
  UUID := ""
  RenderIndex := 129
  CardIndex := 2
  PartitionProfile := "cpx_nps1"
  MemoryBytes := 25769803776
  ComputeUnits := 38
  SimdUnits := 152

/-- A full device whose locality attribute is named like a fixed attribute and
whose memory size does not fit a signed 64-bit integer. -/
def oddGpu : AmdGpuInfo :=
  { sampleGpu with
    MemoryBytes := 2 ^ 63
    pcieRootAttr := ⟨"type", { StringValue := some "pci0000:16" }⟩ }

/-- The attribute keys written by the map literal of `AmdGpuInfo.GetDevice`. -/
def fullDeviceAttributeKeys : List String :=
  ["type", "uuid", "pciAddr", "cardIndex", "renderIndex", "deviceID", "family",
   "productName", "driverVersion", "driverSrcVersion", "partitionProfile"]

/-! ## UTF-8 (`unicode/utf8`) -/

/-- A byte string (`[]byte`). -/
abbrev Bytes := List UInt8

/-- The replacement character U+FFFD (`utf8.RuneError`). -/
def replacementChar : Char := Char.ofNat 0xFFFD

/-- The UTF-8 encoding of one character (`utf8.AppendRune`). -/
def utf8EncodeChar (c : Char) : Bytes :=
  let n := c.toNat
  if n < 0x80 then [UInt8.ofNat n]
  else if n < 0x800 then [UInt8.ofNat (0xC0 + n / 64), UInt8.ofNat (0x80 + n % 64)]
  else if n < 0x10000 then
    [UInt8.ofNat (0xE0 + n / 4096), UInt8.ofNat (0x80 + n / 64 % 64), UInt8.ofNat (0x80 + n % 64)]
  else
    [UInt8.ofNat (0xF0 + n / 262144), UInt8.ofNat (0x80 + n / 4096 % 64),
     UInt8.ofNat (0x80 + n / 64 % 64), UInt8.ofNat (0x80 + n % 64)]

/-- The UTF-8 encoding of a text. -/
def utf8Encode (cs : List Char) : Bytes := cs.flatMap utf8EncodeChar

/-- A continuation byte `10xxxxxx`. -/
def isCont (b : UInt8) : Bool := decide (0x80 ≤ b.toNat ∧ b.toNat ≤ 0xBF)

/-- One step of `utf8.DecodeRune`: the first character of a non-empty byte
string and the bytes after it. An encoding that is not well formed (a stray
continuation byte, an overlong form, a surrogate, a value above U+10FFFF, a
truncated sequence) yields U+FFFD and consumes one byte. -/
def decodeRune : Bytes → Option (Char × Bytes)
  | [] => none
  | b0 :: rest =>
    let n0 := b0.toNat
    if n0 < 0x80 then some (Char.ofNat n0, rest)
    else if 0xC2 ≤ n0 ∧ n0 ≤ 0xDF then
      match rest with
      | b1 :: r1 =>
        if isCont b1 then some (Char.ofNat ((n0 - 0xC0) * 64 + (b1.toNat - 0x80)), r1)
        else some (replacementChar, rest)
      | _ => some (replacementChar, rest)
    else if 0xE0 ≤ n0 ∧ n0 ≤ 0xEF then
      match rest with
      | b1 :: b2 :: r2 =>
        let lo := if n0 = 0xE0 then 0xA0 else 0x80
        let hi := if n0 = 0xED then 0x9F else 0xBF
        if lo ≤ b1.toNat ∧ b1.toNat ≤ hi ∧ isCont b2 then
          some (Char.ofNat ((n0 - 0xE0) * 4096 + (b1.toNat - 0x80) * 64 + (b2.toNat - 0x80)), r2)
        else some (replacementChar, rest)
      | _ => some (replacementChar, rest)
    else if 0xF0 ≤ n0 ∧ n0 ≤ 0xF4 then
      match rest with
      | b1 :: b2 :: b3 :: r3 =>
        let lo := if n0 = 0xF0 then 0x90 else 0x80
        let hi := if n0 = 0xF4 then 0x8F else 0xBF
        if lo ≤ b1.toNat ∧ b1.toNat ≤ hi ∧ isCont b2 ∧ isCont b3 then
          some (Char.ofNat ((n0 - 0xF0) * 262144 + (b1.toNat - 0x80) * 4096
            + (b2.toNat - 0x80) * 64 + (b3.toNat - 0x80)), r3)
        else some (replacementChar, rest)
      | _ => some (replacementChar, rest)
    else some (replacementChar, rest)

/-- The characters of a byte string as `encoding/json` reads them: well-formed
sequences decode to their character and every other byte to U+FFFD. -/
def utf8DecodeLossy : Nat → Bytes → List Char
  | 0, _ => []
  | fuel + 1, bs =>
    match decodeRune bs with
    | none => []
    | some (c, rest) => c :: utf8DecodeLossy fuel rest

/-- The byte string with the bit at position `pos` flipped; bit `pos` is bit
`pos % 8` of byte `pos / 8`. -/
def flipBit : Bytes → Nat → Bytes
  | [], _ => []
  | b :: bs, pos =>
    if pos < 8 then (b ^^^ UInt8.ofNat (2 ^ pos)) :: bs else b :: flipBit bs (pos - 8)

/-! ## JSON text (`encoding/json`) -/

/-- A parsed JSON value; a number keeps its literal text. -/
inductive JValue where
  | null
  | bool (b : Bool)
  | num (lit : List Char)
  | str (s : List Char)
  | arr (elems : List JValue)
  | obj (members : List (List Char × JValue))

/-- The nesting limit of the scanner (`maxNestingDepth`). -/
def maxNestingDepth : Nat := 10000

/-- JSON white space. -/
def isWs (c : Char) : Bool := c = ' ' || c = '\t' || c = '\r' || c = '\n'

/-- Drops leading white space. -/
def skipWs : List Char → List Char
  | [] => []
  | c :: cs => if isWs c then skipWs cs else c :: cs

/-- The value of a hexadecimal digit of either case. -/
def hexVal (c : Char) : Option Nat :=
  let n := c.toNat
  if 48 ≤ n ∧ n ≤ 57 then some (n - 48)
  else if 97 ≤ n ∧ n ≤ 102 then some (n - 87)
  else if 65 ≤ n ∧ n ≤ 70 then some (n - 55)
  else none

/-- Four hexadecimal digits (`getu4` after the `\u`). -/
def hex4 : List Char → Option (Nat × List Char)
  | a :: b :: c :: d :: rest =>
    match hexVal a, hexVal b, hexVal c, hexVal d with
    | some x, some y, some z, some w => some (((x * 16 + y) * 16 + z) * 16 + w, rest)
    | _, _, _, _ => none
  | _ => none

/-- The body of a string literal after its opening quote, unquoted as
`unquote` does: the decoded characters and the text after the closing quote.
A `\u` escape naming a surrogate is combined with a following low surrogate
escape, and replaced by U+FFFD when there is none. -/
def parseStringBody : Nat → List Char → Option (List Char × List Char)
  | 0, _ => none
  | _ + 1, [] => none
  | fuel + 1, c :: rest =>
    if c = '"' then some ([], rest)
    else if c = '\\' then
      match rest with
      | [] => none
      | e :: rest1 =>
        if e = 'u' then
          match hex4 rest1 with
          | none => none
          | some (u, rest2) =>
            if 0xD800 ≤ u ∧ u < 0xE000 then
              let pair : Option (Nat × List Char) :=
                match rest2 with
                | b :: v :: rest3 =>
                  if b = '\\' ∧ v = 'u' then
                    match hex4 rest3 with
                    | some (u2, rest4) =>
                      if u < 0xDC00 ∧ 0xDC00 ≤ u2 ∧ u2 < 0xE000 then
                        some (0x10000 + (u - 0xD800) * 0x400 + (u2 - 0xDC00), rest4)
                      else none
                    | none => none
                  else none
                | _ => none
              match pair with
              | some (r, rest4) =>
                (parseStringBody fuel rest4).map (fun p => (Char.ofNat r :: p.1, p.2))
              | none =>
                (parseStringBody fuel rest2).map (fun p => (replacementChar :: p.1, p.2))
            else (parseStringBody fuel rest2).map (fun p => (Char.ofNat u :: p.1, p.2))
        else
          let simple : Option Char :=
            if e = '"' then some '"' else if e = '\\' then some '\\'
            else if e = '/' then some '/' else if e = 'b' then some (Char.ofNat 8)
            else if e = 'f' then some (Char.ofNat 12) else if e = 'n' then some '\n'
            else if e = 'r' then some '\r' else if e = 't' then some '\t' else none
          match simple with
          | none => none
          | some x => (parseStringBody fuel rest1).map (fun p => (x :: p.1, p.2))
    else if c.toNat < 0x20 then none
    else (parseStringBody fuel rest).map (fun p => (c :: p.1, p.2))

/-- The longest prefix of digits and the text after it. -/
def takeDigits : List Char → List Char × List Char
  | [] => ([], [])
  | c :: cs =>
    if isDigit c then ((takeDigits cs).1.cons c, (takeDigits cs).2) else ([], c :: cs)

/-- A number literal
`-? (0 | [1-9][0-9]*) (. [0-9]+)? ([eE] [+-]? [0-9]+)?`: its text and the text
after it. -/
def parseNumber (cs : List Char) : Option (List Char × List Char) :=
  let signed : List Char × List Char :=
    match cs with
    | c :: r => if c = '-' then (['-'], r) else ([], cs)
    | [] => ([], cs)
  let intPart : Option (List Char × List Char) :=
    match signed.2 with
    | [] => none
    | c :: r =>
      if c = '0' then some (signed.1 ++ ['0'], r)
      else if isDigit c then some (signed.1 ++ c :: (takeDigits r).1, (takeDigits r).2)
      else none
  match intPart with
  | none => none
  | some (lit1, r1) =>
    let frac : Option (List Char × List Char) :=
      match r1 with
      | c :: r =>
        if c = '.' then
          if (takeDigits r).1 = [] then none
          else some (lit1 ++ '.' :: (takeDigits r).1, (takeDigits r).2)
        else some (lit1, r1)
      | [] => some (lit1, r1)
    match frac with
    | none => none
    | some (lit2, r2) =>
      match r2 with
      | c :: r =>
        if c = 'e' ∨ c = 'E' then
          let sgn : List Char × List Char :=
            match r with
            | s :: r' => if s = '+' ∨ s = '-' then ([s], r') else ([], r)
            | [] => ([], r)
          if (takeDigits sgn.2).1 = [] then none
          else some (lit2 ++ c :: sgn.1 ++ (takeDigits sgn.2).1, (takeDigits sgn.2).2)
        else some (lit2, r2)
      | [] => some (lit2, r2)

mutual
/-- One JSON value, after optional white space, and the text after it;
`depth` counts the enclosing arrays and objects. -/
def parseValue : Nat → Nat → List Char → Option (JValue × List Char)
  | 0, _, _ => none
  | fuel + 1, depth, cs =>
    match skipWs cs with
    | [] => none
    | c :: r =>
      if c = '{' then
        if maxNestingDepth ≤ depth then none
        else
          match skipWs r with
          | [] => none
          | c' :: r' =>
            if c' = '}' then some (JValue.obj [], r')
            else (parseMembers fuel (depth + 1) (c' :: r')).map (fun p => (JValue.obj p.1, p.2))
      else if c = '[' then
        if maxNestingDepth ≤ depth then none
        else
          match skipWs r with
          | [] => none
          | c' :: r' =>
            if c' = ']' then some (JValue.arr [], r')
            else (parseElems fuel (depth + 1) (c' :: r')).map (fun p => (JValue.arr p.1, p.2))
      else if c = '"' then
        (parseStringBody fuel r).map (fun p => (JValue.str p.1, p.2))
      else if c = 't' then
        match r with
        | 'r' :: 'u' :: 'e' :: r' => some (JValue.bool true, r')
        | _ => none
      else if c = 'f' then
        match r with
        | 'a' :: 'l' :: 's' :: 'e' :: r' => some (JValue.bool false, r')
        | _ => none
      else if c = 'n' then
        match r with
        | 'u' :: 'l' :: 'l' :: r' => some (JValue.null, r')
        | _ => none
      else (parseNumber (c :: r)).map (fun p => (JValue.num p.1, p.2))
/-- The elements of a non-empty array up to and including its `]`. -/
def parseElems : Nat → Nat → List Char → Option (List JValue × List Char)
  | 0, _, _ => none
  | fuel + 1, depth, cs =>
    match parseValue fuel depth cs with
    | none => none
    | some (v, r) =>
      match skipWs r with
      | [] => none
      | c :: r' =>
        if c = ',' then (parseElems fuel depth r').map (fun p => (v :: p.1, p.2))
        else if c = ']' then some ([v], r')
        else none
/-- The members of a non-empty object up to and including its `}`. -/
def parseMembers : Nat → Nat → List Char → Option (List (List Char × JValue) × List Char)
  | 0, _, _ => none
  | fuel + 1, depth, cs =>
    match skipWs cs with
    | [] => none
    | q :: r =>
      if q = '"' then
        match parseStringBody fuel r with
        | none => none
        | some (k, r1) =>
          match skipWs r1 with
          | [] => none
          | c :: r2 =>
            if c = ':' then
              match parseValue fuel depth r2 with
              | none => none
              | some (v, r3) =>
                match skipWs r3 with
                | [] => none
                | c' :: r4 =>
                  if c' = ',' then
                    (parseMembers fuel depth r4).map (fun p => ((k, v) :: p.1, p.2))
                  else if c' = '}' then some ([(k, v)], r4)
                  else none
            else none
      else none
end

/-- A whole JSON text: one value surrounded by optional white space
(`checkValid` followed by the decoding walk). -/
def parseJSON (cs : List Char) : Option JValue :=
  match parseValue (2 * cs.length + 2) 0 cs with
  | none => none
  | some (v, rest) => if skipWs rest = [] then some v else none

/-- A lower-case hexadecimal digit. -/
def hexDigit (n : Nat) : Char := if n < 10 then Char.ofNat (48 + n) else Char.ofNat (87 + n)

/-- The text `appendString` writes for one character of a string, with HTML
escaping on: the quote and the backslash are escaped; backspace, form feed, new
line, carriage return and tab get their short escapes; other control
characters and `<`, `>`, `&` are written as `\u00xx`; U+2028 and U+2029 as
a `u202x` escape; every other character stands for itself. -/
def quoteChar (c : Char) : List Char :=
  let n := c.toNat
  if c = '"' then ['\\', '"']
  else if c = '\\' then ['\\', '\\']
  else if n = 8 then ['\\', 'b']
  else if n = 12 then ['\\', 'f']
  else if c = '\n' then ['\\', 'n']
  else if c = '\r' then ['\\', 'r']
  else if c = '\t' then ['\\', 't']
  else if n < 0x20 ∨ c = '<' ∨ c = '>' ∨ c = '&' then
    ['\\', 'u', '0', '0', hexDigit (n / 16), hexDigit (n % 16)]
  else if n = 0x2028 ∨ n = 0x2029 then ['\\', 'u', '2', '0', '2', hexDigit (n % 16)]
  else [c]

/-- A quoted string literal. -/
def quote (s : List Char) : List Char := '"' :: (s.flatMap quoteChar ++ ['"'])

/-- The texts joined with commas. -/
def joinComma : List (List Char) → List Char
  | [] => []
  | [x] => x
  | x :: y :: rest => x ++ ',' :: joinComma (y :: rest)

/-- The text `appendString` writes for the bytes of a Go string, with HTML
escaping on: the string is walked rune by rune with `utf8.DecodeRuneInString`;
a byte that starts no well-formed sequence (`utf8.RuneError` with size 1) is
written as the escape `\ufffd`, every other rune as `quoteChar` writes it. -/
def quoteRunes : Nat → Bytes → List Char
  | 0, _ => []
  | fuel + 1, bs =>
    match decodeRune bs with
    | none => []
    | some (c, rest) =>
      (if c = replacementChar ∧ rest.length + 1 = bs.length then "\\ufffd".data
        else quoteChar c) ++ quoteRunes fuel rest

/-- The quoted string literal that `json.Marshal` writes for a Go string. -/
def quoteGo (s : Bytes) : List Char := '"' :: (quoteRunes s.length s ++ ['"'])

/-- The order of Go strings (`<=`): lexicographic by byte. -/
def bytesLe : Bytes → Bytes → Bool
  | [], _ => true
  | _ :: _, [] => false
  | a :: as, b :: bs => a.toNat < b.toNat || (a.toNat == b.toNat && bytesLe as bs)

/-- The relation `a <= b` on Go strings. -/
def strLe (a b : Bytes) : Prop := bytesLe a b = true

instance : DecidableRel strLe := fun a b => inferInstanceAs (Decidable (bytesLe a b = true))

/-! ## checkpoint.go -/

/-- A Go `string` of the checkpoint: a sequence of bytes, which need not be
valid UTF-8. -/
abbrev GoString := Bytes

/-- A Go map whose keys are such strings, kept as an association list in which
every key occurs at most once when it is built with `ByteMap.set`. -/
abbrev ByteMap (ν : Type) := List (GoString × ν)

/-- Map read `m[k]`, with `none` for an absent key. -/
def ByteMap.get {ν : Type} : ByteMap ν → GoString → Option ν
  | [], _ => none
  | (k', v) :: rest, k => if k' = k then some v else ByteMap.get rest k

/-- Map write `m[k] = v`: replaces the binding of `k` or adds one. -/
def ByteMap.set {ν : Type} : ByteMap ν → GoString → ν → ByteMap ν
  | [], k, v => [(k, v)]
  | (k', v') :: rest, k, v =>
    if k' = k then (k, v) :: rest else (k', v') :: ByteMap.set rest k v

/-- The keys of a map. -/
def ByteMap.keys {ν : Type} (m : ByteMap ν) : List GoString := m.map Prod.fst

/-- The keys of a map in the order in which `json.Marshal` writes them. -/
def sortedKeys {ν : Type} (m : ByteMap ν) : List GoString := (m.keys.dedup).insertionSort strLe

/-- Modelled from the spec: the type `PreparedClaims` is declared outside the
given sources; the spec describes it as the mapping from a claim id to the
names of the devices bound to it, so it is a Go `map[string][]string`. A nil
slice is `none`. -/
abbrev PreparedClaims := ByteMap (Option (List GoString))

/-- The payload `CheckpointV1`. -/
structure CheckpointV1 where
  PreparedClaims : PreparedClaims
  deriving DecidableEq

/-- The document `Checkpoint`; `Checksum` is a `uint64` and `V1` a pointer. -/
structure Checkpoint where
  Checksum : Nat
  V1 : Option CheckpointV1
  deriving DecidableEq

/-- A Go `error` of the checkpoint code: one raised by `encoding/json`, or the
`CorruptCheckpointError` of `Checksum.Verify`. -/
inductive CkError where
  | json (msg : String)
  | corrupt (actual expected : Nat)
  deriving DecidableEq

/-- The JSON text of a `[]string`. -/
def encodeNames : Option (List GoString) → List Char
  | none => "null".data
  | some names => '[' :: (joinComma (names.map quoteGo) ++ [']'])

/-- The JSON text of a non-empty `PreparedClaims` map, keys sorted. -/
def encodeClaims (m : PreparedClaims) : List Char :=
  '{' :: (joinComma ((sortedKeys m).map
    (fun k => quoteGo k ++ ':' :: encodeNames ((m.get k).getD none))) ++ ['}'])

/-- The JSON text of a `CheckpointV1`; the map is left out when it is empty
(`omitempty`). -/
def encodeV1 (v : CheckpointV1) : List Char :=
  '{' :: ((if v.PreparedClaims = [] then [] else "\"preparedClaims\":".data
    ++ encodeClaims v.PreparedClaims) ++ ['}'])

/-- The JSON text of a `Checkpoint`; `v1` is left out when the pointer is nil
(`omitempty`). -/
def encodeCheckpoint (cp : Checkpoint) : List Char :=
  "\x7b\"checksum\":".data ++ fmtNat cp.Checksum ++
    (match cp.V1 with
     | none => []
     | some v => ",\"v1\":".data ++ encodeV1 v) ++ ['}']

/-- `json.Marshal(*cp)`, which has no failing case for this type: the bytes of
the JSON text, in which a byte of a claim id or device name that is not part
of well-formed UTF-8 has become the escape `\ufffd`. -/
def jsonMarshal (cp : Checkpoint) : Except CkError Bytes :=
  Except.ok (utf8Encode (encodeCheckpoint cp))

/-- Case folding of one character of an object key: ASCII letters lose their
case, and the two other characters that fold to an ASCII letter (U+017F to `s`,
U+212A to `k`) are mapped to it. -/
def foldKeyChar (c : Char) : Char :=
  let n := c.toNat
  if 65 ≤ n ∧ n ≤ 90 then Char.ofNat (n + 32)
  else if n = 0x17F then 's'
  else if n = 0x212A then 'k'
  else c

/-- An object key selects the field called `name` when it is equal to the name
or equal up to case. -/
def keyMatches (name key : List Char) : Bool :=
  key = name || key.map foldKeyChar = name.map foldKeyChar

/-- Decoding into a fresh `[]string`: `null` gives the nil slice, an array
gives its elements, where a `null` element leaves the empty string; a string
literal gives the UTF-8 bytes of its characters. -/
def decodeNames : JValue → Except CkError (Option (List GoString))
  | JValue.null => Except.ok none
  | JValue.arr elems =>
    (elems.mapM (fun e =>
      match e with
      | JValue.str s => Except.ok (utf8Encode s)
      | JValue.null => Except.ok []
      | _ => Except.error (CkError.json "cannot unmarshal into Go value of type string"))).map some
  | _ => Except.error (CkError.json "cannot unmarshal into Go value of type []string")

/-- Decoding the members of an object into the map `m`, in order. -/
def decodeClaims : PreparedClaims → List (List Char × JValue) → Except CkError PreparedClaims
  | m, [] => Except.ok m
  | m, (k, v) :: rest =>
    match decodeNames v with
    | Except.error e => Except.error e
    | Except.ok names => decodeClaims (m.set (utf8Encode k) names) rest

/-- Decoding one member of the `v1` object into a `CheckpointV1`. -/
def decodeV1Field (v : CheckpointV1) (member : List Char × JValue) : Except CkError CheckpointV1 :=
  if keyMatches "preparedClaims".data member.1 then
    match member.2 with
    | JValue.null => Except.ok { PreparedClaims := [] }
    | JValue.obj ms => (decodeClaims v.PreparedClaims ms).map (fun m => { PreparedClaims := m })
    | _ => Except.error (CkError.json "cannot unmarshal into Go value of type main.PreparedClaims")
  else Except.ok v

/-- Decoding the members of an object, in order, with `step`. -/
def decodeFields {σ : Type} (step : σ → List Char × JValue → Except CkError σ) :
    σ → List (List Char × JValue) → Except CkError σ
  | s, [] => Except.ok s
  | s, member :: rest =>
    match step s member with
    | Except.error e => Except.error e
    | Except.ok s' => decodeFields step s' rest

/-- Decoding one member of the top-level object into a `Checkpoint`: the key
selects `checksum` or `v1`, and any other key is skipped. -/
def decodeCheckpointField (cp : Checkpoint) (member : List Char × JValue) :
    Except CkError Checkpoint :=
  if keyMatches "checksum".data member.1 then
    match member.2 with
    | JValue.null => Except.ok cp
    | JValue.num lit =>
      if lit.all isDigit ∧ digitsValue lit < 2 ^ 64 then
        Except.ok { cp with Checksum := digitsValue lit }
      else Except.error (CkError.json "cannot unmarshal number into Go value of type uint64")
    | _ => Except.error (CkError.json "cannot unmarshal into Go value of type uint64")
  else if keyMatches "v1".data member.1 then
    match member.2 with
    | JValue.null => Except.ok { cp with V1 := none }
    | JValue.obj ms =>
      (decodeFields decodeV1Field (cp.V1.getD { PreparedClaims := [] }) ms).map
        (fun v => { cp with V1 := some v })
    | _ => Except.error (CkError.json "cannot unmarshal into Go value of type main.CheckpointV1")
  else Except.ok cp

/-- `json.Unmarshal(data, cp)`: the text must be one well-formed JSON value;
`null` changes nothing, an object is decoded member by member, and every other
value is a type error. -/
def jsonUnmarshal (data : Bytes) (cp : Checkpoint) : Except CkError Checkpoint :=
  match parseJSON (utf8DecodeLossy data.length data) with
  | none => Except.error (CkError.json "invalid JSON text")
  | some JValue.null => Except.ok cp
  | some (JValue.obj ms) => decodeFields decodeCheckpointField cp ms
  | some _ => Except.error (CkError.json "cannot unmarshal into Go value of type main.Checkpoint")

/-- The library functions called by the checkpoint code: `json.Marshal` and
`json.Unmarshal` at type `Checkpoint`, and the hash under `checksum.New`. -/
structure Lib where
  Marshal : Checkpoint → Except CkError Bytes
  Unmarshal : Bytes → Checkpoint → Except CkError Checkpoint
  hash : Bytes → Nat

/-- The library as it is linked: `encoding/json`, and a hash `h`. -/
def goLib (h : Bytes → Nat) : Lib := { Marshal := jsonMarshal, Unmarshal := jsonUnmarshal, hash := h }

/-- `checksum.New(data)`: the hash as a `uint64`. -/
def Lib.New (L : Lib) (data : Bytes) : Nat := L.hash data % 2 ^ 64

/-- `Checksum.Verify`: an error if and only if `cs` is not the checksum of
`data`. -/
def Lib.Verify (L : Lib) (cs : Nat) (data : Bytes) : Except CkError Unit :=
  if cs ≠ L.New data then Except.error (CkError.corrupt (L.New data) cs) else Except.ok ()

/-- `newCheckpoint`. -/
def newCheckpoint : Checkpoint := { Checksum := 0, V1 := some { PreparedClaims := [] } }

/-- `Checkpoint.MarshalCheckpoint`: the returned value and the checkpoint as
the call leaves it. -/
def Checkpoint.MarshalCheckpoint (L : Lib) (cp : Checkpoint) :
    Except CkError Bytes × Checkpoint :=
  let cp1 := { cp with Checksum := 0 }
  match L.Marshal cp1 with
  | Except.error err => (Except.error err, cp1)
  | Except.ok out =>
    let cp2 := { cp1 with Checksum := L.New out }
    (L.Marshal cp2, cp2)

/-- `Checkpoint.UnmarshalCheckpoint`: the checkpoint after a successful load. -/
def Checkpoint.UnmarshalCheckpoint (L : Lib) (cp : Checkpoint) (data : Bytes) :
    Except CkError Checkpoint :=
  L.Unmarshal data cp

/-- `Checkpoint.VerifyChecksum`: the returned value and the checkpoint as the
call leaves it, the deferred assignment having run. -/
def Checkpoint.VerifyChecksum (L : Lib) (cp : Checkpoint) : Except CkError Unit × Checkpoint :=
  let ck := cp.Checksum
  let cp1 := { cp with Checksum := 0 }
  let result : Except CkError Unit :=
    match L.Marshal cp1 with
    | Except.error err => Except.error err
    | Except.ok out => L.Verify ck out
  (result, { cp1 with Checksum := ck })

/-- The 32-bit FNV-1a hash of the bytes: a sample hash for the examples; the
properties below are proved for every hash. -/
def fnv1a32 (data : Bytes) : Nat :=
  data.foldl (fun h b => ((h ^^^ b.toNat) * 16777619) % 2 ^ 32) 2166136261

/-- Loading `data` into a checkpoint made by `newCheckpoint` and verifying it:
`true` when both `UnmarshalCheckpoint` and `VerifyChecksum` return no error. -/
def accepts (L : Lib) (data : Bytes) : Bool :=
  match newCheckpoint.UnmarshalCheckpoint L data with
  | Except.error _ => false
  | Except.ok cp =>
    match (cp.VerifyChecksum L).1 with
    | Except.error _ => false
    | Except.ok _ => true

/-! ## Notions used in the proofs about the JSON codec -/

/-- The text after a value is empty or starts with `,`, `}` or `]`. -/
def delimited : List Char → Prop
  | [] => True
  | c :: _ => c = ',' ∨ c = '}' ∨ c = ']'

/-- The text `t` is read back as the value `v`, whatever follows it, provided
`h` more levels of nesting are allowed. -/
def Renders (h : Nat) (t : List Char) (v : JValue) : Prop :=
  ∀ fuel depth rest, 2 * (t ++ rest).length + 2 ≤ fuel → depth + h ≤ maxNestingDepth →
    delimited rest → parseValue fuel depth (t ++ rest) = some (v, rest)

/-- The characters that `encoding/json` reads in a Go string. -/
def textOf (s : GoString) : List Char := utf8DecodeLossy s.length s

/-- The Go string is valid UTF-8 (`utf8.Valid`): it is the encoding of the
characters read in it, none of which then stands for an ill-formed byte. -/
def validUTF8 (s : GoString) : Bool := decide (utf8Encode (textOf s) = s)

/-- The claim ids and the device names of the map are valid UTF-8. -/
def validClaims (m : PreparedClaims) : Bool :=
  m.all (fun e => validUTF8 e.1 &&
    (match e.2 with
     | none => true
     | some names => names.all validUTF8))

/-- The JSON value of a `[]string`. -/
def namesJ : Option (List GoString) → JValue
  | none => JValue.null
  | some names => JValue.arr (names.map (fun s => JValue.str (textOf s)))

/-- The JSON value of a `PreparedClaims` map. -/
def claimsJ (m : PreparedClaims) : JValue :=
  JValue.obj ((sortedKeys m).map (fun k => (textOf k, namesJ ((m.get k).getD none))))

/-- The JSON value of a `CheckpointV1`. -/
def v1J (v : CheckpointV1) : JValue :=
  JValue.obj (if v.PreparedClaims = [] then [] else [("preparedClaims".data, claimsJ v.PreparedClaims)])

/-- The JSON value of a `Checkpoint` whose first member is written under the
key `key`. -/
def docJ (key : List Char) (cp : Checkpoint) : JValue :=
  JValue.obj ((key, JValue.num (fmtNat cp.Checksum)) ::
    (match cp.V1 with
     | none => []
     | some v => [("v1".data, v1J v)]))

/-- The JSON text of a `Checkpoint` with the key of its first member replaced
by `key`. -/
def encodeKeyed (key : List Char) (cp : Checkpoint) : List Char :=
  '{' :: (quote key ++ ':' :: fmtNat cp.Checksum ++
    (match cp.V1 with
     | none => []
     | some v => ",\"v1\":".data ++ encodeV1 v) ++ ['}'])

/-- The character read where the byte of the ASCII character `d` has its bit
`j` flipped: the character of the flipped byte, or U+FFFD when the flipped
byte is not ASCII. -/
def flippedChar (d : Char) (j : Nat) : Char :=
  if (UInt8.ofNat d.toNat ^^^ UInt8.ofNat (2 ^ j)).toNat < 0x80 then
    Char.ofNat (UInt8.ofNat d.toNat ^^^ UInt8.ofNat (2 ^ j)).toNat
  else replacementChar

/-- The key `checksum` as it is read when bit `j` of the byte of its letter
number `k` has been flipped. -/
def flippedKey (k j : Nat) : List Char :=
  "checksum".data.take k ++
    flippedChar ("checksum".data.getD k 'c') j :: "checksum".data.drop (k + 1)

/-- The character ends a number literal without being taken for what may
follow a member of an object: it is no digit, no part of a fraction or an
exponent, no white space, no comma and no closing brace. -/
def breaksNumber (c : Char) : Bool :=
  !isDigit c && !isWs c && decide (c ≠ '.' ∧ c ≠ 'e' ∧ c ≠ 'E' ∧ c ≠ ',' ∧ c ≠ '}')

/-- The character starts no JSON value: it opens no object, array, string or
literal name and no number. -/
def startsNoValue (c : Char) : Bool :=
  !isDigit c && !isWs c &&
    decide (c ≠ '{' ∧ c ≠ '[' ∧ c ≠ '"' ∧ c ≠ 't' ∧ c ≠ 'f' ∧ c ≠ 'n' ∧ c ≠ '-')

/-- The two maps have the same bindings: every key of either is bound alike
in both. -/
def sameBindings (a b : PreparedClaims) : Bool :=
  (a.keys ++ b.keys).all (fun k => decide (a.get k = b.get k))

/-- The checkpoint `cp'` is the saved document `cp`: it holds the same checksum
and a payload with the same bindings. -/
def isSavedDocument (cp' cp : Checkpoint) : Bool :=
  decide (cp'.Checksum = cp.Checksum) &&
    (match cp'.V1, cp.V1 with
     | some a, some b => sameBindings a.PreparedClaims b.PreparedClaims
     | none, none => true
     | _, _ => false)

/-- The bit positions of `data` whose flip is accepted. -/
def acceptedFlips (L : Lib) (data : Bytes) : List Nat :=
  (List.range (8 * data.length)).filter (fun pos => accepts L (flipBit data pos))

/-- A sample claims mapping: the claim `c1` holds the device `g`. -/
def sampleClaims : PreparedClaims := [(utf8Encode "c1".data, some [utf8Encode "g".data])]

/-- A claims mapping whose claim id is the single byte `0xFF`, which is not
valid UTF-8. -/
def invalidIdClaims : PreparedClaims := [([0xFF], some [utf8Encode "gpu-1-128".data])]

/-! ## Number parsing (`strconv`) -/

/-- The digit loop of `strconv.ParseUint(s, 10, 64)`, entered with the value
`n` read so far: `none` for a syntax error, raised at the first character that
is not a decimal digit; `some none` for a range error, raised at the first
digit with which the value leaves 64 bits, without a look at the characters
after it; the value otherwise. -/
def parseUintLoop : List Char → Nat → Option (Option Nat)
  | [], n => some (some n)
  | c :: rest, n =>
    if isDigit c then
      if 10 * n + (c.toNat - 48) < 2 ^ 64 then parseUintLoop rest (10 * n + (c.toNat - 48))
      else some none
    else none

/-- The result of `strconv.Atoi`: the value, or the value returned together with
a non-nil error (`0` for a syntax error, the nearest `int64` for a value out of
range). One leading sign is taken off and the rest goes through the digit loop
of `ParseUint`. -/
def Atoi (s : String) : Except Int Int :=
  let signed : Bool × List Char :=
    match s.data with
    | c :: rest => if c = '-' then (true, rest) else if c = '+' then (false, rest) else (false, s.data)
    | [] => (false, [])
  if signed.2 = [] then Except.error 0
  else
    match parseUintLoop signed.2 0 with
    | none => Except.error 0
    | some none => Except.error (if signed.1 then - 2 ^ 63 else 2 ^ 63 - 1)
    | some (some n) =>
      let v : Int := if signed.1 then - Int.ofNat n else Int.ofNat n
      if v > 2 ^ 63 - 1 then Except.error (2 ^ 63 - 1)
      else if v < - 2 ^ 63 then Except.error (- 2 ^ 63)
      else Except.ok v

/-- The value assigned by `x, _ = strconv.Atoi(s)`. -/
def AtoiValue (s : String) : Int :=
  match Atoi s with
  | Except.ok v => v
  | Except.error v => v

/-- The result of `strconv.ParseInt(s, 0, 64)` on a non-empty run of decimal
digits, `none` standing for a non-nil error: a leading `0` selects base 8, in
which the digits `8` and `9` are syntax errors, and a value of `2^63` or more is
out of range. -/
def parseInt0 (ds : List Char) : Option Int :=
  match ds with
  | [] => none
  | c :: rest =>
    if c = '0' then
      if rest.all (fun x => isDigit x && decide (x.toNat < 56)) then
        let v := rest.foldl (fun a x => 8 * a + (x.toNat - 48)) 0
        if v < 2 ^ 63 then some (Int.ofNat v) else none
      else none
    else
      if (c :: rest).all isDigit ∧ digitsValue (c :: rest) < 2 ^ 63 then
        some (Int.ofNat (digitsValue (c :: rest)))
      else none

/-! ## Scanning (`fmt.Sscanf`) -/

/-- Why `fmt.Sscanf` returns a non-nil error: the input ends inside literal
text of the format (`io.ErrUnexpectedEOF`), the input ends where a number is to
start (`io.EOF`), a character differs from the literal text of the format, a
new line stands where spaces are skipped, no digit stands where a number is
to start, or `strconv.ParseInt` rejects the token. -/
inductive ScanError where
  | unexpectedEOF
  | eof
  | noMatch
  | unexpectedNewline
  | expectedInteger
  | number
  deriving DecidableEq

/-- The table `space` of package `fmt`. -/
def isScanSpace (c : Char) : Bool :=
  decide ((0x9 ≤ c.toNat ∧ c.toNat ≤ 0xd) ∨ c.toNat = 0x20 ∨ c.toNat = 0x85 ∨ c.toNat = 0xa0 ∨
    c.toNat = 0x1680 ∨ (0x2000 ≤ c.toNat ∧ c.toNat ≤ 0x200a) ∨ c.toNat = 0x2028 ∨
    c.toNat = 0x2029 ∨ c.toNat = 0x202f ∨ c.toNat = 0x205f ∨ c.toNat = 0x3000)

/-- `ss.SkipSpace` of a scan started by `Sscanf`, where a new line is not a
space: the input from the first character that is not skipped. -/
def skipSpace : List Char → Except ScanError (List Char)
  | [] => Except.ok []
  | c :: rest =>
    if c = '\r' ∧ rest.head? = some '\n' then skipSpace rest
    else if c = '\n' then Except.error ScanError.unexpectedNewline
    else if isScanSpace c then skipSpace rest
    else Except.ok (c :: rest)

/-- Literal text of the format, without spaces or `%`, matched against the
input by `ss.advance`: the input after it. -/
def matchLiteral : List Char → List Char → Except ScanError (List Char)
  | [], input => Except.ok input
  | _ :: _, [] => Except.error ScanError.unexpectedEOF
  | f :: fs, c :: rest =>
    if f = c then matchLiteral fs rest else Except.error ScanError.noMatch

/-- A character accepted by `ss.scanNumber` under the verb `%d`: one of
`decimalDigits`, which is `0123456789` (the underscore joins the digits under
the verb `%v` only). -/
def isScanDigit (c : Char) : Bool := isDigit c

/-- The verb `%d` scanned into an `int` of 64 bits: spaces are skipped, one
sign is accepted, then the longest run of decimal digits, which must not be
empty; the token is converted by `strconv.ParseInt(tok, 10, 64)`, whose
outcome is that of `strconv.Atoi`. The value and the input after the token. -/
def scanInt (input : List Char) : Except ScanError (Int × List Char) :=
  match skipSpace input with
  | Except.error e => Except.error e
  | Except.ok in1 =>
    match skipSpace in1 with
    | Except.error e => Except.error e
    | Except.ok [] => Except.error ScanError.eof
    | Except.ok (c :: rest) =>
      let signTok : List Char := if c = '+' ∨ c = '-' then [c] else []
      let in2 : List Char := if c = '+' ∨ c = '-' then rest else c :: rest
      match in2 with
      | [] => Except.error ScanError.eof
      | d :: _ =>
        if isScanDigit d then
          match Atoi (String.mk (signTok ++ in2.takeWhile isScanDigit)) with
          | Except.error _ => Except.error ScanError.number
          | Except.ok v => Except.ok (v, in2.dropWhile isScanDigit)
        else Except.error ScanError.expectedInteger

/-- `parseDeviceName`, the same function in `cmd/gpu-kubeletplugin` and in
`cmd/dra-example-kubeletplugin`: `fmt.Sscanf(name, "gpu-%d-%d", &card,
&renderD)`, with the error of the scan wrapped into the error returned. Input
after the second number is not looked at; the limit of `2^30` characters that a
scan reads is left out. -/
def parseDeviceName (name : String) : Except ScanError (Int × Int) :=
  match matchLiteral "gpu-".data name.data with
  | Except.error e => Except.error e
  | Except.ok in1 =>
    match scanInt in1 with
    | Except.error e => Except.error e
    | Except.ok (card, in2) =>
      match matchLiteral "-".data in2 with
      | Except.error e => Except.error e
      | Except.ok in3 =>
        match scanInt in3 with
        | Except.error e => Except.error e
        | Except.ok (renderD, _) => Except.ok (card, renderD)

/-! ## Topology scan (`pkg/amdgpu`) -/

/-- A Go map with `int` keys. -/
abbrev IntMap (ν : Type) := List (Int × ν)

/-- Map read `m[k]`, with `none` for an absent key. -/
def IntMap.get {ν : Type} : IntMap ν → Int → Option ν
  | [], _ => none
  | (k', v) :: rest, k => if k' = k then some v else IntMap.get rest k

/-- Map write `m[k] = v`. -/
def IntMap.set {ν : Type} : IntMap ν → Int → ν → IntMap ν
  | [], k, v => [(k, v)]
  | (k', v') :: rest, k, v =>
    if k' = k then (k, v) :: rest else (k', v') :: IntMap.set rest k v

/-- The record `TopologyInfo` of one render device. -/
structure TopologyInfo where
  RenderDeviceID : Int
  UniqueID : String
  NodeID : Int
  SimdCount : Int
  SimdPerCU : Int
  CUCount : Int
  VramBytes : Nat
  deriving DecidableEq

/-- The class `\s` of the regular expressions: tab, new line, form feed,
carriage return and space. -/
def isReSpace (c : Char) : Bool :=
  c = '\t' || c = '\n' || c.toNat = 12 || c = '\r' || c = ' '

/-- The text after the prefix `p`, when the text starts with `p`. -/
def dropPrefix : List Char → List Char → Option (List Char)
  | [], cs => some cs
  | _ :: _, [] => none
  | p :: ps, c :: cs => if p = c then dropPrefix ps cs else none

/-- A match of `<key>\s(\d+)` starting at the head of the text: the captured
digits, as many as there are. -/
def matchAt (key cs : List Char) : Option (List Char) :=
  match dropPrefix key cs with
  | some (w :: rest) =>
    if isReSpace w ∧ (takeDigits rest).1 ≠ [] then some (takeDigits rest).1 else none
  | _ => none

/-- The capture of the leftmost match of `<key>\s(\d+)` in a line
(`re.FindStringSubmatch(line)[1]`), `none` when the line has no match. -/
def findSubmatch (key : List Char) : List Char → Option (List Char)
  | [] => none
  | c :: cs =>
    match matchAt key (c :: cs) with
    | some ds => some ds
    | none => findSubmatch key cs

/-- The capture of the first line that has a match. -/
def firstMatch (key : List Char) : List String → Option (List Char)
  | [] => none
  | line :: rest =>
    match findSubmatch key line.data with
    | some ds => some ds
    | none => firstMatch key rest

/-- `ParseTopologyProperties(path, re)` for `re = <key>\s(\d+)`, where `file`
holds the lines of the file at `path` as the scanner yields them, or `none`
when the file cannot be opened. The result is `none` when the returned error is
not nil; every caller discards the value returned with an error. -/
def ParseTopologyProperties (file : Option (List String)) (key : String) : Option Int :=
  match file with
  | none => none
  | some lines =>
    match firstMatch key.data lines with
    | none => none
    | some ds => parseInt0 ds

/-- `ParseTopologyPropertiesString(path, re)`: the captured text. -/
def ParseTopologyPropertiesString (file : Option (List String)) (key : String) : Option String :=
  match file with
  | none => none
  | some lines => (firstMatch key.data lines).map String.mk

/-- One node of the topology tree: the name of its directory and the lines of
its `properties` file (`none` when the file cannot be opened). -/
structure TopoNode where
  dir : String
  properties : Option (List String)

/-- The topology tree under `topoRoot`: the nodes in the order of the glob, and
the lines of `nodes/<id>/mem_banks/0/properties` by node id. -/
structure TopoFS where
  nodes : List TopoNode
  memBank : Int → Option (List String)

/-- Integer division `a / b` of Go: truncated, and a panic when `b` is zero. -/
def intDiv (a b : Int) : Except Panic Int :=
  if b = 0 then Except.error Panic.divideByZero else Except.ok (Int.tdiv a b)

/-- The body of the loop of `GetTopologyInfo` up to the map write: the record
built for a node, or `none` when the node is skipped (`continue`). -/
def nodeRecord (fs : TopoFS) (node : TopoNode) : Except Panic (Option TopologyInfo) :=
  match ParseTopologyProperties node.properties "drm_render_minor" with
  | none => Except.ok none
  | some renderMinor =>
    if renderMinor ≤ 0 then Except.ok none
    else
      match ParseTopologyPropertiesString node.properties "unique_id" with
      | none => Except.ok none
      | some uniqueID =>
        match Atoi node.dir with
        | Except.error _ => Except.ok none
        | Except.ok nodeId =>
          let simdCount : Int := (ParseTopologyProperties node.properties "simd_count").getD 0
          let simdPerCU : Int := (ParseTopologyProperties node.properties "simd_per_cu").getD 1
          let cuCount : Except Panic Int :=
            if simdPerCU > 0 then intDiv simdCount simdPerCU else Except.ok 0
          let vramBytes : Nat :=
            match ParseTopologyProperties (fs.memBank nodeId) "size_in_bytes" with
            | none => 0
            | some vramSize => vramSize.toNat
          match cuCount with
          | Except.error p => Except.error p
          | Except.ok cu =>
            Except.ok (some { RenderDeviceID := renderMinor
                              UniqueID := uniqueID
                              NodeID := nodeId
                              SimdCount := simdCount
                              SimdPerCU := simdPerCU
                              CUCount := cu
                              VramBytes := vramBytes })

/-- One iteration of the loop of `GetTopologyInfo`. -/
def topologyStep (fs : TopoFS) (m : IntMap TopologyInfo) (node : TopoNode) :
    Except Panic (IntMap TopologyInfo) :=
  match nodeRecord fs node with
  | Except.error p => Except.error p
  | Except.ok none => Except.ok m
  | Except.ok (some info) => Except.ok (m.set info.RenderDeviceID info)

/-- A loop over a list whose body can panic: the state after the last
iteration, or the first panic. -/
def foldPanic {σ α : Type} (step : σ → α → Except Panic σ) : σ → List α → Except Panic σ
  | s, [] => Except.ok s
  | s, a :: rest =>
    match step s a with
    | Except.error p => Except.error p
    | Except.ok s' => foldPanic step s' rest

/-- `GetTopologyInfo`: the map from render id to record. -/
def GetTopologyInfo (fs : TopoFS) : Except Panic (IntMap TopologyInfo) :=
  foldPanic (topologyStep fs) [] fs.nodes

/-- The `properties` file of the node has no line in which `key` is followed by
a white-space character and a digit (or it cannot be opened). -/
def lacksKey (key : String) (node : TopoNode) : Prop :=
  ∀ lines, node.properties = some lines → ∀ l ∈ lines, findSubmatch key.data l.data = none

/-- A sample topology node: a GPU node with four SIMDs per compute unit. -/
def sampleNode : TopoNode where
  dir := "2"
  properties := some ["cpu_cores_count 0", "simd_count 1216", "simd_per_cu 4",
    "unique_id 1234567890", "drm_render_minor 128"]

/-- A topology node whose `simd_per_cu` is present and zero. -/
def zeroDivisorNode : TopoNode where
  dir := "3"
  properties := some ["simd_count 1216", "simd_per_cu 0", "unique_id 77", "drm_render_minor 129"]

/-- A topology node without a `simd_per_cu` line. -/
def noDivisorNode : TopoNode where
  dir := "4"
  properties := some ["simd_count 1216", "unique_id 78", "drm_render_minor 130"]

/-- A sample topology tree; the memory bank of node 2 holds 192 GiB. -/
def sampleTopoFS : TopoFS where
  nodes := [sampleNode, zeroDivisorNode, noDivisorNode]
  memBank := fun id => if id = 2 then some ["heap_type 2", "size_in_bytes 206141652992"] else none

/-! ## discovery.go -/

/-- A value held in a `map[string]interface{}`: an `int`, a `uint64`, a
`string`, or a value of any other dynamic type. -/
inductive GoValue where
  | int (i : Int)
  | uint64 (n : Nat)
  | str (s : String)
  | other
  deriving DecidableEq

/-- A raw device record, `map[string]interface{}`. -/
abbrev RawRecord := GoMap GoValue

/-- The type assertion `r[key].(string)`, which panics on a missing key or on a
value of another type. -/
def asString (r : RawRecord) (key : String) : Except Panic String :=
  match r.get key with
  | some (GoValue.str s) => Except.ok s
  | _ => Except.error (Panic.typeAssertion key)

/-- The type assertion `r[key].(int)`. -/
def asInt (r : RawRecord) (key : String) : Except Panic Int :=
  match r.get key with
  | some (GoValue.int i) => Except.ok i
  | _ => Except.error (Panic.typeAssertion key)

/-- `extractTopologyInfo`: `(simdUnits, computeUnits)`, each zero unless the
entry is present as an `int`. -/
def extractTopologyInfo (r : RawRecord) : Int × Int :=
  ((match r.get "simdCount" with
    | some (GoValue.int i) => i
    | _ => 0),
   (match r.get "cuCount" with
    | some (GoValue.int i) => i
    | _ => 0))

/-- `getMemoryBytes`; the two arguments that are only logged are left out. -/
def getMemoryBytes (r : RawRecord) (defaultBytes : Nat) : Nat :=
  match r.get "vramBytes" with
  | some (GoValue.uint64 vramBytes) => if vramBytes > 0 then vramBytes else defaultBytes
  | _ => defaultBytes

/-- The library function `deviceattribute.GetPCIeRootAttributeByPCIBusID`, a
parameter of the model: the attribute returned and the error, if any. -/
abbrev PCIeRoot := String → NamedAttribute × Option String

/-- `getPcieInfo`: the attribute, the PCI address (empty when the lookup
failed) and the error. -/
def getPcieInfo (pcie : PCIeRoot) (r : RawRecord) :
    Except Panic (NamedAttribute × String × Option String) :=
  match asString r "pciAddr" with
  | Except.error p => Except.error p
  | Except.ok pciAddr =>
    match (pcie pciAddr).2 with
    | some err => Except.ok ((pcie pciAddr).1, "", some err)
    | none => Except.ok ((pcie pciAddr).1, pciAddr, none)

/-- The collection `AllocatableDevices`, keyed by canonical name. -/
abbrev AllocatableDevices := GoMap AllocatableDevice

/-- The default memory size of a full device, `80*1024*1024*1024`. -/
def fullDeviceDefaultBytes : Nat := 80 * 1024 * 1024 * 1024

/-- The default memory size of a partition, `20*1024*1024*1024`. -/
def partitionDefaultBytes : Nat := 20 * 1024 * 1024 * 1024

/-- The struct literal `&AmdGpuInfo{...}` of the `spx` branch. -/
def readFullDevice (pciAddr : String) (r : RawRecord) (pcieRootAttr : NamedAttribute)
    (computePartitionType memoryPartitionType : String) : Except Panic AmdGpuInfo := do
  let card ← asInt r "card"
  let renderD ← asInt r "renderD"
  let devID ← asString r "devID"
  let driverVersion ← asString r "driverVersion"
  let driverSrcVersion ← asString r "driverSrcVersion"
  let family ← asString r "family"
  let productName ← asString r "productName"
  pure { UUID := ""
         RenderIndex := renderD
         CardIndex := card
         ProductName := productName
         Family := family
         DeviceID := devID
         DriverVersion := driverVersion
         DriverSrcVersion := driverSrcVersion
         PCIAddress := pciAddr
         PartitionProfile := computePartitionType ++ "_" ++ memoryPartitionType
         MemoryBytes := getMemoryBytes r fullDeviceDefaultBytes
         ComputeUnits := (extractTopologyInfo r).2
         SimdUnits := (extractTopologyInfo r).1
         pcieRootAttr := pcieRootAttr }

/-- The struct literals `&AmdGpuInfo{...}` and `&AmdPartitionInfo{...}` of the
partition branch: the parent carries the common attributes only. -/
def readPartition (r : RawRecord) (pcieRootAttr : NamedAttribute) (pciAddrFromMap : String)
    (computePartitionType memoryPartitionType : String) : Except Panic AmdPartitionInfo := do
  let devID ← asString r "devID"
  let driverVersion ← asString r "driverVersion"
  let driverSrcVersion ← asString r "driverSrcVersion"
  let family ← asString r "family"
  let productName ← asString r "productName"
  let card ← asInt r "card"
  let renderD ← asInt r "renderD"
  pure { Parent := some { UUID := ""
                          RenderIndex := 0
                          CardIndex := 0
                          ProductName := productName
                          Family := family
                          DeviceID := devID
                          DriverVersion := driverVersion
                          DriverSrcVersion := driverSrcVersion
                          PCIAddress := pciAddrFromMap
                          PartitionProfile := ""
                          MemoryBytes := 0
                          ComputeUnits := 0
                          SimdUnits := 0
                          pcieRootAttr := pcieRootAttr }
         UUID := ""
         RenderIndex := renderD
         CardIndex := card
         PartitionProfile := computePartitionType ++ "_" ++ memoryPartitionType
         MemoryBytes := getMemoryBytes r partitionDefaultBytes
         ComputeUnits := (extractTopologyInfo r).2
         SimdUnits := (extractTopologyInfo r).1 }

/-- The key and the value of the map write `alldevices[device.CanonicalName()]
= device`. -/
def namedDevice (E : Env) (device : AllocatableDevice) :
    Except Panic (Option (String × AllocatableDevice)) :=
  match device.CanonicalName E with
  | Except.error p => Except.error p
  | Except.ok name => Except.ok (some (name, device))

/-- The body of the loop of `enumerateAllPossibleDevices` up to the map write,
for the record `r` found under the key `pciAddr`: the entry to store, or `none`
when the record is skipped. -/
def recordEntry (E : Env) (pcie : PCIeRoot) (pciAddr : String) (r : RawRecord) :
    Except Panic (Option (String × AllocatableDevice)) :=
  match getPcieInfo pcie r with
  | Except.error p => Except.error p
  | Except.ok (pcieRootAttr, pciAddrFromMap, _) =>
    match asString r "computePartitionType" with
    | Except.error p => Except.error p
    | Except.ok computePartitionType =>
      match asString r "memoryPartitionType" with
      | Except.error p => Except.error p
      | Except.ok memoryPartitionType =>
        if computePartitionType = "spx" then
          match readFullDevice pciAddr r pcieRootAttr computePartitionType memoryPartitionType with
          | Except.error p => Except.error p
          | Except.ok amdGpuInfo => namedDevice E { AmdGpu := some amdGpuInfo, AmdPartition := none }
        else if computePartitionType ≠ "" then
          match readPartition r pcieRootAttr pciAddrFromMap computePartitionType
              memoryPartitionType with
          | Except.error p => Except.error p
          | Except.ok partitionInfo =>
            namedDevice E { AmdGpu := none, AmdPartition := some partitionInfo }
        else Except.ok none

/-- One iteration of the loop of `enumerateAllPossibleDevices`. -/
def enumerateStep (E : Env) (pcie : PCIeRoot) (alldevices : AllocatableDevices)
    (entry : String × RawRecord) : Except Panic AllocatableDevices :=
  match recordEntry E pcie entry.1 entry.2 with
  | Except.error p => Except.error p
  | Except.ok none => Except.ok alldevices
  | Except.ok (some (name, device)) => Except.ok (alldevices.set name device)

/-- `enumerateAllPossibleDevices`, for the entries of the map returned by
`GetAMDGPUs` in the order in which the `range` statement visits them. -/
def enumerateAllPossibleDevices (E : Env) (pcie : PCIeRoot)
    (allAMDGPUs : List (String × RawRecord)) : Except Panic AllocatableDevices :=
  foldPanic (enumerateStep E pcie) [] allAMDGPUs

/-- The map literal `deviceInfo` of `GetAMDGPUs`, followed by the four entries
added when the render id has a topology record. -/
def deviceInfoMap (card renderD : Int) (devID pciAddr driverVersion driverSrcVersion
    computePartitionType memoryPartitionType : String) (numaNode nodeId : Int)
    (family productName : String) (topo : Option TopologyInfo) : RawRecord :=
  let deviceInfo : RawRecord :=
    [ ("card", GoValue.int card),
      ("renderD", GoValue.int renderD),
      ("devID", GoValue.str devID),
      ("pciAddr", GoValue.str pciAddr),
      ("driverVersion", GoValue.str driverVersion),
      ("driverSrcVersion", GoValue.str driverSrcVersion),
      ("computePartitionType", GoValue.str computePartitionType),
      ("memoryPartitionType", GoValue.str memoryPartitionType),
      ("numaNode", GoValue.int numaNode),
      ("nodeId", GoValue.int nodeId),
      ("family", GoValue.str family),
      ("productName", GoValue.str productName) ]
  match topo with
  | none => deviceInfo
  | some info =>
    (((deviceInfo.set "simdCount" (GoValue.int info.SimdCount)).set "simdPerCU"
      (GoValue.int info.SimdPerCU)).set "cuCount" (GoValue.int info.CUCount)).set "vramBytes"
      (GoValue.uint64 info.VramBytes)

/-! ## Device scan (`GetAMDGPUs`, `pkg/amdgpu`) -/

/-- The variables `card`, `renderD`, `nodeId` and `devID` of `GetAMDGPUs`: they
are declared before the two loops, so a value assigned for one directory is
still there when the next directory is read. -/
structure ScanState where
  card : Int
  renderD : Int
  nodeId : Int
  devID : String
  deriving DecidableEq

/-- The values of the scan variables before the first loop. -/
def initialScanState : ScanState := { card := 0, renderD := 128, nodeId := 0, devID := "" }

/-- The slice expression `name[0:hi]`, a slice of the bytes of the string: a
run-time panic when `hi` exceeds the length of the string. -/
def sliceTo (name : String) (hi : Nat) : Except Panic Bytes :=
  if hi ≤ (utf8Encode name.data).length then Except.ok ((utf8Encode name.data).take hi)
  else Except.error (Panic.sliceBounds hi (utf8Encode name.data).length)

/-- The slice expression `name[lo:]` for `lo` within the string, read back as
text; a byte sequence that is not UTF-8 is read as U+FFFD, which `strconv`
rejects as it rejects the bytes themselves. -/
def sliceFrom (name : String) (lo : Nat) : String :=
  String.mk (utf8DecodeLossy ((utf8Encode name.data).drop lo).length
    ((utf8Encode name.data).drop lo))

/-- One directory matched under `/sys/module/amdgpu/drivers/pci:amdgpu/`: its
base name, the contents of `current_compute_partition` and
`current_memory_partition` after `TrimSpace` and `ToLower`, the content of
`numa_node` after `TrimSpace` (`none` for a file that cannot be read), and the
base names of the entries of its `drm` directory in the order of the glob. -/
structure DeviceDir where
  base : String
  computePartition : Option String
  memoryPartition : Option String
  numaNode : Option String
  drm : List String
  deriving DecidableEq

/-- One directory matched by `/sys/devices/platform/amdgpu_xcp_*`: its base
name and the base names of the entries of its `drm` directory. -/
structure PlatformDir where
  base : String
  drm : List String
  deriving DecidableEq

/-- The kernel state read by `GetAMDGPUs`: whether `/sys/module/amdgpu/drivers/`
exists, the directories of the two globs in order, the topology tree, the result
of `GetDriverVersion`, the result of `GetCardFamilyName` by card index (`none`
for an error) and the content of `product_name` after `TrimSpace` by card index
(`none` for a file that cannot be read). -/
structure Kernel where
  driverPresent : Bool
  devices : List DeviceDir
  platform : List PlatformDir
  topology : TopoFS
  driverVersion : String × String
  family : Int → Option String
  productName : Int → Option String

/-- The replacer `strings.NewReplacer(" ", "_", "(", "", ")", "")`. -/
def replaceProductName (s : String) : String :=
  String.mk ((s.data.filter (fun c => c ≠ '(' && c ≠ ')')).map
    (fun c => if c = ' ' then '_' else c))

/-- The `switch` over one entry of the `drm` directory in the first loop: the
first case slices four bytes, the second seven. -/
def driverEntry (topologyInfo : IntMap TopologyInfo) (st : ScanState) (name : String) :
    Except Panic ScanState :=
  match sliceTo name 4 with
  | Except.error p => Except.error p
  | Except.ok head4 =>
    if head4 = utf8Encode "card".data then
      Except.ok { st with card := AtoiValue (sliceFrom name 4) }
    else
      match sliceTo name 7 with
      | Except.error p => Except.error p
      | Except.ok head7 =>
        if head7 = utf8Encode "renderD".data then
          match topologyInfo.get (AtoiValue (sliceFrom name 7)) with
          | some info =>
            Except.ok { st with renderD := AtoiValue (sliceFrom name 7)
                                devID := info.UniqueID
                                nodeId := info.NodeID }
          | none => Except.ok { st with renderD := AtoiValue (sliceFrom name 7) }
        else Except.ok st

/-- The body of the first loop of `GetAMDGPUs` for one directory: the scan
variables and the `devices` map after it. A directory whose `numa_node` cannot
be read or converted is skipped. -/
def driverStep (topologyInfo : IntMap TopologyInfo) (k : Kernel)
    (s : ScanState × GoMap RawRecord) (dir : DeviceDir) :
    Except Panic (ScanState × GoMap RawRecord) :=
  match dir.numaNode with
  | none => Except.ok s
  | some numaNodeStr =>
    match Atoi numaNodeStr with
    | Except.error _ => Except.ok s
    | Except.ok numaNode =>
      match foldPanic (driverEntry topologyInfo) s.1 dir.drm with
      | Except.error p => Except.error p
      | Except.ok st =>
        let familyName : String := (k.family st.card).getD ""
        let productName : String :=
          match k.productName st.card with
          | none => ""
          | some b => replaceProductName b
        Except.ok (st, s.2.set dir.base
          (deviceInfoMap st.card st.renderD st.devID dir.base k.driverVersion.1
            k.driverVersion.2 (dir.computePartition.getD "") (dir.memoryPartition.getD "")
            numaNode st.nodeId familyName productName (topologyInfo.get st.renderD)))

/-- The variables declared in the body of the second loop, one set for each
pseudo-device directory. -/
structure Owner where
  computePartitionType : String
  memoryPartitionType : String
  numaNode : Int
  parentPciAddr : String
  familyName : String
  productName : String
  deriving DecidableEq

/-- The values of the owner variables at the start of a pseudo-device. -/
def initialOwner : Owner :=
  { computePartitionType := "", memoryPartitionType := "", numaNode := -1, parentPciAddr := "",
    familyName := "", productName := "" }

/-- The loop `for _, device := range devices` over the records in the order
in which they are visited: every record with the device id overwrites the four
owner values, and the first one with both partition types set ends the loop. -/
def ownerLoop (devID : String) : Owner → List RawRecord → Except Panic Owner
  | o, [] => Except.ok o
  | o, device :: rest =>
    match device.get "devID" with
    | some (GoValue.str d) =>
      if d = devID then
        match asString device "pciAddr" with
        | Except.error p => Except.error p
        | Except.ok parentPciAddr =>
          match asInt device "numaNode" with
          | Except.error p => Except.error p
          | Except.ok numaNode =>
            match asString device "family" with
            | Except.error p => Except.error p
            | Except.ok familyName =>
              match asString device "productName" with
              | Except.error p => Except.error p
              | Except.ok productName =>
                match asString device "computePartitionType" with
                | Except.error p => Except.error p
                | Except.ok computePartitionType =>
                  if computePartitionType ≠ "" then
                    match asString device "memoryPartitionType" with
                    | Except.error p => Except.error p
                    | Except.ok memoryPartitionType =>
                      if memoryPartitionType ≠ "" then
                        Except.ok { computePartitionType := computePartitionType
                                    memoryPartitionType := memoryPartitionType
                                    numaNode := numaNode
                                    parentPciAddr := parentPciAddr
                                    familyName := familyName
                                    productName := productName }
                      else
                        ownerLoop devID { o with numaNode := numaNode
                                                 parentPciAddr := parentPciAddr
                                                 familyName := familyName
                                                 productName := productName } rest
                  else
                    ownerLoop devID { o with numaNode := numaNode
                                             parentPciAddr := parentPciAddr
                                             familyName := familyName
                                             productName := productName } rest
      else ownerLoop devID o rest
    | _ => ownerLoop devID o rest

/-- The `switch` over one entry of the `drm` directory in the second loop;
`candidates` are the records of `devices` in the order in which the inner loop
visits them. -/
def platformEntry (topologyInfo : IntMap TopologyInfo) (candidates : List RawRecord)
    (s : ScanState × Owner) (name : String) : Except Panic (ScanState × Owner) :=
  match sliceTo name 4 with
  | Except.error p => Except.error p
  | Except.ok head4 =>
    if head4 = utf8Encode "card".data then
      Except.ok ({ s.1 with card := AtoiValue (sliceFrom name 4) }, s.2)
    else
      match sliceTo name 7 with
      | Except.error p => Except.error p
      | Except.ok head7 =>
        if head7 = utf8Encode "renderD".data then
          let st : ScanState :=
            match topologyInfo.get (AtoiValue (sliceFrom name 7)) with
            | some info =>
              { s.1 with renderD := AtoiValue (sliceFrom name 7)
                         devID := info.UniqueID
                         nodeId := info.NodeID }
            | none => { s.1 with renderD := AtoiValue (sliceFrom name 7) }
          match ownerLoop st.devID s.2 candidates with
          | Except.error p => Except.error p
          | Except.ok o => Except.ok (st, o)
        else Except.ok s

/-- The body of the second loop of `GetAMDGPUs` for one pseudo-device
directory; `visit` gives the order in which a `range` over the `devices` map
visits its records. A pseudo-device whose render id has no topology record, or
for which no owner was found, is skipped. -/
def platformStep (visit : GoMap RawRecord → List RawRecord)
    (topologyInfo : IntMap TopologyInfo) (k : Kernel) (s : ScanState × GoMap RawRecord)
    (dir : PlatformDir) : Except Panic (ScanState × GoMap RawRecord) :=
  match foldPanic (platformEntry topologyInfo (visit s.2)) (s.1, initialOwner) dir.drm with
  | Except.error p => Except.error p
  | Except.ok (st, o) =>
    match topologyInfo.get st.renderD with
    | none => Except.ok (st, s.2)
    | some info =>
      if o.numaNode = -1 ∨ o.parentPciAddr = "" then Except.ok (st, s.2)
      else
        Except.ok (st, s.2.set dir.base
          (deviceInfoMap st.card st.renderD st.devID o.parentPciAddr k.driverVersion.1
            k.driverVersion.2 o.computePartitionType o.memoryPartitionType o.numaNode st.nodeId
            o.familyName o.productName (some info)))

/-- `GetAMDGPUs`: the map from directory base name to raw record. -/
def GetAMDGPUs (visit : GoMap RawRecord → List RawRecord) (k : Kernel) :
    Except Panic (GoMap RawRecord) :=
  if k.driverPresent then
    match GetTopologyInfo k.topology with
    | Except.error p => Except.error p
    | Except.ok topologyInfo =>
      match foldPanic (driverStep topologyInfo k) (initialScanState, []) k.devices with
      | Except.error p => Except.error p
      | Except.ok s =>
        match foldPanic (platformStep visit topologyInfo k) s k.platform with
        | Except.error p => Except.error p
        | Except.ok s' => Except.ok s'.2
  else Except.ok []

/-- The visiting order that follows the order of insertion. -/
def visitInOrder (m : GoMap RawRecord) : List RawRecord := m.map Prod.snd

/-- The visiting order opposite to the order of insertion. -/
def visitReversed (m : GoMap RawRecord) : List RawRecord := (m.map Prod.snd).reverse

/-- The PCIe root lookup of the samples: every device sits under `pci0000:16`. -/
def samplePCIeRoot : PCIeRoot :=
  fun _ => (⟨"resource.kubernetes.io/pcieRoot", { StringValue := some "pci0000:16" }⟩, none)

/-- A sample raw record of an unpartitioned device. -/
def sampleSpxRecord : RawRecord :=
  deviceInfoMap 1 128 "1234567890" "0000:19:00.0" "6.10.5" "ABCDEF" "spx" "nps1" 0 2 "AI"
    "AMD_Instinct_MI300X"
    (some { RenderDeviceID := 128, UniqueID := "1234567890", NodeID := 2, SimdCount := 1216,
            SimdPerCU := 4, CUCount := 304, VramBytes := 206141652992 })

/-- The attribute keys written by the map literal of
`AmdPartitionInfo.GetDevice`. -/
def partitionAttributeKeys : List String :=
  ["type", "uuid", "parentPciAddr", "cardIndex", "renderIndex", "parentDeviceID", "family",
   "productName", "driverVersion", "driverSrcVersion", "partitionProfile"]

/-- A partition whose parent has its locality attribute named `pciAddr`. -/
def oddPartition : AmdPartitionInfo :=
  { samplePartition with
    Parent := some { sampleGpu with
      pcieRootAttr := ⟨"pciAddr", { StringValue := some "pci0000:16" }⟩ } }

/-! ## Notions used in the proofs about discovery -/

/-- The `int` stored under `key`, or zero. -/
def intField (r : RawRecord) (key : String) : Int :=
  match r.get key with
  | some (GoValue.int i) => i
  | _ => 0

/-- The `string` stored under `key`, or the empty string. -/
def strField (r : RawRecord) (key : String) : String :=
  match r.get key with
  | some (GoValue.str s) => s
  | _ => ""

/-- The record holds an `int` under `key`. -/
def hasInt (r : RawRecord) (key : String) : Bool :=
  match r.get key with
  | some (GoValue.int _) => true
  | _ => false

/-- The record holds a `string` under `key`. -/
def hasStr (r : RawRecord) (key : String) : Bool :=
  match r.get key with
  | some (GoValue.str _) => true
  | _ => false

/-- The record holds the ten entries that `enumerateAllPossibleDevices` reads
with a type assertion, each with the asserted type, as every record built by
`GetAMDGPUs` does. -/
def wellTyped (r : RawRecord) : Bool :=
  hasStr r "pciAddr" && hasStr r "computePartitionType" && hasStr r "memoryPartitionType" &&
  hasInt r "card" && hasInt r "renderD" && hasStr r "devID" && hasStr r "driverVersion" &&
  hasStr r "driverSrcVersion" && hasStr r "family" && hasStr r "productName"

/-- The PCI address `getPcieInfo` returns for a well-typed record. -/
def pciAddrFromMap (pcie : PCIeRoot) (r : RawRecord) : String :=
  match (pcie (strField r "pciAddr")).2 with
  | some _ => ""
  | none => strField r "pciAddr"

/-- The full device built from a well-typed record found under `pciAddr`. -/
def fullDeviceOf (pcie : PCIeRoot) (pciAddr : String) (r : RawRecord) : AmdGpuInfo :=
  { UUID := ""
    RenderIndex := intField r "renderD"
    CardIndex := intField r "card"
    ProductName := strField r "productName"
    Family := strField r "family"
    DeviceID := strField r "devID"
    DriverVersion := strField r "driverVersion"
    DriverSrcVersion := strField r "driverSrcVersion"
    PCIAddress := pciAddr
    PartitionProfile :=
      strField r "computePartitionType" ++ "_" ++ strField r "memoryPartitionType"
    MemoryBytes := getMemoryBytes r fullDeviceDefaultBytes
    ComputeUnits := (extractTopologyInfo r).2
    SimdUnits := (extractTopologyInfo r).1
    pcieRootAttr := (pcie (strField r "pciAddr")).1 }

/-- The partition, with its parent value, built from a well-typed record. -/
def partitionOf (pcie : PCIeRoot) (r : RawRecord) : AmdPartitionInfo :=
  { Parent := some { UUID := ""
                     RenderIndex := 0
                     CardIndex := 0
                     ProductName := strField r "productName"
                     Family := strField r "family"
                     DeviceID := strField r "devID"
                     DriverVersion := strField r "driverVersion"
                     DriverSrcVersion := strField r "driverSrcVersion"
                     PCIAddress := pciAddrFromMap pcie r
                     PartitionProfile := ""
                     MemoryBytes := 0
                     ComputeUnits := 0
                     SimdUnits := 0
                     pcieRootAttr := (pcie (strField r "pciAddr")).1 }
    UUID := ""
    RenderIndex := intField r "renderD"
    CardIndex := intField r "card"
    PartitionProfile :=
      strField r "computePartitionType" ++ "_" ++ strField r "memoryPartitionType"
    MemoryBytes := getMemoryBytes r partitionDefaultBytes
    ComputeUnits := (extractTopologyInfo r).2
    SimdUnits := (extractTopologyInfo r).1 }

/-- The canonical name under which a well-typed record is stored. -/
def recordName (r : RawRecord) : String :=
  getDeviceName (intField r "card") (intField r "renderD")

/-- The inventory entry of a well-typed record found under `pciAddr`: a full
device for `spx`, a partition for any other non-empty compute partition type,
nothing for the empty one. -/
def entryOf (pcie : PCIeRoot) (entry : String × RawRecord) :
    Option (String × AllocatableDevice) :=
  if strField entry.2 "computePartitionType" = "spx" then
    some (recordName entry.2,
      { AmdGpu := some (fullDeviceOf pcie entry.1 entry.2), AmdPartition := none })
  else if strField entry.2 "computePartitionType" ≠ "" then
    some (recordName entry.2,
      { AmdGpu := none, AmdPartition := some (partitionOf pcie entry.2) })
  else none

/-- The map write at the end of one iteration: nothing for a skipped record. -/
def storeEntry (inv : AllocatableDevices) (x : Option (String × AllocatableDevice)) :
    AllocatableDevices :=
  match x with
  | none => inv
  | some (name, device) => inv.set name device

/-- The inventory built from well-typed records visited in the order of the
list. -/
def inventoryOf (pcie : PCIeRoot) (l : List (String × RawRecord)) : AllocatableDevices :=
  l.foldl (fun inv e => storeEntry inv (entryOf pcie e)) []

/-- A sample raw record of a partitioned device. -/
def sampleCpxRecord : RawRecord :=
  deviceInfoMap 2 129 "1234567890" "0000:19:00.0" "6.10.5" "ABCDEF" "cpx" "nps1" 0 3 "AI"
    "AMD_Instinct_MI300X" none

/-! ## Sample kernel states -/

/-- `enumerateAllPossibleDevices` together with the call of `GetAMDGPUs` at its
start; `order` is the order in which the loop visits the map returned. -/
def discoverDevices (E : Env) (pcie : PCIeRoot) (visit : GoMap RawRecord → List RawRecord)
    (order : GoMap RawRecord → List (String × RawRecord)) (k : Kernel) :
    Except Panic AllocatableDevices :=
  match GetAMDGPUs visit k with
  | Except.error p => Except.error p
  | Except.ok allAMDGPUs => enumerateAllPossibleDevices E pcie (order allAMDGPUs)

/-- A topology node of the partitioned device `1234567890` with the given node
directory and render minor. -/
def xcpNode (dir minor : String) : TopoNode where
  dir := dir
  properties := some ["simd_count 152", "simd_per_cu 4", "unique_id 1234567890",
    "drm_render_minor " ++ minor]

/-- The topology tree of one device in `cpx` mode seen as four render nodes. -/
def partitionedTopoFS : TopoFS where
  nodes := [xcpNode "2" "128", xcpNode "3" "129", xcpNode "4" "130", xcpNode "5" "131"]
  memBank := fun _ => some ["heap_type 2", "size_in_bytes 25769803776"]

/-- A kernel state with one driver-bound device in `cpx` mode and three
pseudo-devices that share its device id. -/
def partitionedKernel : Kernel where
  driverPresent := true
  devices := [{ base := "0000:19:00.0", computePartition := some "cpx",
                memoryPartition := some "nps1", numaNode := some "0",
                drm := ["card1", "renderD128"] }]
  platform := [{ base := "amdgpu_xcp_1", drm := ["card2", "renderD129"] },
               { base := "amdgpu_xcp_2", drm := ["card3", "renderD130"] },
               { base := "amdgpu_xcp_3", drm := ["card4", "renderD131"] }]
  topology := partitionedTopoFS
  driverVersion := ("6.10.5", "ABCDEF")
  family := fun _ => some "AI"
  productName := fun _ => some "AMD Instinct MI300X"

/-- A kernel state with two driver-bound devices, the second of which has an
empty `drm` directory, and one pseudo-device. -/
def sharedIdKernel : Kernel where
  driverPresent := true
  devices := [{ base := "0000:19:00.0", computePartition := some "cpx",
                memoryPartition := some "nps1", numaNode := some "0",
                drm := ["card1", "renderD128"] },
              { base := "0000:1a:00.0", computePartition := some "cpx",
                memoryPartition := some "nps1", numaNode := some "1",
                drm := [] }]
  platform := [{ base := "amdgpu_xcp_1", drm := ["card2", "renderD129"] }]
  topology := partitionedTopoFS
  driverVersion := ("6.10.5", "ABCDEF")
  family := fun _ => some "AI"
  productName := fun _ => some "AMD Instinct MI300X"

/-- A kernel state with two driver-bound devices, the second of which has an
entry of three bytes in its `drm` directory. -/
def shortEntryKernel : Kernel where
  driverPresent := true
  devices := [{ base := "0000:19:00.0", computePartition := some "spx",
                memoryPartition := some "nps1", numaNode := some "0",
                drm := ["card1", "renderD128"] },
              { base := "0000:1a:00.0", computePartition := some "spx",
                memoryPartition := some "nps1", numaNode := some "1",
                drm := ["abc", "card2", "renderD129"] }]
  platform := []
  topology := partitionedTopoFS
  driverVersion := ("6.10.5", "ABCDEF")
  family := fun _ => some "AI"
  productName := fun _ => some "AMD Instinct MI300X"

/-- A kernel state with one driver-bound device and two pseudo-devices, the
second of which has a render id without a topology record. -/
def orphanKernel : Kernel where
  driverPresent := true
  devices := [{ base := "0000:19:00.0", computePartition := some "cpx",
                memoryPartition := some "nps1", numaNode := some "0",
                drm := ["card1", "renderD128"] }]
  platform := [{ base := "amdgpu_xcp_1", drm := ["card2", "renderD129"] },
               { base := "amdgpu_xcp_9", drm := ["card9", "renderD140"] }]
  topology := partitionedTopoFS
  driverVersion := ("6.10.5", "ABCDEF")
  family := fun _ => some "AI"
  productName := fun _ => some "AMD Instinct MI300X"

/-- A topology node of the device with the given unique id, with the given node
directory and render minor. -/
def idNode (dir uniqueId minor : String) : TopoNode where
  dir := dir
  properties := some ["simd_count 152", "simd_per_cu 4", "unique_id " ++ uniqueId,
    "drm_render_minor " ++ minor]

/-- A topology tree of two devices: the render ids 128 and 129 belong to the
device `111`, the render id 130 to the device `222`. -/
def twoIdTopoFS : TopoFS where
  nodes := [idNode "2" "111" "128", idNode "3" "111" "129", idNode "4" "222" "130"]
  memBank := fun _ => some ["heap_type 2", "size_in_bytes 25769803776"]

/-- A kernel state with one driver-bound device, of device id `111`, and one
pseudo-device directory with two render entries: the first of the device `111`,
the second of the device `222`, which no driver-bound device has. -/
def twoRenderKernel : Kernel where
  driverPresent := true
  devices := [{ base := "0000:19:00.0", computePartition := some "cpx",
                memoryPartition := some "nps1", numaNode := some "0",
                drm := ["card1", "renderD128"] }]
  platform := [{ base := "amdgpu_xcp_1", drm := ["card2", "renderD129", "renderD130"] }]
  topology := twoIdTopoFS
  driverVersion := ("6.10.5", "ABCDEF")
  family := fun _ => some "AI"
  productName := fun _ => some "AMD Instinct MI300X"

/-! ## Notions used in the proofs about the device scan -/

/-- The entry of a `drm` directory is taken for a render node by the `switch`:
its first four bytes are not `card` and its first seven are `renderD`. -/
def isRenderEntry (name : String) : Bool :=
  decide ((utf8Encode name.data).take 4 ≠ utf8Encode "card".data ∧
    (utf8Encode name.data).take 7 = utf8Encode "renderD".data)

/-- The render id that the scan of the entries of one `drm` directory leaves in
`renderD`: that of the last entry taken for a render node, `none` when there is
no such entry and the variable keeps the value it had. -/
def renderIdOf (drm : List String) : Option Int :=
  drm.foldl (fun acc name =>
    if isRenderEntry name then some (AtoiValue (sliceFrom name 7)) else acc) none

/-- The owner values were taken from a record of the candidates that holds the
device id `devID`: its PCI address, NUMA node, family and product name. -/
def takenFrom (candidates : List RawRecord) (devID : String) (o : Owner) : Prop :=
  ∃ owner ∈ candidates, owner.get "devID" = some (GoValue.str devID) ∧
    asString owner "pciAddr" = Except.ok o.parentPciAddr ∧
    asInt owner "numaNode" = Except.ok o.numaNode ∧
    asString owner "family" = Except.ok o.familyName ∧
    asString owner "productName" = Except.ok o.productName

/-- The record holds the device id `devID`. -/
def matchesDevID (devID : String) (c : RawRecord) : Bool :=
  decide (c.get "devID" = some (GoValue.str devID))

/-- The record holds the six entries that the owner loop reads with a type
assertion, each with the asserted type. -/
def ownerTyped (c : RawRecord) : Bool :=
  hasStr c "pciAddr" && hasInt c "numaNode" && hasStr c "family" && hasStr c "productName" &&
  hasStr c "computePartitionType" && hasStr c "memoryPartitionType"

/-- Both partition types of the record are set. -/
def isComplete (c : RawRecord) : Bool :=
  decide (strField c "computePartitionType" ≠ "" ∧ strField c "memoryPartitionType" ≠ "")

/-- The owner values after a record with the device id that does not end the
loop. -/
def withOwner (o : Owner) (c : RawRecord) : Owner :=
  { o with numaNode := intField c "numaNode"
           parentPciAddr := strField c "pciAddr"
           familyName := strField c "family"
           productName := strField c "productName" }

/-- The owner values after a record with the device id that ends the loop. -/
def completeOwner (c : RawRecord) : Owner :=
  { computePartitionType := strField c "computePartitionType"
    memoryPartitionType := strField c "memoryPartitionType"
    numaNode := intField c "numaNode"
    parentPciAddr := strField c "pciAddr"
    familyName := strField c "family"
    productName := strField c "productName" }

/-- Two records give the same owner values: they agree on the four values
always read and, when both have both partition types set, on these too. -/
def sameOwner (a b : RawRecord) : Prop :=
  strField a "pciAddr" = strField b "pciAddr" ∧ intField a "numaNode" = intField b "numaNode" ∧
  strField a "family" = strField b "family" ∧
  strField a "productName" = strField b "productName" ∧
  (isComplete a = true → isComplete b = true →
    strField a "computePartitionType" = strField b "computePartitionType" ∧
    strField a "memoryPartitionType" = strField b "memoryPartitionType")

/-- The candidates that hold the device id give the same owner values. -/
def ownersAgree (devID : String) (candidates : List RawRecord) : Prop :=
  ∀ a ∈ candidates, ∀ b ∈ candidates, matchesDevID devID a = true → matchesDevID devID b = true →
    sameOwner a b

/-- The canonical names of the records that are stored in the inventory, in
the order of the list. -/
def allocatableNames (l : List (String × RawRecord)) : List String :=
  (l.filter (fun e => decide (strField e.2 "computePartitionType" ≠ ""))).map
    (fun e => recordName e.2)

/-- The topology record built from `xcpNode`. -/
def xcpInfo (nodeId renderD : Int) : TopologyInfo :=
  { RenderDeviceID := renderD, UniqueID := "1234567890", NodeID := nodeId, SimdCount := 152,
    SimdPerCU := 4, CUCount := 38, VramBytes := 25769803776 }

/-- The raw record of a render node of the sample device in `cpx` mode. -/
def xcpRecord (card renderD nodeId : Int) : RawRecord :=
  deviceInfoMap card renderD "1234567890" "0000:19:00.0" "6.10.5" "ABCDEF" "cpx" "nps1" 0 nodeId
    "AI" "AMD_Instinct_MI300X" (some (xcpInfo nodeId renderD))

/-- The raw records of `partitionedKernel`: that of the driver-bound device and
those of the three pseudo-devices. -/
def partitionedRecords : GoMap RawRecord :=
  [("0000:19:00.0", xcpRecord 1 128 2), ("amdgpu_xcp_1", xcpRecord 2 129 3),
   ("amdgpu_xcp_2", xcpRecord 3 130 4), ("amdgpu_xcp_3", xcpRecord 4 131 5)]

/-! ## Notions used in the proofs about the scan variables -/

/-- The run-time panic of the `switch` over an entry name, if it has one: it
depends on the name alone. -/
def entryFault (name : String) : Option Panic :=
  if (utf8Encode name.data).length < 4 then
    some (Panic.sliceBounds 4 (utf8Encode name.data).length)
  else if (utf8Encode name.data).take 4 = utf8Encode "card".data then none
  else if (utf8Encode name.data).length < 7 then
    some (Panic.sliceBounds 7 (utf8Encode name.data).length)
  else none

/-- The entry of a `drm` directory is taken for a card by the `switch`: its
first four bytes are `card`. -/
def isCardEntry (name : String) : Bool :=
  decide ((utf8Encode name.data).take 4 = utf8Encode "card".data)

/-- The scan variables after the `switch` of the first loop over an entry name
on which it does not fault. -/
def entryEffect (topologyInfo : IntMap TopologyInfo) (st : ScanState) (name : String) :
    ScanState :=
  if isCardEntry name then { st with card := AtoiValue (sliceFrom name 4) }
  else if isRenderEntry name then
    match topologyInfo.get (AtoiValue (sliceFrom name 7)) with
    | some info =>
      { st with renderD := AtoiValue (sliceFrom name 7)
                devID := info.UniqueID
                nodeId := info.NodeID }
    | none => { st with renderD := AtoiValue (sliceFrom name 7) }
  else st

/-- The card index that the entries of one `drm` directory assign: that of the
last entry taken for a card, `none` when there is none. -/
def cardOf (drm : List String) : Option Int :=
  drm.foldl (fun acc name =>
    if isCardEntry name then some (AtoiValue (sliceFrom name 4)) else acc) none

/-- The device id and node id that the entries of one `drm` directory assign:
those of the topology record of the last render entry that has one, `none` when
no render entry has a topology record. -/
def identityOf (topologyInfo : IntMap TopologyInfo) (drm : List String) :
    Option (String × Int) :=
  drm.foldl (fun acc name =>
    if isRenderEntry name then
      match topologyInfo.get (AtoiValue (sliceFrom name 7)) with
      | some info => some (info.UniqueID, info.NodeID)
      | none => acc
    else acc) none

/-- A device directory whose render id 140 has no node in the topology tree of
the samples. -/
def unlistedDir : DeviceDir :=
  { base := "0000:1a:00.0", computePartition := some "spx", memoryPartition := some "nps1",
    numaNode := some "1", drm := ["card2", "renderD140"] }

/-- A device directory without entries in its `drm` directory. -/
def emptyDrmDir : DeviceDir :=
  { base := "0000:1b:00.0", computePartition := some "spx", memoryPartition := some "nps1",
    numaNode := some "1", drm := [] }

/-- A kernel state with the given driver-bound devices and no pseudo-device,
over the topology tree of the samples. -/
def kernelOf (devices : List DeviceDir) : Kernel where
  driverPresent := true
  devices := devices
  platform := []
  topology := partitionedTopoFS
  driverVersion := ("6.10.5", "ABCDEF")
  family := fun _ => some "AI"
  productName := fun _ => some "AMD Instinct MI300X"

/-- The first driver-bound device of the samples: card 1, render id 128, which
is node 2 of the topology tree. -/
def listedDir : DeviceDir :=
  { base := "0000:19:00.0", computePartition := some "spx", memoryPartition := some "nps1",
    numaNode := some "0", drm := ["card1", "renderD128"] }

/-! ## Decimal rendering -/

theorem digitChar_toNat : ∀ d, d < 10 → (digitChar d).toNat = 48 + d := by decide

/-- The value read back from a run of decimal digits. -/
theorem foldl_natDigitsAux (step : Nat → Char → Nat)
    (hstep : ∀ a d, d < 10 → step a (digitChar d) = 10 * a + d) :
    ∀ fuel n acc, n < fuel →
      (natDigitsAux fuel n acc).foldl step 0 = acc.foldl step n := by
  intro fuel
  induction fuel with
  | zero => intro n acc h; omega
  | succ fuel ih =>
    intro n acc h
    unfold natDigitsAux
    by_cases h10 : n < 10
    · simp [h10, hstep 0 n h10]
    · simp only [h10, if_false]
      rw [ih (n / 10) _ (by omega)]
      simp only [List.foldl_cons]
      rw [hstep _ _ (Nat.mod_lt _ (by decide))]
      congr 1
      omega

theorem digitsValue_fmtNat (n : Nat) : digitsValue (fmtNat n) = n := by
  unfold digitsValue fmtNat
  rw [foldl_natDigitsAux _ _ (n + 1) n [] (by omega)]
  · rfl
  · intro a d hd
    rw [digitChar_toNat d hd]
    omega

theorem fmtNat_injective : Function.Injective fmtNat := by
  intro a b h
  have := congrArg digitsValue h
  rwa [digitsValue_fmtNat, digitsValue_fmtNat] at this

theorem isDigit_digitChar : ∀ d, d < 10 → isDigit (digitChar d) = true := by decide

theorem natDigitsAux_all (P : Char → Prop) (hP : ∀ d, d < 10 → P (digitChar d)) :
    ∀ fuel n acc, (∀ c ∈ acc, P c) → ∀ c ∈ natDigitsAux fuel n acc, P c := by
  intro fuel
  induction fuel with
  | zero => intro n acc h; simpa [natDigitsAux] using h
  | succ fuel ih =>
    intro n acc h
    unfold natDigitsAux
    by_cases h10 : n < 10
    · simp only [h10, if_true]
      intro c hc
      rcases List.mem_cons.1 hc with rfl | hc
      · exact hP n h10
      · exact h c hc
    · simp only [h10, if_false]
      apply ih
      intro c hc
      rcases List.mem_cons.1 hc with rfl | hc
      · exact hP _ (Nat.mod_lt _ (by decide))
      · exact h c hc

theorem fmtNat_isDigit (n : Nat) : ∀ c ∈ fmtNat n, isDigit c = true :=
  natDigitsAux_all (fun c => isDigit c = true) isDigit_digitChar (n + 1) n [] (by simp)

/-- Every character of a rendered integer is a digit or the sign. -/
theorem fmtInt_chars (i : Int) : ∀ c ∈ fmtInt i, isDigit c = true ∨ c = '-' := by
  intro c hc
  cases i with
  | ofNat n => exact Or.inl (fmtNat_isDigit n c hc)
  | negSucc n =>
    rcases List.mem_cons.1 hc with rfl | hc
    · exact Or.inr rfl
    · exact Or.inl (fmtNat_isDigit _ c hc)

theorem fmtNat_ne_nil (n : Nat) : fmtNat n ≠ [] := by
  intro h
  unfold fmtNat natDigitsAux at h
  split at h
  · exact absurd h (by simp)
  · have : ∀ fuel m (acc : List Char), acc ≠ [] → natDigitsAux fuel m acc ≠ [] := by
      intro fuel
      induction fuel with
      | zero => intro m acc hacc; simpa [natDigitsAux] using hacc
      | succ fuel ih =>
        intro m acc hacc
        unfold natDigitsAux
        split
        · simp
        · exact ih _ _ (by simp)
    exact this _ _ _ (by simp) h

theorem fmtInt_injective : Function.Injective fmtInt := by
  intro a b h
  cases a with
  | ofNat m =>
    cases b with
    | ofNat n => exact congrArg Int.ofNat (fmtNat_injective h)
    | negSucc n =>
      exfalso
      have hm : '-' ∈ fmtNat m := by
        have : fmtInt (Int.ofNat m) = fmtNat m := rfl
        rw [← this, h]; exact List.mem_cons_self _ _
      have := fmtNat_isDigit m _ hm
      exact absurd this (by decide)
  | negSucc m =>
    cases b with
    | ofNat n =>
      exfalso
      have hn : '-' ∈ fmtNat n := by
        have : fmtInt (Int.ofNat n) = fmtNat n := rfl
        rw [← this, ← h]; exact List.mem_cons_self _ _
      have := fmtNat_isDigit n _ hn
      exact absurd this (by decide)
    | negSucc n =>
      have h' : fmtNat (m + 1) = fmtNat (n + 1) := by
        have := h
        simp only [fmtInt, List.cons.injEq, true_and] at this
        exact this
      have := fmtNat_injective h'
      have hmn : m = n := by omega
      rw [hmn]

/-! ## Canonical names and identities -/

/-- Splitting a list at the first occurrence of `a` is unique. -/
theorem split_first_unique {α : Type} (a : α) :
    ∀ (x₁ x₂ z₁ z₂ : List α), a ∉ x₁ → a ∉ x₂ → x₁ ++ a :: z₁ = x₂ ++ a :: z₂ →
      x₁ = x₂ ∧ z₁ = z₂ := by
  intro x₁
  induction x₁ with
  | nil =>
    intro x₂ z₁ z₂ _ h₂ h
    cases x₂ with
    | nil => simpa using h
    | cons b x₂ =>
      simp only [List.nil_append, List.cons_append, List.cons.injEq] at h
      exact absurd (h.1 ▸ List.mem_cons_self _ _) h₂
  | cons b x₁ ih =>
    intro x₂ z₁ z₂ h₁ h₂ h
    cases x₂ with
    | nil =>
      simp only [List.nil_append, List.cons_append, List.cons.injEq] at h
      exact absurd (h.1 ▸ List.mem_cons_self _ _) h₁
    | cons c x₂ =>
      simp only [List.cons_append, List.cons.injEq] at h
      obtain ⟨hbc, hrest⟩ := h
      have := ih x₂ z₁ z₂ (fun hm => h₁ (List.mem_cons_of_mem _ hm))
        (fun hm => h₂ (List.mem_cons_of_mem _ hm)) hrest
      exact ⟨by rw [hbc, this.1], this.2⟩

/-- The hashed text determines the triple it was built from. -/
theorem uniqueID_injective (d₁ d₂ : String) (c₁ c₂ r₁ r₂ : Int)
    (h : uniqueID d₁ c₁ r₁ = uniqueID d₂ c₂ r₂) : d₁ = d₂ ∧ c₁ = c₂ ∧ r₁ = r₂ := by
  have hnot : ∀ (i : Int) (x : Char), isDigit x = false → x ≠ '-' → x ∉ (fmtInt i).reverse := by
    intro i x hx hx' hmem
    rcases fmtInt_chars i x (List.mem_reverse.1 hmem) with h1 | h1
    · rw [hx] at h1; exact absurd h1 (by decide)
    · exact hx' h1
  have h0 : d₁.data ++ "-card".data ++ fmtInt c₁ ++ "-render".data ++ fmtInt r₁
      = d₂.data ++ "-card".data ++ fmtInt c₂ ++ "-render".data ++ fmtInt r₂ := by
    have := congrArg String.data h
    simpa [uniqueID] using this
  -- split at the last `r`, which precedes the render index
  have h1 : (d₁.data ++ "-card".data ++ fmtInt c₁ ++ "-rende".data) ++ 'r' :: fmtInt r₁
      = (d₂.data ++ "-card".data ++ fmtInt c₂ ++ "-rende".data) ++ 'r' :: fmtInt r₂ := by
    simpa using h0
  have h1' := congrArg List.reverse h1
  simp only [List.reverse_append, List.reverse_cons, List.append_assoc, List.singleton_append]
    at h1'
  obtain ⟨hr1, hr2⟩ := split_first_unique 'r' _ _ _ _
    (hnot r₁ 'r' (by decide) (by decide)) (hnot r₂ 'r' (by decide) (by decide)) h1'
  have hr_eq : fmtInt r₁ = fmtInt r₂ := List.reverse_injective hr1
  -- split at the last `d`, which precedes the card index
  have h2 : (fmtInt c₁).reverse ++ 'd' :: ("-car".data.reverse ++ d₁.data.reverse)
      = (fmtInt c₂).reverse ++ 'd' :: ("-car".data.reverse ++ d₂.data.reverse) := by
    have := hr2
    simp only [List.reverse_append, List.append_assoc] at this
    simpa using this
  obtain ⟨hc1, hc2⟩ := split_first_unique 'd' _ _ _ _
    (hnot c₁ 'd' (by decide) (by decide)) (hnot c₂ 'd' (by decide) (by decide)) h2
  have hc_eq : fmtInt c₁ = fmtInt c₂ := List.reverse_injective hc1
  have hd : d₁.data = d₂.data := by
    have := List.append_cancel_left hc2
    exact List.reverse_injective this
  exact ⟨String.ext hd, fmtInt_injective hc_eq, fmtInt_injective hr_eq⟩

/-! ## Rendering of devices -/

/-- C6: an `AllocatableDevice` with neither variant populated makes both
`CanonicalName` and `GetDevice` stop with a panic, whatever the device-type
constants are; neither returns a name or a device. -/
theorem neither_variant_panics (E : Env) :
    (∃ p, AllocatableDevice.CanonicalName E ⟨none, none⟩ = Except.error p) ∧
    (∃ p, AllocatableDevice.GetDevice E ⟨none, none⟩ = Except.error p) := by
  constructor
  · unfold AllocatableDevice.CanonicalName
    split
    · exact ⟨_, rfl⟩
    · split
      · exact ⟨_, rfl⟩
      · exact ⟨_, rfl⟩
  · unfold AllocatableDevice.GetDevice
    split
    · exact ⟨_, rfl⟩
    · split
      · exact ⟨_, rfl⟩
      · exact ⟨_, rfl⟩

/-- C7, as stated, fails: with both variants populated `GetDevice` returns the
rendering of the full device instead of panicking. -/
theorem both_variants_no_panic_example :
    AllocatableDevice.GetDevice sampleEnv ⟨some sampleGpu, some samplePartition⟩
      = Except.ok (sampleGpu.GetDevice sampleEnv) := by
  rfl

/-- C7, amended: with both variants populated `Type` reports the full-device
type, and `CanonicalName` and `GetDevice` return the name and the rendering of
the `AmdGpu` variant; the partition variant is ignored and nothing panics. -/
theorem both_variants_render_full_device (E : Env) (gpu : AmdGpuInfo)
    (part : AmdPartitionInfo) :
    AllocatableDevice.Type E ⟨some gpu, some part⟩ = E.AmdGpuDeviceType ∧
    AllocatableDevice.CanonicalName E ⟨some gpu, some part⟩ = Except.ok gpu.CanonicalName ∧
    AllocatableDevice.GetDevice E ⟨some gpu, some part⟩ = Except.ok (gpu.GetDevice E) := by
  simp [AllocatableDevice.Type, AllocatableDevice.CanonicalName, AllocatableDevice.GetDevice]

/-- C8: the canonical name of a full device and of a partition is
`getDeviceName CardIndex RenderIndex`, the text `gpu-<CardIndex>-<RenderIndex>`,
so it depends on the two indices only, and the rendered `Device` carries that
name (for a partition: whenever its parent pointer is set, so that rendering
returns). -/
theorem canonicalName_eq_getDeviceName (E : Env) :
    (∀ card renderD : Int, getDeviceName card renderD
        = String.mk ("gpu-".data ++ fmtInt card ++ "-".data ++ fmtInt renderD)) ∧
    (∀ g : AmdGpuInfo, g.CanonicalName = getDeviceName g.CardIndex g.RenderIndex) ∧
    (∀ p : AmdPartitionInfo, p.CanonicalName = getDeviceName p.CardIndex p.RenderIndex) ∧
    (∀ g : AmdGpuInfo, (g.GetDevice E).Name = getDeviceName g.CardIndex g.RenderIndex) ∧
    (∀ (p : AmdPartitionInfo) (parent : AmdGpuInfo),
        ∃ dev, AmdPartitionInfo.GetDevice E { p with Parent := some parent } = Except.ok dev ∧
          dev.Name = getDeviceName p.CardIndex p.RenderIndex) ∧
    (∀ g : AmdGpuInfo, AllocatableDevice.CanonicalName E ⟨some g, none⟩
        = Except.ok (getDeviceName g.CardIndex g.RenderIndex)) := by
  refine ⟨fun _ _ => rfl, fun _ => rfl, fun _ => rfl, fun _ => rfl, ?_, ?_⟩
  · intro p parent
    exact ⟨_, rfl, rfl⟩
  · intro g
    simp [AllocatableDevice.CanonicalName, AllocatableDevice.Type, AmdGpuInfo.CanonicalName,
      getDeviceName]

/-- C9: the uuid of a full device is the name-based UUID, under the namespace
`12345678-1234-5678-9abc-123456789012`, of the text
`<DeviceID>-card<CardIndex>-render<RenderIndex>`; the uuid of a partition is the
same function of its parent's `DeviceID` and its own two indices; so the uuid
depends on that triple only, and the hashed text is injective in the triple. -/
theorem generateUUID_of_triple (E : Env) :
    (∀ g : AmdGpuInfo, g.GenerateUUID E
        = E.NewSHA1 "12345678-1234-5678-9abc-123456789012"
            (String.mk (g.DeviceID.data ++ "-card".data ++ fmtInt g.CardIndex
              ++ "-render".data ++ fmtInt g.RenderIndex))) ∧
    (∀ (p : AmdPartitionInfo) (parent : AmdGpuInfo),
        AmdPartitionInfo.GenerateUUID E { p with Parent := some parent }
          = Except.ok (E.NewSHA1 "12345678-1234-5678-9abc-123456789012"
              (String.mk (parent.DeviceID.data ++ "-card".data ++ fmtInt p.CardIndex
                ++ "-render".data ++ fmtInt p.RenderIndex)))) ∧
    (∀ (d₁ d₂ : String) (c₁ c₂ r₁ r₂ : Int),
        String.mk (d₁.data ++ "-card".data ++ fmtInt c₁ ++ "-render".data ++ fmtInt r₁)
          = String.mk (d₂.data ++ "-card".data ++ fmtInt c₂ ++ "-render".data ++ fmtInt r₂)
        ↔ (d₁ = d₂ ∧ c₁ = c₂ ∧ r₁ = r₂)) := by
  refine ⟨fun _ => rfl, fun _ _ => rfl, ?_⟩
  intro d₁ d₂ c₁ c₂ r₁ r₂
  constructor
  · exact uniqueID_injective d₁ d₂ c₁ c₂ r₁ r₂
  · rintro ⟨rfl, rfl, rfl⟩
    rfl

/-- C10, as stated, fails: on a full device whose locality attribute is named
`type` and whose memory size is `2^63`, the `type` key carries the locality
value instead of the device type, and the `memory` capacity is negative. -/
theorem full_device_rendering_example :
    (oddGpu.GetDevice sampleEnv).Attributes.get "type"
        ≠ some { StringValue := some sampleEnv.AmdGpuDeviceType } ∧
    (oddGpu.GetDevice sampleEnv).Capacity.get "memory"
        ≠ some { Value := ⟨Int.ofNat oddGpu.MemoryBytes, QuantityFormat.BinarySI⟩ } ∧
    (oddGpu.GetDevice sampleEnv).Capacity.get "memory"
        = some { Value := ⟨-9223372036854775808, QuantityFormat.BinarySI⟩ } := by
  decide

/-- C10, amended: for a full device whose locality attribute is not named like
one of the eleven fixed attributes and whose memory size fits a signed 64-bit
integer, `GetDevice` emits exactly the eleven fixed attribute keys, plus the
locality attribute if and only if its name is non-empty, each key once and each
carrying the corresponding field, and exactly the capacities `memory`,
`computeUnits` and `simdUnits` holding `MemoryBytes`, `ComputeUnits` and
`SimdUnits`. -/
theorem full_device_rendering (E : Env) (d : AmdGpuInfo)
    (hloc : d.pcieRootAttr.Name ∉ fullDeviceAttributeKeys)
    (hmem : d.MemoryBytes < 2 ^ 63) :
    (∀ k, k ∈ (d.GetDevice E).Attributes.keys ↔
        (k ∈ ["type", "uuid", "pciAddr", "cardIndex", "renderIndex", "deviceID", "family",
              "productName", "driverVersion", "driverSrcVersion", "partitionProfile"]
          ∨ (d.pcieRootAttr.Name ≠ "" ∧ k = d.pcieRootAttr.Name))) ∧
    (d.GetDevice E).Attributes.keys.Nodup ∧
    (d.GetDevice E).Attributes.get "type" = some { StringValue := some E.AmdGpuDeviceType } ∧
    (d.GetDevice E).Attributes.get "uuid" = some { StringValue := some (d.GenerateUUID E) } ∧
    (d.GetDevice E).Attributes.get "pciAddr" = some { StringValue := some d.PCIAddress } ∧
    (d.GetDevice E).Attributes.get "cardIndex" = some { IntValue := some d.CardIndex } ∧
    (d.GetDevice E).Attributes.get "renderIndex" = some { IntValue := some d.RenderIndex } ∧
    (d.GetDevice E).Attributes.get "deviceID" = some { StringValue := some d.DeviceID } ∧
    (d.GetDevice E).Attributes.get "family" = some { StringValue := some d.Family } ∧
    (d.GetDevice E).Attributes.get "productName" = some { StringValue := some d.ProductName } ∧
    (d.GetDevice E).Attributes.get "driverVersion"
        = some { VersionValue := some d.DriverVersion } ∧
    (d.GetDevice E).Attributes.get "driverSrcVersion"
        = some { StringValue := some d.DriverSrcVersion } ∧
    (d.GetDevice E).Attributes.get "partitionProfile"
        = some { StringValue := some d.PartitionProfile } ∧
    (d.pcieRootAttr.Name ≠ "" →
        (d.GetDevice E).Attributes.get d.pcieRootAttr.Name = some d.pcieRootAttr.Value) ∧
    (∀ k, k ∈ (d.GetDevice E).Capacity.keys ↔ k ∈ ["memory", "computeUnits", "simdUnits"]) ∧
    (d.GetDevice E).Capacity.keys.Nodup ∧
    (d.GetDevice E).Capacity.get "memory"
        = some { Value := ⟨Int.ofNat d.MemoryBytes, QuantityFormat.BinarySI⟩ } ∧
    (d.GetDevice E).Capacity.get "computeUnits"
        = some { Value := ⟨d.ComputeUnits, QuantityFormat.BinarySI⟩ } ∧
    (d.GetDevice E).Capacity.get "simdUnits"
        = some { Value := ⟨d.SimdUnits, QuantityFormat.BinarySI⟩ } := by
  have hconv : int64OfUint64 d.MemoryBytes = Int.ofNat d.MemoryBytes := by
    have h64 : d.MemoryBytes % 2 ^ 64 = d.MemoryBytes := Nat.mod_eq_of_lt (by omega)
    unfold int64OfUint64
    rw [h64, if_pos hmem]
  simp only [fullDeviceAttributeKeys, List.mem_cons, List.mem_singleton, List.not_mem_nil,
    or_false, not_or] at hloc
  obtain ⟨h1, h2, h3, h4, h5, h6, h7, h8, h9, h10, h11⟩ := hloc
  have g1 := Ne.symm h1
  have g2 := Ne.symm h2
  have g3 := Ne.symm h3
  have g4 := Ne.symm h4
  have g5 := Ne.symm h5
  have g6 := Ne.symm h6
  have g7 := Ne.symm h7
  have g8 := Ne.symm h8
  have g9 := Ne.symm h9
  have g10 := Ne.symm h10
  have g11 := Ne.symm h11
  by_cases hname : d.pcieRootAttr.Name = ""
  · simp [AmdGpuInfo.GetDevice, GoMap.keys, GoMap.get, capacityOf, hname, hconv]
  · simp [AmdGpuInfo.GetDevice, GoMap.keys, GoMap.get, GoMap.set, capacityOf, hname, hconv,
      h1, h2, h3, h4, h5, h6, h7, h8, h9, h10, h11, g1, g2, g3, g4, g5, g6, g7, g8, g9, g10, g11]
    intro k
    simp only [or_assoc]

/-- The amended C10 at the sample device: its two hypotheses hold there, and
so do its conclusions, of which three are shown. -/
theorem full_device_rendering_sample :
    sampleGpu.pcieRootAttr.Name ∉ fullDeviceAttributeKeys ∧
    sampleGpu.MemoryBytes < 2 ^ 63 ∧
    (sampleGpu.GetDevice sampleEnv).Attributes.get "pciAddr"
        = some { StringValue := some "0000:19:00.0" } ∧
    (sampleGpu.GetDevice sampleEnv).Attributes.get "resource.kubernetes.io/pcieRoot"
        = some { StringValue := some "pci0000:16" } ∧
    (sampleGpu.GetDevice sampleEnv).Capacity.get "memory"
        = some { Value := ⟨206141652992, QuantityFormat.BinarySI⟩ } := by
  have h := full_device_rendering sampleEnv sampleGpu (by decide) (by decide)
  exact ⟨by decide, by decide, h.2.2.2.2.1, h.2.2.2.2.2.2.2.2.2.2.2.2.2.1 (by decide),
    h.2.2.2.2.2.2.2.2.2.2.2.2.2.2.2.2.1⟩

/-! ## UTF-8 round trip -/

theorem toNat_ofNat8 (x : Nat) (h : x < 256) : (UInt8.ofNat x).toNat = x := by
  simp [UInt8.ofNat, UInt8.toNat, Nat.mod_eq_of_lt h]

theorem char_valid_toNat (c : Char) :
    c.toNat < 0xD800 ∨ (0xDFFF < c.toNat ∧ c.toNat < 0x110000) :=
  c.valid

theorem decodeRune_one (b0 : UInt8) (rest : Bytes) (h0 : b0.toNat < 0x80) :
    decodeRune (b0 :: rest) = some (Char.ofNat b0.toNat, rest) := by
  simp [decodeRune, h0]

theorem decodeRune_two (b0 b1 : UInt8) (rest : Bytes)
    (h0 : 0xC2 ≤ b0.toNat ∧ b0.toNat ≤ 0xDF) (h1 : 0x80 ≤ b1.toNat ∧ b1.toNat ≤ 0xBF) :
    decodeRune (b0 :: b1 :: rest)
      = some (Char.ofNat ((b0.toNat - 0xC0) * 64 + (b1.toNat - 0x80)), rest) := by
  have a1 : ¬ (b0.toNat < 0x80) := by omega
  simp [decodeRune, isCont, a1, h0, h1]

theorem decodeRune_three (b0 b1 b2 : UInt8) (rest : Bytes)
    (h0 : 0xE0 ≤ b0.toNat ∧ b0.toNat ≤ 0xEF)
    (h1 : (if b0.toNat = 0xE0 then 0xA0 else 0x80) ≤ b1.toNat ∧
      b1.toNat ≤ (if b0.toNat = 0xED then 0x9F else 0xBF))
    (h2 : 0x80 ≤ b2.toNat ∧ b2.toNat ≤ 0xBF) :
    decodeRune (b0 :: b1 :: b2 :: rest)
      = some (Char.ofNat ((b0.toNat - 0xE0) * 4096 + (b1.toNat - 0x80) * 64
          + (b2.toNat - 0x80)), rest) := by
  have a1 : ¬ (b0.toNat < 0x80) := by omega
  have a2 : ¬ (0xC2 ≤ b0.toNat ∧ b0.toNat ≤ 0xDF) := by omega
  simp only [decodeRune, isCont, a1, a2, h0, h1, h2, if_true, if_false, decide_True, and_self]

theorem decodeRune_four (b0 b1 b2 b3 : UInt8) (rest : Bytes)
    (h0 : 0xF0 ≤ b0.toNat ∧ b0.toNat ≤ 0xF4)
    (h1 : (if b0.toNat = 0xF0 then 0x90 else 0x80) ≤ b1.toNat ∧
      b1.toNat ≤ (if b0.toNat = 0xF4 then 0x8F else 0xBF))
    (h2 : 0x80 ≤ b2.toNat ∧ b2.toNat ≤ 0xBF) (h3 : 0x80 ≤ b3.toNat ∧ b3.toNat ≤ 0xBF) :
    decodeRune (b0 :: b1 :: b2 :: b3 :: rest)
      = some (Char.ofNat ((b0.toNat - 0xF0) * 262144 + (b1.toNat - 0x80) * 4096
          + (b2.toNat - 0x80) * 64 + (b3.toNat - 0x80)), rest) := by
  have a1 : ¬ (b0.toNat < 0x80) := by omega
  have a2 : ¬ (0xC2 ≤ b0.toNat ∧ b0.toNat ≤ 0xDF) := by omega
  have a3 : ¬ (0xE0 ≤ b0.toNat ∧ b0.toNat ≤ 0xEF) := by omega
  simp only [decodeRune, isCont, a1, a2, a3, h0, h1, h2, h3, if_true, if_false, decide_True,
    and_self]

theorem decodeRune_encode (c : Char) (rest : Bytes) :
    decodeRune (utf8EncodeChar c ++ rest) = some (c, rest) := by
  have hv := char_valid_toNat c
  have hc := Char.ofNat_toNat c
  generalize hn : c.toNat = n at hv hc
  unfold utf8EncodeChar
  simp only [hn]
  by_cases h1 : n < 0x80
  · simp only [h1, if_true, List.singleton_append]
    rw [decodeRune_one _ _ (by rw [toNat_ofNat8 n (by omega)]; exact h1),
      toNat_ofNat8 n (by omega), hc]
  · by_cases h2 : n < 0x800
    · simp only [h1, h2, if_true, if_false, List.cons_append, List.nil_append]
      have e0 := toNat_ofNat8 (0xC0 + n / 64) (by omega)
      have e1 := toNat_ofNat8 (0x80 + n % 64) (by omega)
      rw [decodeRune_two _ _ _ (by rw [e0]; omega) (by rw [e1]; omega), e0, e1]
      have e : (0xC0 + n / 64 - 0xC0) * 64 + (0x80 + n % 64 - 0x80) = n := by omega
      rw [e, hc]
    · by_cases h3 : n < 0x10000
      · simp only [h1, h2, h3, if_true, if_false, List.cons_append, List.nil_append]
        have e0 := toNat_ofNat8 (0xE0 + n / 4096) (by omega)
        have e1 := toNat_ofNat8 (0x80 + n / 64 % 64) (by omega)
        have e2 := toNat_ofNat8 (0x80 + n % 64) (by omega)
        rw [decodeRune_three _ _ _ _ (by rw [e0]; omega)
          (by rw [e0, e1]; split <;> split <;> omega) (by rw [e2]; omega), e0, e1, e2]
        have e : (0xE0 + n / 4096 - 0xE0) * 4096 + (0x80 + n / 64 % 64 - 0x80) * 64
            + (0x80 + n % 64 - 0x80) = n := by omega
        rw [e, hc]
      · simp only [h1, h2, h3, if_false, List.cons_append, List.nil_append]
        have e0 := toNat_ofNat8 (0xF0 + n / 262144) (by omega)
        have e1 := toNat_ofNat8 (0x80 + n / 4096 % 64) (by omega)
        have e2 := toNat_ofNat8 (0x80 + n / 64 % 64) (by omega)
        have e3 := toNat_ofNat8 (0x80 + n % 64) (by omega)
        rw [decodeRune_four _ _ _ _ _ (by rw [e0]; omega)
          (by rw [e0, e1]; split <;> split <;> omega) (by rw [e2]; omega) (by rw [e3]; omega),
          e0, e1, e2, e3]
        have e : (0xF0 + n / 262144 - 0xF0) * 262144 + (0x80 + n / 4096 % 64 - 0x80) * 4096
            + (0x80 + n / 64 % 64 - 0x80) * 64 + (0x80 + n % 64 - 0x80) = n := by omega
        rw [e, hc]

theorem utf8EncodeChar_length_pos (c : Char) : 0 < (utf8EncodeChar c).length := by
  unfold utf8EncodeChar
  simp only
  split
  · simp
  · split
    · simp
    · split <;> simp

theorem utf8DecodeLossy_encode (cs : List Char) :
    ∀ fuel, (utf8Encode cs).length ≤ fuel → utf8DecodeLossy fuel (utf8Encode cs) = cs := by
  induction cs with
  | nil =>
    intro fuel _
    cases fuel <;> simp [utf8Encode, utf8DecodeLossy, decodeRune]
  | cons c cs ih =>
    intro fuel hfuel
    have hlen := utf8EncodeChar_length_pos c
    have hsplit : utf8Encode (c :: cs) = utf8EncodeChar c ++ utf8Encode cs := by
      simp [utf8Encode]
    rw [hsplit] at hfuel ⊢
    rw [List.length_append] at hfuel
    cases fuel with
    | zero => omega
    | succ fuel =>
      simp only [utf8DecodeLossy, decodeRune_encode]
      rw [ih fuel (by omega)]

theorem utf8EncodeChar_length_le (c : Char) : (utf8EncodeChar c).length ≤ 4 := by
  unfold utf8EncodeChar
  simp only
  split
  · simp
  · split
    · simp
    · split <;> simp

/-- The bytes of the encoding of a text are read as that text. -/
theorem textOf_encode (cs : List Char) : textOf (utf8Encode cs) = cs :=
  utf8DecodeLossy_encode cs _ (Nat.le_refl _)

theorem validUTF8_encode (cs : List Char) : validUTF8 (utf8Encode cs) = true := by
  simp [validUTF8, textOf_encode]

theorem validUTF8_eq (s : GoString) (h : validUTF8 s = true) : utf8Encode (textOf s) = s := by
  simpa [validUTF8] using h

/-- A Go string that is valid UTF-8 is written rune by rune as its text is
written character by character. -/
theorem quoteRunes_encode (cs : List Char) :
    ∀ fuel, (utf8Encode cs).length ≤ fuel →
      quoteRunes fuel (utf8Encode cs) = cs.flatMap quoteChar := by
  induction cs with
  | nil =>
    intro fuel _
    cases fuel <;> simp [utf8Encode, quoteRunes, decodeRune]
  | cons c cs ih =>
    intro fuel hfuel
    have hlen := utf8EncodeChar_length_pos c
    have hsplit : utf8Encode (c :: cs) = utf8EncodeChar c ++ utf8Encode cs := by
      simp [utf8Encode]
    rw [hsplit] at hfuel ⊢
    rw [List.length_append] at hfuel
    cases fuel with
    | zero => omega
    | succ fuel =>
      have hcond : ¬ (c = replacementChar ∧
          (utf8Encode cs).length + 1 = (utf8EncodeChar c ++ utf8Encode cs).length) := by
        rintro ⟨hc, hl⟩
        rw [hc, List.length_append] at hl
        have h3 : (utf8EncodeChar replacementChar).length = 3 := by decide
        omega
      simp only [quoteRunes, decodeRune_encode, if_neg hcond, List.flatMap_cons]
      rw [ih fuel (by omega)]

theorem quoteGo_valid (s : GoString) (h : validUTF8 s = true) : quoteGo s = quote (textOf s) := by
  have hs := validUTF8_eq s h
  unfold quoteGo quote
  have := quoteRunes_encode (textOf s) s.length (by rw [hs])
  rw [hs] at this
  rw [this]

/-! ## String literals -/

theorem hexVal_hexDigit : ∀ d, d < 16 → hexVal (hexDigit d) = some d := by decide

theorem hex4_cons (a b c d : Char) (rest : List Char) (x y z w : Nat)
    (ha : hexVal a = some x) (hb : hexVal b = some y) (hc : hexVal c = some z)
    (hd : hexVal d = some w) :
    hex4 (a :: b :: c :: d :: rest) = some (((x * 16 + y) * 16 + z) * 16 + w, rest) := by
  simp [hex4, ha, hb, hc, hd]

theorem parseStringBody_escape (fuel : Nat) (a b c d : Char) (tail : List Char) (u : Nat)
    (h4 : hex4 (a :: b :: c :: d :: tail) = some (u, tail))
    (hns : ¬ (0xD800 ≤ u ∧ u < 0xE000)) :
    parseStringBody (fuel + 1) ('\\' :: 'u' :: a :: b :: c :: d :: tail)
      = (parseStringBody fuel tail).map (fun p => (Char.ofNat u :: p.1, p.2)) := by
  rw [parseStringBody]
  simp only [show ¬ ('\\' = '"') by decide, if_false, if_true, h4, hns]

theorem parseStringBody_quoteChar (c : Char) (fuel : Nat) (tail : List Char) :
    parseStringBody (fuel + 1) (quoteChar c ++ tail)
      = (parseStringBody fuel tail).map (fun p => (c :: p.1, p.2)) := by
  have hc := Char.ofNat_toNat c
  unfold quoteChar
  simp only
  split
  · rename_i h; subst h; simp [parseStringBody]
  · split
    · rename_i h; subst h; simp [parseStringBody]
    · split
      · rename_i h; rw [h] at hc; subst hc; simp [parseStringBody]
      · split
        · rename_i h; rw [h] at hc; subst hc; simp [parseStringBody]
        · split
          · rename_i h; subst h; simp [parseStringBody]
          · split
            · rename_i h; subst h; simp [parseStringBody]
            · split
              · rename_i h; subst h; simp [parseStringBody]
              · split
                · rename_i h
                  have hlt : c.toNat < 0x80 := by
                    rcases h with h | h | h | h
                    · omega
                    · subst h; decide
                    · subst h; decide
                    · subst h; decide
                  have h16 : c.toNat / 16 < 16 := by omega
                  have hval : ((0 * 16 + 0) * 16 + c.toNat / 16) * 16 + c.toNat % 16
                      = c.toNat := by omega
                  have h4 := hex4_cons '0' '0' (hexDigit (c.toNat / 16)) (hexDigit (c.toNat % 16))
                    tail 0 0 _ _ (by decide) (by decide) (hexVal_hexDigit _ h16)
                    (hexVal_hexDigit _ (Nat.mod_lt _ (by decide : 0 < 16)))
                  rw [hval] at h4
                  simp only [List.cons_append, List.nil_append]
                  rw [parseStringBody_escape fuel _ _ _ _ tail _ h4 (by omega), hc]
                · split
                  · rename_i h
                    have hval : ((2 * 16 + 0) * 16 + 2) * 16 + c.toNat % 16 = c.toNat := by omega
                    have h4 := hex4_cons '2' '0' '2' (hexDigit (c.toNat % 16))
                      tail 2 0 2 _ (by decide) (by decide) (by decide)
                      (hexVal_hexDigit _ (Nat.mod_lt _ (by decide : 0 < 16)))
                    rw [hval] at h4
                    simp only [List.cons_append, List.nil_append]
                    rw [parseStringBody_escape fuel _ _ _ _ tail _ h4 (by omega), hc]
                  · rename_i h1 h2 h3 h4 h5 h6 h7 h8 h9
                    have hge : ¬ c.toNat < 0x20 := fun h => h8 (Or.inl h)
                    simp [parseStringBody, h1, h2, hge]

theorem parseStringBody_quote (s : List Char) :
    ∀ fuel rest, (s.flatMap quoteChar ++ '"' :: rest).length < fuel →
      parseStringBody fuel (s.flatMap quoteChar ++ '"' :: rest) = some (s, rest) := by
  induction s with
  | nil =>
    intro fuel rest h
    cases fuel with
    | zero => simp at h
    | succ fuel => simp [parseStringBody]
  | cons c s ih =>
    intro fuel rest h
    cases fuel with
    | zero => simp at h
    | succ fuel =>
      have hlen : 0 < (quoteChar c).length := by
        unfold quoteChar
        simp only
        repeat' split
        all_goals simp
      simp only [List.flatMap_cons, List.append_assoc] at h ⊢
      rw [parseStringBody_quoteChar, ih fuel rest]
      · rfl
      · simp only [List.length_append, List.length_cons] at h ⊢
        omega

/-! ## Number literals -/

theorem isDigit_facts (c : Char) (h : isDigit c = true) :
    isWs c = false ∧ c ≠ '{' ∧ c ≠ '[' ∧ c ≠ '"' ∧ c ≠ 't' ∧ c ≠ 'f' ∧ c ≠ 'n' ∧ c ≠ '-' := by
  refine ⟨?_, ?_, ?_, ?_, ?_, ?_, ?_, ?_⟩
  · have : 48 ≤ c.toNat ∧ c.toNat ≤ 57 := by simpa [isDigit] using h
    have h1 : c ≠ ' ' := by rintro rfl; revert h; decide
    have h2 : c ≠ '\t' := by rintro rfl; revert h; decide
    have h3 : c ≠ '\r' := by rintro rfl; revert h; decide
    have h4 : c ≠ '\n' := by rintro rfl; revert h; decide
    simp [isWs, h1, h2, h3, h4]
  all_goals (rintro rfl; revert h; decide)

theorem delimited_facts (rest : List Char) (h : delimited rest) :
    skipWs rest = rest ∧ (takeDigits rest).1 = [] ∧ (takeDigits rest).2 = rest ∧
    (∀ c r, rest = c :: r → c ≠ '.' ∧ c ≠ 'e' ∧ c ≠ 'E') := by
  cases rest with
  | nil => simp [skipWs, takeDigits]
  | cons c r =>
    have hc : c = ',' ∨ c = '}' ∨ c = ']' := h
    rcases hc with rfl | rfl | rfl <;>
      simp [skipWs, takeDigits, isWs, isDigit]

theorem takeDigits_append (ds rest : List Char) (hds : ∀ c ∈ ds, isDigit c = true)
    (hrest : delimited rest) : takeDigits (ds ++ rest) = (ds, rest) := by
  induction ds with
  | nil =>
    have := delimited_facts rest hrest
    exact Prod.ext this.2.1 this.2.2.1
  | cons d ds ih =>
    have hd : isDigit d = true := hds d (List.mem_cons_self _ _)
    have ih' := ih (fun c hc => hds c (List.mem_cons_of_mem _ hc))
    simp [takeDigits, hd, ih']

theorem natDigitsAux_head : ∀ fuel n acc, 0 < n → n < fuel →
    ∃ d ds, 1 ≤ d ∧ d < 10 ∧ natDigitsAux fuel n acc = digitChar d :: (ds ++ acc) ∧
      ∀ x ∈ ds, isDigit x = true := by
  intro fuel
  induction fuel with
  | zero => intro n acc _ h; omega
  | succ fuel ih =>
    intro n acc hpos hlt
    unfold natDigitsAux
    by_cases h10 : n < 10
    · exact ⟨n, [], hpos, h10, by simp [h10], by simp⟩
    · simp only [h10, if_false]
      obtain ⟨d, ds, hd1, hd2, heq, hall⟩ :=
        ih (n / 10) (digitChar (n % 10) :: acc) (by omega) (by omega)
      refine ⟨d, ds ++ [digitChar (n % 10)], hd1, hd2, by simp [heq], ?_⟩
      intro x hx
      rcases List.mem_append.1 hx with hx | hx
      · exact hall x hx
      · rw [List.mem_singleton.1 hx]
        exact isDigit_digitChar _ (Nat.mod_lt _ (by decide))

theorem digitChar_ne_zero : ∀ d, 1 ≤ d → d < 10 → digitChar d ≠ '0' := by decide

theorem parseNumber_fmtNat (n : Nat) (rest : List Char) (hrest : delimited rest) :
    parseNumber (fmtNat n ++ rest) = some (fmtNat n, rest) := by
  have hfacts := delimited_facts rest hrest
  have htail : ∀ lit : List Char,
      (match (some (lit, rest) : Option (List Char × List Char)) with
        | none => none
        | some (lit1, r1) =>
          match (match r1 with
            | c :: r =>
              if c = '.' then
                if (takeDigits r).1 = [] then none
                else some (lit1 ++ '.' :: (takeDigits r).1, (takeDigits r).2)
              else some (lit1, r1)
            | [] => some (lit1, r1) : Option (List Char × List Char)) with
          | none => none
          | some (lit2, r2) =>
            match r2 with
            | c :: r =>
              if c = 'e' ∨ c = 'E' then
                let sgn : List Char × List Char :=
                  match r with
                  | s :: r' => if s = '+' ∨ s = '-' then ([s], r') else ([], r)
                  | [] => ([], r)
                if (takeDigits sgn.2).1 = [] then none
                else some (lit2 ++ c :: sgn.1 ++ (takeDigits sgn.2).1, (takeDigits sgn.2).2)
              else some (lit2, r2)
            | [] => some (lit2, r2)) = some (lit, rest) := by
    intro lit
    cases rest with
    | nil => rfl
    | cons c r =>
      obtain ⟨h1, h2, h3⟩ := hfacts.2.2.2 c r rfl
      simp [h1, h2, h3]
  by_cases h0 : n = 0
  · subst h0
    have : fmtNat 0 = ['0'] := by decide
    rw [this]
    unfold parseNumber
    simp only [List.singleton_append, show ¬ ('0' = '-') by decide, if_false, if_true,
      List.nil_append]
    exact htail ['0']
  · obtain ⟨d, ds, hd1, hd2, heq, hall⟩ := natDigitsAux_head (n + 1) n [] (by omega) (by omega)
    have hfmt : fmtNat n = digitChar d :: ds := by
      unfold fmtNat; rw [heq]; simp
    have hdig := isDigit_digitChar d hd2
    have hne := digitChar_ne_zero d hd1 hd2
    have hminus := (isDigit_facts _ hdig).2.2.2.2.2.2.2
    rw [hfmt]
    unfold parseNumber
    simp only [List.cons_append, hminus, hne, hdig, if_false, if_true, List.nil_append,
      takeDigits_append ds rest hall hrest]
    exact htail (digitChar d :: ds)

/-! ## Values read back from their text -/

theorem renders_null : Renders 0 "null".data JValue.null := by
  intro fuel depth rest hfuel _ _
  cases fuel with
  | zero => omega
  | succ fuel =>
    show parseValue (fuel + 1) depth ('n' :: 'u' :: 'l' :: 'l' :: rest) = _
    simp [parseValue, skipWs, isWs]

theorem renders_str (s : List Char) : Renders 0 (quote s) (JValue.str s) := by
  intro fuel depth rest hfuel _ _
  cases fuel with
  | zero => omega
  | succ fuel =>
    have hq : quote s ++ rest = '"' :: (s.flatMap quoteChar ++ '"' :: rest) := by
      simp [quote]
    rw [hq] at hfuel ⊢
    have hbody := parseStringBody_quote s fuel rest (by
      simp only [List.length_cons] at hfuel; omega)
    simp [parseValue, skipWs, isWs, hbody]

theorem renders_num (n : Nat) : Renders 0 (fmtNat n) (JValue.num (fmtNat n)) := by
  intro fuel depth rest hfuel _ hrest
  cases fuel with
  | zero => omega
  | succ fuel =>
    have hnum := parseNumber_fmtNat n rest hrest
    have hne := fmtNat_ne_nil n
    cases hfmt : fmtNat n with
    | nil => exact absurd hfmt hne
    | cons c ds =>
      have hdig : isDigit c = true := fmtNat_isDigit n c (by rw [hfmt]; exact List.mem_cons_self _ _)
      obtain ⟨hws, h1, h2, h3, h4, h5, h6, _⟩ := isDigit_facts c hdig
      rw [hfmt] at hnum
      simp only [List.cons_append] at hnum ⊢
      simp [parseValue, skipWs, hws, h1, h2, h3, h4, h5, h6, hnum]

theorem joinComma_cons_cons (x y : List Char) (rest : List (List Char)) :
    joinComma (x :: y :: rest) = x ++ ',' :: joinComma (y :: rest) := rfl

theorem parseElems_joinComma (h : Nat) (ts : List (List Char)) (vs : List JValue)
    (hall : List.Forall₂ (Renders h) ts vs) :
    ts ≠ [] → ∀ fuel depth rest, 2 * (joinComma ts ++ ']' :: rest).length + 3 ≤ fuel →
      depth + h ≤ maxNestingDepth →
      parseElems fuel depth (joinComma ts ++ ']' :: rest) = some (vs, rest) := by
  induction hall with
  | nil => intro hne; exact absurd rfl hne
  | @cons t v ts vs hren hrest ih =>
    intro _ fuel depth rest hfuel hdepth
    cases fuel with
    | zero => omega
    | succ fuel =>
      cases hrest with
      | nil =>
        have hv := hren fuel depth (']' :: rest) (by
          simp only [joinComma] at hfuel; omega) hdepth (Or.inr (Or.inr rfl))
        simp only [joinComma]
        simp [parseElems, hv, skipWs, isWs]
      | @cons t' v' ts' vs' hren' hrest' =>
        rw [joinComma_cons_cons, List.append_assoc] at hfuel ⊢
        simp only [List.cons_append] at hfuel ⊢
        have hv := hren fuel depth (',' :: (joinComma (t' :: ts') ++ ']' :: rest)) (by omega)
          hdepth (Or.inl rfl)
        have hih := ih (by simp) fuel depth rest (by
          simp only [List.length_append, List.length_cons] at hfuel ⊢; omega) hdepth
        simp [parseElems, hv, skipWs, isWs, hih]

/-- An array of string literals is read back as the array of the strings. -/
theorem renders_strings (l : List (List Char)) :
    Renders 1 ('[' :: (joinComma (l.map quote) ++ [']'])) (JValue.arr (l.map JValue.str)) := by
  intro fuel depth rest hfuel hdepth _
  cases fuel with
  | zero => omega
  | succ fuel =>
    have hd : ¬ maxNestingDepth ≤ depth := by omega
    cases l with
    | nil => simp [joinComma, parseValue, skipWs, isWs, hd]
    | cons s l =>
      have hall : List.Forall₂ (Renders 0) ((s :: l).map quote) ((s :: l).map JValue.str) := by
        rw [List.forall₂_map_left_iff, List.forall₂_map_right_iff]
        exact List.forall₂_same.2 (fun x _ => renders_str x)
      have hel := parseElems_joinComma 0 _ _ hall (by simp) fuel (depth + 1) rest (by
        simp only [List.cons_append, List.append_assoc, List.singleton_append,
          List.nil_append, List.length_cons] at hfuel ⊢
        omega) (by omega)
      have hhead : ∃ r, joinComma ((s :: l).map quote) = '"' :: r := by
        cases l with
        | nil => exact ⟨_, rfl⟩
        | cons s' l' => exact ⟨_, rfl⟩
      obtain ⟨r, hr⟩ := hhead
      simp only [List.cons_append, List.append_assoc, List.singleton_append]
      rw [hr] at hel ⊢
      simp only [List.cons_append] at hel
      simp [parseValue, skipWs, isWs, hd, hel]

/-- The text of one object member. -/
theorem parseMembers_joinComma (h : Nat) (kts : List (List Char × List Char))
    (kvs : List (List Char × JValue))
    (hall : List.Forall₂ (fun kt kv => kt.1 = kv.1 ∧ Renders h kt.2 kv.2) kts kvs) :
    kts ≠ [] → ∀ fuel depth rest,
      2 * (joinComma (kts.map (fun kt => quote kt.1 ++ ':' :: kt.2)) ++ '}' :: rest).length + 3
        ≤ fuel →
      depth + h ≤ maxNestingDepth →
      parseMembers fuel depth
        (joinComma (kts.map (fun kt => quote kt.1 ++ ':' :: kt.2)) ++ '}' :: rest)
        = some (kvs, rest) := by
  induction hall with
  | nil => intro hne; exact absurd rfl hne
  | @cons kt kv kts kvs hren hrest ih =>
    intro _ fuel depth rest hfuel hdepth
    obtain ⟨hk, hv⟩ := hren
    obtain ⟨k0, t0⟩ := kt
    obtain ⟨k, v⟩ := kv
    simp only at hk hv
    subst hk
    cases fuel with
    | zero => omega
    | succ fuel =>
      cases hrest with
      | nil =>
        simp only [List.map_cons, List.map_nil, joinComma] at hfuel ⊢
        have hq : quote k0 ++ ':' :: t0 ++ '}' :: rest
            = '"' :: (k0.flatMap quoteChar ++ '"' :: (':' :: (t0 ++ '}' :: rest))) := by
          simp [quote]
        rw [hq] at hfuel ⊢
        simp only [List.length_cons, List.length_append] at hfuel
        have hkey := parseStringBody_quote k0 fuel (':' :: (t0 ++ '}' :: rest)) (by
          simp only [List.length_cons, List.length_append]; omega)
        have hval := hv fuel depth ('}' :: rest) (by
          simp only [List.length_cons, List.length_append]; omega) hdepth
          (Or.inr (Or.inl rfl))
        simp [parseMembers, skipWs, isWs, hkey, hval]
      | @cons kt' kv' kts' kvs' hren' hrest' =>
        simp only [List.map_cons] at hfuel ih ⊢
        rw [joinComma_cons_cons] at hfuel ⊢
        have hq : quote k0 ++ ':' :: t0 ++ ',' ::
              joinComma ((quote kt'.1 ++ ':' :: kt'.2) ::
                List.map (fun kt => quote kt.1 ++ ':' :: kt.2) kts') ++ '}' :: rest
            = '"' :: (k0.flatMap quoteChar ++ '"' :: (':' :: (t0 ++ ',' ::
                (joinComma ((quote kt'.1 ++ ':' :: kt'.2) ::
                  List.map (fun kt => quote kt.1 ++ ':' :: kt.2) kts') ++ '}' :: rest)))) := by
          simp [quote]
        rw [hq] at hfuel ⊢
        simp only [List.length_cons, List.length_append] at hfuel
        have hkey := parseStringBody_quote k0 fuel (':' :: (t0 ++ ',' ::
            (joinComma ((quote kt'.1 ++ ':' :: kt'.2) ::
              List.map (fun kt => quote kt.1 ++ ':' :: kt.2) kts') ++ '}' :: rest))) (by
          simp only [List.length_cons, List.length_append]; omega)
        have hval := hv fuel depth (',' ::
            (joinComma ((quote kt'.1 ++ ':' :: kt'.2) ::
              List.map (fun kt => quote kt.1 ++ ':' :: kt.2) kts') ++ '}' :: rest)) (by
          simp only [List.length_cons, List.length_append]; omega) hdepth (Or.inl rfl)
        have hih := ih (by simp) fuel depth rest (by
          simp only [List.length_cons, List.length_append]; omega) hdepth
        simp [parseMembers, skipWs, isWs, hkey, hval, hih]

/-- An object is read back from the texts of its members. -/
theorem renders_obj (h : Nat) (kts : List (List Char × List Char))
    (kvs : List (List Char × JValue))
    (hall : List.Forall₂ (fun kt kv => kt.1 = kv.1 ∧ Renders h kt.2 kv.2) kts kvs) :
    Renders (h + 1)
      ('{' :: (joinComma (kts.map (fun kt => quote kt.1 ++ ':' :: kt.2)) ++ ['}']))
      (JValue.obj kvs) := by
  intro fuel depth rest hfuel hdepth _
  cases fuel with
  | zero => omega
  | succ fuel =>
    have hd : ¬ maxNestingDepth ≤ depth := by omega
    cases hall with
    | nil => simp [joinComma, parseValue, skipWs, isWs, hd]
    | @cons kt kv kts kvs hren hrest =>
      have hmem := parseMembers_joinComma h _ _ (List.Forall₂.cons hren hrest) (by simp) fuel
        (depth + 1) rest (by
          simp only [List.cons_append, List.append_assoc, List.singleton_append,
            List.nil_append, List.length_cons] at hfuel ⊢
          omega) (by omega)
      have hhead : ∃ r, joinComma ((kt :: kts).map (fun kt => quote kt.1 ++ ':' :: kt.2))
          = '"' :: r := by
        cases kts with
        | nil => exact ⟨_, rfl⟩
        | cons s' l' => exact ⟨_, rfl⟩
      obtain ⟨r, hr⟩ := hhead
      simp only [List.cons_append, List.append_assoc, List.singleton_append]
      rw [hr] at hmem ⊢
      simp only [List.cons_append] at hmem
      simp [parseValue, skipWs, isWs, hd, hmem]

/-! ## Maps and the order of their keys -/

theorem bytesLe_total : ∀ a b : Bytes, bytesLe a b = true ∨ bytesLe b a = true := by
  intro a
  induction a with
  | nil => intro b; simp [bytesLe]
  | cons x a ih =>
    intro b
    cases b with
    | nil => simp [bytesLe]
    | cons y b =>
      simp only [bytesLe, Bool.or_eq_true, decide_eq_true_eq, Bool.and_eq_true, beq_iff_eq]
      rcases Nat.lt_trichotomy x.toNat y.toNat with h | h | h
      · exact Or.inl (Or.inl h)
      · rcases ih b with h' | h'
        · exact Or.inl (Or.inr ⟨h, h'⟩)
        · exact Or.inr (Or.inr ⟨h.symm, h'⟩)
      · exact Or.inr (Or.inl h)

theorem bytesLe_trans : ∀ a b c : Bytes,
    bytesLe a b = true → bytesLe b c = true → bytesLe a c = true := by
  intro a
  induction a with
  | nil => intro b c _ _; simp [bytesLe]
  | cons x a ih =>
    intro b c hab hbc
    cases b with
    | nil => simp [bytesLe] at hab
    | cons y b =>
      cases c with
      | nil => simp [bytesLe] at hbc
      | cons z c =>
        simp only [bytesLe, Bool.or_eq_true, decide_eq_true_eq, Bool.and_eq_true,
          beq_iff_eq] at hab hbc ⊢
        rcases hab with h1 | ⟨h1, h1'⟩
        · rcases hbc with h2 | ⟨h2, _⟩
          · exact Or.inl (by omega)
          · exact Or.inl (by omega)
        · rcases hbc with h2 | ⟨h2, h2'⟩
          · exact Or.inl (by omega)
          · exact Or.inr ⟨by omega, ih b c h1' h2'⟩

theorem byte_eq_of_toNat_eq {x y : UInt8} (h : x.toNat = y.toNat) : x = y :=
  UInt8.ext h

theorem bytesLe_antisymm : ∀ a b : Bytes,
    bytesLe a b = true → bytesLe b a = true → a = b := by
  intro a
  induction a with
  | nil =>
    intro b _ hba
    cases b with
    | nil => rfl
    | cons y b => simp [bytesLe] at hba
  | cons x a ih =>
    intro b hab hba
    cases b with
    | nil => simp [bytesLe] at hab
    | cons y b =>
      simp only [bytesLe, Bool.or_eq_true, decide_eq_true_eq, Bool.and_eq_true,
        beq_iff_eq] at hab hba
      rcases hab with h1 | ⟨h1, h1'⟩
      · rcases hba with h2 | ⟨h2, _⟩ <;> omega
      · rcases hba with h2 | ⟨_, h2'⟩
        · omega
        · rw [byte_eq_of_toNat_eq h1, ih b h1' h2']

theorem strLe_isTotal : IsTotal GoString strLe := ⟨fun a b => bytesLe_total a b⟩

theorem strLe_isTrans : IsTrans GoString strLe := ⟨fun a b c => bytesLe_trans a b c⟩

theorem strLe_isAntisymm : IsAntisymm GoString strLe :=
  ⟨fun a b hab hba => bytesLe_antisymm a b hab hba⟩

theorem mem_sortedKeys {ν : Type} (m : ByteMap ν) (k : GoString) :
    k ∈ sortedKeys m ↔ k ∈ m.keys := by
  unfold sortedKeys
  rw [(List.perm_insertionSort strLe _).mem_iff, List.mem_dedup]

/-- Maps with the same keys are written in the same key order. -/
theorem sortedKeys_congr {ν : Type} (m m' : ByteMap ν) (h : ∀ k, k ∈ m.keys ↔ k ∈ m'.keys) :
    sortedKeys m = sortedKeys m' := by
  haveI := strLe_isTotal
  haveI := strLe_isTrans
  haveI := strLe_isAntisymm
  unfold sortedKeys
  apply List.eq_of_perm_of_sorted (r := strLe)
  · refine (List.perm_insertionSort strLe _).trans (List.Perm.trans ?_
      (List.perm_insertionSort strLe _).symm)
    rw [List.perm_ext_iff_of_nodup (List.nodup_dedup _) (List.nodup_dedup _)]
    intro k
    rw [List.mem_dedup, List.mem_dedup]
    exact h k
  · exact List.sorted_insertionSort strLe _
  · exact List.sorted_insertionSort strLe _

theorem GoMap.get_eq_none_iff {ν : Type} (m : GoMap ν) (k : String) :
    m.get k = none ↔ k ∉ m.keys := by
  induction m with
  | nil => simp [GoMap.get, GoMap.keys]
  | cons e m ih =>
    obtain ⟨k', v⟩ := e
    by_cases hk : k' = k
    · simp [GoMap.get, GoMap.keys, hk]
    · have hk' : ¬ k = k' := fun h => hk h.symm
      simp only [GoMap.get, hk, if_false, ih]
      simp [GoMap.keys, hk']

theorem GoMap.get_set {ν : Type} (m : GoMap ν) (k k' : String) (v : ν) :
    (m.set k v).get k' = if k = k' then some v else m.get k' := by
  induction m with
  | nil => simp [GoMap.set, GoMap.get]
  | cons e m ih =>
    obtain ⟨k₀, v₀⟩ := e
    by_cases h0 : k₀ = k
    · subst h0
      by_cases h1 : k₀ = k' <;> simp [GoMap.set, GoMap.get, h1]
    · by_cases h1 : k₀ = k'
      · subst h1
        have : ¬ k = k₀ := fun h => h0 h.symm
        simp [GoMap.set, GoMap.get, h0, this]
      · simp [GoMap.set, GoMap.get, h0, h1, ih]

theorem ByteMap.get_eq_none {ν : Type} (m : ByteMap ν) (k : GoString) :
    m.get k = none ↔ k ∉ m.keys := by
  induction m with
  | nil => simp [ByteMap.get, ByteMap.keys]
  | cons e m ih =>
    obtain ⟨k', v⟩ := e
    by_cases hk : k' = k
    · simp [ByteMap.get, ByteMap.keys, hk]
    · have hk' : ¬ k = k' := fun h => hk h.symm
      simp only [ByteMap.get, hk, if_false, ih]
      simp [ByteMap.keys, hk']

theorem ByteMap.get_after_set {ν : Type} (m : ByteMap ν) (k k' : GoString) (v : ν) :
    (m.set k v).get k' = if k = k' then some v else m.get k' := by
  induction m with
  | nil => simp [ByteMap.set, ByteMap.get]
  | cons e m ih =>
    obtain ⟨k₀, v₀⟩ := e
    by_cases h0 : k₀ = k
    · subst h0
      by_cases h1 : k₀ = k' <;> simp [ByteMap.set, ByteMap.get, h1]
    · by_cases h1 : k₀ = k'
      · subst h1
        have : ¬ k = k₀ := fun h => h0 h.symm
        simp [ByteMap.set, ByteMap.get, h0, this]
      · simp [ByteMap.set, ByteMap.get, h0, h1, ih]

theorem ByteMap.eq_nil_of_get {ν : Type} (m : ByteMap ν) : m = [] ↔ ∀ k, m.get k = none := by
  cases m with
  | nil => simp [ByteMap.get]
  | cons e m =>
    obtain ⟨k, v⟩ := e
    constructor
    · intro h; cases h
    · intro h
      have := h k
      simp [ByteMap.get] at this

theorem ByteMap.keys_of_get {ν : Type} (m m' : ByteMap ν) (h : ∀ k, m'.get k = m.get k)
    (k : GoString) : k ∈ m.keys ↔ k ∈ m'.keys := by
  have h1 := ByteMap.get_eq_none m k
  have h2 := ByteMap.get_eq_none m' k
  rw [h k] at h2
  constructor
  · intro hk
    by_contra hc
    exact (h1.1 (h2.2 hc)) hk
  · intro hk
    by_contra hc
    exact (h2.1 (h1.2 hc)) hk

theorem ByteMap.mem_of_get_some {ν : Type} (m : ByteMap ν) (k : GoString) (v : ν)
    (h : m.get k = some v) : (k, v) ∈ m := by
  induction m with
  | nil => simp [ByteMap.get] at h
  | cons e m ih =>
    obtain ⟨k', v'⟩ := e
    by_cases hk : k' = k
    · simp only [ByteMap.get, hk, if_true, Option.some.injEq] at h
      rw [hk, h]
      exact List.mem_cons_self _ _
    · simp only [ByteMap.get, hk, if_false] at h
      exact List.mem_cons_of_mem _ (ih h)

/-- Maps with the same bindings have the same JSON text. -/
theorem encodeV1_congr (m m' : PreparedClaims) (h : ∀ k, m'.get k = m.get k) :
    encodeV1 { PreparedClaims := m' } = encodeV1 { PreparedClaims := m } := by
  have hnil : m' = [] ↔ m = [] := by
    rw [ByteMap.eq_nil_of_get, ByteMap.eq_nil_of_get]
    constructor
    · intro h' k; rw [← h k]; exact h' k
    · intro h' k; rw [h k]; exact h' k
  have hkeys : sortedKeys m' = sortedKeys m :=
    sortedKeys_congr m' m (fun k => (ByteMap.keys_of_get m m' h k).symm)
  have hfun : (fun k => quoteGo k ++ ':' :: encodeNames ((ByteMap.get m' k).getD none))
      = (fun k => quoteGo k ++ ':' :: encodeNames ((ByteMap.get m k).getD none)) := by
    funext k; rw [h k]
  unfold encodeV1 encodeClaims
  simp only [hkeys, hfun]
  by_cases hm : m = []
  · simp [hm, hnil.2 hm]
  · have hm' : ¬ m' = [] := fun h' => hm (hnil.1 h')
    simp [hm, hm']

/-! ## The checkpoint document read back from its text -/

theorem Renders.mono {h h' : Nat} {t : List Char} {v : JValue} (hr : Renders h t v)
    (hle : h ≤ h') : Renders h' t v := by
  intro fuel depth rest hfuel hdepth hrest
  exact hr fuel depth rest hfuel (by omega) hrest

theorem validClaims_key (m : PreparedClaims) (h : validClaims m = true) (k : GoString)
    (hk : k ∈ m.keys) : validUTF8 k = true := by
  simp only [validClaims, List.all_eq_true, Bool.and_eq_true] at h
  simp only [ByteMap.keys, List.mem_map] at hk
  obtain ⟨e, he, rfl⟩ := hk
  exact (h e he).1

theorem validClaims_get (m : PreparedClaims) (h : validClaims m = true) (k : GoString)
    (names : List GoString) (hg : (m.get k).getD none = some names) :
    ∀ n ∈ names, validUTF8 n = true := by
  simp only [validClaims, List.all_eq_true, Bool.and_eq_true] at h
  cases hget : m.get k with
  | none => rw [hget] at hg; cases hg
  | some v =>
    rw [hget] at hg
    simp only [Option.getD_some] at hg
    have := (h _ (ByteMap.mem_of_get_some m k v hget)).2
    rw [hg] at this
    simpa [List.all_eq_true] using this

theorem renders_names (o : Option (List GoString))
    (hv : ∀ names, o = some names → ∀ n ∈ names, validUTF8 n = true) :
    Renders 1 (encodeNames o) (namesJ o) := by
  cases o with
  | none => exact renders_null.mono (by omega)
  | some names =>
    have hmap : names.map quoteGo = (names.map textOf).map quote := by
      rw [List.map_map]
      exact List.map_congr_left (fun n hn => quoteGo_valid n (hv names rfl n hn))
    have := renders_strings (names.map textOf)
    simpa [encodeNames, namesJ, List.map_map, Function.comp_def, hmap] using this

theorem renders_claims (m : PreparedClaims) (hvalid : validClaims m = true) :
    Renders 2 (encodeClaims m) (claimsJ m) := by
  have hall : List.Forall₂ (fun (kt : List Char × List Char) (kv : List Char × JValue) =>
      kt.1 = kv.1 ∧ Renders 1 kt.2 kv.2)
      ((sortedKeys m).map (fun k => (textOf k, encodeNames ((m.get k).getD none))))
      ((sortedKeys m).map (fun k => (textOf k, namesJ ((m.get k).getD none)))) := by
    rw [List.forall₂_map_left_iff, List.forall₂_map_right_iff]
    exact List.forall₂_same.2 (fun k _ =>
      ⟨rfl, renders_names _ (fun names hn => validClaims_get m hvalid k names hn)⟩)
  have hmap : (sortedKeys m).map
        (fun k => quoteGo k ++ ':' :: encodeNames ((m.get k).getD none))
      = (sortedKeys m).map
        (fun k => quote (textOf k) ++ ':' :: encodeNames ((m.get k).getD none)) :=
    List.map_congr_left (fun k hk => by
      rw [quoteGo_valid k (validClaims_key m hvalid k ((mem_sortedKeys m k).1 hk))])
  have := renders_obj 1 _ _ hall
  simpa [encodeClaims, claimsJ, List.map_map, Function.comp_def, hmap] using this

theorem renders_v1 (v : CheckpointV1) (hvalid : validClaims v.PreparedClaims = true) :
    Renders 3 (encodeV1 v) (v1J v) := by
  by_cases hempty : v.PreparedClaims = []
  · have := renders_obj 2 [] [] List.Forall₂.nil
    simpa [encodeV1, v1J, hempty, joinComma] using this
  · have hall : List.Forall₂ (fun (kt : List Char × List Char) (kv : List Char × JValue) =>
        kt.1 = kv.1 ∧ Renders 2 kt.2 kv.2)
        [("preparedClaims".data, encodeClaims v.PreparedClaims)]
        [("preparedClaims".data, claimsJ v.PreparedClaims)] :=
      List.Forall₂.cons ⟨rfl, renders_claims _ hvalid⟩ List.Forall₂.nil
    have := renders_obj 2 _ _ hall
    have hq : quote "preparedClaims".data = "\"preparedClaims\"".data := by decide
    simpa [encodeV1, v1J, hempty, joinComma, hq] using this

theorem renders_doc (key : List Char) (cp : Checkpoint)
    (hvalid : ∀ v, cp.V1 = some v → validClaims v.PreparedClaims = true) :
    Renders 4 (encodeKeyed key cp) (docJ key cp) := by
  cases hv : cp.V1 with
  | none =>
    have hall : List.Forall₂ (fun (kt : List Char × List Char) (kv : List Char × JValue) =>
        kt.1 = kv.1 ∧ Renders 3 kt.2 kv.2)
        [(key, fmtNat cp.Checksum)] [(key, JValue.num (fmtNat cp.Checksum))] :=
      List.Forall₂.cons ⟨rfl, (renders_num _).mono (by omega)⟩ List.Forall₂.nil
    have := renders_obj 3 _ _ hall
    simpa [encodeKeyed, docJ, hv, joinComma] using this
  | some v =>
    have hall : List.Forall₂ (fun (kt : List Char × List Char) (kv : List Char × JValue) =>
        kt.1 = kv.1 ∧ Renders 3 kt.2 kv.2)
        [(key, fmtNat cp.Checksum), ("v1".data, encodeV1 v)]
        [(key, JValue.num (fmtNat cp.Checksum)), ("v1".data, v1J v)] :=
      List.Forall₂.cons ⟨rfl, (renders_num _).mono (by omega)⟩
        (List.Forall₂.cons ⟨rfl, renders_v1 v (hvalid v hv)⟩ List.Forall₂.nil)
    have := renders_obj 3 _ _ hall
    have hq : quote "v1".data = "\"v1\"".data := by decide
    simpa [encodeKeyed, docJ, hv, joinComma, hq] using this

theorem parseJSON_encodeKeyed (key : List Char) (cp : Checkpoint)
    (hvalid : ∀ v, cp.V1 = some v → validClaims v.PreparedClaims = true) :
    parseJSON (encodeKeyed key cp) = some (docJ key cp) := by
  have h := renders_doc key cp hvalid (2 * (encodeKeyed key cp).length + 2) 0 [] (by simp)
    (by decide) trivial
  rw [List.append_nil] at h
  simp [parseJSON, h, skipWs]

theorem encodeCheckpoint_eq (cp : Checkpoint) :
    encodeCheckpoint cp = encodeKeyed "checksum".data cp := by
  have hq : quote "checksum".data = "\"checksum\"".data := by decide
  simp [encodeCheckpoint, encodeKeyed, hq]

/-! ## Typed decoding -/

theorem decodeNames_namesJ (o : Option (List GoString))
    (hv : ∀ names, o = some names → ∀ n ∈ names, validUTF8 n = true) :
    decodeNames (namesJ o) = Except.ok o := by
  cases o with
  | none => rfl
  | some names =>
    have h : ∀ l : List GoString, (∀ n ∈ l, validUTF8 n = true) →
        (l.map (fun s => JValue.str (textOf s))).mapM (fun e =>
          match e with
          | JValue.str s => (Except.ok (utf8Encode s) : Except CkError GoString)
          | JValue.null => Except.ok []
          | _ => Except.error (CkError.json "cannot unmarshal into Go value of type string"))
        = Except.ok l := by
      intro l
      induction l with
      | nil => intro _; rfl
      | cons s l ih =>
        intro hl
        simp only [List.map_cons, List.mapM_cons,
          ih (fun n hn => hl n (List.mem_cons_of_mem _ hn)),
          validUTF8_eq s (hl s (List.mem_cons_self _ _))]
        rfl
    simp only [namesJ, decodeNames, h names (hv names rfl)]
    rfl

theorem decodeClaims_map (f : GoString → Option (List GoString)) (ks : List GoString)
    (hk : ∀ k ∈ ks, validUTF8 k = true)
    (hf : ∀ k ∈ ks, ∀ names, f k = some names → ∀ n ∈ names, validUTF8 n = true) :
    ∀ acc : PreparedClaims,
      decodeClaims acc (ks.map (fun k => (textOf k, namesJ (f k))))
        = Except.ok (ks.foldl (fun a k => a.set k (f k)) acc) := by
  induction ks with
  | nil => intro acc; rfl
  | cons k ks ih =>
    intro acc
    simp only [List.map_cons, decodeClaims,
      decodeNames_namesJ (f k) (hf k (List.mem_cons_self _ _)), List.foldl_cons,
      validUTF8_eq k (hk k (List.mem_cons_self _ _))]
    exact ih (fun x hx => hk x (List.mem_cons_of_mem _ hx))
      (fun x hx => hf x (List.mem_cons_of_mem _ hx)) _

theorem get_foldl_set {ν : Type} (f : GoString → ν) (ks : List GoString) :
    ∀ (acc : ByteMap ν) (k : GoString),
      (ks.foldl (fun a k => a.set k (f k)) acc).get k
        = if k ∈ ks then some (f k) else acc.get k := by
  induction ks with
  | nil => intro acc k; simp
  | cons k₀ ks ih =>
    intro acc k
    simp only [List.foldl_cons, ih, ByteMap.get_after_set, List.mem_cons]
    by_cases h1 : k ∈ ks
    · simp [h1]
    · by_cases h2 : k₀ = k
      · subst h2; simp [h1]
      · have : ¬ k = k₀ := fun h => h2 h.symm
        simp [h1, h2, this]

/-- Decoding the JSON value of a claims map of valid strings into an empty map
gives a map with the same bindings. -/
theorem decodeClaims_claimsJ (m : PreparedClaims) (hvalid : validClaims m = true) :
    ∃ m', (match claimsJ m with
        | JValue.obj ms => decodeClaims [] ms
        | _ => Except.error (CkError.json "")) = Except.ok m' ∧
      ∀ k, m'.get k = m.get k := by
  refine ⟨_, decodeClaims_map (fun k => (m.get k).getD none) (sortedKeys m)
    (fun k hk => validClaims_key m hvalid k ((mem_sortedKeys m k).1 hk))
    (fun k _ names hn => validClaims_get m hvalid k names hn) [], ?_⟩
  intro k
  rw [get_foldl_set]
  by_cases hk : k ∈ sortedKeys m
  · simp only [hk, if_true]
    cases hg : m.get k with
    | none => exact absurd ((mem_sortedKeys m k).1 hk) ((ByteMap.get_eq_none m k).1 hg)
    | some v => rfl
  · simp only [hk, if_false]
    rw [(ByteMap.get_eq_none m k).2 (fun h => hk ((mem_sortedKeys m k).2 h))]
    rfl

theorem fmtNat_all_isDigit (n : Nat) : (fmtNat n).all isDigit = true := by
  rw [List.all_eq_true]
  exact fmtNat_isDigit n

/-- Decoding the document of a checkpoint with a payload `m` of valid strings
and a checksum `n < 2^64`, written under any key that selects the `checksum`
field, into a checkpoint made by `newCheckpoint`. -/
theorem decode_docJ (key : List Char) (hkey : keyMatches "checksum".data key = true)
    (n : Nat) (hn : n < 2 ^ 64) (m : PreparedClaims) (hvalid : validClaims m = true) :
    ∃ m', (match docJ key { Checksum := n, V1 := some { PreparedClaims := m } } with
        | JValue.obj ms => decodeFields decodeCheckpointField newCheckpoint ms
        | _ => Except.error (CkError.json ""))
        = Except.ok { Checksum := n, V1 := some { PreparedClaims := m' } } ∧
      ∀ k, m'.get k = m.get k := by
  have hv1a : keyMatches "checksum".data "v1".data = false := by decide
  have hv1b : keyMatches "v1".data "v1".data = true := by decide
  have hpc : keyMatches "preparedClaims".data "preparedClaims".data = true := by decide
  have hnum : (fmtNat n).all isDigit = true ∧ digitsValue (fmtNat n) < 2 ^ 64 := by
    rw [digitsValue_fmtNat]; exact ⟨fmtNat_all_isDigit n, hn⟩
  have hn' : n < 18446744073709551616 := hn
  by_cases hm : m = []
  · refine ⟨[], ?_, by intro k; rw [hm]⟩
    simp [docJ, v1J, hm, decodeFields, decodeCheckpointField, hkey, hnum, digitsValue_fmtNat,
      hv1a, hv1b, newCheckpoint, Except.map, hn']
  · obtain ⟨m', hdec, hget⟩ := decodeClaims_claimsJ m hvalid
    refine ⟨m', ?_, hget⟩
    simp only [claimsJ] at hdec
    simp [docJ, v1J, hm, decodeFields, decodeCheckpointField, hkey, hnum, digitsValue_fmtNat,
      hv1a, hv1b, hpc, newCheckpoint, Except.map, decodeV1Field, claimsJ, hdec, hn']

/-! ## The checkpoint store -/

/-- What `MarshalCheckpoint` returns and leaves behind for a checkpoint with
payload `m`, with `json.Marshal` as linked. -/
theorem marshalCheckpoint_eq (h : Bytes → Nat) (c : Nat) (m : PreparedClaims) :
    Checkpoint.MarshalCheckpoint (goLib h) { Checksum := c, V1 := some { PreparedClaims := m } }
      = (Except.ok (utf8Encode (encodeCheckpoint
            { Checksum := (goLib h).New (utf8Encode (encodeCheckpoint
                { Checksum := 0, V1 := some { PreparedClaims := m } })),
              V1 := some { PreparedClaims := m } })),
          { Checksum := (goLib h).New (utf8Encode (encodeCheckpoint
                { Checksum := 0, V1 := some { PreparedClaims := m } })),
            V1 := some { PreparedClaims := m } }) := rfl

theorem lib_new_lt (L : Lib) (data : Bytes) : L.New data < 2 ^ 64 :=
  Nat.mod_lt _ (by decide)

/-- Loading the text of a checkpoint whose claim ids and device names are valid
UTF-8, written under any key that selects the `checksum` field, into a
checkpoint made by `newCheckpoint`. -/
theorem load_keyed (h : Bytes → Nat) (key : List Char)
    (hkey : keyMatches "checksum".data key = true) (n : Nat) (hn : n < 2 ^ 64)
    (m : PreparedClaims) (hvalid : validClaims m = true) :
    ∃ m', Checkpoint.UnmarshalCheckpoint (goLib h) newCheckpoint
        (utf8Encode (encodeKeyed key { Checksum := n, V1 := some { PreparedClaims := m } }))
        = Except.ok { Checksum := n, V1 := some { PreparedClaims := m' } } ∧
      ∀ k, m'.get k = m.get k := by
  obtain ⟨m', hdec, hget⟩ := decode_docJ key hkey n hn m hvalid
  refine ⟨m', ?_, hget⟩
  show jsonUnmarshal _ newCheckpoint = _
  unfold jsonUnmarshal
  rw [utf8DecodeLossy_encode _ _ (Nat.le_refl _), parseJSON_encodeKeyed _ _ (by
    intro v hv
    simp only [Option.some.injEq] at hv
    rw [← hv]
    exact hvalid)]
  exact hdec

/-- `VerifyChecksum` succeeds on a checkpoint whose payload has the bindings of
`m` and whose checksum is the one `MarshalCheckpoint` computes for `m`. -/
theorem verify_loaded (h : Bytes → Nat) (m m' : PreparedClaims)
    (hget : ∀ k, m'.get k = m.get k) :
    (Checkpoint.VerifyChecksum (goLib h)
      { Checksum := (goLib h).New (utf8Encode (encodeCheckpoint
          { Checksum := 0, V1 := some { PreparedClaims := m } })),
        V1 := some { PreparedClaims := m' } }).1 = Except.ok () := by
  have henc : encodeCheckpoint { Checksum := 0, V1 := some { PreparedClaims := m' } }
      = encodeCheckpoint { Checksum := 0, V1 := some { PreparedClaims := m } } := by
    simp only [encodeCheckpoint, encodeV1_congr m m' hget]
  simp [Checkpoint.VerifyChecksum, goLib, jsonMarshal, Lib.Verify, henc]

/-- The value returned by `VerifyChecksum` when the serialization succeeds. -/
theorem verifyChecksum_result (L : Lib) (cp : Checkpoint) (out : Bytes)
    (hser : L.Marshal { cp with Checksum := 0 } = Except.ok out) :
    ((∃ e, (cp.VerifyChecksum L).1 = Except.error e) ↔ cp.Checksum ≠ L.New out) ∧
    ((cp.VerifyChecksum L).1 = Except.ok () ↔ cp.Checksum = L.New out) := by
  unfold Checkpoint.VerifyChecksum
  simp only [hser, Lib.Verify]
  by_cases hc : cp.Checksum = L.New out
  · simp [hc]
  · simp [hc]

/-- C5: `VerifyChecksum` leaves the checkpoint as it found it, `Checksum` and
`V1` alike, on every exit path: with any `json.Marshal` (failing or not) and any
hash, whatever it returns. -/
theorem verifyChecksum_restores (L : Lib) (cp : Checkpoint) :
    (cp.VerifyChecksum L).2 = cp ∧
    (cp.VerifyChecksum L).2.Checksum = cp.Checksum ∧
    (cp.VerifyChecksum L).2.V1 = cp.V1 :=
  ⟨rfl, rfl, rfl⟩

/-- C4: when serializing the checkpoint with its `Checksum` set to zero succeeds
with bytes `out`, `VerifyChecksum` returns an error if and only if the stored
`Checksum` differs from the checksum of `out`, and returns no error if and only
if they are equal. -/
theorem verifyChecksum_error_iff (L : Lib) (cp : Checkpoint) (out : Bytes)
    (hser : L.Marshal { cp with Checksum := 0 } = Except.ok out) :
    ((∃ e, (cp.VerifyChecksum L).1 = Except.error e) ↔ cp.Checksum ≠ L.New out) ∧
    ((cp.VerifyChecksum L).1 = Except.ok () ↔ cp.Checksum = L.New out) :=
  verifyChecksum_result L cp out hser

/-- C4 at the checkpoint made by `newCheckpoint`, with `encoding/json` and the
sample hash: the serialization succeeds, and the two equivalences hold. -/
theorem verifyChecksum_error_iff_sample :
    (goLib fnv1a32).Marshal { newCheckpoint with Checksum := 0 }
        = Except.ok (utf8Encode (encodeCheckpoint newCheckpoint)) ∧
    ((∃ e, (newCheckpoint.VerifyChecksum (goLib fnv1a32)).1 = Except.error e) ↔
        newCheckpoint.Checksum
          ≠ (goLib fnv1a32).New (utf8Encode (encodeCheckpoint newCheckpoint))) ∧
    ((newCheckpoint.VerifyChecksum (goLib fnv1a32)).1 = Except.ok () ↔
        newCheckpoint.Checksum
          = (goLib fnv1a32).New (utf8Encode (encodeCheckpoint newCheckpoint))) :=
  ⟨rfl, verifyChecksum_error_iff (goLib fnv1a32) newCheckpoint
    (utf8Encode (encodeCheckpoint newCheckpoint)) rfl⟩

theorem sameBindings_iff (a b : PreparedClaims) :
    sameBindings a b = true ↔ ∀ k, a.get k = b.get k := by
  unfold sameBindings
  simp only [List.all_eq_true, List.mem_append, decide_eq_true_eq]
  constructor
  · intro h k
    by_cases hk : k ∈ a.keys ∨ k ∈ b.keys
    · exact h k hk
    · simp only [not_or] at hk
      rw [(ByteMap.get_eq_none a k).2 hk.1, (ByteMap.get_eq_none b k).2 hk.2]
  · intro h k _
    exact h k

/-- A checkpoint is the saved document with checksum `c` and payload `m` when
it holds `c` and a payload with the bindings of `m`. -/
theorem isSavedDocument_iff (cp' : Checkpoint) (c : Nat) (m : PreparedClaims) :
    isSavedDocument cp' { Checksum := c, V1 := some { PreparedClaims := m } } = true ↔
      cp'.Checksum = c ∧ ∃ m', cp'.V1 = some { PreparedClaims := m' } ∧
        ∀ k, m'.get k = m.get k := by
  obtain ⟨c', v'⟩ := cp'
  cases v' with
  | none => simp [isSavedDocument]
  | some v =>
    obtain ⟨m'⟩ := v
    simp [isSavedDocument, sameBindings_iff]

set_option maxRecDepth 100000 in
/-- C1, as stated, fails for a claim id that is not valid UTF-8: the claims
mapping with the claim id `0xFF` is saved (with the sample hash) with the id
written as the escape `\ufffd`; the bytes load, with the three bytes of U+FFFD
as the claim id, and `VerifyChecksum` on the loaded checkpoint returns the
error of a corrupt checkpoint, because the loaded id is serialized as the
character itself and not as the escape. -/
theorem invalid_id_fails_verify_example :
    (Checkpoint.MarshalCheckpoint (goLib fnv1a32)
        { newCheckpoint with V1 := some { PreparedClaims := invalidIdClaims } }).1
      = Except.ok (utf8Encode
          "\x7b\"checksum\":2952376884,\"v1\":\x7b\"preparedClaims\":\x7b\"\\ufffd\":[\"gpu-1-128\"]\x7d\x7d\x7d".data) ∧
    newCheckpoint.UnmarshalCheckpoint (goLib fnv1a32) (utf8Encode
          "\x7b\"checksum\":2952376884,\"v1\":\x7b\"preparedClaims\":\x7b\"\\ufffd\":[\"gpu-1-128\"]\x7d\x7d\x7d".data)
      = Except.ok { Checksum := 2952376884,
                    V1 := some { PreparedClaims :=
                      [([0xEF, 0xBF, 0xBD], some [utf8Encode "gpu-1-128".data])] } } ∧
    (Checkpoint.VerifyChecksum (goLib fnv1a32)
        { Checksum := 2952376884,
          V1 := some { PreparedClaims :=
            [([0xEF, 0xBF, 0xBD], some [utf8Encode "gpu-1-128".data])] } }).1
      = Except.error (CkError.corrupt 3490931852 2952376884) := by
  refine ⟨?_, ?_, ?_⟩
  · rfl
  · rfl
  · rfl

/-- C1 (as amended): for every claims mapping put into a checkpoint made by
`newCheckpoint`, `MarshalCheckpoint` succeeds and `VerifyChecksum` then returns
no error on that checkpoint; when the claim ids and device names of the mapping
are valid UTF-8, loading the produced bytes into a fresh checkpoint succeeds and
`VerifyChecksum` returns no error on the loaded checkpoint. -/
theorem save_then_verify (h : Bytes → Nat) (m : PreparedClaims)
    (hvalid : validClaims m = true) :
    (∀ m₀ : PreparedClaims, ∃ bytes cp1,
      Checkpoint.MarshalCheckpoint (goLib h)
          { newCheckpoint with V1 := some { PreparedClaims := m₀ } } = (Except.ok bytes, cp1) ∧
      (cp1.VerifyChecksum (goLib h)).1 = Except.ok ()) ∧
    ∃ bytes cp1 cp2,
      Checkpoint.MarshalCheckpoint (goLib h) { newCheckpoint with V1 := some { PreparedClaims := m } }
        = (Except.ok bytes, cp1) ∧
      (cp1.VerifyChecksum (goLib h)).1 = Except.ok () ∧
      newCheckpoint.UnmarshalCheckpoint (goLib h) bytes = Except.ok cp2 ∧
      (cp2.VerifyChecksum (goLib h)).1 = Except.ok () := by
  obtain ⟨m', hload, hget⟩ := load_keyed h "checksum".data (by decide) _
    (lib_new_lt (goLib h) (utf8Encode (encodeCheckpoint
      { Checksum := 0, V1 := some { PreparedClaims := m } }))) m hvalid
  rw [← encodeCheckpoint_eq] at hload
  exact ⟨fun m₀ => ⟨_, _, marshalCheckpoint_eq h 0 m₀, verify_loaded h m₀ m₀ (fun _ => rfl)⟩,
    _, _, _, marshalCheckpoint_eq h 0 m, verify_loaded h m m (fun _ => rfl), hload,
    verify_loaded h m m' hget⟩

set_option maxRecDepth 100000 in
/-- C1 at the sample claims mapping with the sample hash. -/
theorem save_then_verify_sample :
    validClaims sampleClaims = true ∧
    ∃ bytes cp1 cp2,
      Checkpoint.MarshalCheckpoint (goLib fnv1a32)
          { newCheckpoint with V1 := some { PreparedClaims := sampleClaims } }
        = (Except.ok bytes, cp1) ∧
      (cp1.VerifyChecksum (goLib fnv1a32)).1 = Except.ok () ∧
      newCheckpoint.UnmarshalCheckpoint (goLib fnv1a32) bytes = Except.ok cp2 ∧
      (cp2.VerifyChecksum (goLib fnv1a32)).1 = Except.ok () :=
  ⟨by decide, (save_then_verify fnv1a32 sampleClaims (by decide)).2⟩

set_option maxRecDepth 100000 in
/-- C2, as stated, fails for a claim id that is not valid UTF-8: the claims
mapping that binds the claim id `0xFF` is saved and loaded (with the sample
hash) as a mapping that binds the three bytes of U+FFFD instead and has no
binding for `0xFF`. -/
theorem invalid_id_not_recovered_example :
    ∃ bytes cp1 m',
      Checkpoint.MarshalCheckpoint (goLib fnv1a32)
          { newCheckpoint with V1 := some { PreparedClaims := invalidIdClaims } }
        = (Except.ok bytes, cp1) ∧
      newCheckpoint.UnmarshalCheckpoint (goLib fnv1a32) bytes
        = Except.ok { Checksum := cp1.Checksum, V1 := some { PreparedClaims := m' } } ∧
      invalidIdClaims.get [0xFF] = some (some [utf8Encode "gpu-1-128".data]) ∧
      m'.get [0xFF] = none ∧
      m'.get [0xEF, 0xBF, 0xBD] = some (some [utf8Encode "gpu-1-128".data]) ∧
      m'.keys = [[0xEF, 0xBF, 0xBD]] :=
  ⟨_, _, [([0xEF, 0xBF, 0xBD], some [utf8Encode "gpu-1-128".data])], rfl, by rfl, by decide,
    by decide, by decide, by decide⟩

/-- C2 (as amended): for every claims mapping `m` whose claim ids and device
names are valid UTF-8, loading the bytes returned by `MarshalCheckpoint` into a
fresh checkpoint succeeds and yields a checkpoint whose `preparedClaims` has
exactly the bindings of `m`: the same claim ids, each with the same device
names in the same order. -/
theorem load_recovers_claims (h : Bytes → Nat) (m : PreparedClaims)
    (hvalid : validClaims m = true) :
    ∃ bytes cp1 m',
      Checkpoint.MarshalCheckpoint (goLib h) { newCheckpoint with V1 := some { PreparedClaims := m } }
        = (Except.ok bytes, cp1) ∧
      newCheckpoint.UnmarshalCheckpoint (goLib h) bytes
        = Except.ok { Checksum := cp1.Checksum, V1 := some { PreparedClaims := m' } } ∧
      (∀ k, k ∈ m'.keys ↔ k ∈ m.keys) ∧
      (∀ k, m'.get k = m.get k) := by
  obtain ⟨m', hload, hget⟩ := load_keyed h "checksum".data (by decide) _
    (lib_new_lt (goLib h) (utf8Encode (encodeCheckpoint
      { Checksum := 0, V1 := some { PreparedClaims := m } }))) m hvalid
  rw [← encodeCheckpoint_eq] at hload
  exact ⟨_, _, m', marshalCheckpoint_eq h 0 m, hload,
    fun k => (ByteMap.keys_of_get m m' hget k).symm, hget⟩

set_option maxRecDepth 100000 in
/-- C2 at the sample claims mapping with the sample hash. -/
theorem load_recovers_claims_sample :
    validClaims sampleClaims = true ∧
    ∃ bytes cp1 m',
      Checkpoint.MarshalCheckpoint (goLib fnv1a32)
          { newCheckpoint with V1 := some { PreparedClaims := sampleClaims } }
        = (Except.ok bytes, cp1) ∧
      newCheckpoint.UnmarshalCheckpoint (goLib fnv1a32) bytes
        = Except.ok { Checksum := cp1.Checksum, V1 := some { PreparedClaims := m' } } ∧
      (∀ k, k ∈ m'.keys ↔ k ∈ sampleClaims.keys) ∧
      (∀ k, m'.get k = sampleClaims.get k) :=
  ⟨by decide, load_recovers_claims fnv1a32 sampleClaims (by decide)⟩

theorem accepts_iff (L : Lib) (data : Bytes) :
    accepts L data = true ↔
      ∃ cp', newCheckpoint.UnmarshalCheckpoint L data = Except.ok cp' ∧
        (cp'.VerifyChecksum L).1 = Except.ok () := by
  unfold accepts
  cases hload : newCheckpoint.UnmarshalCheckpoint L data with
  | error e => simp
  | ok cp' =>
    cases hver : (cp'.VerifyChecksum L).1 with
    | error e => simp [hver]
    | ok u => simp [hver]

theorem verifyChecksum_goLib_iff (h : Bytes → Nat) (cp : Checkpoint) :
    (cp.VerifyChecksum (goLib h)).1 = Except.ok () ↔
      cp.Checksum = (goLib h).New (utf8Encode (encodeCheckpoint { cp with Checksum := 0 })) :=
  (verifyChecksum_result (goLib h) cp _ rfl).2

/-- A checkpoint that is the saved document passes `VerifyChecksum`. -/
theorem verify_saved_document (h : Bytes → Nat) (m : PreparedClaims) (cp' : Checkpoint)
    (hsaved : isSavedDocument cp'
      { Checksum := (goLib h).New (utf8Encode (encodeCheckpoint
          { Checksum := 0, V1 := some { PreparedClaims := m } })),
        V1 := some { PreparedClaims := m } } = true) :
    (cp'.VerifyChecksum (goLib h)).1 = Except.ok () := by
  obtain ⟨hc, m', hv, hget⟩ := (isSavedDocument_iff cp' _ m).1 hsaved
  obtain ⟨c', v'⟩ := cp'
  simp only at hc hv
  subst hc hv
  exact verify_loaded h m m' hget

/-! ## Flipped bits in the digits of the checksum -/

theorem utf8Encode_append (a b : List Char) :
    utf8Encode (a ++ b) = utf8Encode a ++ utf8Encode b := by
  simp [utf8Encode]

theorem utf8EncodeChar_ascii (c : Char) (h : c.toNat < 128) :
    utf8EncodeChar c = [UInt8.ofNat c.toNat] := by
  unfold utf8EncodeChar
  simp [h]

theorem utf8Encode_ascii (cs : List Char) (h : ∀ c ∈ cs, c.toNat < 128) :
    utf8Encode cs = cs.map (fun c => UInt8.ofNat c.toNat) := by
  induction cs with
  | nil => rfl
  | cons c cs ih =>
    have hc := utf8EncodeChar_ascii c (h c (List.mem_cons_self _ _))
    have := ih (fun x hx => h x (List.mem_cons_of_mem _ hx))
    simp only [utf8Encode, List.flatMap_cons, List.map_cons] at this ⊢
    rw [hc, this]
    rfl

theorem isDigit_ascii (c : Char) (h : isDigit c = true) : c.toNat < 128 := by
  have hb : 48 ≤ c.toNat ∧ c.toNat ≤ 57 := by simpa [isDigit] using h
  omega

/-- Flipping a bit behind a prefix of whole bytes leaves the prefix alone. -/
theorem flipBit_append (a b : Bytes) (pos : Nat) :
    flipBit (a ++ b) (8 * a.length + pos) = a ++ flipBit b pos := by
  induction a with
  | nil => simp
  | cons x a ih =>
    have h8 : ¬ (8 * (a.length + 1) + pos < 8) := by omega
    have he : 8 * (a.length + 1) + pos - 8 = 8 * a.length + pos := by omega
    simp only [List.cons_append, List.length_cons, flipBit, h8, if_false, he]
    exact congrArg (fun l => x :: l) ih

theorem flipBit_head (b : UInt8) (bs : Bytes) (j : Nat) (h : j < 8) :
    flipBit (b :: bs) j = (b ^^^ UInt8.ofNat (2 ^ j)) :: bs := by
  simp [flipBit, h]

/-- A byte `10xxxxxx` at the start of a sequence is read as U+FFFD. -/
theorem decodeRune_stray (b : UInt8) (rest : Bytes) (h : 0x80 ≤ b.toNat ∧ b.toNat ≤ 0xBF) :
    decodeRune (b :: rest) = some (replacementChar, rest) := by
  have a1 : ¬ (b.toNat < 0x80) := by omega
  have a2 : ¬ (0xC2 ≤ b.toNat ∧ b.toNat ≤ 0xDF) := by omega
  have a3 : ¬ (0xE0 ≤ b.toNat ∧ b.toNat ≤ 0xEF) := by omega
  have a4 : ¬ (0xF0 ≤ b.toNat ∧ b.toNat ≤ 0xF4) := by omega
  simp only [decodeRune, a1, a2, a3, a4, if_false]

/-- The characters read in the encoding of a text followed by other bytes. -/
theorem utf8DecodeLossy_append (cs : List Char) (rest : Bytes) :
    ∀ fuel, (utf8Encode cs ++ rest).length ≤ fuel →
      utf8DecodeLossy fuel (utf8Encode cs ++ rest)
        = cs ++ utf8DecodeLossy (fuel - cs.length) rest := by
  induction cs with
  | nil =>
    intro fuel _
    simp [utf8Encode]
  | cons c cs ih =>
    intro fuel hfuel
    have hlen := utf8EncodeChar_length_pos c
    have hsplit : utf8Encode (c :: cs) = utf8EncodeChar c ++ utf8Encode cs := by
      simp [utf8Encode]
    rw [hsplit, List.append_assoc] at hfuel ⊢
    rw [List.length_append] at hfuel
    cases fuel with
    | zero => omega
    | succ fuel =>
      have hle : (utf8Encode cs ++ rest).length ≤ fuel := by omega
      simp only [utf8DecodeLossy, decodeRune_encode, List.cons_append, List.length_cons]
      rw [ih fuel hle]
      have he : fuel + 1 - (cs.length + 1) = fuel - cs.length := by omega
      rw [he]

/-- What a flipped bit makes of a decimal digit: another digit, a space (of the
digit `0` only), a quote or the letter `t`, or a character that starts no value;
in every case but the first two, one that breaks off a number. -/
theorem flippedChar_cases (d : Char) (hd : isDigit d = true) (j : Nat) (hj : j < 8) :
    ((UInt8.ofNat d.toNat ^^^ UInt8.ofNat (2 ^ j)).toNat < 0x80 ∨
      (0x80 ≤ (UInt8.ofNat d.toNat ^^^ UInt8.ofNat (2 ^ j)).toNat ∧
        (UInt8.ofNat d.toNat ^^^ UInt8.ofNat (2 ^ j)).toNat ≤ 0xBF)) ∧
    ((isDigit (flippedChar d j) = true ∧ flippedChar d j ≠ d ∧
        [UInt8.ofNat d.toNat ^^^ UInt8.ofNat (2 ^ j)] = utf8EncodeChar (flippedChar d j)) ∨
      (d = '0' ∧ flippedChar d j = ' ') ∨
      (breaksNumber (flippedChar d j) = true ∧
        (flippedChar d j = '"' ∨ flippedChar d j = 't' ∨
          startsNoValue (flippedChar d j) = true))) := by
  have hb : 48 ≤ d.toNat ∧ d.toNat ≤ 57 := by simpa [isDigit] using hd
  have hc := Char.ofNat_toNat d
  generalize d.toNat = n at hb hc
  subst hc
  obtain ⟨h1, h2⟩ := hb
  interval_cases n <;> interval_cases j <;> decide

/-- The digits pushed by `natDigitsAux` are those of `fmtNat`, whatever the
fuel and the digits already there. -/
theorem natDigitsAux_eq (n : Nat) :
    ∀ fuel acc, n < fuel → natDigitsAux fuel n acc = fmtNat n ++ acc := by
  induction n using Nat.strong_induction_on with
  | _ n ih =>
    intro fuel acc hlt
    cases fuel with
    | zero => omega
    | succ fuel =>
      by_cases h10 : n < 10
      · simp [natDigitsAux, fmtNat, h10]
      · have h1 : natDigitsAux (fuel + 1) n acc
            = natDigitsAux fuel (n / 10) (digitChar (n % 10) :: acc) := by
          simp [natDigitsAux, h10]
        have h2 : fmtNat n = natDigitsAux n (n / 10) [digitChar (n % 10)] := by
          simp [fmtNat, natDigitsAux, h10]
        rw [h1, h2, ih (n / 10) (by omega) fuel _ (by omega), ih (n / 10) (by omega) n _ (by omega)]
        simp

theorem fmtNat_lt_ten (n : Nat) (h : n < 10) : fmtNat n = [digitChar n] := by
  simp [fmtNat, natDigitsAux, h]

theorem fmtNat_snoc (v x : Nat) (hv : 0 < v) (hx : x < 10) :
    fmtNat (10 * v + x) = fmtNat v ++ [digitChar x] := by
  have h10 : ¬ (10 * v + x < 10) := by omega
  have hdiv : (10 * v + x) / 10 = v := by omega
  have hmod : (10 * v + x) % 10 = x := by omega
  have h2 : fmtNat (10 * v + x) = natDigitsAux (10 * v + x) v [digitChar x] := by
    simp [fmtNat, natDigitsAux, h10, hdiv, hmod]
  rw [h2, natDigitsAux_eq v _ _ (by omega)]

theorem digitChar_of_isDigit (d : Char) (h : isDigit d = true) :
    digitChar (d.toNat - 48) = d ∧ d.toNat - 48 < 10 := by
  have hb : 48 ≤ d.toNat ∧ d.toNat ≤ 57 := by simpa [isDigit] using h
  refine ⟨?_, by omega⟩
  unfold digitChar
  have : 48 + (d.toNat - 48) = d.toNat := by omega
  rw [this, Char.ofNat_toNat]

theorem digitsValue_snoc (ds : List Char) (d : Char) :
    digitsValue (ds ++ [d]) = 10 * digitsValue ds + (d.toNat - 48) := by
  simp [digitsValue, List.foldl_append]

theorem fmtNat_head_zero (n : Nat) (h : (fmtNat n).head? = some '0') : fmtNat n = ['0'] := by
  by_cases h0 : n = 0
  · subst h0; decide
  · obtain ⟨d, ds, hd1, hd2, heq, _⟩ := natDigitsAux_head (n + 1) n [] (by omega) (by omega)
    have hfmt : fmtNat n = digitChar d :: ds := by
      unfold fmtNat; rw [heq]; simp
    rw [hfmt] at h
    simp only [List.head?_cons, Option.some.injEq] at h
    exact absurd h (digitChar_ne_zero d hd1 hd2)

/-- A run of decimal digits without a leading zero is the rendering of its
value. -/
theorem fmtNat_digitsValue (ds : List Char) (hne : ds ≠ [])
    (hall : ∀ c ∈ ds, isDigit c = true) (hlead : ds.head? = some '0' → ds = ['0']) :
    fmtNat (digitsValue ds) = ds := by
  induction ds using List.reverseRecOn with
  | nil => exact absurd rfl hne
  | append_singleton init d ih =>
    have hd := hall d (by simp)
    obtain ⟨hdc, hdx⟩ := digitChar_of_isDigit d hd
    by_cases hinit : init = []
    · subst hinit
      have hv : digitsValue ([] ++ [d]) = d.toNat - 48 := by simp [digitsValue]
      rw [hv, fmtNat_lt_ten _ hdx, hdc]
      rfl
    · have hnz : init.head? ≠ some '0' := by
        intro h0
        have hh : (init ++ [d]).head? = some '0' := by
          cases init with
          | nil => exact absurd rfl hinit
          | cons a as => simpa using h0
        have := hlead hh
        cases init with
        | nil => exact absurd rfl hinit
        | cons a as =>
          cases as <;> simp at this
      have ih' := ih hinit (fun c hc => hall c (by simp [hc])) (fun h0 => absurd h0 hnz)
      have hv : 0 < digitsValue init := by
        by_contra hzero
        have h0 : digitsValue init = 0 := by omega
        rw [h0] at ih'
        have : init = ['0'] := by rw [← ih']; decide
        rw [this] at hnz
        exact hnz rfl
      rw [digitsValue_snoc, fmtNat_snoc _ _ hv hdx, ih', hdc]

theorem decodeRune_flipped (d : Char) (hd : isDigit d = true) (j : Nat) (hj : j < 8)
    (rest : Bytes) :
    decodeRune ((UInt8.ofNat d.toNat ^^^ UInt8.ofNat (2 ^ j)) :: rest)
      = some (flippedChar d j, rest) := by
  rcases (flippedChar_cases d hd j hj).1 with hlt | hstray
  · rw [decodeRune_one _ _ hlt]
    simp [flippedChar, hlt]
  · rw [decodeRune_stray _ _ hstray]
    have : ¬ (UInt8.ofNat d.toNat ^^^ UInt8.ofNat (2 ^ j)).toNat < 0x80 := by omega
    simp [flippedChar, this]

/-- The characters read in the encoding of an ASCII text in which one bit of a
decimal digit has been flipped. -/
theorem text_of_digit_flip (pre post : List Char) (d : Char) (hd : isDigit d = true)
    (j : Nat) (hj : j < 8) (hpre : ∀ c ∈ pre, c.toNat < 128) :
    textOf (flipBit (utf8Encode (pre ++ d :: post)) (8 * pre.length + j))
      = pre ++ flippedChar d j :: post := by
  have hlen : (utf8Encode pre).length = pre.length := by
    rw [utf8Encode_ascii pre hpre, List.length_map]
  have henc : utf8Encode (pre ++ d :: post)
      = utf8Encode pre ++ (UInt8.ofNat d.toNat :: utf8Encode post) := by
    rw [utf8Encode_append]
    have : utf8Encode (d :: post) = utf8EncodeChar d ++ utf8Encode post := by
      simp [utf8Encode]
    rw [this, utf8EncodeChar_ascii d (isDigit_ascii d hd)]
    rfl
  have hflip : flipBit (utf8Encode (pre ++ d :: post)) (8 * pre.length + j)
      = utf8Encode pre ++ ((UInt8.ofNat d.toNat ^^^ UInt8.ofNat (2 ^ j)) :: utf8Encode post) := by
    rw [henc, ← hlen, flipBit_append, flipBit_head _ _ _ hj]
  unfold textOf
  rw [hflip, utf8DecodeLossy_append pre _ _ (Nat.le_refl _)]
  have hfuel : (utf8Encode pre ++ ((UInt8.ofNat d.toNat ^^^ UInt8.ofNat (2 ^ j)) ::
      utf8Encode post)).length - pre.length = (utf8Encode post).length + 1 := by
    simp only [List.length_append, List.length_cons, hlen]
    omega
  rw [hfuel]
  simp only [utf8DecodeLossy, decodeRune_flipped d hd j hj]
  rw [utf8DecodeLossy_encode post _ (Nat.le_refl _)]

/-- The first member of an object whose text starts with the key `checksum`. -/
theorem parseMembers_checksum (f : Nat) (rest : List Char) (hf : rest.length + 10 < f) :
    parseMembers (f + 1) 1 ("\"checksum\":".data ++ rest) =
      match parseValue f 1 rest with
      | none => none
      | some (v, r3) =>
        match skipWs r3 with
        | [] => none
        | c :: r4 =>
          if c = ',' then
            (parseMembers f 1 r4).map (fun p => (("checksum".data, v) :: p.1, p.2))
          else if c = '}' then some ([("checksum".data, v)], r4)
          else none := by
  have hq : "checksum".data.flatMap quoteChar = "checksum".data := by decide
  have hkey := parseStringBody_quote "checksum".data f (':' :: rest) (by
    rw [hq]
    have : ("checksum".data ++ '"' :: ':' :: rest).length = rest.length + 10 := by
      simp
    omega)
  rw [hq] at hkey
  have hk8 : "checksum".data = ['c', 'h', 'e', 'c', 'k', 's', 'u', 'm'] := rfl
  rw [hk8] at hkey
  have htext : "\"checksum\":".data ++ rest
      = '"' :: (['c', 'h', 'e', 'c', 'k', 's', 'u', 'm'] ++ '"' :: ':' :: rest) := by
    rfl
  rw [htext, hk8, parseMembers]
  simp only [skipWs, isWs]
  simp only [show ¬ ('"' = ' ') by decide, show ¬ ('"' = '\t') by decide,
    show ¬ ('"' = '\r') by decide, show ¬ ('"' = '\n') by decide,
    decide_False, Bool.or_self, Bool.false_eq_true, if_false, if_true, hkey]
  simp only [skipWs, isWs, show ¬ (':' = ' ') by decide,
    show ¬ (':' = '\t') by decide, show ¬ (':' = '\r') by decide, show ¬ (':' = '\n') by decide,
    decide_False, Bool.or_self, Bool.false_eq_true, if_false, if_true]

/-- The whole text of an object that starts with the key `checksum`. -/
theorem parseJSON_checksum_first (X : List Char) :
    parseJSON ("\x7b\"checksum\":".data ++ X) =
      match parseMembers (2 * X.length + 25) 1 ("\"checksum\":".data ++ X) with
      | none => none
      | some (ms, r5) => if skipWs r5 = [] then some (JValue.obj ms) else none := by
  have hlen : ("\x7b\"checksum\":".data ++ X).length = X.length + 12 := by
    simp
  have hfuel : 2 * ("\x7b\"checksum\":".data ++ X).length + 2 = (2 * X.length + 25) + 1 := by
    rw [hlen]; omega
  have htext : "\x7b\"checksum\":".data ++ X = '{' :: '"' :: ("checksum\":".data ++ X) := rfl
  have htext2 : "\"checksum\":".data ++ X = '"' :: ("checksum\":".data ++ X) := rfl
  have hd : ¬ maxNestingDepth ≤ 0 := by decide
  unfold parseJSON
  rw [hfuel, htext, htext2, parseValue]
  simp only [skipWs, isWs, show ¬ ('{' = ' ') by decide, show ¬ ('{' = '\t') by decide,
    show ¬ ('{' = '\r') by decide, show ¬ ('{' = '\n') by decide,
    show ¬ ('"' = ' ') by decide, show ¬ ('"' = '\t') by decide,
    show ¬ ('"' = '\r') by decide, show ¬ ('"' = '\n') by decide,
    show ¬ ('"' = '}') by decide,
    decide_False, Bool.or_self, Bool.false_eq_true, if_false, if_true, hd]
  cases parseMembers (2 * X.length + 25) 1 ('"' :: ("checksum\":".data ++ X)) with
  | none => rfl
  | some p => rfl

/-- Loading bytes whose text is an object that starts with the key `checksum`. -/
theorem jsonUnmarshal_checksum_first (data : Bytes) (X : List Char) (cp : Checkpoint)
    (htext : textOf data = "\x7b\"checksum\":".data ++ X) :
    jsonUnmarshal data cp =
      match parseMembers (2 * X.length + 25) 1 ("\"checksum\":".data ++ X) with
      | none => Except.error (CkError.json "invalid JSON text")
      | some (ms, r5) =>
        if skipWs r5 = [] then decodeFields decodeCheckpointField cp ms
        else Except.error (CkError.json "invalid JSON text") := by
  unfold jsonUnmarshal
  have ht : utf8DecodeLossy data.length data = "\x7b\"checksum\":".data ++ X := htext
  rw [ht, parseJSON_checksum_first]
  cases parseMembers (2 * X.length + 25) 1 ("\"checksum\":".data ++ X) with
  | none => rfl
  | some p =>
    obtain ⟨ms, r5⟩ := p
    by_cases hws : skipWs r5 = []
    · simp [hws]
    · simp [hws]

theorem accepts_of_load_error (L : Lib) (data : Bytes) (e : CkError)
    (h : newCheckpoint.UnmarshalCheckpoint L data = Except.error e) : accepts L data = false := by
  simp [accepts, h]

/-- A character that starts no value, after optional white space, is read as
no value. -/
theorem parseValue_startsNoValue (f depth : Nat) (cs : List Char) (c : Char) (r : List Char)
    (hws : skipWs cs = c :: r) (hc : startsNoValue c = true) :
    parseValue (f + 1) depth cs = none := by
  simp only [startsNoValue, Bool.and_eq_true, Bool.not_eq_true', decide_eq_true_eq] at hc
  obtain ⟨⟨hdig, _⟩, h1, h2, h3, h4, h5, h6, h7⟩ := hc
  have h0 : c ≠ '0' := by
    rintro rfl
    revert hdig
    decide
  rw [parseValue]
  simp only [hws, h1, h2, h3, h4, h5, h6, if_false]
  simp [parseNumber, h7, h0, hdig]

theorem parseValue_t (f depth : Nat) (r : List Char) (hr : r.head? ≠ some 'r') :
    parseValue (f + 1) depth ('t' :: r) = none := by
  rw [parseValue]
  simp only [skipWs, isWs, show ¬ ('t' = ' ') by decide, show ¬ ('t' = '\t') by decide,
    show ¬ ('t' = '\r') by decide, show ¬ ('t' = '\n') by decide, show ¬ ('t' = '{') by decide,
    show ¬ ('t' = '[') by decide, show ¬ ('t' = '"') by decide,
    decide_False, Bool.or_self, Bool.false_eq_true, if_false, if_true]
  split
  · rename_i r' 
    exact absurd rfl hr
  · rfl

theorem parseValue_quote (f depth : Nat) (r : List Char) :
    parseValue (f + 1) depth ('"' :: r)
      = (parseStringBody f r).map (fun p => (JValue.str p.1, p.2)) := by
  rw [parseValue]
  simp only [skipWs, isWs, show ¬ ('"' = ' ') by decide, show ¬ ('"' = '\t') by decide,
    show ¬ ('"' = '\r') by decide, show ¬ ('"' = '\n') by decide, show ¬ ('"' = '{') by decide,
    show ¬ ('"' = '[') by decide,
    decide_False, Bool.or_self, Bool.false_eq_true, if_false, if_true]

theorem takeDigits_break (ds : List Char) (x : Char) (r : List Char)
    (hds : ∀ c ∈ ds, isDigit c = true) (hx : isDigit x = false) :
    takeDigits (ds ++ x :: r) = (ds, x :: r) := by
  induction ds with
  | nil => simp [takeDigits, hx]
  | cons d ds ih =>
    have hd : isDigit d = true := hds d (List.mem_cons_self _ _)
    have ih' := ih (fun c hc => hds c (List.mem_cons_of_mem _ hc))
    simp [takeDigits, hd, ih']

/-- A rendered number is read back in front of any character that is no digit
and starts no fraction and no exponent. -/
theorem parseNumber_break (n : Nat) (x : Char) (r : List Char)
    (hx : isDigit x = false) (h1 : x ≠ '.') (h2 : x ≠ 'e') (h3 : x ≠ 'E') :
    parseNumber (fmtNat n ++ x :: r) = some (fmtNat n, x :: r) := by
  by_cases h0 : n = 0
  · subst h0
    have : fmtNat 0 = ['0'] := by decide
    rw [this]
    unfold parseNumber
    simp [h1, h2, h3]
  · obtain ⟨d, ds, hd1, hd2, heq, hall⟩ := natDigitsAux_head (n + 1) n [] (by omega) (by omega)
    have hfmt : fmtNat n = digitChar d :: ds := by
      unfold fmtNat; rw [heq]; simp
    have hdig := isDigit_digitChar d hd2
    have hne := digitChar_ne_zero d hd1 hd2
    have hminus := (isDigit_facts _ hdig).2.2.2.2.2.2.2
    rw [hfmt]
    unfold parseNumber
    simp only [List.cons_append, hminus, hne, hdig, if_false, if_true, List.nil_append,
      takeDigits_break ds x r hall hx]
    simp [h1, h2, h3]

theorem parseNumber_zero (x : Char) (r : List Char) (hx : isDigit x = true) :
    parseNumber ('0' :: x :: r) = some (['0'], x :: r) := by
  have h1 : x ≠ '.' := by rintro rfl; revert hx; decide
  have h2 : x ≠ 'e' := by rintro rfl; revert hx; decide
  have h3 : x ≠ 'E' := by rintro rfl; revert hx; decide
  unfold parseNumber
  simp [h1, h2, h3]

theorem parseValue_digit (f depth : Nat) (c : Char) (r : List Char) (hc : isDigit c = true) :
    parseValue (f + 1) depth (c :: r)
      = (parseNumber (c :: r)).map (fun p => (JValue.num p.1, p.2)) := by
  obtain ⟨hws, h1, h2, h3, h4, h5, h6, _⟩ := isDigit_facts c hc
  rw [parseValue]
  simp [skipWs, hws, h1, h2, h3, h4, h5, h6]

theorem parseValue_number_break (f depth : Nat) (n : Nat) (x : Char) (r : List Char)
    (hx : isDigit x = false) (h1 : x ≠ '.') (h2 : x ≠ 'e') (h3 : x ≠ 'E') :
    parseValue (f + 1) depth (fmtNat n ++ x :: r) = some (JValue.num (fmtNat n), x :: r) := by
  have hnum := parseNumber_break n x r hx h1 h2 h3
  cases hd : fmtNat n with
  | nil => exact absurd hd (fmtNat_ne_nil n)
  | cons d ds =>
  have hdig : isDigit d = true := fmtNat_isDigit n d (by rw [hd]; exact List.mem_cons_self _ _)
  rw [hd] at hnum
  simp only [List.cons_append] at hnum ⊢
  rw [parseValue_digit f depth d _ hdig, hnum]
  rfl

theorem parseValue_zero_digit (f depth : Nat) (x : Char) (r : List Char)
    (hx : isDigit x = true) :
    parseValue (f + 1) depth ('0' :: x :: r) = some (JValue.num ['0'], x :: r) := by
  rw [parseValue_digit f depth '0' _ (by decide), parseNumber_zero x r hx]
  rfl

/-- Loading bytes whose text is an object that starts with the key `checksum`,
by the value that follows the key. -/
theorem load_checksum_value (h : Bytes → Nat) (data : Bytes) (X : List Char)
    (htext : textOf data = "\x7b\"checksum\":".data ++ X) :
    newCheckpoint.UnmarshalCheckpoint (goLib h) data =
      match parseValue (2 * X.length + 24) 1 X with
      | none => Except.error (CkError.json "invalid JSON text")
      | some (v, r3) =>
        match skipWs r3 with
        | [] => Except.error (CkError.json "invalid JSON text")
        | c :: r4 =>
          if c = ',' then
            match parseMembers (2 * X.length + 24) 1 r4 with
            | none => Except.error (CkError.json "invalid JSON text")
            | some (ms, r5) =>
              if skipWs r5 = [] then
                decodeFields decodeCheckpointField newCheckpoint (("checksum".data, v) :: ms)
              else Except.error (CkError.json "invalid JSON text")
          else if c = '}' then
            if skipWs r4 = [] then
              decodeFields decodeCheckpointField newCheckpoint [("checksum".data, v)]
            else Except.error (CkError.json "invalid JSON text")
          else Except.error (CkError.json "invalid JSON text") := by
  show jsonUnmarshal data newCheckpoint = _
  rw [jsonUnmarshal_checksum_first data X newCheckpoint htext,
    parseMembers_checksum (2 * X.length + 24) X (by omega)]
  cases parseValue (2 * X.length + 24) 1 X with
  | none => rfl
  | some p =>
    obtain ⟨v, r3⟩ := p
    simp only
    cases skipWs r3 with
    | nil => rfl
    | cons c r4 =>
      simp only
      by_cases hc : c = ','
      · simp only [hc, if_true]
        cases parseMembers (2 * X.length + 24) 1 r4 with
        | none => rfl
        | some q => rfl
      · simp only [hc, if_false]
        by_cases hb : c = '}'
        · simp only [hb, if_true]
        · simp only [hb, if_false]

/-- Bytes whose text gives the key `checksum` no value are not accepted. -/
theorem reject_no_value (h : Bytes → Nat) (data : Bytes) (X : List Char)
    (htext : textOf data = "\x7b\"checksum\":".data ++ X)
    (hv : parseValue (2 * X.length + 24) 1 X = none) :
    accepts (goLib h) data = false := by
  apply accepts_of_load_error _ _ (CkError.json "invalid JSON text")
  rw [load_checksum_value h data X htext, hv]

/-- Bytes whose text has neither a comma nor a closing brace behind the value
of the key `checksum` are not accepted. -/
theorem reject_no_separator (h : Bytes → Nat) (data : Bytes) (X : List Char)
    (htext : textOf data = "\x7b\"checksum\":".data ++ X) (v : JValue) (r3 : List Char)
    (hv : parseValue (2 * X.length + 24) 1 X = some (v, r3))
    (hsep : ∀ c r4, skipWs r3 = c :: r4 → c ≠ ',' ∧ c ≠ '}') :
    accepts (goLib h) data = false := by
  apply accepts_of_load_error _ _ (CkError.json "invalid JSON text")
  rw [load_checksum_value h data X htext, hv]
  simp only
  cases hs : skipWs r3 with
  | nil => rfl
  | cons c r4 =>
    obtain ⟨h1, h2⟩ := hsep c r4 hs
    simp [h1, h2]

/-- Bytes whose text gives the key `checksum` a string are not accepted. -/
theorem reject_string_value (h : Bytes → Nat) (data : Bytes) (X : List Char)
    (htext : textOf data = "\x7b\"checksum\":".data ++ X) (s r3 : List Char)
    (hv : parseValue (2 * X.length + 24) 1 X = some (JValue.str s, r3)) :
    accepts (goLib h) data = false := by
  have hdec : ∀ ms, decodeFields decodeCheckpointField newCheckpoint
      (("checksum".data, JValue.str s) :: ms)
      = Except.error (CkError.json "cannot unmarshal into Go value of type uint64") := by
    intro ms
    have hk : keyMatches "checksum".data "checksum".data = true := by decide
    simp [decodeFields, decodeCheckpointField, hk]
  have hload : ∃ e, newCheckpoint.UnmarshalCheckpoint (goLib h) data = Except.error e := by
    rw [load_checksum_value h data X htext, hv]
    simp only
    cases skipWs r3 with
    | nil => exact ⟨_, rfl⟩
    | cons c r4 =>
      simp only
      by_cases hc : c = ','
      · simp only [hc, if_true]
        cases parseMembers (2 * X.length + 24) 1 r4 with
        | none => exact ⟨_, rfl⟩
        | some q =>
          obtain ⟨ms, r5⟩ := q
          simp only
          by_cases hws : skipWs r5 = []
          · simp only [hws, if_true, hdec]
            exact ⟨_, rfl⟩
          · simp only [hws, if_false]
            exact ⟨_, rfl⟩
      · simp only [hc, if_false]
        by_cases hb : c = '}'
        · simp only [hb, if_true]
          by_cases hws : skipWs r4 = []
          · simp only [hws, if_true, hdec]
            exact ⟨_, rfl⟩
          · simp only [hws, if_false]
            exact ⟨_, rfl⟩
        · simp only [hb, if_false]
          exact ⟨_, rfl⟩
  obtain ⟨e, he⟩ := hload
  exact accepts_of_load_error _ _ e he

/-- Loading bytes whose text is that of a checkpoint of valid strings written
under a key that selects the `checksum` field. -/
theorem load_text_keyed (h : Bytes → Nat) (data : Bytes) (key : List Char)
    (hkey : keyMatches "checksum".data key = true) (n : Nat) (hn : n < 2 ^ 64)
    (m : PreparedClaims) (hvalid : validClaims m = true)
    (htext : textOf data
      = encodeKeyed key { Checksum := n, V1 := some { PreparedClaims := m } }) :
    ∃ m', Checkpoint.UnmarshalCheckpoint (goLib h) newCheckpoint data
        = Except.ok { Checksum := n, V1 := some { PreparedClaims := m' } } ∧
      ∀ k, m'.get k = m.get k := by
  obtain ⟨m', hdec, hget⟩ := decode_docJ key hkey n hn m hvalid
  refine ⟨m', ?_, hget⟩
  show jsonUnmarshal _ newCheckpoint = _
  unfold jsonUnmarshal
  have ht : utf8DecodeLossy data.length data
      = encodeKeyed key { Checksum := n, V1 := some { PreparedClaims := m } } := htext
  rw [ht, parseJSON_encodeKeyed _ _ (by
    intro v hv
    simp only [Option.some.injEq] at hv
    rw [← hv]
    exact hvalid)]
  exact hdec

/-- Loading bytes whose text is that of a checkpoint with a checksum that does
not fit 64 bits fails. -/
theorem load_text_out_of_range (h : Bytes → Nat) (data : Bytes) (n : Nat) (hn : ¬ n < 2 ^ 64)
    (m : PreparedClaims) (hvalid : validClaims m = true)
    (htext : textOf data
      = encodeKeyed "checksum".data { Checksum := n, V1 := some { PreparedClaims := m } }) :
    ∃ e, Checkpoint.UnmarshalCheckpoint (goLib h) newCheckpoint data = Except.error e := by
  show ∃ e, jsonUnmarshal _ newCheckpoint = Except.error e
  unfold jsonUnmarshal
  have ht : utf8DecodeLossy data.length data
      = encodeKeyed "checksum".data { Checksum := n, V1 := some { PreparedClaims := m } } := htext
  rw [ht, parseJSON_encodeKeyed _ _ (by
    intro v hv
    simp only [Option.some.injEq] at hv
    rw [← hv]
    exact hvalid)]
  have hk : keyMatches "checksum".data "checksum".data = true := by decide
  have hn' : ¬ n < 18446744073709551616 := hn
  refine ⟨CkError.json "cannot unmarshal number into Go value of type uint64", ?_⟩
  simp [docJ, decodeFields, decodeCheckpointField, hk, digitsValue_fmtNat, hn']

/-- Bytes that load with the bindings of the saved mapping under a checksum
other than the one computed for it are not accepted. -/
theorem reject_other_checksum (h : Bytes → Nat) (m m' : PreparedClaims) (data : Bytes)
    (c' : Nat)
    (hload : newCheckpoint.UnmarshalCheckpoint (goLib h) data
      = Except.ok { Checksum := c', V1 := some { PreparedClaims := m' } })
    (hget : ∀ k, m'.get k = m.get k)
    (hne : c' ≠ (goLib h).New (utf8Encode (encodeCheckpoint
      { Checksum := 0, V1 := some { PreparedClaims := m } }))) :
    accepts (goLib h) data = false := by
  have hnot : ¬ (Checkpoint.VerifyChecksum (goLib h)
      { Checksum := c', V1 := some { PreparedClaims := m' } }).1 = Except.ok () := by
    rw [verifyChecksum_goLib_iff]
    intro heq
    apply hne
    have heq1 : c' = (goLib h).New (utf8Encode (encodeCheckpoint
        { Checksum := 0, V1 := some { PreparedClaims := m' } })) := heq
    have henc : encodeCheckpoint { Checksum := 0, V1 := some { PreparedClaims := m' } }
        = encodeCheckpoint { Checksum := 0, V1 := some { PreparedClaims := m } } := by
      simp only [encodeCheckpoint, encodeV1_congr m m' hget]
    rw [heq1, henc]
  cases hacc : accepts (goLib h) data with
  | false => rfl
  | true =>
    obtain ⟨cp'', hload', hver⟩ := (accepts_iff _ _).1 hacc
    rw [hload] at hload'
    cases hload'
    exact absurd hver hnot

theorem encodeCheckpoint_split (c : Nat) (v : CheckpointV1) :
    encodeCheckpoint { Checksum := c, V1 := some v }
      = "\x7b\"checksum\":".data ++
        (fmtNat c ++ ',' :: ("\"v1\":".data ++ encodeV1 v ++ ['}'])) := by
  simp [encodeCheckpoint]

theorem skipWs_of_not_ws (c : Char) (r : List Char) (h : isWs c = false) :
    skipWs (c :: r) = c :: r := by
  simp [skipWs, h]

theorem isDigit_not_sep (c : Char) (h : isDigit c = true) :
    isWs c = false ∧ c ≠ ',' ∧ c ≠ '}' ∧ c ≠ 'r' := by
  refine ⟨(isDigit_facts c h).1, ?_, ?_, ?_⟩ <;> (rintro rfl; revert h; decide)

/-- A proper prefix of a rendered number is the rendering of its own value. -/
theorem fmtNat_prefix (c : Nat) (a : Char) (as : List Char) (d : Char) (ds2 : List Char)
    (hds : fmtNat c = (a :: as) ++ d :: ds2) :
    fmtNat (digitsValue (a :: as)) = a :: as := by
  apply fmtNat_digitsValue _ (by simp)
  · intro x hx
    exact fmtNat_isDigit c x (by rw [hds]; exact List.mem_append_left _ hx)
  · intro h0
    exfalso
    have hh : (fmtNat c).head? = some '0' := by
      rw [hds]; simpa using h0
    have := fmtNat_head_zero c hh
    rw [hds] at this
    simp at this

/-- The text of the members after the checksum is read as the member `v1`. -/
theorem parseMembers_v1 (v : CheckpointV1) (hvalid : validClaims v.PreparedClaims = true)
    (f : Nat) (hf : 2 * ("\"v1\":".data ++ encodeV1 v ++ ['}']).length + 3 ≤ f) :
    parseMembers f 1 ("\"v1\":".data ++ encodeV1 v ++ ['}'])
      = some ([("v1".data, v1J v)], []) := by
  have hall : List.Forall₂ (fun (kt : List Char × List Char) (kv : List Char × JValue) =>
      kt.1 = kv.1 ∧ Renders 3 kt.2 kv.2)
      [("v1".data, encodeV1 v)] [("v1".data, v1J v)] :=
    List.Forall₂.cons ⟨rfl, renders_v1 v hvalid⟩ List.Forall₂.nil
  have hq : quote "v1".data = "\"v1\"".data := by decide
  have htext : joinComma ([("v1".data, encodeV1 v)].map (fun kt => quote kt.1 ++ ':' :: kt.2))
      ++ '}' :: [] = "\"v1\":".data ++ encodeV1 v ++ ['}'] := by
    simp [joinComma, hq]
  have := parseMembers_joinComma 3 _ _ hall (by simp) f 1 [] (by rw [htext]; exact hf)
    (by decide)
  rw [htext] at this
  exact this

/-- A space in the place of the last digit of the checksum: the bytes load with
the saved bindings under the checksum cut short, and are not accepted. -/
theorem reject_trailing_space (h : Bytes → Nat) (m : PreparedClaims)
    (hvalid : validClaims m = true) (data : Bytes) (v1 : Nat)
    (hv1 : fmtNat v1 ++ ['0'] = fmtNat ((goLib h).New (utf8Encode (encodeCheckpoint
      { Checksum := 0, V1 := some { PreparedClaims := m } }))))
    (htext : textOf data = "\x7b\"checksum\":".data ++
      (fmtNat v1 ++ ' ' :: ',' :: ("\"v1\":".data ++ encodeV1 { PreparedClaims := m } ++ ['}']))) :
    accepts (goLib h) data = false := by
  have hval : (goLib h).New (utf8Encode (encodeCheckpoint
      { Checksum := 0, V1 := some { PreparedClaims := m } })) = 10 * v1 + 0 := by
    have := congrArg digitsValue hv1
    rw [digitsValue_fmtNat, digitsValue_snoc, digitsValue_fmtNat] at this
    exact this.symm
  have hlt := lib_new_lt (goLib h) (utf8Encode (encodeCheckpoint
      { Checksum := 0, V1 := some { PreparedClaims := m } }))
  have hv1lt : v1 < 2 ^ 64 := by omega
  have hne : v1 ≠ (goLib h).New (utf8Encode (encodeCheckpoint
      { Checksum := 0, V1 := some { PreparedClaims := m } })) := by
    intro heq
    rw [← heq] at hv1
    have := congrArg List.length hv1
    simp at this
  obtain ⟨m', hdec, hget⟩ := decode_docJ "checksum".data (by decide) v1 hv1lt m hvalid
  refine reject_other_checksum h m m' data v1 ?_ hget hne
  rw [load_checksum_value h data _ htext]
  have hval1 := parseValue_number_break
    (2 * (fmtNat v1 ++ ' ' :: ',' :: ("\"v1\":".data ++ encodeV1 { PreparedClaims := m }
      ++ ['}'])).length + 23) 1 v1 ' '
    (',' :: ("\"v1\":".data ++ encodeV1 { PreparedClaims := m } ++ ['}']))
    (by decide) (by decide) (by decide) (by decide)
  have hfuel : 2 * (fmtNat v1 ++ ' ' :: ',' :: ("\"v1\":".data ++
      encodeV1 { PreparedClaims := m } ++ ['}'])).length + 24
      = 2 * (fmtNat v1 ++ ' ' :: ',' :: ("\"v1\":".data ++
        encodeV1 { PreparedClaims := m } ++ ['}'])).length + 23 + 1 := rfl
  have hmem := parseMembers_v1 { PreparedClaims := m } hvalid
    (2 * (fmtNat v1 ++ ' ' :: ',' :: ("\"v1\":".data ++ encodeV1 { PreparedClaims := m }
      ++ ['}'])).length + 24) (by
      simp only [List.length_append, List.length_cons]
      omega)
  have hws : skipWs (' ' :: ',' :: ("\"v1\":".data ++ encodeV1 { PreparedClaims := m } ++ ['}']))
      = ',' :: ("\"v1\":".data ++ encodeV1 { PreparedClaims := m } ++ ['}']) := by
    simp [skipWs, isWs]
  rw [hfuel, hval1]
  simp only [hws, if_true]
  rw [← hfuel, hmem]
  simp only [skipWs, if_true]
  simpa [docJ] using hdec

/-- A flip of one bit of a digit of the checksum is not accepted, whatever the
hash: the bytes no longer load, or they load with the saved bindings under
another checksum. -/
theorem reject_digit_flip (h : Bytes → Nat) (m : PreparedClaims)
    (hvalid : validClaims m = true) (ds1 ds2 : List Char) (d : Char) (j : Nat) (hj : j < 8)
    (hds : fmtNat ((goLib h).New (utf8Encode (encodeCheckpoint
      { Checksum := 0, V1 := some { PreparedClaims := m } }))) = ds1 ++ d :: ds2) :
    accepts (goLib h) (flipBit (utf8Encode (encodeCheckpoint
      { Checksum := (goLib h).New (utf8Encode (encodeCheckpoint
          { Checksum := 0, V1 := some { PreparedClaims := m } })),
        V1 := some { PreparedClaims := m } })) (8 * (12 + ds1.length) + j)) = false := by
  have hdig : ∀ x ∈ ds1 ++ d :: ds2, isDigit x = true := by
    intro x hx
    rw [← hds] at hx
    exact fmtNat_isDigit _ x hx
  have hd : isDigit d = true := hdig d (by simp)
  have hds1 : ∀ x ∈ ds1, isDigit x = true := fun x hx => hdig x (by simp [hx])
  have hds2 : ∀ x ∈ ds2, isDigit x = true := fun x hx => hdig x (by simp [hx])
  have henc : encodeCheckpoint
      { Checksum := (goLib h).New (utf8Encode (encodeCheckpoint
          { Checksum := 0, V1 := some { PreparedClaims := m } })),
        V1 := some { PreparedClaims := m } }
      = ("\x7b\"checksum\":".data ++ ds1) ++ d ::
        (ds2 ++ ',' :: ("\"v1\":".data ++ encodeV1 { PreparedClaims := m } ++ ['}'])) := by
    rw [encodeCheckpoint_split, hds]
    simp
  have hpre : ∀ x ∈ "\x7b\"checksum\":".data ++ ds1, x.toNat < 128 := by
    intro x hx
    have hP : ∀ y ∈ "\x7b\"checksum\":".data, y.toNat < 128 := by decide
    rcases List.mem_append.1 hx with hx | hx
    · exact hP x hx
    · exact isDigit_ascii x (hds1 x hx)
  have hlen : ("\x7b\"checksum\":".data ++ ds1).length = 12 + ds1.length := by
    simp
    omega
  have htext := text_of_digit_flip ("\x7b\"checksum\":".data ++ ds1)
    (ds2 ++ ',' :: ("\"v1\":".data ++ encodeV1 { PreparedClaims := m } ++ ['}'])) d hd j hj hpre
  rw [hlen, ← henc, List.append_assoc] at htext
  obtain ⟨_, hcls⟩ := flippedChar_cases d hd j hj
  generalize flipBit (utf8Encode (encodeCheckpoint
      { Checksum := (goLib h).New (utf8Encode (encodeCheckpoint
          { Checksum := 0, V1 := some { PreparedClaims := m } })),
        V1 := some { PreparedClaims := m } })) (8 * (12 + ds1.length) + j) = data at htext ⊢
  generalize flippedChar d j = c' at hcls htext
  have hfuel : ∀ X : List Char, 2 * X.length + 24 = 2 * X.length + 23 + 1 := fun _ => rfl
  rcases hcls with ⟨hcd, hne, _⟩ | ⟨hd0, hsp⟩ | ⟨hbrk, hkind⟩
  · -- another digit
    by_cases hlz : ds1 = [] ∧ c' = '0' ∧ ds2 ≠ []
    · obtain ⟨h1, h2, h3⟩ := hlz
      subst h1 h2
      cases ds2 with
      | nil => exact absurd rfl h3
      | cons d2 ds2 =>
        have hd2 := hds2 d2 (List.mem_cons_self _ _)
        obtain ⟨hws, hc1, hc2, _⟩ := isDigit_not_sep d2 hd2
        refine reject_no_separator h data _ htext (JValue.num ['0'])
          (d2 :: (ds2 ++ ',' :: ("\"v1\":".data ++ encodeV1 { PreparedClaims := m } ++ ['}'])))
          ?_ ?_
        · rw [hfuel]
          exact parseValue_zero_digit _ 1 d2 _ hd2
        · intro c r4 hs
          rw [skipWs_of_not_ws d2 _ hws] at hs
          simp only [List.cons.injEq] at hs
          rw [← hs.1]
          exact ⟨hc1, hc2⟩
    · have hcanon : fmtNat (digitsValue (ds1 ++ c' :: ds2)) = ds1 ++ c' :: ds2 := by
        apply fmtNat_digitsValue _ (by simp)
        · intro x hx
          rcases List.mem_append.1 hx with hx | hx
          · exact hds1 x hx
          · rcases List.mem_cons.1 hx with rfl | hx
            · exact hcd
            · exact hds2 x hx
        · intro h0
          cases ds1 with
          | nil =>
            simp only [List.nil_append, List.head?_cons, Option.some.injEq] at h0
            have h3 : ds2 = [] := by
              by_contra hne2
              exact hlz ⟨rfl, h0, hne2⟩
            rw [h0, h3]
            rfl
          | cons a as =>
            exfalso
            have hh : (fmtNat ((goLib h).New (utf8Encode (encodeCheckpoint
                { Checksum := 0, V1 := some { PreparedClaims := m } })))).head? = some '0' := by
              rw [hds]; simpa using h0
            have := fmtNat_head_zero _ hh
            rw [hds] at this
            simp at this
      have htext2 : textOf data = encodeKeyed "checksum".data
          { Checksum := digitsValue (ds1 ++ c' :: ds2),
            V1 := some { PreparedClaims := m } } := by
        rw [← encodeCheckpoint_eq, encodeCheckpoint_split, hcanon, htext]
        simp
      by_cases hv : digitsValue (ds1 ++ c' :: ds2) < 2 ^ 64
      · obtain ⟨m', hload, hget⟩ := load_text_keyed h data "checksum".data (by decide) _ hv m
          hvalid htext2
        refine reject_other_checksum h m m' data _ hload hget ?_
        intro heq
        have := congrArg fmtNat heq
        rw [hcanon, hds] at this
        have h2 := List.append_cancel_left this
        simp only [List.cons.injEq] at h2
        exact hne h2.1
      · obtain ⟨e, he⟩ := load_text_out_of_range h data _ hv m hvalid htext2
        exact accepts_of_load_error _ _ e he
  · -- a space, of the digit 0
    subst hsp
    cases ds1 with
    | nil =>
      have hh : (fmtNat ((goLib h).New (utf8Encode (encodeCheckpoint
          { Checksum := 0, V1 := some { PreparedClaims := m } })))).head? = some '0' := by
        rw [hds, hd0]; rfl
      have hz := fmtNat_head_zero _ hh
      rw [hds] at hz
      simp only [List.nil_append, List.cons.injEq] at hz
      have h2 : ds2 = [] := hz.2
      subst h2
      refine reject_no_value h data _ htext ?_
      rw [hfuel]
      exact parseValue_startsNoValue _ 1 _ ','
        ("\"v1\":".data ++ encodeV1 { PreparedClaims := m } ++ ['}'])
        (by simp [skipWs, isWs]) (by decide)
    | cons a as =>
      have hpref := fmtNat_prefix _ a as d ds2 hds
      cases ds2 with
      | nil =>
        refine reject_trailing_space h m hvalid data (digitsValue (a :: as)) ?_ ?_
        · rw [hpref, hds, hd0]
        · rw [hpref, htext]
          simp
      | cons d2 ds2 =>
        have hd2 := hds2 d2 (List.mem_cons_self _ _)
        obtain ⟨hws, hc1, hc2, _⟩ := isDigit_not_sep d2 hd2
        refine reject_no_separator h data _ htext (JValue.num (a :: as))
          (' ' :: d2 :: (ds2 ++ ',' :: ("\"v1\":".data ++ encodeV1 { PreparedClaims := m }
            ++ ['}']))) ?_ ?_
        · rw [hfuel]
          have := parseValue_number_break
            (2 * ((a :: as) ++ ' ' :: (d2 :: ds2 ++ ',' :: ("\"v1\":".data ++
              encodeV1 { PreparedClaims := m } ++ ['}']))).length + 23) 1
            (digitsValue (a :: as)) ' '
            (d2 :: ds2 ++ ',' :: ("\"v1\":".data ++ encodeV1 { PreparedClaims := m } ++ ['}']))
            (by decide) (by decide) (by decide) (by decide)
          rw [hpref] at this
          exact this
        · intro c r4 hs
          have hws2 : skipWs (' ' :: d2 :: (ds2 ++ ',' :: ("\"v1\":".data ++
              encodeV1 { PreparedClaims := m } ++ ['}'])))
              = d2 :: (ds2 ++ ',' :: ("\"v1\":".data ++ encodeV1 { PreparedClaims := m }
                ++ ['}'])) := by
            show (if isWs ' ' then skipWs (d2 :: (ds2 ++ ',' :: ("\"v1\":".data ++
              encodeV1 { PreparedClaims := m } ++ ['}']))) else _) = _
            rw [if_pos (by decide)]
            exact skipWs_of_not_ws d2 _ hws
          rw [hws2] at hs
          simp only [List.cons.injEq] at hs
          rw [← hs.1]
          exact ⟨hc1, hc2⟩
  · -- a character that breaks off the number
    simp only [breaksNumber, Bool.and_eq_true, Bool.not_eq_true', decide_eq_true_eq] at hbrk
    obtain ⟨⟨hnd, hnws⟩, hb1, hb2, hb3, hb4, hb5⟩ := hbrk
    cases ds1 with
    | nil =>
      simp only [List.nil_append] at htext
      have hhead : (ds2 ++ ',' :: ("\"v1\":".data ++ encodeV1 { PreparedClaims := m }
          ++ ['}'])).head? ≠ some 'r' := by
        cases ds2 with
        | nil => simp
        | cons d2 ds2 =>
          have := (isDigit_not_sep d2 (hds2 d2 (List.mem_cons_self _ _))).2.2.2
          simpa using this
      rcases hkind with hq | ht | hsv
      · subst hq
        cases hbody : parseStringBody
            (2 * ('"' :: (ds2 ++ ',' :: ("\"v1\":".data ++ encodeV1 { PreparedClaims := m }
              ++ ['}']))).length + 23)
            (ds2 ++ ',' :: ("\"v1\":".data ++ encodeV1 { PreparedClaims := m } ++ ['}'])) with
        | none =>
          refine reject_no_value h data _ htext ?_
          rw [hfuel, parseValue_quote, hbody]
          rfl
        | some p =>
          refine reject_string_value h data _ htext p.1 p.2 ?_
          rw [hfuel, parseValue_quote, hbody]
          rfl
      · subst ht
        refine reject_no_value h data _ htext ?_
        rw [hfuel]
        exact parseValue_t _ 1 _ hhead
      · refine reject_no_value h data _ htext ?_
        rw [hfuel]
        exact parseValue_startsNoValue _ 1 _ c' _ (skipWs_of_not_ws c' _ hnws) hsv
    | cons a as =>
      have hpref := fmtNat_prefix _ a as d ds2 hds
      refine reject_no_separator h data _ htext (JValue.num (a :: as))
        (c' :: (ds2 ++ ',' :: ("\"v1\":".data ++ encodeV1 { PreparedClaims := m } ++ ['}'])))
        ?_ ?_
      · rw [hfuel]
        have := parseValue_number_break
          (2 * ((a :: as) ++ c' :: (ds2 ++ ',' :: ("\"v1\":".data ++
            encodeV1 { PreparedClaims := m } ++ ['}']))).length + 23) 1
          (digitsValue (a :: as)) c'
          (ds2 ++ ',' :: ("\"v1\":".data ++ encodeV1 { PreparedClaims := m } ++ ['}']))
          hnd hb1 hb2 hb3
        rw [hpref] at this
        exact this
      · intro c r4 hs
        rw [skipWs_of_not_ws c' _ hnws] at hs
        simp only [List.cons.injEq] at hs
        rw [← hs.1]
        exact ⟨hb4, hb5⟩

/-! ## Flipped bits in the first member of the text -/

/-- A byte that is not ASCII, in front of an ASCII byte or of nothing, is read
as U+FFFD. -/
theorem decodeRune_lone (b : UInt8) (rest : Bytes) (hb : 0x80 ≤ b.toNat)
    (hrest : ∀ b1 r, rest = b1 :: r → b1.toNat < 0x80) :
    decodeRune (b :: rest) = some (replacementChar, rest) := by
  have a1 : ¬ (b.toNat < 0x80) := by omega
  cases rest with
  | nil =>
    simp only [decodeRune, a1, if_false]
    repeat' split
    all_goals rfl
  | cons b1 r =>
    have h1 := hrest b1 r rfl
    have hc : isCont b1 = false := by
      simp only [isCont, decide_eq_false_iff_not]
      omega
    have hA : ¬ (0xA0 ≤ b1.toNat) := by omega
    have h8 : ¬ (0x80 ≤ b1.toNat) := by omega
    have h9 : ¬ (0x90 ≤ b1.toNat) := by omega
    simp only [decodeRune, a1, if_false]
    split
    · simp [hc]
    · split
      · cases r with
        | nil => rfl
        | cons b2 r2 =>
          simp only
          rw [if_neg]
          intro hcond
          have := hcond.1
          split at this <;> omega
      · split
        · cases r with
          | nil => rfl
          | cons b2 r2 =>
            cases r2 with
            | nil => rfl
            | cons b3 r3 =>
              simp only
              rw [if_neg]
              intro hcond
              have := hcond.1
              split at this <;> omega
        · rfl

/-- The characters read in the encoding of a text in which one bit of an ASCII
character has been flipped, the characters before it and the one after it being
ASCII too. -/
theorem text_of_ascii_flip (pre post : List Char) (d : Char) (hd : d.toNat < 128)
    (j : Nat) (hj : j < 8) (hpre : ∀ c ∈ pre, c.toNat < 128)
    (hpost : ∀ x r, post = x :: r → x.toNat < 128) :
    textOf (flipBit (utf8Encode (pre ++ d :: post)) (8 * pre.length + j))
      = pre ++ flippedChar d j :: post := by
  have hlen : (utf8Encode pre).length = pre.length := by
    rw [utf8Encode_ascii pre hpre, List.length_map]
  have henc : utf8Encode (pre ++ d :: post)
      = utf8Encode pre ++ (UInt8.ofNat d.toNat :: utf8Encode post) := by
    rw [utf8Encode_append]
    have : utf8Encode (d :: post) = utf8EncodeChar d ++ utf8Encode post := by
      simp [utf8Encode]
    rw [this, utf8EncodeChar_ascii d hd]
    rfl
  have hflip : flipBit (utf8Encode (pre ++ d :: post)) (8 * pre.length + j)
      = utf8Encode pre ++ ((UInt8.ofNat d.toNat ^^^ UInt8.ofNat (2 ^ j)) :: utf8Encode post) := by
    rw [henc, ← hlen, flipBit_append, flipBit_head _ _ _ hj]
  have hrune : decodeRune ((UInt8.ofNat d.toNat ^^^ UInt8.ofNat (2 ^ j)) :: utf8Encode post)
      = some (flippedChar d j, utf8Encode post) := by
    by_cases hlt : (UInt8.ofNat d.toNat ^^^ UInt8.ofNat (2 ^ j)).toNat < 0x80
    · rw [decodeRune_one _ _ hlt]
      simp [flippedChar, hlt]
    · rw [decodeRune_lone _ _ (by omega)]
      · simp [flippedChar, hlt]
      · intro b1 r hr
        cases post with
        | nil => simp [utf8Encode] at hr
        | cons x xs =>
          have hx := hpost x xs rfl
          have : utf8Encode (x :: xs) = utf8EncodeChar x ++ utf8Encode xs := by
            simp [utf8Encode]
          rw [this, utf8EncodeChar_ascii x hx] at hr
          simp only [List.singleton_append, List.cons.injEq] at hr
          rw [← hr.1]
          rw [toNat_ofNat8 x.toNat (by omega)]
          exact hx
  unfold textOf
  rw [hflip, utf8DecodeLossy_append pre _ _ (Nat.le_refl _)]
  have hfuel : (utf8Encode pre ++ ((UInt8.ofNat d.toNat ^^^ UInt8.ofNat (2 ^ j)) ::
      utf8Encode post)).length - pre.length = (utf8Encode post).length + 1 := by
    simp only [List.length_append, List.length_cons, hlen]
    omega
  rw [hfuel]
  simp only [utf8DecodeLossy, hrune]
  rw [utf8DecodeLossy_encode post _ (Nat.le_refl _)]

/-- Bytes whose text is not one JSON value are not accepted. -/
theorem reject_invalid_text (h : Bytes → Nat) (data : Bytes) (T : List Char)
    (htext : textOf data = T) (hparse : parseValue (2 * T.length + 2) 0 T = none) :
    accepts (goLib h) data = false := by
  apply accepts_of_load_error _ _ (CkError.json "invalid JSON text")
  show jsonUnmarshal data newCheckpoint = _
  unfold jsonUnmarshal
  have ht : utf8DecodeLossy data.length data = T := htext
  rw [ht]
  simp [parseJSON, hparse]

/-- A string body of characters that need no escape is read up to its closing
quote. -/
theorem parseStringBody_plain (cs : List Char)
    (hplain : ∀ c ∈ cs, c ≠ '"' ∧ c ≠ '\\' ∧ ¬ c.toNat < 0x20) :
    ∀ fuel rest, cs.length < fuel →
      parseStringBody fuel (cs ++ '"' :: rest) = some (cs, rest) := by
  induction cs with
  | nil =>
    intro fuel rest h
    cases fuel with
    | zero => simp at h
    | succ fuel => simp [parseStringBody]
  | cons c cs ih =>
    intro fuel rest h
    cases fuel with
    | zero => simp at h
    | succ fuel =>
      obtain ⟨h1, h2, h3⟩ := hplain c (List.mem_cons_self _ _)
      have ih' := ih (fun x hx => hplain x (List.mem_cons_of_mem _ hx)) fuel rest (by
        simp only [List.length_cons] at h
        omega)
      simp [parseStringBody, h1, h2, h3, ih']

/-- A control character ends the reading of a string body in failure. -/
theorem parseStringBody_control (cs : List Char)
    (hplain : ∀ c ∈ cs, c ≠ '"' ∧ c ≠ '\\' ∧ ¬ c.toNat < 0x20)
    (x : Char) (hx : x.toNat < 0x20) :
    ∀ fuel rest, parseStringBody fuel (cs ++ x :: rest) = none := by
  have hx1 : x ≠ '"' := by rintro rfl; revert hx; decide
  have hx2 : x ≠ '\\' := by rintro rfl; revert hx; decide
  induction cs with
  | nil =>
    intro fuel rest
    cases fuel with
    | zero => simp [parseStringBody]
    | succ fuel => simp [parseStringBody, hx, hx1, hx2]
  | cons c cs ih =>
    intro fuel rest
    cases fuel with
    | zero => simp [parseStringBody]
    | succ fuel =>
      obtain ⟨h1, h2, h3⟩ := hplain c (List.mem_cons_self _ _)
      have ih' := ih (fun y hy => hplain y (List.mem_cons_of_mem _ hy)) fuel rest
      simp [parseStringBody, h1, h2, h3, ih']

/-- An opening bracket in front of a string that a colon follows starts no
value. -/
theorem parseValue_array_key (f : Nat) (body k rest : List Char)
    (hbody : parseStringBody f body = some (k, ':' :: rest)) :
    parseValue (f + 3) 0 ('[' :: '"' :: body) = none := by
  have hd : ¬ maxNestingDepth ≤ 0 := by decide
  rw [parseValue]
  simp only [skipWs, isWs, show ¬ ('[' = ' ') by decide, show ¬ ('[' = '\t') by decide,
    show ¬ ('[' = '\r') by decide, show ¬ ('[' = '\n') by decide,
    show ¬ ('"' = ' ') by decide, show ¬ ('"' = '\t') by decide,
    show ¬ ('"' = '\r') by decide, show ¬ ('"' = '\n') by decide,
    show ¬ ('[' = '{') by decide, show ¬ ('"' = ']') by decide,
    decide_False, Bool.or_self, Bool.false_eq_true, if_false, if_true, hd]
  rw [parseElems, parseValue_quote, hbody]
  simp [skipWs, isWs]

/-- An opening brace in front of a character that is neither a quote nor a
closing brace starts no value. -/
theorem parseValue_object_no_key (f : Nat) (cs : List Char) (q : Char) (r : List Char)
    (hws : skipWs cs = q :: r) (hq : isWs q = false) (h1 : q ≠ '"') (h2 : q ≠ '}') :
    parseValue (f + 2) 0 ('\x7b' :: cs) = none := by
  have hd : ¬ maxNestingDepth ≤ 0 := by decide
  rw [parseValue]
  simp only [skipWs, isWs, show ¬ ('\x7b' = ' ') by decide, show ¬ ('\x7b' = '\t') by decide,
    show ¬ ('\x7b' = '\r') by decide, show ¬ ('\x7b' = '\n') by decide,
    decide_False, Bool.or_self, Bool.false_eq_true, if_false, if_true, hd, hws, h2]
  rw [parseMembers]
  simp [skipWs, hq, h1]

/-- An object whose first key is no string literal is no value. -/
theorem parseValue_object_bad_key (f : Nat) (body : List Char)
    (hbody : parseStringBody f body = none) :
    parseValue (f + 2) 0 ('\x7b' :: '"' :: body) = none := by
  have hd : ¬ maxNestingDepth ≤ 0 := by decide
  rw [parseValue]
  simp only [skipWs, isWs, show ¬ ('\x7b' = ' ') by decide, show ¬ ('\x7b' = '\t') by decide,
    show ¬ ('\x7b' = '\r') by decide, show ¬ ('\x7b' = '\n') by decide,
    show ¬ ('"' = ' ') by decide, show ¬ ('"' = '\t') by decide,
    show ¬ ('"' = '\r') by decide, show ¬ ('"' = '\n') by decide,
    show ¬ ('"' = '\x7d') by decide,
    decide_False, Bool.or_self, Bool.false_eq_true, if_false, if_true, hd]
  rw [parseMembers]
  simp [skipWs, isWs, hbody]

/-- An object whose first key is not followed by a colon is no value. -/
theorem parseValue_object_no_colon (f : Nat) (body k : List Char) (c : Char) (r : List Char)
    (hbody : parseStringBody f body = some (k, c :: r)) (hc : isWs c = false)
    (hne : c ≠ ':') :
    parseValue (f + 2) 0 ('\x7b' :: '"' :: body) = none := by
  have hd : ¬ maxNestingDepth ≤ 0 := by decide
  rw [parseValue]
  simp only [skipWs, isWs, show ¬ ('\x7b' = ' ') by decide, show ¬ ('\x7b' = '\t') by decide,
    show ¬ ('\x7b' = '\r') by decide, show ¬ ('\x7b' = '\n') by decide,
    show ¬ ('"' = ' ') by decide, show ¬ ('"' = '\t') by decide,
    show ¬ ('"' = '\r') by decide, show ¬ ('"' = '\n') by decide,
    show ¬ ('"' = '\x7d') by decide,
    decide_False, Bool.or_self, Bool.false_eq_true, if_false, if_true, hd]
  have hsk : skipWs (c :: r) = c :: r := skipWs_of_not_ws c r hc
  rw [parseMembers, skipWs_of_not_ws '"' body (by decide)]
  simp only [if_true, hbody, hsk, hne, if_false]
  rfl

/-- A rendered number followed by a point that no digit follows is no number
literal. -/
theorem parseNumber_point (n : Nat) (x : Char) (r : List Char) (hx : isDigit x = false) :
    parseNumber (fmtNat n ++ '.' :: x :: r) = none := by
  have htd : takeDigits (x :: r) = ([], x :: r) := by simp [takeDigits, hx]
  by_cases h0 : n = 0
  · subst h0
    have : fmtNat 0 = ['0'] := by decide
    rw [this]
    unfold parseNumber
    simp [htd]
  · obtain ⟨d, ds, hd1, hd2, heq, hall⟩ := natDigitsAux_head (n + 1) n [] (by omega) (by omega)
    have hfmt : fmtNat n = digitChar d :: ds := by
      unfold fmtNat; rw [heq]; simp
    have hdig := isDigit_digitChar d hd2
    have hne := digitChar_ne_zero d hd1 hd2
    have hminus := (isDigit_facts _ hdig).2.2.2.2.2.2.2
    rw [hfmt]
    unfold parseNumber
    simp only [List.cons_append, hminus, hne, hdig, if_false, if_true, List.nil_append,
      takeDigits_break ds '.' (x :: r) hall (by decide)]
    simp [htd]

theorem parseValue_number_point (f depth : Nat) (n : Nat) (x : Char) (r : List Char)
    (hx : isDigit x = false) :
    parseValue (f + 1) depth (fmtNat n ++ '.' :: x :: r) = none := by
  have hnum := parseNumber_point n x r hx
  cases hd : fmtNat n with
  | nil => exact absurd hd (fmtNat_ne_nil n)
  | cons d ds =>
  have hdig : isDigit d = true := fmtNat_isDigit n d (by rw [hd]; exact List.mem_cons_self _ _)
  rw [hd] at hnum
  simp only [List.cons_append] at hnum ⊢
  rw [parseValue_digit f depth d _ hdig, hnum]
  rfl

/-- Decoding the document of a checkpoint written under a first key that
selects no field: the checksum stays as `newCheckpoint` made it. -/
theorem decode_docJ_other (key : List Char) (hk1 : keyMatches "checksum".data key = false)
    (hk2 : keyMatches "v1".data key = false)
    (n : Nat) (m : PreparedClaims) (hvalid : validClaims m = true) :
    ∃ m', (match docJ key { Checksum := n, V1 := some { PreparedClaims := m } } with
        | JValue.obj ms => decodeFields decodeCheckpointField newCheckpoint ms
        | _ => Except.error (CkError.json ""))
        = Except.ok { Checksum := 0, V1 := some { PreparedClaims := m' } } ∧
      ∀ k, m'.get k = m.get k := by
  have hv1a : keyMatches "checksum".data "v1".data = false := by decide
  have hv1b : keyMatches "v1".data "v1".data = true := by decide
  have hpc : keyMatches "preparedClaims".data "preparedClaims".data = true := by decide
  by_cases hm : m = []
  · refine ⟨[], ?_, by intro k; rw [hm]⟩
    simp [docJ, v1J, hm, decodeFields, decodeCheckpointField, hk1, hk2,
      hv1a, hv1b, newCheckpoint, Except.map]
  · obtain ⟨m', hdec, hget⟩ := decodeClaims_claimsJ m hvalid
    refine ⟨m', ?_, hget⟩
    simp only [claimsJ] at hdec
    simp [docJ, v1J, hm, decodeFields, decodeCheckpointField, hk1, hk2,
      hv1a, hv1b, hpc, newCheckpoint, Except.map, decodeV1Field, claimsJ, hdec]

/-- Loading bytes whose text is that of a checkpoint of valid strings written
under a first key that selects no field. -/
theorem load_text_other_key (h : Bytes → Nat) (data : Bytes) (key : List Char)
    (hk1 : keyMatches "checksum".data key = false) (hk2 : keyMatches "v1".data key = false)
    (n : Nat) (m : PreparedClaims) (hvalid : validClaims m = true)
    (htext : textOf data
      = encodeKeyed key { Checksum := n, V1 := some { PreparedClaims := m } }) :
    ∃ m', Checkpoint.UnmarshalCheckpoint (goLib h) newCheckpoint data
        = Except.ok { Checksum := 0, V1 := some { PreparedClaims := m' } } ∧
      ∀ k, m'.get k = m.get k := by
  obtain ⟨m', hdec, hget⟩ := decode_docJ_other key hk1 hk2 n m hvalid
  refine ⟨m', ?_, hget⟩
  show jsonUnmarshal _ newCheckpoint = _
  unfold jsonUnmarshal
  have ht : utf8DecodeLossy data.length data
      = encodeKeyed key { Checksum := n, V1 := some { PreparedClaims := m } } := htext
  rw [ht, parseJSON_encodeKeyed _ _ (by
    intro v hv
    simp only [Option.some.injEq] at hv
    rw [← hv]
    exact hvalid)]
  exact hdec

/-- The characters read in the bytes of a text that starts with the key
`checksum` when one bit of that start has been flipped. -/
theorem text_of_member_flip (X : List Char) (x : Char) (xs : List Char) (hX : X = x :: xs)
    (hx : x.toNat < 128) (pre post : List Char) (d : Char)
    (hP : "\x7b\"checksum\":".data = pre ++ d :: post) (i : Nat) (hi : pre.length = i)
    (j : Nat) (hj : j < 8) :
    textOf (flipBit (utf8Encode ("\x7b\"checksum\":".data ++ X)) (8 * i + j))
      = pre ++ flippedChar d j :: (post ++ X) := by
  have hall : ∀ y ∈ "\x7b\"checksum\":".data, y.toNat < 128 := by decide
  subst hi
  have hsplit : "\x7b\"checksum\":".data ++ X = pre ++ d :: (post ++ X) := by
    rw [hP]; simp
  rw [hsplit]
  apply text_of_ascii_flip pre (post ++ X) d _ j hj
  · intro c hc
    exact hall c (by rw [hP]; exact List.mem_append_left _ hc)
  · intro y r hy
    cases post with
    | nil =>
      rw [List.nil_append, hX] at hy
      simp only [List.cons.injEq] at hy
      rw [← hy.1]; exact hx
    | cons p ps =>
      simp only [List.cons_append, List.cons.injEq] at hy
      rw [← hy.1]
      exact hall p (by rw [hP]; simp)
  · exact hall d (by rw [hP]; simp)

/-- A flip of one bit of the opening brace is not accepted. -/
theorem reject_flip_brace (h : Bytes → Nat) (X : List Char) (x : Char) (xs : List Char)
    (hX : X = x :: xs) (hx : x.toNat < 128) (j : Nat) (hj : j < 8) :
    accepts (goLib h) (flipBit (utf8Encode ("\x7b\"checksum\":".data ++ X)) (8 * 0 + j))
      = false := by
  have htext := text_of_member_flip X x xs hX hx [] "\"checksum\":".data '\x7b' rfl 0 rfl j hj
  have hcls : ∀ j, j < 8 →
      startsNoValue (flippedChar '\x7b' j) = true ∨ flippedChar '\x7b' j = '[' := by
    decide
  have hlen : ∀ c : Char, 2 * ([] ++ c :: ("\"checksum\":".data ++ X)).length + 2
      = 2 * X.length + 23 + 3 := by
    intro c
    simp
    omega
  refine reject_invalid_text h _ _ htext ?_
  rw [hlen]
  rcases hcls j hj with hc | hc
  · have hws : isWs (flippedChar '\x7b' j) = false := by
      simp only [startsNoValue, Bool.and_eq_true, Bool.not_eq_true'] at hc
      exact hc.1.2
    exact parseValue_startsNoValue _ 0 _ _ _ (skipWs_of_not_ws _ _ hws) hc
  · rw [hc]
    have hbody : parseStringBody (2 * X.length + 23) ("checksum".data ++ '"' :: ':' :: X)
        = some ("checksum".data, ':' :: X) :=
      parseStringBody_plain "checksum".data (by decide) _ _ (by
        have : "checksum".data.length = 8 := rfl
        omega)
    exact parseValue_array_key _ _ _ _ hbody

/-- A flip of one bit of the quote that opens the key is not accepted. -/
theorem reject_flip_open_quote (h : Bytes → Nat) (X : List Char) (x : Char) (xs : List Char)
    (hX : X = x :: xs) (hx : x.toNat < 128) (j : Nat) (hj : j < 8) :
    accepts (goLib h) (flipBit (utf8Encode ("\x7b\"checksum\":".data ++ X)) (8 * 1 + j))
      = false := by
  have htext := text_of_member_flip X x xs hX hx ['\x7b'] "checksum\":".data '"' rfl 1 rfl j hj
  have hcls : ∀ j, j < 8 →
      flippedChar '"' j ≠ '"' ∧ flippedChar '"' j ≠ '\x7d' ∧
        (isWs (flippedChar '"' j) = false ∨ flippedChar '"' j = ' ') := by
    decide
  have hlen : ∀ c : Char, 2 * (['\x7b'] ++ c :: ("checksum\":".data ++ X)).length + 2
      = 2 * X.length + 24 + 2 := by
    intro c
    simp
    omega
  refine reject_invalid_text h _ _ htext ?_
  rw [hlen]
  obtain ⟨h1, h2, hws | hsp⟩ := hcls j hj
  · exact parseValue_object_no_key _ _ _ _ (skipWs_of_not_ws _ _ hws) hws h1 h2
  · rw [hsp]
    exact parseValue_object_no_key _ (' ' :: ("checksum\":".data ++ X)) 'c'
      ("hecksum\":".data ++ X) (by
        show (if isWs ' ' then skipWs ("checksum\":".data ++ X) else _) = _
        rw [if_pos (by decide)]
        exact skipWs_of_not_ws 'c' _ (by decide)) (by decide) (by decide) (by decide)

/-- A flip of one bit of the colon behind the key is not accepted. -/
theorem reject_flip_colon (h : Bytes → Nat) (X : List Char) (x : Char) (xs : List Char)
    (hX : X = x :: xs) (hx : x.toNat < 128) (j : Nat) (hj : j < 8) :
    accepts (goLib h) (flipBit (utf8Encode ("\x7b\"checksum\":".data ++ X)) (8 * 11 + j))
      = false := by
  have htext := text_of_member_flip X x xs hX hx "\x7b\"checksum\"".data [] ':' rfl 11 rfl j hj
  have hcls : ∀ j, j < 8 → isWs (flippedChar ':' j) = false ∧ flippedChar ':' j ≠ ':' := by
    decide
  have hlen : ∀ c : Char, 2 * ("\x7b\"checksum\"".data ++ c :: ([] ++ X)).length + 2
      = 2 * X.length + 24 + 2 := by
    intro c
    simp
    omega
  refine reject_invalid_text h _ _ htext ?_
  rw [hlen]
  obtain ⟨hws, hne⟩ := hcls j hj
  have hbody : parseStringBody (2 * X.length + 24)
      ("checksum".data ++ '"' :: flippedChar ':' j :: X)
      = some ("checksum".data, flippedChar ':' j :: X) :=
    parseStringBody_plain "checksum".data (by decide) _ _ (by
      have : "checksum".data.length = 8 := rfl
      omega)
  exact parseValue_object_no_colon _ _ _ _ _ hbody hws hne

/-- A flip of one bit of the quote that closes the key is not accepted: the
key then runs on to the next quote, which no colon follows. -/
theorem reject_flip_close_quote (h : Bytes → Nat) (n : Nat) (R : List Char)
    (j : Nat) (hj : j < 8) :
    accepts (goLib h) (flipBit (utf8Encode ("\x7b\"checksum\":".data ++
      (fmtNat n ++ ',' :: '"' :: 'v' :: R))) (8 * 10 + j)) = false := by
  obtain ⟨x, xs, hX⟩ : ∃ x xs, fmtNat n ++ ',' :: '"' :: 'v' :: R = x :: xs := by
    cases hd : fmtNat n with
    | nil => exact absurd hd (fmtNat_ne_nil n)
    | cons d ds => exact ⟨d, _, rfl⟩
  have hx : x.toNat < 128 := by
    cases hd : fmtNat n with
    | nil => exact absurd hd (fmtNat_ne_nil n)
    | cons d ds =>
      rw [hd] at hX
      simp only [List.cons_append, List.cons.injEq] at hX
      rw [← hX.1]
      exact isDigit_ascii d (fmtNat_isDigit n d (by rw [hd]; exact List.mem_cons_self _ _))
  have htext := text_of_member_flip _ x xs hX hx "\x7b\"checksum".data [':'] '"' rfl 10 rfl j hj
  have hcls : ∀ j, j < 8 →
      (flippedChar '"' j).toNat < 0x20 ∨
        (flippedChar '"' j ≠ '"' ∧ flippedChar '"' j ≠ '\\' ∧
          ¬ (flippedChar '"' j).toNat < 0x20) := by
    decide
  have hlen : ∀ c : Char, 2 * ("\x7b\"checksum".data ++ c ::
      ([':'] ++ (fmtNat n ++ ',' :: '"' :: 'v' :: R))).length + 2
      = 2 * (fmtNat n ++ ',' :: '"' :: 'v' :: R).length + 24 + 2 := by
    intro c
    simp
    omega
  refine reject_invalid_text h _ _ htext ?_
  rw [hlen]
  have hck : ∀ c ∈ "checksum".data, c ≠ '"' ∧ c ≠ '\\' ∧ ¬ c.toNat < 0x20 := by decide
  rcases hcls j hj with hctl | hplain
  · have hbody := parseStringBody_control "checksum".data hck (flippedChar '"' j) hctl
      (2 * (fmtNat n ++ ',' :: '"' :: 'v' :: R).length + 24)
      ([':'] ++ (fmtNat n ++ ',' :: '"' :: 'v' :: R))
    exact parseValue_object_bad_key _ _ hbody
  · have hall : ∀ c ∈ "checksum".data ++ flippedChar '"' j :: ':' :: (fmtNat n ++ [',']),
        c ≠ '"' ∧ c ≠ '\\' ∧ ¬ c.toNat < 0x20 := by
      intro c hc
      rcases List.mem_append.1 hc with hc | hc
      · exact hck c hc
      · rcases List.mem_cons.1 hc with hc | hc
        · rw [hc]; exact hplain
        · rcases List.mem_cons.1 hc with hc | hc
          · rw [hc]; decide
          · rcases List.mem_append.1 hc with hc | hc
            · have hdig := fmtNat_isDigit n c hc
              have hb : 48 ≤ c.toNat ∧ c.toNat ≤ 57 := by simpa [isDigit] using hdig
              refine ⟨?_, ?_, by omega⟩ <;> (rintro rfl; revert hdig; decide)
            · rw [List.mem_singleton.1 hc]; decide
    have hbody := parseStringBody_plain _ hall
      (2 * (fmtNat n ++ ',' :: '"' :: 'v' :: R).length + 24) ('v' :: R) (by
        simp only [List.length_append, List.length_cons, List.length_nil]
        have : "checksum".data.length = 8 := rfl
        omega)
    have hshape : ("checksum".data ++ flippedChar '"' j :: ':' :: (fmtNat n ++ [','])) ++
        '"' :: 'v' :: R
        = "checksum".data ++ flippedChar '"' j :: ([':'] ++ (fmtNat n ++ ',' :: '"' :: 'v' :: R)) := by
      simp
    rw [hshape] at hbody
    exact parseValue_object_no_colon _ _ _ _ _ hbody (by decide) (by decide)

/-- A flip of one bit of the comma behind the checksum is not accepted. -/
theorem reject_flip_comma (h : Bytes → Nat) (n : Nat) (R : List Char)
    (j : Nat) (hj : j < 8) :
    accepts (goLib h) (flipBit (utf8Encode ("\x7b\"checksum\":".data ++
      (fmtNat n ++ ',' :: '"' :: R))) (8 * (12 + (fmtNat n).length) + j)) = false := by
  have hpre : ∀ x ∈ "\x7b\"checksum\":".data ++ fmtNat n, x.toNat < 128 := by
    intro x hx
    have hP : ∀ y ∈ "\x7b\"checksum\":".data, y.toNat < 128 := by decide
    rcases List.mem_append.1 hx with hx | hx
    · exact hP x hx
    · exact isDigit_ascii x (fmtNat_isDigit n x hx)
  have hlen : ("\x7b\"checksum\":".data ++ fmtNat n).length = 12 + (fmtNat n).length := by
    simp
    omega
  have htext := text_of_ascii_flip ("\x7b\"checksum\":".data ++ fmtNat n) ('"' :: R) ','
    (by decide) j hj hpre (by
      intro x r hxr
      simp only [List.cons.injEq] at hxr
      rw [← hxr.1]; decide)
  rw [hlen, List.append_assoc, List.append_assoc] at htext
  have hcls : ∀ j, j < 8 →
      flippedChar ',' j = '.' ∨ breaksNumber (flippedChar ',' j) = true := by
    decide
  have hfuel : ∀ X : List Char, 2 * X.length + 24 = 2 * X.length + 23 + 1 := fun _ => rfl
  rcases hcls j hj with hpt | hbrk
  · rw [hpt] at htext
    refine reject_no_value h _ _ htext ?_
    rw [hfuel]
    exact parseValue_number_point _ 1 n '"' R (by decide)
  · simp only [breaksNumber, Bool.and_eq_true, Bool.not_eq_true', decide_eq_true_eq] at hbrk
    obtain ⟨⟨hdig, hws⟩, h1, h2, h3, h4, h5⟩ := hbrk
    refine reject_no_separator h _ _ htext (JValue.num (fmtNat n))
      (flippedChar ',' j :: '"' :: R) ?_ ?_
    · rw [hfuel]
      exact parseValue_number_break _ 1 n _ _ hdig h1 h2 h3
    · intro c r4 hs
      rw [skipWs_of_not_ws _ _ hws] at hs
      simp only [List.cons.injEq] at hs
      rw [← hs.1]
      exact ⟨h4, h5⟩

/-- What a flipped bit makes of the key `checksum`: a key that is written
without an escape and that selects the field `checksum` when the flip changed
the case of a letter (bit 5), and no field otherwise. -/
theorem flippedKey_cases : ∀ k, k < 8 → ∀ j, j < 8 →
    quote (flippedKey k j) = '"' :: (flippedKey k j ++ ['"']) ∧
    ((j = 5 ∧ keyMatches "checksum".data (flippedKey k j) = true) ∨
      (j ≠ 5 ∧ keyMatches "checksum".data (flippedKey k j) = false ∧
        keyMatches "v1".data (flippedKey k j) = false)) := by
  decide

/-- The characters read in the bytes of a text that starts with the key
`checksum` when one bit of a letter of the key has been flipped. -/
theorem text_of_key_flip (X : List Char) (x : Char) (xs : List Char) (hX : X = x :: xs)
    (hx : x.toNat < 128) (k : Nat) (hk : k < 8) (j : Nat) (hj : j < 8) :
    textOf (flipBit (utf8Encode ("\x7b\"checksum\":".data ++ X)) (8 * (2 + k) + j))
      = '\x7b' :: '"' :: (flippedKey k j ++ '"' :: ':' :: X) := by
  have hP : "\x7b\"checksum\":".data
      = ('\x7b' :: '"' :: "checksum".data.take k) ++ "checksum".data.getD k 'c' ::
        ("checksum".data.drop (k + 1) ++ ['"', ':']) := by
    interval_cases k <;> rfl
  have hi : ('\x7b' :: '"' :: "checksum".data.take k).length = 2 + k := by
    interval_cases k <;> rfl
  rw [text_of_member_flip X x xs hX hx _ _ _ hP (2 + k) hi j hj]
  simp [flippedKey]

theorem fmtNat_append_head (n : Nat) (R : List Char) :
    ∃ x xs, fmtNat n ++ R = x :: xs ∧ x.toNat < 128 := by
  cases hd : fmtNat n with
  | nil => exact absurd hd (fmtNat_ne_nil n)
  | cons d ds =>
    exact ⟨d, ds ++ R, rfl,
      isDigit_ascii d (fmtNat_isDigit n d (by rw [hd]; exact List.mem_cons_self _ _))⟩

/-- A flip of one bit of a letter of the key `checksum`: the bytes load with
the saved bindings, under the saved checksum when the flip changed the case of
the letter and under the checksum 0 of a fresh checkpoint otherwise. -/
theorem load_key_flip (h : Bytes → Nat) (n : Nat) (hn : n < 2 ^ 64) (m : PreparedClaims)
    (hvalid : validClaims m = true) (k : Nat) (hk : k < 8) (j : Nat) (hj : j < 8) :
    ∃ c' m', newCheckpoint.UnmarshalCheckpoint (goLib h)
        (flipBit (utf8Encode (encodeCheckpoint
          { Checksum := n, V1 := some { PreparedClaims := m } })) (8 * (2 + k) + j))
        = Except.ok { Checksum := c', V1 := some { PreparedClaims := m' } } ∧
      (∀ key, m'.get key = m.get key) ∧ ((j = 5 ∧ c' = n) ∨ (j ≠ 5 ∧ c' = 0)) := by
  obtain ⟨x, xs, hX, hx⟩ := fmtNat_append_head n
    (',' :: ("\"v1\":".data ++ encodeV1 { PreparedClaims := m } ++ ['\x7d']))
  have htext := text_of_key_flip _ x xs hX hx k hk j hj
  rw [← encodeCheckpoint_split] at htext
  obtain ⟨hq, hcase⟩ := flippedKey_cases k hk j hj
  have hkeyed : '\x7b' :: '"' :: (flippedKey k j ++ '"' :: ':' ::
      (fmtNat n ++ ',' :: ("\"v1\":".data ++ encodeV1 { PreparedClaims := m } ++ ['\x7d'])))
      = encodeKeyed (flippedKey k j) { Checksum := n, V1 := some { PreparedClaims := m } } := by
    simp [encodeKeyed, hq]
  rw [hkeyed] at htext
  rcases hcase with ⟨h5, hmatch⟩ | ⟨h5, hk1, hk2⟩
  · obtain ⟨m', hload, hget⟩ := load_text_keyed h _ _ hmatch n hn m hvalid htext
    exact ⟨n, m', hload, hget, Or.inl ⟨h5, rfl⟩⟩
  · obtain ⟨m', hload, hget⟩ := load_text_other_key h _ _ hk1 hk2 n m hvalid htext
    exact ⟨0, m', hload, hget, Or.inr ⟨h5, rfl⟩⟩

/-- A flip of one bit of a letter of the key `checksum` in the saved bytes: the
bytes load with the saved bindings, under the saved checksum when the flip
changed the case of the letter and under the checksum 0 otherwise, and they are
accepted exactly when the checksum they load with is the saved one. -/
theorem key_flip_accepted (h : Bytes → Nat) (m : PreparedClaims)
    (hvalid : validClaims m = true) (k : Nat) (hk : k < 8) (j : Nat) (hj : j < 8) :
    ∃ c' m', newCheckpoint.UnmarshalCheckpoint (goLib h)
        (flipBit (utf8Encode (encodeCheckpoint
          { Checksum := (goLib h).New (utf8Encode (encodeCheckpoint
              { Checksum := 0, V1 := some { PreparedClaims := m } })),
            V1 := some { PreparedClaims := m } })) (8 * (2 + k) + j))
        = Except.ok { Checksum := c', V1 := some { PreparedClaims := m' } } ∧
      (∀ key, m'.get key = m.get key) ∧
      ((j = 5 ∧ c' = (goLib h).New (utf8Encode (encodeCheckpoint
          { Checksum := 0, V1 := some { PreparedClaims := m } }))) ∨ (j ≠ 5 ∧ c' = 0)) ∧
      (accepts (goLib h) (flipBit (utf8Encode (encodeCheckpoint
          { Checksum := (goLib h).New (utf8Encode (encodeCheckpoint
              { Checksum := 0, V1 := some { PreparedClaims := m } })),
            V1 := some { PreparedClaims := m } })) (8 * (2 + k) + j)) = true ↔
        c' = (goLib h).New (utf8Encode (encodeCheckpoint
          { Checksum := 0, V1 := some { PreparedClaims := m } }))) := by
  have hlt := lib_new_lt (goLib h) (utf8Encode (encodeCheckpoint
      { Checksum := 0, V1 := some { PreparedClaims := m } }))
  obtain ⟨c', m', hload, hget, hc'⟩ := load_key_flip h _ hlt m hvalid k hk j hj
  refine ⟨c', m', hload, hget, hc', ?_⟩
  have henc : encodeCheckpoint { Checksum := 0, V1 := some { PreparedClaims := m' } }
      = encodeCheckpoint { Checksum := 0, V1 := some { PreparedClaims := m } } := by
    simp only [encodeCheckpoint, encodeV1_congr m m' hget]
  have hver : (Checkpoint.VerifyChecksum (goLib h)
      { Checksum := c', V1 := some { PreparedClaims := m' } }).1 = Except.ok () ↔
      c' = (goLib h).New (utf8Encode (encodeCheckpoint
        { Checksum := 0, V1 := some { PreparedClaims := m } })) := by
    rw [verifyChecksum_goLib_iff]
    show c' = (goLib h).New (utf8Encode (encodeCheckpoint
        { Checksum := 0, V1 := some { PreparedClaims := m' } })) ↔ _
    rw [henc]
  rw [accepts_iff]
  constructor
  · rintro ⟨cp'', hload', hv⟩
    rw [hload] at hload'
    cases hload'
    exact hver.1 hv
  · intro hc
    exact ⟨_, hload, hver.2 hc⟩

/-- A flip of one bit of the first member of the saved bytes outside the
letters of the key, that is in the opening brace, in a quote of the key, in
the colon, in a digit of the checksum or in the comma behind it, is not
accepted. -/
theorem reject_member_flip (h : Bytes → Nat) (m : PreparedClaims)
    (hvalid : validClaims m = true) (i j : Nat)
    (hi : i ≤ 12 + (fmtNat ((goLib h).New (utf8Encode (encodeCheckpoint
      { Checksum := 0, V1 := some { PreparedClaims := m } })))).length) (hj : j < 8)
    (hkey : ¬ (2 ≤ i ∧ i ≤ 9)) :
    accepts (goLib h) (flipBit (utf8Encode (encodeCheckpoint
      { Checksum := (goLib h).New (utf8Encode (encodeCheckpoint
          { Checksum := 0, V1 := some { PreparedClaims := m } })),
        V1 := some { PreparedClaims := m } })) (8 * i + j)) = false := by
  by_cases hdig : 12 ≤ i ∧ i < 12 + (fmtNat ((goLib h).New (utf8Encode (encodeCheckpoint
      { Checksum := 0, V1 := some { PreparedClaims := m } })))).length
  · obtain ⟨t, rfl⟩ : ∃ t, i = 12 + t := ⟨i - 12, by omega⟩
    have ht : t < (fmtNat ((goLib h).New (utf8Encode (encodeCheckpoint
        { Checksum := 0, V1 := some { PreparedClaims := m } })))).length := by omega
    have hsplit : fmtNat ((goLib h).New (utf8Encode (encodeCheckpoint
        { Checksum := 0, V1 := some { PreparedClaims := m } })))
        = (fmtNat ((goLib h).New (utf8Encode (encodeCheckpoint
            { Checksum := 0, V1 := some { PreparedClaims := m } })))).take t ++
          (fmtNat ((goLib h).New (utf8Encode (encodeCheckpoint
            { Checksum := 0, V1 := some { PreparedClaims := m } }))))[t] ::
          (fmtNat ((goLib h).New (utf8Encode (encodeCheckpoint
            { Checksum := 0, V1 := some { PreparedClaims := m } })))).drop (t + 1) := by
      rw [← List.drop_eq_getElem_cons ht, List.take_append_drop]
    have hlen : ((fmtNat ((goLib h).New (utf8Encode (encodeCheckpoint
        { Checksum := 0, V1 := some { PreparedClaims := m } })))).take t).length = t :=
      List.length_take_of_le (Nat.le_of_lt ht)
    have := reject_digit_flip h m hvalid _ _ _ j hj hsplit
    rw [hlen] at this
    exact this
  · rw [encodeCheckpoint_split]
    obtain ⟨x, xs, hX, hx⟩ := fmtNat_append_head ((goLib h).New (utf8Encode (encodeCheckpoint
        { Checksum := 0, V1 := some { PreparedClaims := m } })))
      (',' :: ("\"v1\":".data ++ encodeV1 { PreparedClaims := m } ++ ['\x7d']))
    have hshape : "\"v1\":".data ++ encodeV1 { PreparedClaims := m } ++ ['\x7d']
        = '"' :: 'v' :: ("1\":".data ++ encodeV1 { PreparedClaims := m } ++ ['\x7d']) := rfl
    have hcases : i = 0 ∨ i = 1 ∨ i = 10 ∨ i = 11 ∨
        i = 12 + (fmtNat ((goLib h).New (utf8Encode (encodeCheckpoint
          { Checksum := 0, V1 := some { PreparedClaims := m } })))).length := by
      omega
    rcases hcases with rfl | rfl | rfl | rfl | rfl
    · exact reject_flip_brace h _ x xs hX hx j hj
    · exact reject_flip_open_quote h _ x xs hX hx j hj
    · rw [hshape]
      exact reject_flip_close_quote h _ _ j hj
    · exact reject_flip_colon h _ x xs hX hx j hj
    · rw [hshape]
      exact reject_flip_comma h _ _ j hj

/-! ## Flipped bits and acceptance -/

set_option maxRecDepth 100000 in
/-- C3, as stated, fails: the checkpoint made by `newCheckpoint` is saved (with
the sample hash) as `{"checksum":1901703213,"v1":{}}`; flipping bit 21, that is
bit 5 of the third byte, turns the key into `Checksum`, which `json.Unmarshal`
still takes for the `checksum` field, so the flipped bytes load and
`VerifyChecksum` returns no error. The hash plays no part in it: the amended
statement below has the same flip accepted for every hash. -/
theorem single_bit_flip_accepted_example :
    (newCheckpoint.MarshalCheckpoint (goLib fnv1a32)).1
        = Except.ok (utf8Encode "\x7b\"checksum\":1901703213,\"v1\":\x7b\x7d\x7d".data) ∧
    21 < 8 * (utf8Encode "\x7b\"checksum\":1901703213,\"v1\":\x7b\x7d\x7d".data).length ∧
    flipBit (utf8Encode "\x7b\"checksum\":1901703213,\"v1\":\x7b\x7d\x7d".data) 21
        = utf8Encode "\x7b\"Checksum\":1901703213,\"v1\":\x7b\x7d\x7d".data ∧
    accepts (goLib fnv1a32) (flipBit (utf8Encode "\x7b\"checksum\":1901703213,\"v1\":\x7b\x7d\x7d".data) 21)
        = true := by
  refine ⟨?_, ?_, ?_, ?_⟩
  · rfl
  · decide
  · decide
  · decide

/-- C3 (as amended): for the bytes that `MarshalCheckpoint` produces for a
claims mapping of valid UTF-8 strings and for every bit position, the bytes with
that bit flipped are not accepted, with two exceptions. They are accepted when
they still load and the loaded checkpoint is the saved document, with the same
checksum and the same bindings. Otherwise they are accepted only by a collision
of the hash: they load as a document other than the saved one whose checksum is
the checksum of its own serialization with the checksum cleared. Whatever the
hash, flipped bytes that do not load are rejected and flipped bytes that load
with the saved bindings under another checksum are rejected. In the first
member of the text, which is the key `checksum`, the digits of its value and
the comma behind them (the bytes 0 to 12 + d for a checksum of d digits), no
collision is possible: whatever the hash, a flip there is accepted exactly when
the flipped bytes load as the saved document, and that is the case exactly for
a flip in a letter of the key (the bytes 2 to 9) that changes the case of the
letter (bit 5) or, when the saved checksum is 0, any other bit of the letter;
so every flip in the brace, the quotes, the colon, the digits of the checksum
and the comma is rejected, and the eight case flips are accepted for every
mapping and every hash. -/
theorem flipped_checkpoint_acceptance (h : Bytes → Nat) (m : PreparedClaims)
    (hvalid : validClaims m = true) :
    ∃ bytes cp1,
      Checkpoint.MarshalCheckpoint (goLib h) { newCheckpoint with V1 := some { PreparedClaims := m } }
        = (Except.ok bytes, cp1) ∧
      (∀ pos, accepts (goLib h) (flipBit bytes pos) = true ↔
        ∃ cp', newCheckpoint.UnmarshalCheckpoint (goLib h) (flipBit bytes pos) = Except.ok cp' ∧
          (isSavedDocument cp' cp1 = true ∨
            (isSavedDocument cp' cp1 = false ∧
              cp'.Checksum
                = (goLib h).New (utf8Encode (encodeCheckpoint { cp' with Checksum := 0 }))))) ∧
      (∀ pos e, newCheckpoint.UnmarshalCheckpoint (goLib h) (flipBit bytes pos) = Except.error e →
        accepts (goLib h) (flipBit bytes pos) = false) ∧
      (∀ pos c' m', newCheckpoint.UnmarshalCheckpoint (goLib h) (flipBit bytes pos)
          = Except.ok { Checksum := c', V1 := some { PreparedClaims := m' } } →
        (∀ k, m'.get k = m.get k) → c' ≠ cp1.Checksum →
        accepts (goLib h) (flipBit bytes pos) = false) ∧
      (∀ i j, i ≤ 12 + (fmtNat cp1.Checksum).length → j < 8 →
        (accepts (goLib h) (flipBit bytes (8 * i + j)) = true ↔
          ∃ cp', newCheckpoint.UnmarshalCheckpoint (goLib h) (flipBit bytes (8 * i + j))
              = Except.ok cp' ∧
            isSavedDocument cp' cp1 = true)) ∧
      (∀ i j, i ≤ 12 + (fmtNat cp1.Checksum).length → j < 8 →
        (accepts (goLib h) (flipBit bytes (8 * i + j)) = true ↔
          2 ≤ i ∧ i ≤ 9 ∧ (j = 5 ∨ cp1.Checksum = 0))) := by
  refine ⟨_, _, marshalCheckpoint_eq h 0 m, ?_, ?_, ?_, ?_, ?_⟩
  · intro pos
    rw [accepts_iff]
    constructor
    · rintro ⟨cp', hload, hver⟩
      refine ⟨cp', hload, ?_⟩
      cases hs : isSavedDocument cp' _ with
      | true => exact Or.inl rfl
      | false => exact Or.inr ⟨rfl, (verifyChecksum_goLib_iff h cp').1 hver⟩
    · rintro ⟨cp', hload, hs | ⟨_, hck⟩⟩
      · exact ⟨cp', hload, verify_saved_document h m cp' hs⟩
      · exact ⟨cp', hload, (verifyChecksum_goLib_iff h cp').2 hck⟩
  · intro pos e hload
    exact accepts_of_load_error _ _ e hload
  · intro pos c' m' hload hget hck
    exact reject_other_checksum h m m' _ c' hload hget hck
  · intro i j hi hj
    constructor
    · intro hacc
      by_cases hkey : 2 ≤ i ∧ i ≤ 9
      · obtain ⟨k, rfl⟩ : ∃ k, i = 2 + k := ⟨i - 2, by omega⟩
        obtain ⟨c', m', hload, hget, _, hiff⟩ :=
          key_flip_accepted h m hvalid k (by omega) j hj
        exact ⟨_, hload, (isSavedDocument_iff _ _ m).2 ⟨hiff.1 hacc, m', rfl, hget⟩⟩
      · have hrej := reject_member_flip h m hvalid i j hi hj hkey
        rw [hrej] at hacc
        cases hacc
    · rintro ⟨cp', hload, hs⟩
      exact (accepts_iff _ _).2 ⟨cp', hload, verify_saved_document h m cp' hs⟩
  · intro i j hi hj
    by_cases hkey : 2 ≤ i ∧ i ≤ 9
    · obtain ⟨k, rfl⟩ : ∃ k, i = 2 + k := ⟨i - 2, by omega⟩
      obtain ⟨c', m', _, _, hc', hiff⟩ := key_flip_accepted h m hvalid k (by omega) j hj
      rw [hiff]
      constructor
      · intro hc
        refine ⟨hkey.1, hkey.2, ?_⟩
        rcases hc' with ⟨h5, _⟩ | ⟨_, h0⟩
        · exact Or.inl h5
        · exact Or.inr (by rw [← hc, h0])
      · rintro ⟨_, _, h5 | h0⟩
        · rcases hc' with ⟨_, hc⟩ | ⟨hn5, _⟩
          · exact hc
          · exact absurd h5 hn5
        · rcases hc' with ⟨_, hc⟩ | ⟨_, hc0⟩
          · exact hc
          · rw [hc0]; exact h0.symm
    · have hrej := reject_member_flip h m hvalid i j hi hj hkey
      rw [hrej]
      constructor
      · intro hf; cases hf
      · rintro ⟨h2, h9, _⟩
        exact absurd ⟨h2, h9⟩ hkey

set_option maxRecDepth 1000000 in
set_option maxHeartbeats 4000000 in
/-- C3 at the sample claims mapping with the sample hash, with every bit
position tried: of the 472 single-bit flips of the saved bytes, 23 are accepted,
those that change the case of a letter of one of the keys `checksum`, `v1` and
`preparedClaims`; each of them loads as the saved document, and every other flip
is rejected. -/
theorem flipped_checkpoint_acceptance_sample :
    validClaims sampleClaims = true ∧
    (Checkpoint.MarshalCheckpoint (goLib fnv1a32)
        { newCheckpoint with V1 := some { PreparedClaims := sampleClaims } })
      = (Except.ok (utf8Encode
          "\x7b\"checksum\":691324058,\"v1\":\x7b\"preparedClaims\":\x7b\"c1\":[\"g\"]\x7d\x7d\x7d".data),
        { Checksum := 691324058, V1 := some { PreparedClaims := sampleClaims } }) ∧
    acceptedFlips (goLib fnv1a32) (utf8Encode
        "\x7b\"checksum\":691324058,\"v1\":\x7b\"preparedClaims\":\x7b\"c1\":[\"g\"]\x7d\x7d\x7d".data)
      = [21, 29, 37, 45, 53, 61, 69, 77, 189, 237, 245, 253, 261, 269, 277, 285, 293, 301, 309,
          317, 325, 333, 341] ∧
    (∀ pos ∈ [21, 29, 37, 45, 53, 61, 69, 77, 189, 237, 245, 253, 261, 269, 277, 285, 293, 301,
          309, 317, 325, 333, 341],
      ∃ cp', newCheckpoint.UnmarshalCheckpoint (goLib fnv1a32) (flipBit (utf8Encode
          "\x7b\"checksum\":691324058,\"v1\":\x7b\"preparedClaims\":\x7b\"c1\":[\"g\"]\x7d\x7d\x7d".data)
            pos) = Except.ok cp' ∧
        isSavedDocument cp'
          { Checksum := 691324058, V1 := some { PreparedClaims := sampleClaims } } = true) ∧
    (∃ bytes cp1,
      Checkpoint.MarshalCheckpoint (goLib fnv1a32)
          { newCheckpoint with V1 := some { PreparedClaims := sampleClaims } }
        = (Except.ok bytes, cp1) ∧
      ∀ i, 2 ≤ i → i ≤ 9 → accepts (goLib fnv1a32) (flipBit bytes (8 * i + 5)) = true) := by
  refine ⟨by decide, by rfl, by decide, ?_, ?_⟩
  · intro pos hpos
    have hall : [21, 29, 37, 45, 53, 61, 69, 77, 189, 237, 245, 253, 261, 269, 277, 285,
        293, 301, 309, 317, 325, 333, 341].all (fun pos =>
        match newCheckpoint.UnmarshalCheckpoint (goLib fnv1a32) (flipBit (utf8Encode
          "\x7b\"checksum\":691324058,\"v1\":\x7b\"preparedClaims\":\x7b\"c1\":[\"g\"]\x7d\x7d\x7d".data)
            pos) with
          | Except.ok cp' => isSavedDocument cp'
              { Checksum := 691324058, V1 := some { PreparedClaims := sampleClaims } }
          | Except.error _ => false) = true := by
      decide
    have hp := List.all_eq_true.1 hall pos hpos
    split at hp
    · rename_i cp' hload
      exact ⟨cp', hload, hp⟩
    · cases hp
  · obtain ⟨bytes, cp1, hm, _, _, _, _, hexact⟩ :=
      flipped_checkpoint_acceptance fnv1a32 sampleClaims (by decide)
    have hcp : cp1 = { Checksum := 691324058, V1 := some { PreparedClaims := sampleClaims } } := by
      have h1 : (Checkpoint.MarshalCheckpoint (goLib fnv1a32)
          { newCheckpoint with V1 := some { PreparedClaims := sampleClaims } }).2 = cp1 := by
        rw [hm]
      rw [← h1]
      rfl
    refine ⟨bytes, cp1, hm, fun i h2 h9 => ?_⟩
    refine (hexact i 5 ?_ (by decide)).2 ⟨h2, h9, Or.inl rfl⟩
    rw [hcp]
    have : (fmtNat 691324058).length = 9 := by decide
    show i ≤ 12 + (fmtNat 691324058).length
    omega

/-! ## The topology scan -/

theorem intDiv_pos (a b : Int) (hb : 0 < b) : intDiv a b = Except.ok (Int.tdiv a b) := by
  have : ¬ b = 0 := by omega
  simp [intDiv, this]

/-- The record of a node, spelled out: no node makes the loop body panic. -/
theorem nodeRecord_eq (fs : TopoFS) (node : TopoNode) :
    nodeRecord fs node = Except.ok
      (match ParseTopologyProperties node.properties "drm_render_minor" with
       | none => none
       | some renderMinor =>
         if renderMinor ≤ 0 then none
         else
           match ParseTopologyPropertiesString node.properties "unique_id" with
           | none => none
           | some uniqueID =>
             match Atoi node.dir with
             | Except.error _ => none
             | Except.ok nodeId =>
               some { RenderDeviceID := renderMinor
                      UniqueID := uniqueID
                      NodeID := nodeId
                      SimdCount := (ParseTopologyProperties node.properties "simd_count").getD 0
                      SimdPerCU := (ParseTopologyProperties node.properties "simd_per_cu").getD 1
                      CUCount :=
                        if (ParseTopologyProperties node.properties "simd_per_cu").getD 1 > 0 then
                          Int.tdiv ((ParseTopologyProperties node.properties "simd_count").getD 0)
                            ((ParseTopologyProperties node.properties "simd_per_cu").getD 1)
                        else 0
                      VramBytes :=
                        match ParseTopologyProperties (fs.memBank nodeId) "size_in_bytes" with
                        | none => 0
                        | some vramSize => vramSize.toNat }) := by
  unfold nodeRecord
  cases ParseTopologyProperties node.properties "drm_render_minor" with
  | none => rfl
  | some renderMinor =>
    simp only
    by_cases hle : renderMinor ≤ 0
    · simp [hle]
    · simp only [hle, if_false]
      cases ParseTopologyPropertiesString node.properties "unique_id" with
      | none => rfl
      | some uniqueID =>
        simp only
        cases Atoi node.dir with
        | error v => rfl
        | ok nodeId =>
          simp only
          by_cases hpos : (ParseTopologyProperties node.properties "simd_per_cu").getD 1 > 0
          · simp [hpos, intDiv_pos _ _ hpos]
          · simp [hpos]

theorem foldPanic_append {σ α : Type} (step : σ → α → Except Panic σ) (l₁ l₂ : List α) :
    ∀ s, foldPanic step s (l₁ ++ l₂) =
      match foldPanic step s l₁ with
      | Except.error p => Except.error p
      | Except.ok s' => foldPanic step s' l₂ := by
  induction l₁ with
  | nil => intro s; rfl
  | cons a l₁ ih =>
    intro s
    simp only [List.cons_append, foldPanic]
    cases step s a with
    | error p => rfl
    | ok s' => exact ih s'

theorem foldPanic_total {σ α : Type} (step : σ → α → Except Panic σ)
    (hstep : ∀ s a, ∃ s', step s a = Except.ok s') (l : List α) :
    ∀ s, ∃ s', foldPanic step s l = Except.ok s' := by
  induction l with
  | nil => intro s; exact ⟨s, rfl⟩
  | cons a l ih =>
    intro s
    obtain ⟨s', hs'⟩ := hstep s a
    simp only [foldPanic, hs']
    exact ih s'

theorem foldPanic_invariant {σ α : Type} (step : σ → α → Except Panic σ) (P : σ → Prop)
    (hstep : ∀ s a s', P s → step s a = Except.ok s' → P s') (l : List α) :
    ∀ s s', P s → foldPanic step s l = Except.ok s' → P s' := by
  induction l with
  | nil =>
    intro s s' hP h
    simp only [foldPanic, Except.ok.injEq] at h
    exact h ▸ hP
  | cons a l ih =>
    intro s s' hP h
    simp only [foldPanic] at h
    cases hsa : step s a with
    | error p => rw [hsa] at h; cases h
    | ok s₁ =>
      rw [hsa] at h
      exact ih s₁ s' (hstep s a s₁ hP hsa) h

theorem IntMap.mem_set {ν : Type} (m : IntMap ν) (k : Int) (v : ν) (e : Int × ν)
    (he : e ∈ IntMap.set m k v) : e = (k, v) ∨ e ∈ m := by
  induction m with
  | nil =>
    simp only [IntMap.set, List.mem_singleton] at he
    exact Or.inl he
  | cons x m ih =>
    obtain ⟨k', v'⟩ := x
    by_cases hk : k' = k
    · simp only [IntMap.set, hk, if_true, List.mem_cons] at he
      rcases he with he | he
      · exact Or.inl he
      · exact Or.inr (List.mem_cons_of_mem _ he)
    · simp only [IntMap.set, hk, if_false, List.mem_cons] at he
      rcases he with he | he
      · exact Or.inr (he ▸ List.mem_cons_self _ _)
      · rcases ih he with h | h
        · exact Or.inl h
        · exact Or.inr (List.mem_cons_of_mem _ h)

theorem firstMatch_none_of_lacks (key : List Char) (lines : List String)
    (h : ∀ l ∈ lines, findSubmatch key l.data = none) : firstMatch key lines = none := by
  induction lines with
  | nil => rfl
  | cons l lines ih =>
    simp only [firstMatch, h l (List.mem_cons_self _ _)]
    exact ih (fun l' hl' => h l' (List.mem_cons_of_mem _ hl'))

theorem parse_none_of_lacks (key : String) (node : TopoNode) (h : lacksKey key node) :
    ParseTopologyProperties node.properties key = none ∧
    ParseTopologyPropertiesString node.properties key = none := by
  unfold ParseTopologyProperties ParseTopologyPropertiesString
  cases hp : node.properties with
  | none => exact ⟨rfl, rfl⟩
  | some lines =>
    simp [firstMatch_none_of_lacks key.data lines (h lines hp)]

theorem nodeRecord_none_of_lacks (fs : TopoFS) (node : TopoNode)
    (h : lacksKey "drm_render_minor" node ∨ lacksKey "unique_id" node) :
    nodeRecord fs node = Except.ok none := by
  rw [nodeRecord_eq]
  rcases h with h | h
  · rw [(parse_none_of_lacks _ node h).1]
  · rw [(parse_none_of_lacks _ node h).2]
    cases ParseTopologyProperties node.properties "drm_render_minor" with
    | none => rfl
    | some renderMinor =>
      simp only
      split <;> rfl

theorem nodeRecord_key_pos (fs : TopoFS) (node : TopoNode) (r : TopologyInfo)
    (h : nodeRecord fs node = Except.ok (some r)) : 0 < r.RenderDeviceID := by
  rw [nodeRecord_eq] at h
  simp only [Except.ok.injEq] at h
  cases hp : ParseTopologyProperties node.properties "drm_render_minor" with
  | none => rw [hp] at h; cases h
  | some renderMinor =>
    rw [hp] at h
    simp only at h
    by_cases hle : renderMinor ≤ 0
    · simp [hle] at h
    · simp only [hle, if_false] at h
      cases hu : ParseTopologyPropertiesString node.properties "unique_id" with
      | none => rw [hu] at h; cases h
      | some uniqueID =>
        rw [hu] at h
        simp only at h
        cases ha : Atoi node.dir with
        | error v => rw [ha] at h; cases h
        | ok nodeId =>
          rw [ha] at h
          simp only [Option.some.injEq] at h
          rw [← h]
          show 0 < renderMinor
          omega

theorem topologyStep_total (fs : TopoFS) (m : IntMap TopologyInfo) (node : TopoNode) :
    ∃ m', topologyStep fs m node = Except.ok m' := by
  unfold topologyStep
  rw [nodeRecord_eq]
  split
  · rename_i h; cases h
  · exact ⟨_, rfl⟩
  · exact ⟨_, rfl⟩

theorem topologyStep_congr (ns ns' : List TopoNode) (mb : Int → Option (List String))
    (m : IntMap TopologyInfo) (node : TopoNode) :
    topologyStep { nodes := ns, memBank := mb } m node
      = topologyStep { nodes := ns', memBank := mb } m node := rfl

theorem foldPanic_congr {σ α : Type} (f g : σ → α → Except Panic σ) (h : ∀ s a, f s a = g s a)
    (l : List α) (s : σ) : foldPanic f s l = foldPanic g s l := by
  have : f = g := funext (fun s => funext (fun a => h s a))
  rw [this]

theorem parseInt0_nonneg (ds : List Char) (v : Int) (h : parseInt0 ds = some v) : 0 ≤ v := by
  unfold parseInt0 at h
  split at h
  · cases h
  · split at h
    · split at h
      · simp only at h
        split at h
        · simp only [Option.some.injEq] at h
          rw [← h]; exact Int.ofNat_nonneg _
        · cases h
      · cases h
    · split at h
      · simp only [Option.some.injEq] at h
        rw [← h]; exact Int.ofNat_nonneg _
      · cases h

theorem parseTopology_nonneg (file : Option (List String)) (key : String) (v : Int)
    (h : ParseTopologyProperties file key = some v) : 0 ≤ v := by
  unfold ParseTopologyProperties at h
  split at h
  · cases h
  · split at h
    · cases h
    · exact parseInt0_nonneg _ v h

/-- C15, as stated, fails: a node whose `simd_per_cu` is present and `0` gets the
compute-unit count `0`, not its SIMD count `1216`. -/
theorem zero_divisor_example :
    ParseTopologyProperties zeroDivisorNode.properties "simd_per_cu" = some 0 ∧
    ∃ r, nodeRecord sampleTopoFS zeroDivisorNode = Except.ok (some r) ∧
      r.SimdCount = 1216 ∧ r.SimdPerCU = 0 ∧ r.CUCount = 0 ∧ r.CUCount ≠ r.SimdCount :=
  ⟨by decide, _, rfl, by decide, by decide, by decide, by decide⟩

/-- C15, amended: no node makes `GetTopologyInfo` divide by zero, and for every
node that yields a record: when `simd_per_cu` is absent (or unreadable) the
divisor is `1` and `CUCount` equals `SimdCount`; when `simd_per_cu` is present
and `0` no division is made and `CUCount` is `0`; when `simd_per_cu` is `k > 0`
`CUCount` is the integer quotient `SimdCount / k`. -/
theorem cuCount_by_divisor (fs : TopoFS) (node : TopoNode) (r : TopologyInfo)
    (h : nodeRecord fs node = Except.ok (some r)) :
    (∀ fs' node', ∃ o, nodeRecord fs' node' = Except.ok o) ∧
    r.SimdCount = (ParseTopologyProperties node.properties "simd_count").getD 0 ∧
    (ParseTopologyProperties node.properties "simd_per_cu" = none →
      r.SimdPerCU = 1 ∧ r.CUCount = r.SimdCount) ∧
    (ParseTopologyProperties node.properties "simd_per_cu" = some 0 →
      r.SimdPerCU = 0 ∧ r.CUCount = 0) ∧
    (∀ k, 0 < k → ParseTopologyProperties node.properties "simd_per_cu" = some k →
      r.SimdPerCU = k ∧ r.CUCount = Int.tdiv r.SimdCount k ∧ r.CUCount = r.SimdCount / k) := by
  refine ⟨fun fs' node' => ⟨_, nodeRecord_eq fs' node'⟩, ?_⟩
  rw [nodeRecord_eq] at h
  simp only [Except.ok.injEq] at h
  cases hp : ParseTopologyProperties node.properties "drm_render_minor" with
  | none => rw [hp] at h; cases h
  | some renderMinor =>
    rw [hp] at h
    simp only at h
    by_cases hle : renderMinor ≤ 0
    · simp [hle] at h
    · simp only [hle, if_false] at h
      cases hu : ParseTopologyPropertiesString node.properties "unique_id" with
      | none => rw [hu] at h; cases h
      | some uniqueID =>
        rw [hu] at h
        simp only at h
        cases ha : Atoi node.dir with
        | error v => rw [ha] at h; cases h
        | ok nodeId =>
          rw [ha] at h
          simp only [Option.some.injEq] at h
          subst h
          refine ⟨rfl, ?_, ?_, ?_⟩
          · intro hnone
            simp [hnone]
          · intro hzero
            simp [hzero]
          · intro k hk hsome
            have hk' : k > 0 := hk
            have hcount : 0 ≤ (ParseTopologyProperties node.properties "simd_count").getD 0 := by
              cases hc : ParseTopologyProperties node.properties "simd_count" with
              | none => simp
              | some c => simpa using parseTopology_nonneg _ _ c hc
            simp only [hsome, Option.getD_some, hk', if_true, true_and]
            exact Int.tdiv_eq_ediv hcount (by omega)

/-- The amended C15 at the sample node: it yields a record, with four SIMDs per
compute unit and `1216 / 4 = 304` compute units. -/
theorem cuCount_by_divisor_sample :
    (∃ r, nodeRecord sampleTopoFS sampleNode = Except.ok (some r) ∧
      r.SimdCount = 1216 ∧ r.SimdPerCU = 4 ∧ r.CUCount = 304) ∧
    ParseTopologyProperties sampleNode.properties "simd_per_cu" = some 4 :=
  ⟨⟨_, rfl, (cuCount_by_divisor sampleTopoFS sampleNode _ rfl).2.1.trans (by decide),
      ((cuCount_by_divisor sampleTopoFS sampleNode _ rfl).2.2.2.2 4 (by decide) (by decide)).1,
      ((cuCount_by_divisor sampleTopoFS sampleNode _ rfl).2.2.2.2 4 (by decide)
        (by decide)).2.1.trans (by decide)⟩,
    by decide⟩

/-- C17: `GetTopologyInfo` always returns; a node whose properties lack
`drm_render_minor` or `unique_id` produces no record, and the scan of a tree
with such a node is the scan of the tree without it; every record of the result
is stored under its `RenderDeviceID`, which is greater than zero. -/
theorem topology_scan_best_effort :
    (∀ fs, ∃ m, GetTopologyInfo fs = Except.ok m) ∧
    (∀ fs node, lacksKey "drm_render_minor" node ∨ lacksKey "unique_id" node →
      nodeRecord fs node = Except.ok none) ∧
    (∀ pre post mb node, lacksKey "drm_render_minor" node ∨ lacksKey "unique_id" node →
      GetTopologyInfo { nodes := pre ++ node :: post, memBank := mb }
        = GetTopologyInfo { nodes := pre ++ post, memBank := mb }) ∧
    (∀ fs m, GetTopologyInfo fs = Except.ok m →
      ∀ k r, (k, r) ∈ m → r.RenderDeviceID = k ∧ 0 < k) := by
  refine ⟨?_, nodeRecord_none_of_lacks, ?_, ?_⟩
  · intro fs
    exact foldPanic_total _ (topologyStep_total fs) _ _
  · intro pre post mb node hlack
    unfold GetTopologyInfo
    simp only
    rw [foldPanic_append, foldPanic_append]
    have hstep : ∀ m, topologyStep { nodes := pre ++ node :: post, memBank := mb } m node
        = Except.ok m := by
      intro m
      unfold topologyStep
      rw [nodeRecord_none_of_lacks _ node hlack]
    have hcongr : ∀ l m, foldPanic (topologyStep { nodes := pre ++ node :: post, memBank := mb }) m l
        = foldPanic (topologyStep { nodes := pre ++ post, memBank := mb }) m l :=
      fun l m => foldPanic_congr _ _ (fun s a => topologyStep_congr _ _ mb s a) l m
    rw [hcongr pre]
    cases foldPanic (topologyStep { nodes := pre ++ post, memBank := mb }) [] pre with
    | error p => rfl
    | ok m =>
      simp only [foldPanic, hstep]
      exact hcongr post m
  · intro fs m hm
    have hinv := foldPanic_invariant (topologyStep fs)
      (fun m => ∀ k r, (k, r) ∈ m → r.RenderDeviceID = k ∧ 0 < k)
      (by
        intro s node s' hs hstep k r hmem
        unfold topologyStep at hstep
        cases hrec : nodeRecord fs node with
        | error p => rw [hrec] at hstep; cases hstep
        | ok o =>
          rw [hrec] at hstep
          cases o with
          | none =>
            simp only [Except.ok.injEq] at hstep
            exact hs k r (hstep ▸ hmem)
          | some info =>
            simp only [Except.ok.injEq] at hstep
            rw [← hstep] at hmem
            rcases IntMap.mem_set _ _ _ _ hmem with heq | hold
            · simp only [Prod.mk.injEq] at heq
              obtain ⟨hk, hr⟩ := heq
              subst hr
              exact ⟨hk.symm, hk ▸ nodeRecord_key_pos fs node _ hrec⟩
            · exact hs k r hold)
      fs.nodes [] m (by intro k r h; cases h) hm
    exact hinv

/-! ## Raw records -/

theorem bind_eq_ok {α β : Type} (x : Except Panic α) (f : α → Except Panic β) (b : β) :
    (x >>= f) = Except.ok b ↔ ∃ a, x = Except.ok a ∧ f a = Except.ok b := by
  cases x with
  | error p =>
    constructor
    · intro h; cases h
    · rintro ⟨a, ha, _⟩; cases ha
  | ok a =>
    constructor
    · intro h; exact ⟨a, rfl, h⟩
    · rintro ⟨a', ha, h⟩
      cases ha
      exact h

theorem readFullDevice_ok (pciAddr : String) (r : RawRecord) (a : NamedAttribute) (c m : String)
    (g : AmdGpuInfo) (h : readFullDevice pciAddr r a c m = Except.ok g) :
    ∃ card renderD devID dv dsv family productName,
      asInt r "card" = Except.ok card ∧ asInt r "renderD" = Except.ok renderD ∧
      asString r "devID" = Except.ok devID ∧ asString r "driverVersion" = Except.ok dv ∧
      asString r "driverSrcVersion" = Except.ok dsv ∧ asString r "family" = Except.ok family ∧
      asString r "productName" = Except.ok productName ∧
      g = { UUID := "", RenderIndex := renderD, CardIndex := card, ProductName := productName,
            Family := family, DeviceID := devID, DriverVersion := dv, DriverSrcVersion := dsv,
            PCIAddress := pciAddr, PartitionProfile := c ++ "_" ++ m,
            MemoryBytes := getMemoryBytes r fullDeviceDefaultBytes,
            ComputeUnits := (extractTopologyInfo r).2, SimdUnits := (extractTopologyInfo r).1,
            pcieRootAttr := a } := by
  unfold readFullDevice at h
  simp only [bind_eq_ok] at h
  obtain ⟨card, h1, renderD, h2, devID, h3, dv, h4, dsv, h5, family, h6, productName, h7, h8⟩ := h
  refine ⟨card, renderD, devID, dv, dsv, family, productName, h1, h2, h3, h4, h5, h6, h7, ?_⟩
  simp only [pure, Except.pure, Except.ok.injEq] at h8
  exact h8.symm

/-! ## Rendering of partitions -/

/-- C11, as stated, fails: for a partition whose parent's locality attribute is
named `pciAddr`, the rendered device has a `pciAddr` key, holding the locality
value. -/
theorem partition_rendering_example :
    ∃ dev, oddPartition.GetDevice sampleEnv = Except.ok dev ∧
      dev.Attributes.get "pciAddr" = some { StringValue := some "pci0000:16" } ∧
      dev.Attributes.get "pciAddr" ≠ none :=
  ⟨_, rfl, by decide, by decide⟩

/-- C11, amended: for every partition with its parent set, whose parent's
locality attribute is not named like one of the eleven fixed partition
attributes nor `pciAddr` nor `deviceID`, `GetDevice` returns a device that
renders `family`, `productName`, `driverVersion`, `driverSrcVersion` and the
locality attribute (present exactly when its name is non-empty) with the
parent's values, `parentPciAddr` and `parentDeviceID` from the parent, has no
`pciAddr` or `deviceID` key, and renders `cardIndex`, `renderIndex`,
`partitionProfile` and the capacities `memory`, `computeUnits` and `simdUnits`
from the partition's own fields. -/
theorem partition_rendering (E : Env) (p : AmdPartitionInfo) (parent : AmdGpuInfo)
    (hloc : parent.pcieRootAttr.Name ∉ partitionAttributeKeys ++ ["pciAddr", "deviceID"]) :
    ∃ dev, AmdPartitionInfo.GetDevice E { p with Parent := some parent } = Except.ok dev ∧
      (∀ k, k ∈ dev.Attributes.keys ↔
        (k ∈ ["type", "uuid", "parentPciAddr", "cardIndex", "renderIndex", "parentDeviceID",
              "family", "productName", "driverVersion", "driverSrcVersion", "partitionProfile"]
          ∨ (parent.pcieRootAttr.Name ≠ "" ∧ k = parent.pcieRootAttr.Name))) ∧
      dev.Attributes.get "family" = some { StringValue := some parent.Family } ∧
      dev.Attributes.get "productName" = some { StringValue := some parent.ProductName } ∧
      dev.Attributes.get "driverVersion" = some { VersionValue := some parent.DriverVersion } ∧
      dev.Attributes.get "driverSrcVersion"
        = some { StringValue := some parent.DriverSrcVersion } ∧
      (parent.pcieRootAttr.Name ≠ "" →
        dev.Attributes.get parent.pcieRootAttr.Name = some parent.pcieRootAttr.Value) ∧
      dev.Attributes.get "parentPciAddr" = some { StringValue := some parent.PCIAddress } ∧
      dev.Attributes.get "parentDeviceID" = some { StringValue := some parent.DeviceID } ∧
      dev.Attributes.get "pciAddr" = none ∧
      dev.Attributes.get "deviceID" = none ∧
      dev.Attributes.get "cardIndex" = some { IntValue := some p.CardIndex } ∧
      dev.Attributes.get "renderIndex" = some { IntValue := some p.RenderIndex } ∧
      dev.Attributes.get "partitionProfile"
        = some { StringValue := some p.PartitionProfile } ∧
      dev.Capacity.get "memory"
        = some { Value := ⟨int64OfUint64 p.MemoryBytes, QuantityFormat.BinarySI⟩ } ∧
      dev.Capacity.get "computeUnits"
        = some { Value := ⟨p.ComputeUnits, QuantityFormat.BinarySI⟩ } ∧
      dev.Capacity.get "simdUnits" = some { Value := ⟨p.SimdUnits, QuantityFormat.BinarySI⟩ } := by
  refine ⟨_, rfl, ?_⟩
  simp only [partitionAttributeKeys, List.cons_append, List.nil_append, List.mem_cons,
    List.mem_singleton, List.not_mem_nil, or_false, not_or] at hloc
  obtain ⟨h1, h2, h3, h4, h5, h6, h7, h8, h9, h10, h11, h12, h13⟩ := hloc
  have g1 := Ne.symm h1
  have g2 := Ne.symm h2
  have g3 := Ne.symm h3
  have g4 := Ne.symm h4
  have g5 := Ne.symm h5
  have g6 := Ne.symm h6
  have g7 := Ne.symm h7
  have g8 := Ne.symm h8
  have g9 := Ne.symm h9
  have g10 := Ne.symm h10
  have g11 := Ne.symm h11
  by_cases hname : parent.pcieRootAttr.Name = ""
  · simp [GoMap.keys, GoMap.get, capacityOf, hname]
  · simp [GoMap.keys, GoMap.get, GoMap.set, capacityOf, hname,
      h1, h2, h3, h4, h5, h6, h7, h8, h9, h10, h11, h12, h13, g1, g2, g3, g4, g5, g6, g7, g8,
      g9, g10, g11]
    intro k
    simp only [or_assoc]

/-- The amended C11 at the sample partition: its hypothesis holds there, and so
do its conclusions, of which three are shown. -/
theorem partition_rendering_sample :
    sampleGpu.pcieRootAttr.Name ∉ partitionAttributeKeys ++ ["pciAddr", "deviceID"] ∧
    ∃ dev, samplePartition.GetDevice sampleEnv = Except.ok dev ∧
      dev.Attributes.get "family" = some { StringValue := some "AI" } ∧
      dev.Attributes.get "cardIndex" = some { IntValue := some 2 } ∧
      dev.Attributes.get "pciAddr" = none := by
  obtain ⟨dev, hdev, h⟩ := partition_rendering sampleEnv samplePartition sampleGpu (by decide)
  exact ⟨by decide, dev, hdev, h.2.1, h.2.2.2.2.2.2.2.2.2.2.1, h.2.2.2.2.2.2.2.2.1⟩

/-! ## The enumeration loop on well-typed records -/

theorem asString_of_hasStr (r : RawRecord) (key : String) (h : hasStr r key = true) :
    asString r key = Except.ok (strField r key) := by
  unfold hasStr at h
  unfold asString strField
  generalize GoMap.get r key = o at h ⊢
  rcases o with _ | (_ | _ | _ | _) <;> simp_all

theorem asInt_of_hasInt (r : RawRecord) (key : String) (h : hasInt r key = true) :
    asInt r key = Except.ok (intField r key) := by
  unfold hasInt at h
  unfold asInt intField
  generalize GoMap.get r key = o at h ⊢
  rcases o with _ | (_ | _ | _ | _) <;> simp_all

theorem canonicalName_full (E : Env) (g : AmdGpuInfo) :
    AllocatableDevice.CanonicalName E { AmdGpu := some g, AmdPartition := none }
      = Except.ok g.CanonicalName := by
  simp [AllocatableDevice.CanonicalName, AllocatableDevice.Type]

theorem canonicalName_partition (E : Env) (hE : E.AmdGpuDeviceType ≠ E.AmdPartitionDeviceType)
    (p : AmdPartitionInfo) :
    AllocatableDevice.CanonicalName E { AmdGpu := none, AmdPartition := some p }
      = Except.ok p.CanonicalName := by
  have hE' : ¬ E.AmdPartitionDeviceType = E.AmdGpuDeviceType := fun h => hE h.symm
  simp [AllocatableDevice.CanonicalName, AllocatableDevice.Type, hE']

/-- The loop body on a well-typed record, up to the map write. -/
theorem recordEntry_wellTyped (E : Env) (pcie : PCIeRoot) (key : String) (r : RawRecord)
    (hw : wellTyped r = true)
    (hE : strField r "computePartitionType" = "spx" ∨ strField r "computePartitionType" = ""
      ∨ E.AmdGpuDeviceType ≠ E.AmdPartitionDeviceType) :
    recordEntry E pcie key r = Except.ok (entryOf pcie (key, r)) := by
  simp only [wellTyped, Bool.and_eq_true] at hw
  obtain ⟨⟨⟨⟨⟨⟨⟨⟨⟨h1, h2⟩, h3⟩, h4⟩, h5⟩, h6⟩, h7⟩, h8⟩, h9⟩, h10⟩ := hw
  unfold recordEntry getPcieInfo readFullDevice readPartition entryOf
  simp only [asString_of_hasStr r _ h1, asString_of_hasStr r _ h2, asString_of_hasStr r _ h3,
    asInt_of_hasInt r _ h4, asInt_of_hasInt r _ h5, asString_of_hasStr r _ h6,
    asString_of_hasStr r _ h7, asString_of_hasStr r _ h8, asString_of_hasStr r _ h9,
    asString_of_hasStr r _ h10, bind, Except.bind, pure, Except.pure]
  by_cases hspx : strField r "computePartitionType" = "spx"
  · cases herr : (pcie (strField r "pciAddr")).2 with
    | none =>
      dsimp only
      rw [if_pos hspx, if_pos hspx]
      simp only [namedDevice, canonicalName_full]
      rfl
    | some e =>
      dsimp only
      rw [if_pos hspx, if_pos hspx]
      simp only [namedDevice, canonicalName_full]
      rfl
  · by_cases hempty : strField r "computePartitionType" = ""
    · cases herr : (pcie (strField r "pciAddr")).2 <;> simp [hspx, hempty]
    · have hE' : E.AmdGpuDeviceType ≠ E.AmdPartitionDeviceType := by
        rcases hE with h | h | h
        · exact absurd h hspx
        · exact absurd h hempty
        · exact h
      cases herr : (pcie (strField r "pciAddr")).2 with
      | none =>
        simp only [hspx, hempty, if_false, if_true, ne_eq, not_false_eq_true, namedDevice,
          canonicalName_partition E hE']
        simp [partitionOf, pciAddrFromMap, herr, recordName, AmdPartitionInfo.CanonicalName,
          getDeviceName]
      | some e =>
        simp only [hspx, hempty, if_false, if_true, ne_eq, not_false_eq_true, namedDevice,
          canonicalName_partition E hE']
        simp [partitionOf, pciAddrFromMap, herr, recordName, AmdPartitionInfo.CanonicalName,
          getDeviceName]

theorem asString_ok (r : RawRecord) (key s : String) (h : asString r key = Except.ok s) :
    hasStr r key = true ∧ strField r key = s := by
  unfold asString at h
  unfold hasStr strField
  generalize GoMap.get r key = o at h ⊢
  rcases o with _ | (_ | _ | _ | _) <;> simp_all

theorem asInt_ok (r : RawRecord) (key : String) (i : Int) (h : asInt r key = Except.ok i) :
    hasInt r key = true ∧ intField r key = i := by
  unfold asInt at h
  unfold hasInt intField
  generalize GoMap.get r key = o at h ⊢
  rcases o with _ | (_ | _ | _ | _) <;> simp_all

theorem readPartition_ok (r : RawRecord) (a : NamedAttribute) (addr c m : String)
    (p : AmdPartitionInfo) (h : readPartition r a addr c m = Except.ok p) :
    ∃ card renderD devID dv dsv family productName,
      asInt r "card" = Except.ok card ∧ asInt r "renderD" = Except.ok renderD ∧
      asString r "devID" = Except.ok devID ∧ asString r "driverVersion" = Except.ok dv ∧
      asString r "driverSrcVersion" = Except.ok dsv ∧ asString r "family" = Except.ok family ∧
      asString r "productName" = Except.ok productName ∧
      p = { Parent := some { UUID := "", RenderIndex := 0, CardIndex := 0,
                             ProductName := productName, Family := family, DeviceID := devID,
                             DriverVersion := dv, DriverSrcVersion := dsv, PCIAddress := addr,
                             PartitionProfile := "", MemoryBytes := 0, ComputeUnits := 0,
                             SimdUnits := 0, pcieRootAttr := a },
            UUID := "", RenderIndex := renderD, CardIndex := card,
            PartitionProfile := c ++ "_" ++ m,
            MemoryBytes := getMemoryBytes r partitionDefaultBytes,
            ComputeUnits := (extractTopologyInfo r).2, SimdUnits := (extractTopologyInfo r).1 } := by
  unfold readPartition at h
  simp only [bind_eq_ok] at h
  obtain ⟨devID, h3, dv, h4, dsv, h5, family, h6, productName, h7, card, h1, renderD, h2, h8⟩ := h
  refine ⟨card, renderD, devID, dv, dsv, family, productName, h1, h2, h3, h4, h5, h6, h7, ?_⟩
  simp only [pure, Except.pure, Except.ok.injEq] at h8
  exact h8.symm

theorem namedDevice_ok (E : Env) (d d' : AllocatableDevice) (n : String)
    (h : namedDevice E d = Except.ok (some (n, d'))) :
    d' = d ∧ d.CanonicalName E = Except.ok n := by
  unfold namedDevice at h
  split at h
  · cases h
  · rename_i name hname
    simp only [Except.ok.injEq, Option.some.injEq, Prod.mk.injEq] at h
    exact ⟨h.2.symm, by rw [hname, h.1]⟩

theorem canonicalName_partition_ok (E : Env) (p : AmdPartitionInfo) (n : String)
    (h : AllocatableDevice.CanonicalName E { AmdGpu := none, AmdPartition := some p }
      = Except.ok n) : n = p.CanonicalName := by
  unfold AllocatableDevice.CanonicalName at h
  split at h
  · cases h
  · split at h
    · simp only [Except.ok.injEq] at h
      exact h.symm
    · cases h

/-- Provenance of an entry produced by the loop body: the record was well
typed, the entry is the one described by `entryOf`, and its name is its own
canonical name. -/
theorem recordEntry_ok (E : Env) (pcie : PCIeRoot) (key : String) (r : RawRecord)
    (n : String) (d : AllocatableDevice)
    (h : recordEntry E pcie key r = Except.ok (some (n, d))) :
    wellTyped r = true ∧ entryOf pcie (key, r) = some (n, d) ∧
      d.CanonicalName E = Except.ok n := by
  unfold recordEntry at h
  split at h
  · cases h
  · rename_i a addr e hpcie
    unfold getPcieInfo at hpcie
    split at hpcie
    · cases hpcie
    · rename_i pciAddr hpa
      obtain ⟨hp1, hp2⟩ := asString_ok r _ _ hpa
      split at h
      · cases h
      · rename_i cpt hcpt
        obtain ⟨hc1, hc2⟩ := asString_ok r _ _ hcpt
        split at h
        · cases h
        · rename_i mpt hmpt
          obtain ⟨hm1, hm2⟩ := asString_ok r _ _ hmpt
          split at h
          · rename_i hspx
            split at h
            · cases h
            · rename_i g hg
              obtain ⟨card, renderD, devID, dv, dsv, family, productName, h1, h2, h3, h4, h5,
                h6, h7, hgeq⟩ := readFullDevice_ok _ _ _ _ _ _ hg
              obtain ⟨hd, hname⟩ := namedDevice_ok E _ _ _ h
              obtain ⟨a1, b1⟩ := asInt_ok r _ _ h1
              obtain ⟨a2, b2⟩ := asInt_ok r _ _ h2
              obtain ⟨a3, b3⟩ := asString_ok r _ _ h3
              obtain ⟨a4, b4⟩ := asString_ok r _ _ h4
              obtain ⟨a5, b5⟩ := asString_ok r _ _ h5
              obtain ⟨a6, b6⟩ := asString_ok r _ _ h6
              obtain ⟨a7, b7⟩ := asString_ok r _ _ h7
              have hw : wellTyped r = true := by
                simp [wellTyped, hp1, hc1, hm1, a1, a2, a3, a4, a5, a6, a7]
              refine ⟨hw, ?_, by rw [hd]; exact hname⟩
              have hn : n = g.CanonicalName := by
                rw [canonicalName_full] at hname
                simp only [Except.ok.injEq] at hname
                exact hname.symm
              have ha : a = (pcie (strField r "pciAddr")).1 := by
                rw [hp2]
                split at hpcie <;>
                  simp only [Except.ok.injEq, Prod.mk.injEq] at hpcie <;> exact hpcie.1.symm
              subst hd
              rw [hn, hgeq]
              simp only [entryOf, hc2, hspx, if_true, fullDeviceOf, recordName, b1, b2, b3, b4,
                b5, b6, b7, hm2, ha]
              rfl
          · rename_i hspx
            split at h
            · rename_i hne
              split at h
              · cases h
              · rename_i p hp
                obtain ⟨card, renderD, devID, dv, dsv, family, productName, h1, h2, h3, h4, h5,
                  h6, h7, hpeq⟩ := readPartition_ok _ _ _ _ _ _ hp
                obtain ⟨hd, hname⟩ := namedDevice_ok E _ _ _ h
                obtain ⟨a1, b1⟩ := asInt_ok r _ _ h1
                obtain ⟨a2, b2⟩ := asInt_ok r _ _ h2
                obtain ⟨a3, b3⟩ := asString_ok r _ _ h3
                obtain ⟨a4, b4⟩ := asString_ok r _ _ h4
                obtain ⟨a5, b5⟩ := asString_ok r _ _ h5
                obtain ⟨a6, b6⟩ := asString_ok r _ _ h6
                obtain ⟨a7, b7⟩ := asString_ok r _ _ h7
                have hw : wellTyped r = true := by
                  simp [wellTyped, hp1, hc1, hm1, a1, a2, a3, a4, a5, a6, a7]
                refine ⟨hw, ?_, by rw [hd]; exact hname⟩
                have hn : n = p.CanonicalName := canonicalName_partition_ok E p n hname
                have ha : a = (pcie (strField r "pciAddr")).1 ∧ addr = pciAddrFromMap pcie r := by
                  unfold pciAddrFromMap
                  rw [hp2]
                  split at hpcie <;>
                    simp only [Except.ok.injEq, Prod.mk.injEq] at hpcie
                  · exact ⟨hpcie.1.symm, hpcie.2.1.symm⟩
                  · exact ⟨hpcie.1.symm, hpcie.2.1.symm⟩
                subst hd
                rw [hn, hpeq]
                simp only [entryOf, hc2, hspx, if_false, hne, ne_eq, not_false_eq_true, if_true,
                  partitionOf, recordName, b1, b2, b3, b4, b5, b6, b7, hm2, ha.1, ha.2]
                rfl
            · cases h

/-! ## The inventory -/

theorem enumerateStep_wellTyped (E : Env) (pcie : PCIeRoot) (inv : AllocatableDevices)
    (e : String × RawRecord) (hw : wellTyped e.2 = true)
    (hE : strField e.2 "computePartitionType" = "spx" ∨ strField e.2 "computePartitionType" = ""
      ∨ E.AmdGpuDeviceType ≠ E.AmdPartitionDeviceType) :
    enumerateStep E pcie inv e = Except.ok (storeEntry inv (entryOf pcie e)) := by
  unfold enumerateStep
  rw [recordEntry_wellTyped E pcie e.1 e.2 hw hE]
  cases h : entryOf pcie (e.1, e.2) with
  | none => rfl
  | some x => rfl

theorem foldPanic_enumerate (E : Env) (pcie : PCIeRoot) (l : List (String × RawRecord))
    (hw : ∀ e ∈ l, wellTyped e.2 = true)
    (hE : ∀ e ∈ l, strField e.2 "computePartitionType" = "spx" ∨
      strField e.2 "computePartitionType" = "" ∨
      E.AmdGpuDeviceType ≠ E.AmdPartitionDeviceType) :
    ∀ inv, foldPanic (enumerateStep E pcie) inv l =
      Except.ok (l.foldl (fun inv e => storeEntry inv (entryOf pcie e)) inv) := by
  induction l with
  | nil => intro inv; rfl
  | cons e l ih =>
    intro inv
    simp only [foldPanic, List.foldl_cons]
    rw [enumerateStep_wellTyped E pcie inv e (hw e (List.mem_cons_self _ _))
      (hE e (List.mem_cons_self _ _))]
    exact ih (fun x hx => hw x (List.mem_cons_of_mem _ hx))
      (fun x hx => hE x (List.mem_cons_of_mem _ hx)) _

/-- On well-typed records the enumeration returns, with the inventory built by
`inventoryOf`. -/
theorem enumerate_wellTyped (E : Env) (pcie : PCIeRoot) (l : List (String × RawRecord))
    (hw : ∀ e ∈ l, wellTyped e.2 = true)
    (hE : E.AmdGpuDeviceType ≠ E.AmdPartitionDeviceType) :
    enumerateAllPossibleDevices E pcie l = Except.ok (inventoryOf pcie l) :=
  foldPanic_enumerate E pcie l hw (fun _ _ => Or.inr (Or.inr hE)) []

theorem GoMap.mem_of_mem_set {ν : Type} (m : GoMap ν) (k : String) (v : ν) (e : String × ν)
    (he : e ∈ GoMap.set m k v) : e = (k, v) ∨ e ∈ m := by
  induction m with
  | nil =>
    simp only [GoMap.set, List.mem_singleton] at he
    exact Or.inl he
  | cons x m ih =>
    obtain ⟨k', v'⟩ := x
    unfold GoMap.set at he
    split at he
    · rcases List.mem_cons.mp he with h | h
      · exact Or.inl h
      · exact Or.inr (List.mem_cons_of_mem _ h)
    · rcases List.mem_cons.mp he with h | h
      · exact Or.inr (h ▸ List.mem_cons_self _ _)
      · rcases ih h with h' | h'
        · exact Or.inl h'
        · exact Or.inr (List.mem_cons_of_mem _ h')

/-- Every entry of a returned inventory was produced by the loop body from one
of the records. -/
theorem enumerate_provenance (E : Env) (pcie : PCIeRoot) (l : List (String × RawRecord))
    (inv : AllocatableDevices) (h : enumerateAllPossibleDevices E pcie l = Except.ok inv)
    (x : String × AllocatableDevice) (hx : x ∈ inv) :
    ∃ e ∈ l, recordEntry E pcie e.1 e.2 = Except.ok (some x) := by
  have key : ∀ s s', (∀ x ∈ s, ∃ e ∈ l, recordEntry E pcie e.1 e.2 = Except.ok (some x)) →
      ∀ l', (∀ e ∈ l', e ∈ l) → foldPanic (enumerateStep E pcie) s l' = Except.ok s' →
      ∀ x ∈ s', ∃ e ∈ l, recordEntry E pcie e.1 e.2 = Except.ok (some x) := by
    intro s s' hs l'
    induction l' generalizing s with
    | nil =>
      intro _ hf
      simp only [foldPanic, Except.ok.injEq] at hf
      rw [← hf]; exact hs
    | cons e l' ih =>
      intro hsub hf
      simp only [foldPanic] at hf
      split at hf
      · cases hf
      · rename_i s1 hstep
        refine ih s1 ?_ (fun a ha => hsub a (List.mem_cons_of_mem _ ha)) hf
        unfold enumerateStep at hstep
        split at hstep
        · cases hstep
        · simp only [Except.ok.injEq] at hstep
          rw [← hstep]; exact hs
        · rename_i name device hrec
          simp only [Except.ok.injEq] at hstep
          rw [← hstep]
          intro y hy
          rcases GoMap.mem_of_mem_set _ _ _ _ hy with h1 | h1
          · exact ⟨e, hsub e (List.mem_cons_self _ _), by rw [h1]; exact hrec⟩
          · exact hs y h1
  exact key [] inv (fun _ hx => absurd hx (List.not_mem_nil _)) l (fun _ he => he) h x hx

theorem getMemoryBytes_pos (r : RawRecord) (d : Nat) (hd : 0 < d) : 0 < getMemoryBytes r d := by
  unfold getMemoryBytes
  split
  · split
    · assumption
    · exact hd
  · exact hd

theorem getMemoryBytes_cases (r : RawRecord) (d : Nat) :
    (∃ v, r.get "vramBytes" = some (GoValue.uint64 v) ∧ 0 < v ∧ getMemoryBytes r d = v) ∨
    ((∀ v, r.get "vramBytes" = some (GoValue.uint64 v) → v = 0) ∧ getMemoryBytes r d = d) := by
  unfold getMemoryBytes
  split
  · rename_i v hv
    by_cases h0 : v > 0
    · left; exact ⟨v, hv, h0, by simp [h0]⟩
    · right
      refine ⟨?_, by simp [h0]⟩
      intro v' hv'
      rw [hv] at hv'
      simp only [Option.some.injEq, GoValue.uint64.injEq] at hv'
      omega
  · rename_i hno
    right
    exact ⟨fun v hv => absurd hv (hno v), rfl⟩

/-- C12: a well-typed raw record whose compute partition type is `spx` is
stored as a full device under its canonical name, so a lone such record gives an
inventory of exactly one entry, backed by a full device whose PCI address is
the map key, whose partition profile is `spx_` followed by the memory partition
type, and whose memory is the `vramBytes` entry of the record when that is a
positive `uint64` and 80 GiB otherwise; a well-typed raw record whose compute
partition type is empty leaves the inventory as it was, so a lone such record
gives the empty inventory. -/
theorem classification_by_partition_type (E : Env) (pcie : PCIeRoot) (key : String)
    (r : RawRecord) (hw : wellTyped r = true) :
    (strField r "computePartitionType" = "spx" →
      (∀ inv, enumerateStep E pcie inv (key, r) = Except.ok
        (inv.set (getDeviceName (intField r "card") (intField r "renderD"))
          { AmdGpu := some (fullDeviceOf pcie key r), AmdPartition := none })) ∧
      enumerateAllPossibleDevices E pcie [(key, r)] = Except.ok
        [(getDeviceName (intField r "card") (intField r "renderD"),
          { AmdGpu := some (fullDeviceOf pcie key r), AmdPartition := none })] ∧
      (fullDeviceOf pcie key r).PCIAddress = key ∧
      (fullDeviceOf pcie key r).PartitionProfile = "spx_" ++ strField r "memoryPartitionType" ∧
      ((∃ v, r.get "vramBytes" = some (GoValue.uint64 v) ∧ 0 < v ∧
          (fullDeviceOf pcie key r).MemoryBytes = v) ∨
        ((∀ v, r.get "vramBytes" = some (GoValue.uint64 v) → v = 0) ∧
          (fullDeviceOf pcie key r).MemoryBytes = 80 * 1024 * 1024 * 1024))) ∧
    (strField r "computePartitionType" = "" →
      (∀ inv, enumerateStep E pcie inv (key, r) = Except.ok inv) ∧
      enumerateAllPossibleDevices E pcie [(key, r)] = Except.ok []) := by
  constructor
  · intro hspx
    have hentry : entryOf pcie (key, r) = some (getDeviceName (intField r "card")
        (intField r "renderD"), { AmdGpu := some (fullDeviceOf pcie key r), AmdPartition := none }) := by
      simp [entryOf, hspx, recordName]
    have hstep : ∀ inv, enumerateStep E pcie inv (key, r) = Except.ok
        (inv.set (getDeviceName (intField r "card") (intField r "renderD"))
          { AmdGpu := some (fullDeviceOf pcie key r), AmdPartition := none }) := by
      intro inv
      rw [enumerateStep_wellTyped E pcie inv (key, r) hw (Or.inl hspx), hentry]
      rfl
    refine ⟨hstep, ?_, rfl, ?_, ?_⟩
    · unfold enumerateAllPossibleDevices
      simp only [foldPanic, hstep]
      rfl
    · show strField r "computePartitionType" ++ "_" ++ strField r "memoryPartitionType" = _
      rw [hspx]
      rfl
    · exact getMemoryBytes_cases r fullDeviceDefaultBytes
  · intro hempty
    have hentry : entryOf pcie (key, r) = none := by
      simp [entryOf, hempty]
    have hstep : ∀ inv, enumerateStep E pcie inv (key, r) = Except.ok inv := by
      intro inv
      rw [enumerateStep_wellTyped E pcie inv (key, r) hw (Or.inr (Or.inl hempty)), hentry]
      rfl
    refine ⟨hstep, ?_⟩
    unfold enumerateAllPossibleDevices
    simp only [foldPanic, hstep]

/-- The sample `spx` record, found under the key `0000:19:00.0`. -/
theorem classification_by_partition_type_sample :
    wellTyped sampleSpxRecord = true ∧
    ((strField sampleSpxRecord "computePartitionType" = "spx" →
      (∀ inv, enumerateStep sampleEnv samplePCIeRoot inv ("0000:19:00.0", sampleSpxRecord) =
        Except.ok
        (inv.set (getDeviceName (intField sampleSpxRecord "card")
            (intField sampleSpxRecord "renderD"))
          { AmdGpu := some (fullDeviceOf samplePCIeRoot "0000:19:00.0" sampleSpxRecord),
            AmdPartition := none })) ∧
      enumerateAllPossibleDevices sampleEnv samplePCIeRoot [("0000:19:00.0", sampleSpxRecord)] =
        Except.ok
        [(getDeviceName (intField sampleSpxRecord "card") (intField sampleSpxRecord "renderD"),
          { AmdGpu := some (fullDeviceOf samplePCIeRoot "0000:19:00.0" sampleSpxRecord),
            AmdPartition := none })] ∧
      (fullDeviceOf samplePCIeRoot "0000:19:00.0" sampleSpxRecord).PCIAddress = "0000:19:00.0" ∧
      (fullDeviceOf samplePCIeRoot "0000:19:00.0" sampleSpxRecord).PartitionProfile =
        "spx_" ++ strField sampleSpxRecord "memoryPartitionType" ∧
      ((∃ v, sampleSpxRecord.get "vramBytes" = some (GoValue.uint64 v) ∧ 0 < v ∧
          (fullDeviceOf samplePCIeRoot "0000:19:00.0" sampleSpxRecord).MemoryBytes = v) ∨
        ((∀ v, sampleSpxRecord.get "vramBytes" = some (GoValue.uint64 v) → v = 0) ∧
          (fullDeviceOf samplePCIeRoot "0000:19:00.0" sampleSpxRecord).MemoryBytes =
            80 * 1024 * 1024 * 1024))) ∧
    (strField sampleSpxRecord "computePartitionType" = "" →
      (∀ inv, enumerateStep sampleEnv samplePCIeRoot inv ("0000:19:00.0", sampleSpxRecord) =
        Except.ok inv) ∧
      enumerateAllPossibleDevices sampleEnv samplePCIeRoot [("0000:19:00.0", sampleSpxRecord)] =
        Except.ok [])) :=
  ⟨by decide, classification_by_partition_type sampleEnv samplePCIeRoot "0000:19:00.0"
    sampleSpxRecord (by decide)⟩

/-- C14: `getMemoryBytes` returns the `vramBytes` entry of the record when it
is present as a `uint64` greater than zero and the given default otherwise; the
default of a full device, 80 GiB, is larger than the default of a partition,
20 GiB; and in every inventory returned by `enumerateAllPossibleDevices` the
populated variant of every entry has a memory size greater than zero. -/
theorem capacity_fallback (E : Env) (pcie : PCIeRoot) (allAMDGPUs : List (String × RawRecord)) :
    (∀ (r : RawRecord) (d v : Nat), r.get "vramBytes" = some (GoValue.uint64 v) → 0 < v →
      getMemoryBytes r d = v) ∧
    (∀ (r : RawRecord) (d : Nat), (∀ v, r.get "vramBytes" = some (GoValue.uint64 v) → v = 0) →
      getMemoryBytes r d = d) ∧
    fullDeviceDefaultBytes = 80 * 2 ^ 30 ∧ partitionDefaultBytes = 20 * 2 ^ 30 ∧
    partitionDefaultBytes < fullDeviceDefaultBytes ∧
    (∀ inv, enumerateAllPossibleDevices E pcie allAMDGPUs = Except.ok inv →
      ∀ e ∈ inv, (∀ g, e.2.AmdGpu = some g → 0 < g.MemoryBytes) ∧
        (∀ p, e.2.AmdPartition = some p → 0 < p.MemoryBytes)) := by
  refine ⟨?_, ?_, by decide, by decide, by decide, ?_⟩
  · intro r d v hv hpos
    rcases getMemoryBytes_cases r d with ⟨v', hv', _, h⟩ | ⟨h0, _⟩
    · rw [hv] at hv'
      simp only [Option.some.injEq, GoValue.uint64.injEq] at hv'
      rw [h, hv']
    · have := h0 v hv
      omega
  · intro r d h0
    rcases getMemoryBytes_cases r d with ⟨v', hv', hpos, _⟩ | ⟨_, h⟩
    · have := h0 v' hv'
      omega
    · exact h
  · intro inv h e he
    obtain ⟨rec, _, hrec⟩ := enumerate_provenance E pcie allAMDGPUs inv h e he
    obtain ⟨_, hentry, _⟩ := recordEntry_ok E pcie rec.1 rec.2 e.1 e.2 hrec
    unfold entryOf at hentry
    split at hentry
    · simp only [Option.some.injEq] at hentry
      have h2 : e.2 = { AmdGpu := some (fullDeviceOf pcie rec.1 rec.2), AmdPartition := none } :=
        (congrArg Prod.snd hentry).symm
      rw [h2]
      constructor
      · intro g hg
        simp only [Option.some.injEq] at hg
        rw [← hg]
        exact getMemoryBytes_pos _ _ (by decide)
      · intro p hp; cases hp
    · split at hentry
      · simp only [Option.some.injEq] at hentry
        have h2 : e.2 = { AmdGpu := none, AmdPartition := some (partitionOf pcie rec.2) } :=
          (congrArg Prod.snd hentry).symm
        rw [h2]
        constructor
        · intro g hg; cases hg
        · intro p hp
          simp only [Option.some.injEq] at hp
          rw [← hp]
          exact getMemoryBytes_pos _ _ (by decide)
      · cases hentry

/-- C20: every entry of an inventory returned by `enumerateAllPossibleDevices`
has exactly one variant populated, a partition entry has a parent, and the key
of the entry is the canonical name of the entry. -/
theorem inventory_invariant (E : Env) (pcie : PCIeRoot) (allAMDGPUs : List (String × RawRecord))
    (inv : AllocatableDevices)
    (h : enumerateAllPossibleDevices E pcie allAMDGPUs = Except.ok inv) :
    ∀ e ∈ inv,
      ((e.2.AmdGpu ≠ none ∧ e.2.AmdPartition = none) ∨
        (e.2.AmdGpu = none ∧ ∃ p, e.2.AmdPartition = some p ∧ p.Parent ≠ none)) ∧
      e.2.CanonicalName E = Except.ok e.1 := by
  intro e he
  obtain ⟨rec, _, hrec⟩ := enumerate_provenance E pcie allAMDGPUs inv h e he
  obtain ⟨_, hentry, hname⟩ := recordEntry_ok E pcie rec.1 rec.2 e.1 e.2 hrec
  refine ⟨?_, hname⟩
  unfold entryOf at hentry
  split at hentry
  · simp only [Option.some.injEq] at hentry
    have h2 : e.2 = { AmdGpu := some (fullDeviceOf pcie rec.1 rec.2), AmdPartition := none } :=
      (congrArg Prod.snd hentry).symm
    rw [h2]
    left
    exact ⟨by simp, rfl⟩
  · split at hentry
    · simp only [Option.some.injEq] at hentry
      have h2 : e.2 = { AmdGpu := none, AmdPartition := some (partitionOf pcie rec.2) } :=
        (congrArg Prod.snd hentry).symm
      rw [h2]
      right
      exact ⟨rfl, partitionOf pcie rec.2, rfl, by simp [partitionOf]⟩
    · cases hentry

/-- The inventory of the two sample records, one unpartitioned and one
partitioned. -/
theorem inventory_invariant_sample :
    enumerateAllPossibleDevices sampleEnv samplePCIeRoot
        [("0000:19:00.0", sampleSpxRecord), ("amdgpu_xcp_1", sampleCpxRecord)] =
      Except.ok (inventoryOf samplePCIeRoot
        [("0000:19:00.0", sampleSpxRecord), ("amdgpu_xcp_1", sampleCpxRecord)]) ∧
    ∀ e ∈ inventoryOf samplePCIeRoot
        [("0000:19:00.0", sampleSpxRecord), ("amdgpu_xcp_1", sampleCpxRecord)],
      ((e.2.AmdGpu ≠ none ∧ e.2.AmdPartition = none) ∨
        (e.2.AmdGpu = none ∧ ∃ p, e.2.AmdPartition = some p ∧ p.Parent ≠ none)) ∧
      e.2.CanonicalName sampleEnv = Except.ok e.1 :=
  ⟨by rfl, inventory_invariant sampleEnv samplePCIeRoot
    [("0000:19:00.0", sampleSpxRecord), ("amdgpu_xcp_1", sampleCpxRecord)] _ (by rfl)⟩

/-! ## The device scan -/

theorem sliceTo_ok (name : String) (hi : Nat) (b : Bytes) (h : sliceTo name hi = Except.ok b) :
    hi ≤ (utf8Encode name.data).length ∧ b = (utf8Encode name.data).take hi := by
  unfold sliceTo at h
  split at h
  · rename_i hle
    simp only [Except.ok.injEq] at h
    exact ⟨hle, h.symm⟩
  · cases h

/-- When the `switch` of the first loop faults. -/
theorem driverEntry_error_iff (topologyInfo : IntMap TopologyInfo) (st : ScanState)
    (name : String) :
    (∃ p, driverEntry topologyInfo st name = Except.error p) ↔
      ((utf8Encode name.data).length < 4 ∨
        ((utf8Encode name.data).take 4 ≠ utf8Encode "card".data ∧
          (utf8Encode name.data).length < 7)) := by
  unfold driverEntry sliceTo
  by_cases h4 : 4 ≤ (utf8Encode name.data).length
  · rw [if_pos h4]
    dsimp only
    by_cases hc : (utf8Encode name.data).take 4 = utf8Encode "card".data
    · rw [if_pos hc]
      constructor
      · rintro ⟨p, hp⟩; cases hp
      · rintro (h | ⟨h, _⟩)
        · omega
        · exact absurd hc h
    · rw [if_neg hc]
      by_cases h7 : 7 ≤ (utf8Encode name.data).length
      · rw [if_pos h7]
        dsimp only
        constructor
        · rintro ⟨p, hp⟩
          split at hp
          · split at hp <;> cases hp
          · cases hp
        · rintro (h | ⟨_, h⟩) <;> omega
      · rw [if_neg h7]
        constructor
        · intro _; exact Or.inr ⟨hc, by omega⟩
        · intro _; exact ⟨_, rfl⟩
  · rw [if_neg h4]
    constructor
    · intro _; exact Or.inl (by omega)
    · intro _; exact ⟨_, rfl⟩

/-- When the `switch` of the second loop faults for well-typed candidates. -/
theorem platformEntry_error_of_short (topologyInfo : IntMap TopologyInfo)
    (candidates : List RawRecord) (s : ScanState × Owner) (name : String)
    (h : (utf8Encode name.data).length < 4 ∨
        ((utf8Encode name.data).take 4 ≠ utf8Encode "card".data ∧
          (utf8Encode name.data).length < 7)) :
    ∃ p, platformEntry topologyInfo candidates s name = Except.error p := by
  unfold platformEntry sliceTo
  by_cases h4 : 4 ≤ (utf8Encode name.data).length
  · rw [if_pos h4]
    dsimp only
    rcases h with h | ⟨hc, h7⟩
    · omega
    · rw [if_neg hc, if_neg (by omega)]
      exact ⟨_, rfl⟩
  · rw [if_neg h4]
    exact ⟨_, rfl⟩

theorem foldPanic_error_of_mem {σ α : Type} (step : σ → α → Except Panic σ) (l : List α)
    (a : α) (ha : a ∈ l) (herr : ∀ s, ∃ p, step s a = Except.error p) :
    ∀ s, ∃ p, foldPanic step s l = Except.error p := by
  induction l with
  | nil => cases ha
  | cons x l ih =>
    intro s
    simp only [foldPanic]
    cases hx : step s x with
    | error p => exact ⟨p, rfl⟩
    | ok s' =>
      rcases List.mem_cons.mp ha with h | h
      · obtain ⟨p, hp⟩ := herr s
        rw [h, hx] at hp
        cases hp
      · exact ih h s'

/-- C19, the fault: the `switch` in both loops of `GetAMDGPUs` slices four and
then seven bytes of the entry name without looking at its length, so it faults
exactly on a name shorter than four bytes and on a name shorter than seven
bytes that does not begin with `card`; one such entry in the `drm` directory of
a device whose `numa_node` is readable makes the whole first loop fault, and for
the sample state, where the second of two devices has the entry `abc`,
`GetAMDGPUs` faults and returns no record at all, whatever the visiting order,
although it returns the records of both devices once the entry is removed. -/
theorem short_entry_name_aborts_scan :
    (∀ (topologyInfo : IntMap TopologyInfo) (st : ScanState) (name : String),
      (∃ p, driverEntry topologyInfo st name = Except.error p) ↔
        ((utf8Encode name.data).length < 4 ∨
          ((utf8Encode name.data).take 4 ≠ utf8Encode "card".data ∧
            (utf8Encode name.data).length < 7))) ∧
    (∀ (topologyInfo : IntMap TopologyInfo) (k : Kernel) (s : ScanState × GoMap RawRecord)
        (dir : DeviceDir) (name : String), name ∈ dir.drm →
      (∃ n, Option.map Atoi dir.numaNode = some (Except.ok n)) →
      ((utf8Encode name.data).length < 4 ∨
        ((utf8Encode name.data).take 4 ≠ utf8Encode "card".data ∧
          (utf8Encode name.data).length < 7)) →
      ∃ p, driverStep topologyInfo k s dir = Except.error p) ∧
    driverEntry [] initialScanState "abc" = Except.error (Panic.sliceBounds 4 3) ∧
    driverEntry [] initialScanState "foo12" = Except.error (Panic.sliceBounds 7 5) ∧
    platformEntry [] [] (initialScanState, initialOwner) "abc" =
      Except.error (Panic.sliceBounds 4 3) ∧
    (∀ visit, GetAMDGPUs visit shortEntryKernel = Except.error (Panic.sliceBounds 4 3)) ∧
    (∀ visit, (GetAMDGPUs visit
        { shortEntryKernel with
          devices := [{ base := "0000:19:00.0", computePartition := some "spx",
                        memoryPartition := some "nps1", numaNode := some "0",
                        drm := ["card1", "renderD128"] },
                      { base := "0000:1a:00.0", computePartition := some "spx",
                        memoryPartition := some "nps1", numaNode := some "1",
                        drm := ["card2", "renderD129"] }] }).map GoMap.keys =
      Except.ok ["0000:19:00.0", "0000:1a:00.0"]) := by
  refine ⟨driverEntry_error_iff, ?_, by rfl, by rfl, by rfl, fun _ => by rfl, fun _ => by rfl⟩
  intro topologyInfo k s dir name hmem hnuma hshort
  obtain ⟨n, hn⟩ := hnuma
  unfold driverStep
  cases hnn : dir.numaNode with
  | none => rw [hnn] at hn; cases hn
  | some str =>
    rw [hnn] at hn
    simp only [Option.map_some', Option.some.injEq] at hn
    simp only [hn]
    obtain ⟨p, hp⟩ := foldPanic_error_of_mem (driverEntry topologyInfo) dir.drm name hmem
      (fun st => (driverEntry_error_iff topologyInfo st name).mpr hshort) s.1
    rw [hp]
    exact ⟨p, rfl⟩

theorem platformEntry_renderD (topologyInfo : IntMap TopologyInfo) (candidates : List RawRecord)
    (s s' : ScanState × Owner) (name : String)
    (h : platformEntry topologyInfo candidates s name = Except.ok s') :
    s'.1.renderD = if isRenderEntry name = true then AtoiValue (sliceFrom name 7)
      else s.1.renderD := by
  unfold platformEntry at h
  split at h
  · cases h
  · rename_i head4 h4
    obtain ⟨_, hb4⟩ := sliceTo_ok _ _ _ h4
    split at h
    · rename_i hcard
      simp only [Except.ok.injEq] at h
      have hnot : isRenderEntry name = false := by
        unfold isRenderEntry
        rw [hb4] at hcard
        simp [hcard]
      rw [hnot, ← h]
      simp
    · rename_i hcard
      split at h
      · cases h
      · rename_i head7 h7
        obtain ⟨_, hb7⟩ := sliceTo_ok _ _ _ h7
        rw [hb4] at hcard
        split at h
        · rename_i hrender
          rw [hb7] at hrender
          have hyes : isRenderEntry name = true := by
            unfold isRenderEntry
            simp [hcard, hrender]
          rw [hyes]
          split at h
          · dsimp only at h
            split at h
            · cases h
            · simp only [Except.ok.injEq] at h
              rw [← h]
              simp
          · dsimp only at h
            split at h
            · cases h
            · simp only [Except.ok.injEq] at h
              rw [← h]
              simp
        · rename_i hrender
          rw [hb7] at hrender
          have hnot : isRenderEntry name = false := by
            unfold isRenderEntry
            simp [hrender]
          simp only [Except.ok.injEq] at h
          rw [hnot, ← h]
          simp

/-- The render id left by the scan of a pseudo-device directory. -/
theorem platformScan_renderD (topologyInfo : IntMap TopologyInfo) (candidates : List RawRecord)
    (drm : List String) :
    ∀ (s s' : ScanState × Owner) (acc : Option Int) (x : Int), acc.getD x = s.1.renderD →
      foldPanic (platformEntry topologyInfo candidates) s drm = Except.ok s' →
      s'.1.renderD = (drm.foldl (fun acc name =>
        if isRenderEntry name then some (AtoiValue (sliceFrom name 7)) else acc) acc).getD x := by
  induction drm with
  | nil =>
    intro s s' acc x hacc h
    simp only [foldPanic, Except.ok.injEq] at h
    rw [← h]
    exact hacc.symm
  | cons name drm ih =>
    intro s s' acc x hacc h
    simp only [foldPanic] at h
    split at h
    · cases h
    · rename_i s1 hstep
      simp only [List.foldl_cons]
      refine ih s1 s' _ x ?_ h
      rw [platformEntry_renderD _ _ _ _ _ hstep]
      by_cases hr : isRenderEntry name = true
      · simp [hr]
      · simp [hr, hacc]

/-- What one iteration of the second loop does to the `devices` map. -/
theorem platformStep_cases (visit : GoMap RawRecord → List RawRecord)
    (topologyInfo : IntMap TopologyInfo) (k : Kernel) (s s' : ScanState × GoMap RawRecord)
    (dir : PlatformDir) (h : platformStep visit topologyInfo k s dir = Except.ok s') :
    ∃ o, foldPanic (platformEntry topologyInfo (visit s.2)) (s.1, initialOwner) dir.drm =
        Except.ok (s'.1, o) ∧
      ((s'.2 = s.2 ∧ (topologyInfo.get s'.1.renderD = none ∨ o.numaNode = -1 ∨
          o.parentPciAddr = "")) ∨
        (∃ info, topologyInfo.get s'.1.renderD = some info ∧ o.numaNode ≠ -1 ∧
          o.parentPciAddr ≠ "" ∧
          s'.2 = s.2.set dir.base
            (deviceInfoMap s'.1.card s'.1.renderD s'.1.devID o.parentPciAddr k.driverVersion.1
              k.driverVersion.2 o.computePartitionType o.memoryPartitionType o.numaNode
              s'.1.nodeId o.familyName o.productName (some info)))) := by
  unfold platformStep at h
  split at h
  · cases h
  · rename_i st o hscan
    split at h
    · rename_i hnone
      simp only [Except.ok.injEq] at h
      rw [← h]
      exact ⟨o, hscan, Or.inl ⟨rfl, Or.inl hnone⟩⟩
    · rename_i info hsome
      split at h
      · rename_i hskip
        simp only [Except.ok.injEq] at h
        rw [← h]
        exact ⟨o, hscan, Or.inl ⟨rfl, Or.inr hskip⟩⟩
      · rename_i hkeep
        simp only [Except.ok.injEq] at h
        rw [← h]
        simp only [not_or] at hkeep
        exact ⟨o, hscan, Or.inr ⟨info, hsome, hkeep.1, hkeep.2, rfl⟩⟩

theorem foldPanic_invariant_mem {σ α : Type} (step : σ → α → Except Panic σ) (P : σ → Prop)
    (l : List α) (hstep : ∀ a ∈ l, ∀ s s', P s → step s a = Except.ok s' → P s') :
    ∀ s s', P s → foldPanic step s l = Except.ok s' → P s' := by
  induction l with
  | nil =>
    intro s s' hP h
    simp only [foldPanic, Except.ok.injEq] at h
    rw [← h]; exact hP
  | cons a l ih =>
    intro s s' hP h
    simp only [foldPanic] at h
    split at h
    · cases h
    · rename_i s1 hs1
      exact ih (fun b hb => hstep b (List.mem_cons_of_mem _ hb)) s1 s'
        (hstep a (List.mem_cons_self _ _) s s1 hP hs1) h

theorem driverStep_cases (topologyInfo : IntMap TopologyInfo) (k : Kernel)
    (s s' : ScanState × GoMap RawRecord) (dir : DeviceDir)
    (h : driverStep topologyInfo k s dir = Except.ok s') :
    s'.2 = s.2 ∨ ∃ r, s'.2 = s.2.set dir.base r := by
  unfold driverStep at h
  split at h
  · simp only [Except.ok.injEq] at h
    rw [← h]; exact Or.inl rfl
  · split at h
    · simp only [Except.ok.injEq] at h
      rw [← h]; exact Or.inl rfl
    · split at h
      · cases h
      · simp only [Except.ok.injEq] at h
        rw [← h]; exact Or.inr ⟨_, rfl⟩

theorem ownerLoop_taken (devID : String) (candidates : List RawRecord) (l : List RawRecord) :
    ∀ (o o' : Owner), (∀ c ∈ l, c ∈ candidates) →
      ownerLoop devID o l = Except.ok o' → o' = o ∨ takenFrom candidates devID o' := by
  induction l with
  | nil =>
    intro o o' _ h
    simp only [ownerLoop, Except.ok.injEq] at h
    exact Or.inl h.symm
  | cons c l ih =>
    intro o o' hsub h
    have hsub' : ∀ x ∈ l, x ∈ candidates := fun x hx => hsub x (List.mem_cons_of_mem _ hx)
    have hc : c ∈ candidates := hsub c (List.mem_cons_self _ _)
    unfold ownerLoop at h
    split at h
    · rename_i d hd
      split at h
      · rename_i hdev
        rw [hdev] at hd
        split at h
        · cases h
        · rename_i pci hpci
          split at h
          · cases h
          · rename_i numa hnuma
            split at h
            · cases h
            · rename_i fam hfam
              split at h
              · cases h
              · rename_i prod hprod
                have htaken : ∀ (a b : String), takenFrom candidates devID
                    { computePartitionType := a, memoryPartitionType := b, numaNode := numa,
                      parentPciAddr := pci, familyName := fam, productName := prod } :=
                  fun a b => ⟨c, hc, hd, hpci, hnuma, hfam, hprod⟩
                have hrec : ∀ o1 : Owner, takenFrom candidates devID o1 →
                    ownerLoop devID o1 l = Except.ok o' → takenFrom candidates devID o' := by
                  intro o1 h1 hl
                  rcases ih o1 o' hsub' hl with heq | ht
                  · rw [heq]; exact h1
                  · exact ht
                split at h
                · cases h
                · rename_i cpt hcpt
                  split at h
                  · split at h
                    · cases h
                    · rename_i mpt hmpt
                      split at h
                      · simp only [Except.ok.injEq] at h
                        rw [← h]
                        exact Or.inr (htaken _ _)
                      · exact Or.inr (hrec _ (htaken _ _) h)
                  · exact Or.inr (hrec _ (htaken _ _) h)
      · exact ih o o' hsub' h
    · exact ih o o' hsub' h

/-- One entry in the second loop: the scan variables change as in the first
loop, and the owner values stay or are taken from a record that holds the device
id in force after the entry, which is then a render entry. -/
theorem platformEntry_taken (topologyInfo : IntMap TopologyInfo) (candidates : List RawRecord)
    (s s' : ScanState × Owner) (name : String)
    (h : platformEntry topologyInfo candidates s name = Except.ok s') :
    driverEntry topologyInfo s.1 name = Except.ok s'.1 ∧
      (s'.2 = s.2 ∨ (isRenderEntry name = true ∧ takenFrom candidates s'.1.devID s'.2)) := by
  unfold platformEntry at h
  unfold driverEntry
  split at h
  · cases h
  · rename_i head4 h4
    obtain ⟨_, hb4⟩ := sliceTo_ok _ _ _ h4
    simp only [h4]
    split at h
    · rename_i hcard
      have hcard1 : head4 = utf8Encode ['c', 'a', 'r', 'd'] := hcard
      simp only [Except.ok.injEq] at h
      rw [if_pos hcard1, ← h]
      exact ⟨rfl, Or.inl rfl⟩
    · rename_i hcard
      have hcard1 : ¬ head4 = utf8Encode ['c', 'a', 'r', 'd'] := hcard
      rw [if_neg hcard1]
      split at h
      · cases h
      · rename_i head7 h7
        obtain ⟨_, hb7⟩ := sliceTo_ok _ _ _ h7
        rw [hb4] at hcard
        split at h
        · rename_i hrender
          have hrender1 : head7 = utf8Encode ['r', 'e', 'n', 'd', 'e', 'r', 'D'] := hrender
          rw [if_pos hrender1]
          rw [hb7] at hrender
          have hyes : isRenderEntry name = true := by
            unfold isRenderEntry
            simp [hcard, hrender]
          split at h
          · rename_i info hinfo
            dsimp only at h
            split at h
            · cases h
            · rename_i o ho
              simp only [Except.ok.injEq] at h
              rw [← h]
              simp only [hinfo]
              refine ⟨trivial, ?_⟩
              rcases ownerLoop_taken _ candidates candidates _ o (fun _ hc => hc) ho with he | ht
              · exact Or.inl he
              · exact Or.inr ⟨hyes, ht⟩
          · rename_i hinfo
            dsimp only at h
            split at h
            · cases h
            · rename_i o ho
              simp only [Except.ok.injEq] at h
              rw [← h]
              simp only [hinfo]
              refine ⟨trivial, ?_⟩
              rcases ownerLoop_taken _ candidates candidates _ o (fun _ hc => hc) ho with he | ht
              · exact Or.inl he
              · exact Or.inr ⟨hyes, ht⟩
        · rename_i hrender
          have hrender1 : ¬ head7 = utf8Encode ['r', 'e', 'n', 'd', 'e', 'r', 'D'] := hrender
          rw [if_neg hrender1]
          simp only [Except.ok.injEq] at h
          rw [← h]
          exact ⟨rfl, Or.inl rfl⟩

/-- One entry in the first loop: after a render entry the device id is that of
the topology record of the render id, if it has one; any other entry leaves the
device id and the render id as they were. -/
theorem driverEntry_keeps (topologyInfo : IntMap TopologyInfo) (st st' : ScanState)
    (name : String) (h : driverEntry topologyInfo st name = Except.ok st') :
    (isRenderEntry name = true ∧
        ∀ info, topologyInfo.get st'.renderD = some info → st'.devID = info.UniqueID) ∨
      (isRenderEntry name = false ∧ st'.devID = st.devID ∧ st'.renderD = st.renderD) := by
  unfold driverEntry at h
  split at h
  · cases h
  · rename_i head4 h4
    obtain ⟨_, hb4⟩ := sliceTo_ok _ _ _ h4
    split at h
    · rename_i hcard
      simp only [Except.ok.injEq] at h
      have hnot : isRenderEntry name = false := by
        unfold isRenderEntry
        rw [hb4] at hcard
        simp [hcard]
      rw [← h]
      exact Or.inr ⟨hnot, rfl, rfl⟩
    · rename_i hcard
      split at h
      · cases h
      · rename_i head7 h7
        obtain ⟨_, hb7⟩ := sliceTo_ok _ _ _ h7
        rw [hb4] at hcard
        split at h
        · rename_i hrender
          rw [hb7] at hrender
          have hyes : isRenderEntry name = true := by
            unfold isRenderEntry
            simp [hcard, hrender]
          split at h
          · rename_i info hinfo
            simp only [Except.ok.injEq] at h
            rw [← h]
            refine Or.inl ⟨hyes, ?_⟩
            intro info' hinfo'
            have hinfo1 : topologyInfo.get (AtoiValue (sliceFrom name 7)) = some info' := hinfo'
            rw [hinfo] at hinfo1
            cases hinfo1
            rfl
          · rename_i hinfo
            simp only [Except.ok.injEq] at h
            rw [← h]
            refine Or.inl ⟨hyes, ?_⟩
            intro info' hinfo'
            have hinfo1 : topologyInfo.get (AtoiValue (sliceFrom name 7)) = some info' := hinfo'
            rw [hinfo] at hinfo1
            cases hinfo1
        · rename_i hrender
          rw [hb7] at hrender
          have hnot : isRenderEntry name = false := by
            unfold isRenderEntry
            simp [hrender]
          simp only [Except.ok.injEq] at h
          rw [← h]
          exact Or.inr ⟨hnot, rfl, rfl⟩

/-- The scan of further entries keeps the device id tied to the topology record
of the render id, and leaves both as they were when no render entry follows. -/
theorem driverScan_keeps (topologyInfo : IntMap TopologyInfo) (post : List String) :
    ∀ st st', foldPanic (driverEntry topologyInfo) st post = Except.ok st' →
      ((∀ info, topologyInfo.get st.renderD = some info → st.devID = info.UniqueID) →
        ∀ info, topologyInfo.get st'.renderD = some info → st'.devID = info.UniqueID) ∧
      ((∀ e ∈ post, isRenderEntry e = false) →
        st'.devID = st.devID ∧ st'.renderD = st.renderD) := by
  induction post with
  | nil =>
    intro st st' h
    simp only [foldPanic, Except.ok.injEq] at h
    rw [← h]
    exact ⟨fun hP => hP, fun _ => ⟨rfl, rfl⟩⟩
  | cons e post ih =>
    intro st st' h
    simp only [foldPanic] at h
    split at h
    · cases h
    · rename_i st1 hst1
      obtain ⟨ih1, ih2⟩ := ih st1 st' h
      rcases driverEntry_keeps topologyInfo st st1 e hst1 with ⟨hy, hid⟩ | ⟨hn, hd, hr⟩
      · refine ⟨fun _ => ih1 hid, ?_⟩
        intro hall
        have := hall e (List.mem_cons_self _ _)
        rw [hy] at this
        cases this
      · refine ⟨?_, ?_⟩
        · intro hP
          apply ih1
          intro info hinfo
          rw [hd]
          rw [hr] at hinfo
          exact hP info hinfo
        · intro hall
          obtain ⟨h1, h2⟩ := ih2 (fun x hx => hall x (List.mem_cons_of_mem _ hx))
          exact ⟨h1.trans hd, h2.trans hr⟩

/-- The scan of the entries of a pseudo-device directory: the scan variables
change as in the first loop, and the owner values either stay or were taken, at
one of the render entries, from a record that holds the device id in force after
that entry. -/
theorem platformScan_taken (topologyInfo : IntMap TopologyInfo) (candidates : List RawRecord)
    (drm : List String) :
    ∀ (s s' : ScanState × Owner),
      foldPanic (platformEntry topologyInfo candidates) s drm = Except.ok s' →
      foldPanic (driverEntry topologyInfo) s.1 drm = Except.ok s'.1 ∧
      (s'.2 = s.2 ∨ ∃ pre name post st1, drm = pre ++ name :: post ∧ isRenderEntry name = true ∧
        foldPanic (driverEntry topologyInfo) s.1 (pre ++ [name]) = Except.ok st1 ∧
        foldPanic (driverEntry topologyInfo) st1 post = Except.ok s'.1 ∧
        takenFrom candidates st1.devID s'.2) := by
  induction drm with
  | nil =>
    intro s s' h
    simp only [foldPanic, Except.ok.injEq] at h
    rw [← h]
    exact ⟨rfl, Or.inl rfl⟩
  | cons e drm ih =>
    intro s s' h
    simp only [foldPanic] at h
    split at h
    · cases h
    · rename_i s1 hs1
      obtain ⟨hd, hown⟩ := platformEntry_taken topologyInfo candidates s s1 e hs1
      obtain ⟨hscan, hrest⟩ := ih s1 s' h
      refine ⟨by simp only [foldPanic, hd]; exact hscan, ?_⟩
      rcases hrest with heq | ⟨pre, name, post, st1, hsplit, hy, hpre, hpost, htaken⟩
      · rcases hown with heq1 | ⟨hy, htaken⟩
        · exact Or.inl (heq.trans heq1)
        · refine Or.inr ⟨[], e, drm, s1.1, rfl, hy, ?_, hscan, ?_⟩
          · simp only [List.nil_append, foldPanic, hd]
          · rw [heq]; exact htaken
      · refine Or.inr ⟨e :: pre, name, post, st1, ?_, hy, ?_, hpost, htaken⟩
        · rw [hsplit]; rfl
        · simp only [List.cons_append, foldPanic, hd]
          exact hpre

theorem driverScan_snoc_render (topologyInfo : IntMap TopologyInfo) (pre : List String)
    (name : String) (st st1 : ScanState) (hy : isRenderEntry name = true)
    (h : foldPanic (driverEntry topologyInfo) st (pre ++ [name]) = Except.ok st1) :
    ∀ info, topologyInfo.get st1.renderD = some info → st1.devID = info.UniqueID := by
  rw [foldPanic_append] at h
  split at h
  · cases h
  · rename_i st0 _
    simp only [foldPanic] at h
    split at h
    · cases h
    · rename_i st2 hst2
      simp only [Except.ok.injEq] at h
      rw [← h]
      rcases driverEntry_keeps topologyInfo st0 st2 name hst2 with ⟨_, hid⟩ | ⟨hn, _⟩
      · exact hid
      · rw [hy] at hn; cases hn

theorem filter_single_tail (p : String → Bool) (pre post : List String) (name : String)
    (hy : p name = true) (h : ((pre ++ name :: post).filter p).length = 1) :
    ∀ e ∈ post, p e = false := by
  intro e he
  simp only [List.filter_append, List.filter_cons, hy, if_true, List.length_append,
    List.length_cons] at h
  have hlen : (post.filter p).length = 0 := by omega
  have hnil : post.filter p = [] := List.length_eq_zero.mp hlen
  cases hpe : p e with
  | false => rfl
  | true =>
    have : e ∈ post.filter p := List.mem_filter.mpr ⟨he, hpe⟩
    rw [hnil] at this
    cases this

/-- C16 (as amended): when an iteration of the second loop of `GetAMDGPUs` ends
with a render id that has no topology record, the `devices` map is left as it
was. An iteration that changes the map stores one record under the base name of
the directory; its render id has a topology record, whose unique id is the
device id of the record, and its PCI address and NUMA node are those of an owner
record of the map that held, at one of the render entries of the directory, the
device id in force after that entry. When no render entry follows that entry,
and so whenever the directory has exactly one render entry, the device id of the
owner is the device id of the record. For the whole scan: a pseudo-device
directory whose last render entry gives a render id without topology record, and
whose base name is that of no other directory with other entries, has no record
in the map returned. -/
theorem pseudo_device_needs_topology (visit : GoMap RawRecord → List RawRecord) (k : Kernel)
    (devices : GoMap RawRecord)
    (h : GetAMDGPUs visit k = Except.ok devices) :
    (∀ (topologyInfo : IntMap TopologyInfo) (s s' : ScanState × GoMap RawRecord)
        (dir : PlatformDir), platformStep visit topologyInfo k s dir = Except.ok s' →
      (topologyInfo.get s'.1.renderD = none → s'.2 = s.2) ∧
      (s'.2 ≠ s.2 →
        ∃ info owner r, topologyInfo.get s'.1.renderD = some info ∧
          s'.2 = s.2.set dir.base r ∧
          r.get "renderD" = some (GoValue.int s'.1.renderD) ∧
          r.get "devID" = some (GoValue.str info.UniqueID) ∧
          owner ∈ visit s.2 ∧
          asString owner "pciAddr" = Except.ok (strField r "pciAddr") ∧
          asInt owner "numaNode" = Except.ok (intField r "numaNode") ∧
          (∃ pre name post st, dir.drm = pre ++ name :: post ∧ isRenderEntry name = true ∧
            foldPanic (driverEntry topologyInfo) s.1 (pre ++ [name]) = Except.ok st ∧
            owner.get "devID" = some (GoValue.str st.devID) ∧
            ((∀ e ∈ post, isRenderEntry e = false) → st.devID = info.UniqueID)) ∧
          ((dir.drm.filter isRenderEntry).length = 1 →
            owner.get "devID" = some (GoValue.str info.UniqueID)))) ∧
    (∀ p ∈ k.platform, ∀ n, renderIdOf p.drm = some n →
      (∀ topologyInfo, GetTopologyInfo k.topology = Except.ok topologyInfo →
        topologyInfo.get n = none) →
      (∀ d ∈ k.devices, d.base ≠ p.base) →
      (∀ q ∈ k.platform, q.base = p.base → q.drm = p.drm) →
      devices.get p.base = none) := by
  constructor
  · intro topologyInfo s s' dir hstep
    obtain ⟨o, hscan, hcases⟩ := platformStep_cases visit topologyInfo k s s' dir hstep
    constructor
    · intro hnone
      rcases hcases with ⟨heq, _⟩ | ⟨info, hsome, _⟩
      · exact heq
      · rw [hnone] at hsome; cases hsome
    · intro hne
      rcases hcases with ⟨heq, _⟩ | ⟨info, hsome, hnuma, hpci, heq⟩
      · exact absurd heq hne
      · obtain ⟨_, hown⟩ := platformScan_taken topologyInfo (visit s.2) dir.drm
          (s.1, initialOwner) (s'.1, o) hscan
        rcases hown with hinit | ⟨pre, name, post, st, hsplit, hy, hpre, hpost, owner, hmem, hd,
            h1, h2, _, _⟩
        · exfalso
          apply hpci
          have : o = initialOwner := hinit
          rw [this]; rfl
        · have hid := driverScan_snoc_render topologyInfo pre name s.1 st hy hpre
          obtain ⟨hkeep1, hkeep2⟩ := driverScan_keeps topologyInfo post st s'.1 hpost
          have hrec : s'.1.devID = info.UniqueID := hkeep1 hid info hsome
          have htail : (∀ e ∈ post, isRenderEntry e = false) → st.devID = info.UniqueID := by
            intro hall
            rw [← (hkeep2 hall).1]
            exact hrec
          refine ⟨info, owner, _, hsome, heq, ?_, ?_, hmem, ?_, ?_,
            ⟨pre, name, post, st, hsplit, hy, hpre, hd, htail⟩, ?_⟩
          · simp [deviceInfoMap, GoMap.get, GoMap.set]
          · rw [← hrec]
            simp [deviceInfoMap, GoMap.get, GoMap.set]
          · rw [h1]
            simp [deviceInfoMap, strField, GoMap.get, GoMap.set]
          · rw [h2]
            simp [deviceInfoMap, intField, GoMap.get, GoMap.set]
          · intro hone
            rw [hsplit] at hone
            rw [← htail (filter_single_tail isRenderEntry pre post name hy hone)]
            exact hd
  · intro p hp n hn htopo hdev hplat
    unfold GetAMDGPUs at h
    split at h
    · split at h
      · cases h
      · rename_i topologyInfo htop
        have hnone := htopo topologyInfo htop
        split at h
        · cases h
        · rename_i s1 hloop1
          split at h
          · cases h
          · rename_i s2 hloop2
            simp only [Except.ok.injEq] at h
            rw [← h]
            have h1 : s1.2.get p.base = none := by
              refine foldPanic_invariant_mem (driverStep topologyInfo k)
                (fun x => x.2.get p.base = none) k.devices ?_ (initialScanState, []) s1 rfl hloop1
              intro d hd a b hP hstep
              rcases driverStep_cases topologyInfo k a b d hstep with heq | ⟨r, heq⟩
              · show b.2.get p.base = none
                rw [heq]; exact hP
              · show b.2.get p.base = none
                rw [heq, GoMap.get_set, if_neg (hdev d hd)]
                exact hP
            refine foldPanic_invariant_mem (platformStep visit topologyInfo k)
              (fun x => x.2.get p.base = none) k.platform ?_ s1 s2 h1 hloop2
            intro q hq a b hP hstep
            obtain ⟨o, hscan, hcases⟩ := platformStep_cases visit topologyInfo k a b q hstep
            rcases hcases with ⟨heq, _⟩ | ⟨info, hsome, _, _, heq⟩
            · show b.2.get p.base = none
              rw [heq]; exact hP
            · show b.2.get p.base = none
              by_cases hbase : q.base = p.base
              · exfalso
                have hrd := platformScan_renderD topologyInfo (visit a.2) q.drm
                  (a.1, initialOwner) (b.1, o) none a.1.renderD rfl hscan
                rw [hplat q hq hbase] at hrd
                have hn' : (List.foldl (fun acc name =>
                    if isRenderEntry name = true then some (AtoiValue (sliceFrom name 7))
                    else acc) none p.drm) = some n := hn
                rw [hn'] at hrd
                simp only [Option.getD_some] at hrd
                rw [hrd, hnone] at hsome
                cases hsome
              · rw [heq, GoMap.get_set, if_neg hbase]
                exact hP
    · simp only [Except.ok.injEq] at h
      rw [← h]; rfl

/-- C16, counterexample: in the sample state whose pseudo-device directory has
the render entries of two devices, the pseudo-device gets a record with the
device id `222` of its last render entry, while its PCI address and NUMA node
are those of the driver-bound device, the only other record of the map, whose
device id is `111`: no record shares the device id of the pseudo-device. -/
theorem pseudo_device_owner_example :
    ∃ devices r, GetAMDGPUs visitInOrder twoRenderKernel = Except.ok devices ∧
      devices.get "amdgpu_xcp_1" = some r ∧
      r.get "renderD" = some (GoValue.int 130) ∧
      r.get "devID" = some (GoValue.str "222") ∧
      r.get "pciAddr" = some (GoValue.str "0000:19:00.0") ∧
      r.get "numaNode" = some (GoValue.int 0) ∧
      (∀ e ∈ devices, e.1 ≠ "amdgpu_xcp_1" →
        e.1 = "0000:19:00.0" ∧ e.2.get "devID" = some (GoValue.str "111") ∧
          e.2.get "pciAddr" = some (GoValue.str "0000:19:00.0")) :=
  ⟨[("0000:19:00.0", deviceInfoMap 1 128 "111" "0000:19:00.0" "6.10.5" "ABCDEF" "cpx" "nps1" 0 2
        "AI" "AMD_Instinct_MI300X"
        (some { RenderDeviceID := 128, UniqueID := "111", NodeID := 2, SimdCount := 152,
                SimdPerCU := 4, CUCount := 38, VramBytes := 25769803776 })),
     ("amdgpu_xcp_1", deviceInfoMap 2 130 "222" "0000:19:00.0" "6.10.5" "ABCDEF" "cpx" "nps1" 0 4
        "AI" "AMD_Instinct_MI300X"
        (some { RenderDeviceID := 130, UniqueID := "222", NodeID := 4, SimdCount := 152,
                SimdPerCU := 4, CUCount := 38, VramBytes := 25769803776 }))],
    _, by rfl, by rfl, by decide, by decide, by decide, by decide, by decide⟩

/-- The sample state in which the pseudo-device `amdgpu_xcp_9` has the render
id 140, for which the topology tree has no node, and the iteration of the second
loop for its pseudo-device `amdgpu_xcp_1`, which has one render entry: the owner
holds the device id of the topology record of the render id 129. -/
theorem pseudo_device_needs_topology_sample :
    GetAMDGPUs visitInOrder orphanKernel =
      Except.ok [("0000:19:00.0", xcpRecord 1 128 2), ("amdgpu_xcp_1", xcpRecord 2 129 3)] ∧
    renderIdOf ["card9", "renderD140"] = some 140 ∧
    GoMap.get [("0000:19:00.0", xcpRecord 1 128 2), ("amdgpu_xcp_1", xcpRecord 2 129 3)]
      "amdgpu_xcp_9" = none ∧
    (∃ info owner r, IntMap.get [(128, xcpInfo 2 128), (129, xcpInfo 3 129)] 129 = some info ∧
      [("0000:19:00.0", xcpRecord 1 128 2), ("amdgpu_xcp_1", xcpRecord 2 129 3)] =
        GoMap.set [("0000:19:00.0", xcpRecord 1 128 2)] "amdgpu_xcp_1" r ∧
      owner ∈ visitInOrder [("0000:19:00.0", xcpRecord 1 128 2)] ∧
      owner.get "devID" = some (GoValue.str info.UniqueID)) :=
  ⟨by rfl, by rfl,
    (pseudo_device_needs_topology visitInOrder orphanKernel _ (by rfl)).2
      { base := "amdgpu_xcp_9", drm := ["card9", "renderD140"] } (by decide) 140 (by rfl)
      (by
        intro topologyInfo htop
        have hval : GetTopologyInfo orphanKernel.topology = Except.ok
            [(128, xcpInfo 2 128), (129, xcpInfo 3 129), (130, xcpInfo 4 130),
              (131, xcpInfo 5 131)] := by rfl
        rw [hval] at htop
        simp only [Except.ok.injEq] at htop
        rw [← htop]
        rfl)
      (by decide) (by decide),
    (by
      obtain ⟨info, owner, r, h1, h2, _, _, h5, _, _, _, h9⟩ :=
        ((pseudo_device_needs_topology visitInOrder orphanKernel _ (by rfl)).1
          [(128, xcpInfo 2 128), (129, xcpInfo 3 129)]
          ({ card := 1, renderD := 128, nodeId := 2, devID := "1234567890" },
            [("0000:19:00.0", xcpRecord 1 128 2)])
          ({ card := 2, renderD := 129, nodeId := 3, devID := "1234567890" },
            [("0000:19:00.0", xcpRecord 1 128 2), ("amdgpu_xcp_1", xcpRecord 2 129 3)])
          { base := "amdgpu_xcp_1", drm := ["card2", "renderD129"] } (by rfl)).2 (by decide)
      exact ⟨info, owner, r, h1, h2, h5, h9 (by decide)⟩)⟩

/-! ## The inventory of a partitioned device -/

theorem GoMap.set_of_not_mem {ν : Type} (m : GoMap ν) (k : String) (v : ν) (h : k ∉ m.keys) :
    m.set k v = m ++ [(k, v)] := by
  induction m with
  | nil => rfl
  | cons e m ih =>
    obtain ⟨k', v'⟩ := e
    simp only [GoMap.keys, List.map_cons, List.mem_cons, not_or] at h
    have hne : ¬ k' = k := fun h' => h.1 h'.symm
    simp only [GoMap.set, if_neg hne, List.cons_append]
    rw [ih h.2]

/-- With pairwise distinct names every map write adds an entry at the end. -/
theorem foldl_storeEntry_nodup (pcie : PCIeRoot) (l : List (String × RawRecord)) :
    ∀ inv : AllocatableDevices,
      (inv.keys ++ (l.filterMap (entryOf pcie)).map Prod.fst).Nodup →
      l.foldl (fun inv e => storeEntry inv (entryOf pcie e)) inv =
        inv ++ l.filterMap (entryOf pcie) := by
  induction l with
  | nil => intro inv _; simp
  | cons e l ih =>
    intro inv hnd
    simp only [List.foldl_cons]
    cases hentry : entryOf pcie e with
    | none =>
      simp only [List.filterMap_cons, hentry] at hnd ⊢
      exact ih inv hnd
    | some x =>
      obtain ⟨n, d⟩ := x
      simp only [List.filterMap_cons, hentry, List.map_cons] at hnd ⊢
      have hn : n ∉ inv.keys := by
        intro hmem
        have := (List.nodup_append.mp hnd).2.2
        exact this hmem (List.mem_cons_self _ _)
      have hstore : storeEntry inv (some (n, d)) = inv ++ [(n, d)] := by
        simp only [storeEntry]
        exact GoMap.set_of_not_mem inv n d hn
      rw [hstore, ih]
      · simp
      · simp only [GoMap.keys, List.map_append, List.map_cons, List.map_nil, List.append_assoc,
          List.singleton_append]
        exact hnd

theorem inventoryOf_nodup (pcie : PCIeRoot) (l : List (String × RawRecord))
    (h : ((l.filterMap (entryOf pcie)).map Prod.fst).Nodup) :
    inventoryOf pcie l = l.filterMap (entryOf pcie) := by
  unfold inventoryOf
  rw [foldl_storeEntry_nodup pcie l [] (by simpa [GoMap.keys] using h)]
  rfl

theorem entryOf_none_iff (pcie : PCIeRoot) (e : String × RawRecord) :
    entryOf pcie e = none ↔ strField e.2 "computePartitionType" = "" := by
  unfold entryOf
  by_cases hspx : strField e.2 "computePartitionType" = "spx"
  · rw [if_pos hspx, hspx]
    simp
  · rw [if_neg hspx]
    by_cases hempty : strField e.2 "computePartitionType" = ""
    · simp [hempty]
    · simp [hempty]

theorem entryOf_name (pcie : PCIeRoot) (e : String × RawRecord) (x : String × AllocatableDevice)
    (h : entryOf pcie e = some x) : x.1 = recordName e.2 := by
  unfold entryOf at h
  split at h
  · simp only [Option.some.injEq] at h
    rw [← h]
  · split at h
    · simp only [Option.some.injEq] at h
      rw [← h]
    · cases h

theorem entry_names (pcie : PCIeRoot) (l : List (String × RawRecord)) :
    (l.filterMap (entryOf pcie)).map Prod.fst = allocatableNames l := by
  unfold allocatableNames
  induction l with
  | nil => rfl
  | cons e l ih =>
    cases hentry : entryOf pcie e with
    | none =>
      have hempty := (entryOf_none_iff pcie e).mp hentry
      simp only [List.filterMap_cons, hentry, List.filter_cons, hempty, ne_eq, not_true_eq_false,
        decide_False]
      exact ih
    | some x =>
      have hne : ¬ strField e.2 "computePartitionType" = "" := by
        intro h
        rw [(entryOf_none_iff pcie e).mpr h] at hentry
        cases hentry
      simp only [List.filterMap_cons, hentry, List.filter_cons, ne_eq, hne, not_false_eq_true,
        decide_True, List.map_cons, if_true]
      rw [ih, entryOf_name pcie e x hentry]

theorem GoMap.get_of_mem_nodup {ν : Type} (m : GoMap ν) (k : String) (v : ν)
    (hnd : m.keys.Nodup) (h : (k, v) ∈ m) : m.get k = some v := by
  induction m with
  | nil => cases h
  | cons e m ih =>
    obtain ⟨k', v'⟩ := e
    simp only [GoMap.keys, List.map_cons, List.nodup_cons] at hnd
    rcases List.mem_cons.mp h with h1 | h1
    · simp only [Prod.mk.injEq] at h1
      simp [GoMap.get, h1.1, h1.2]
    · have hne : ¬ k' = k := by
        intro heq
        apply hnd.1
        rw [heq]
        exact List.mem_map.mpr ⟨(k, v), h1, rfl⟩
      simp only [GoMap.get, if_neg hne]
      exact ih hnd.2 h1

theorem GoMap.mem_of_get {ν : Type} (m : GoMap ν) (k : String) (v : ν)
    (h : m.get k = some v) : (k, v) ∈ m := by
  induction m with
  | nil => cases h
  | cons e m ih =>
    obtain ⟨k', v'⟩ := e
    unfold GoMap.get at h
    split at h
    · rename_i hk
      simp only [Option.some.injEq] at h
      rw [hk, h]
      exact List.mem_cons_self _ _
    · exact List.mem_cons_of_mem _ (ih h)

/-- Two maps with the same bindings, each key bound once, read alike. -/
theorem GoMap.get_perm {ν : Type} (m m' : GoMap ν) (hp : m.Perm m') (hnd : m.keys.Nodup)
    (k : String) : m.get k = m'.get k := by
  have hnd' : m'.keys.Nodup := (hp.map Prod.fst).nodup_iff.mp hnd
  cases h : m.get k with
  | none =>
    have h1 := (GoMap.get_eq_none_iff m k).mp h
    have h2 : k ∉ m'.keys := fun hmem => h1 ((hp.map Prod.fst).mem_iff.mpr hmem)
    exact ((GoMap.get_eq_none_iff m' k).mpr h2).symm
  | some v =>
    have h1 := GoMap.mem_of_get m k v h
    exact (GoMap.get_of_mem_nodup m' k v hnd' (hp.mem_iff.mp h1)).symm

theorem filterMap_partitions (pcie : PCIeRoot) (l : List (String × RawRecord))
    (hp : ∀ e ∈ l, strField e.2 "computePartitionType" ≠ "spx" ∧
      strField e.2 "computePartitionType" ≠ "") :
    l.filterMap (entryOf pcie) = l.map (fun e =>
      (recordName e.2, { AmdGpu := none, AmdPartition := some (partitionOf pcie e.2) })) := by
  induction l with
  | nil => rfl
  | cons e l ih =>
    have he := hp e (List.mem_cons_self _ _)
    simp only [List.filterMap_cons, entryOf, he.1, if_false, he.2, ne_eq, not_false_eq_true,
      if_true, List.map_cons]
    rw [ih (fun x hx => hp x (List.mem_cons_of_mem _ hx))]

/-- C13, the difference: for the sample state with one driver-bound device in
`cpx` mode and three pseudo-devices of the same device id, `GetAMDGPUs` returns
four records and the inventory has four entries, not three: the driver-bound
record is stored like the others, as a partition under its own canonical name
`gpu-1-128`, and no entry or other value stands for the parent alone. -/
theorem partitioned_device_example :
    GetAMDGPUs visitInOrder partitionedKernel = Except.ok partitionedRecords ∧
    (discoverDevices sampleEnv samplePCIeRoot visitInOrder id partitionedKernel).map GoMap.keys =
      Except.ok ["gpu-1-128", "gpu-2-129", "gpu-3-130", "gpu-4-131"] ∧
    (discoverDevices sampleEnv samplePCIeRoot visitInOrder id partitionedKernel).map
        List.length = Except.ok 4 ∧
    (discoverDevices sampleEnv samplePCIeRoot visitInOrder id partitionedKernel).map
        (fun inv => inv.get "gpu-1-128") =
      Except.ok (some { AmdGpu := none,
                        AmdPartition := some (partitionOf samplePCIeRoot (xcpRecord 1 128 2)) }) :=
  ⟨by rfl, by rfl, by rfl, by rfl⟩

/-- C13, as amended: well-typed records whose compute partition type is neither
`spx` nor empty, with pairwise distinct canonical names, give an inventory of
one partition entry for each record, the record of the driver-bound device
included, in the order of the visit; the entry of a record is stored under the
canonical name of its card and render indices, has no full device, holds the
indices, the profile, the topology values and the capacity (20 GiB by default)
of its own record, and has a parent value of its own that carries the family,
product name, driver versions, device id and PCI address of the same record and
nothing else. -/
theorem partitioned_device_inventory (E : Env) (pcie : PCIeRoot)
    (l : List (String × RawRecord))
    (hE : E.AmdGpuDeviceType ≠ E.AmdPartitionDeviceType)
    (hw : ∀ e ∈ l, wellTyped e.2 = true)
    (hp : ∀ e ∈ l, strField e.2 "computePartitionType" ≠ "spx" ∧
      strField e.2 "computePartitionType" ≠ "")
    (hn : (l.map (fun e => getDeviceName (intField e.2 "card") (intField e.2 "renderD"))).Nodup) :
    (∃ inv, enumerateAllPossibleDevices E pcie l = Except.ok inv ∧
      inv.length = l.length ∧
      inv = l.map (fun e => (getDeviceName (intField e.2 "card") (intField e.2 "renderD"),
        { AmdGpu := none, AmdPartition := some (partitionOf pcie e.2) }))) ∧
    ∀ e ∈ l, ∃ parent, (partitionOf pcie e.2).Parent = some parent ∧
      parent.Family = strField e.2 "family" ∧
      parent.ProductName = strField e.2 "productName" ∧
      parent.DriverVersion = strField e.2 "driverVersion" ∧
      parent.DriverSrcVersion = strField e.2 "driverSrcVersion" ∧
      parent.DeviceID = strField e.2 "devID" ∧
      parent.PCIAddress = (if (pcie (strField e.2 "pciAddr")).2 = none
        then strField e.2 "pciAddr" else "") ∧
      parent.CardIndex = 0 ∧ parent.RenderIndex = 0 ∧ parent.MemoryBytes = 0 ∧
      parent.ComputeUnits = 0 ∧ parent.SimdUnits = 0 ∧
      (partitionOf pcie e.2).CardIndex = intField e.2 "card" ∧
      (partitionOf pcie e.2).RenderIndex = intField e.2 "renderD" ∧
      (partitionOf pcie e.2).PartitionProfile =
        strField e.2 "computePartitionType" ++ "_" ++ strField e.2 "memoryPartitionType" ∧
      (partitionOf pcie e.2).MemoryBytes = getMemoryBytes e.2 (20 * 1024 * 1024 * 1024) ∧
      (partitionOf pcie e.2).ComputeUnits = (extractTopologyInfo e.2).2 ∧
      (partitionOf pcie e.2).SimdUnits = (extractTopologyInfo e.2).1 := by
  constructor
  · have hfm := filterMap_partitions pcie l hp
    have hnd : ((l.filterMap (entryOf pcie)).map Prod.fst).Nodup := by
      rw [hfm, List.map_map]
      exact hn
    refine ⟨_, enumerate_wellTyped E pcie l hw hE, ?_, ?_⟩
    · rw [inventoryOf_nodup pcie l hnd, hfm, List.length_map]
    · rw [inventoryOf_nodup pcie l hnd, hfm]
      rfl
  · intro e _
    refine ⟨_, rfl, rfl, rfl, rfl, rfl, rfl, ?_, rfl, rfl, rfl, rfl, rfl, rfl, rfl, rfl, rfl,
      rfl, rfl⟩
    show pciAddrFromMap pcie e.2 = _
    unfold pciAddrFromMap
    cases (pcie (strField e.2 "pciAddr")).2 <;> simp

/-- The four records of the sample state with a partitioned device. -/
theorem partitioned_device_inventory_sample :
    sampleEnv.AmdGpuDeviceType ≠ sampleEnv.AmdPartitionDeviceType ∧
    (∀ e ∈ partitionedRecords, wellTyped e.2 = true) ∧
    (∃ inv, enumerateAllPossibleDevices sampleEnv samplePCIeRoot partitionedRecords =
        Except.ok inv ∧
      inv.length = 4 ∧
      inv = partitionedRecords.map (fun e =>
        (getDeviceName (intField e.2 "card") (intField e.2 "renderD"),
          { AmdGpu := none, AmdPartition := some (partitionOf samplePCIeRoot e.2) }))) :=
  ⟨by decide, by decide,
    (partitioned_device_inventory sampleEnv samplePCIeRoot partitionedRecords (by decide)
      (by decide) (by decide) (by decide)).1⟩

/-! ## Visiting order -/

/-- One iteration of the owner loop on a record with well-typed entries. -/
theorem ownerLoop_cons (devID : String) (o : Owner) (c : RawRecord) (rest : List RawRecord)
    (ht : ownerTyped c = true) :
    ownerLoop devID o (c :: rest) =
      if matchesDevID devID c = true then
        if isComplete c = true then Except.ok (completeOwner c)
        else ownerLoop devID (withOwner o c) rest
      else ownerLoop devID o rest := by
  simp only [ownerTyped, Bool.and_eq_true] at ht
  obtain ⟨⟨⟨⟨⟨h1, h2⟩, h3⟩, h4⟩, h5⟩, h6⟩ := ht
  rw [ownerLoop]
  simp only [asString_of_hasStr c _ h1, asInt_of_hasInt c _ h2, asString_of_hasStr c _ h3,
    asString_of_hasStr c _ h4, asString_of_hasStr c _ h5, asString_of_hasStr c _ h6]
  unfold matchesDevID isComplete
  cases hd : c.get "devID" with
  | none => simp
  | some v =>
    cases v with
    | str d =>
      by_cases hdd : d = devID
      · simp only [hdd, if_true, decide_True]
        by_cases hc : strField c "computePartitionType" = ""
        · simp [hc, withOwner]
        · by_cases hm : strField c "memoryPartitionType" = ""
          · simp [hc, hm, withOwner]
          · simp [hc, hm, completeOwner]
      · simp [hdd]
    | int i => simp
    | uint64 n => simp
    | other => simp

theorem withOwner_withOwner (o : Owner) (a b : RawRecord) :
    withOwner (withOwner o a) b = withOwner o b := rfl

theorem withOwner_congr (o : Owner) (a b : RawRecord) (h : sameOwner a b) :
    withOwner o a = withOwner o b := by
  obtain ⟨h1, h2, h3, h4, _⟩ := h
  simp [withOwner, h1, h2, h3, h4]

theorem completeOwner_congr (a b : RawRecord) (h : sameOwner a b) (ha : isComplete a = true)
    (hb : isComplete b = true) : completeOwner a = completeOwner b := by
  obtain ⟨h1, h2, h3, h4, h5⟩ := h
  obtain ⟨h6, h7⟩ := h5 ha hb
  simp [completeOwner, h1, h2, h3, h4, h6, h7]

theorem ownersAgree_of_subset (devID : String) (l l' : List RawRecord)
    (hsub : ∀ c ∈ l', c ∈ l) (h : ownersAgree devID l) : ownersAgree devID l' :=
  fun a ha b hb => h a (hsub a ha) b (hsub b hb)

/-- The owner loop gives the same values for two visiting orders of candidates
that agree. -/
theorem ownerLoop_perm (devID : String) (l l' : List RawRecord) (hp : l.Perm l') :
    (∀ c ∈ l, ownerTyped c = true) → ownersAgree devID l →
    ∀ o, ownerLoop devID o l = ownerLoop devID o l' := by
  induction hp with
  | nil => intro _ _ o; rfl
  | cons x hp ih =>
    rename_i l1 l2
    intro ht ha o
    have hx := ht x (List.mem_cons_self _ _)
    have ht1 : ∀ c ∈ l1, ownerTyped c = true := fun c hc => ht c (List.mem_cons_of_mem _ hc)
    have ha1 : ownersAgree devID l1 :=
      ownersAgree_of_subset devID _ _ (fun c hc => List.mem_cons_of_mem _ hc) ha
    rw [ownerLoop_cons devID o x l1 hx, ownerLoop_cons devID o x l2 hx, ih ht1 ha1,
      ih ht1 ha1]
  | swap x y l =>
    intro ht ha o
    have hy := ht y (List.mem_cons_self _ _)
    have hx := ht x (List.mem_cons_of_mem _ (List.mem_cons_self _ _))
    have hmy : y ∈ y :: x :: l := List.mem_cons_self _ _
    have hmx : x ∈ y :: x :: l := List.mem_cons_of_mem _ (List.mem_cons_self _ _)
    rw [ownerLoop_cons devID o y (x :: l) hy, ownerLoop_cons devID o x (y :: l) hx]
    by_cases hym : matchesDevID devID y = true
    · by_cases hxm : matchesDevID devID x = true
      · have hyx : sameOwner y x := ha y hmy x hmx hym hxm
        have hxy : sameOwner x y := ha x hmx y hmy hxm hym
        rw [if_pos hym, if_pos hxm]
        by_cases hyc : isComplete y = true
        · by_cases hxc : isComplete x = true
          · rw [if_pos hyc, if_pos hxc, completeOwner_congr y x hyx hyc hxc]
          · rw [if_pos hyc, if_neg hxc, ownerLoop_cons devID _ y l hy, if_pos hym, if_pos hyc]
        · by_cases hxc : isComplete x = true
          · rw [if_neg hyc, if_pos hxc, ownerLoop_cons devID _ x l hx, if_pos hxm, if_pos hxc]
          · rw [if_neg hyc, if_neg hxc, ownerLoop_cons devID _ x l hx, if_pos hxm, if_neg hxc,
              ownerLoop_cons devID _ y l hy, if_pos hym, if_neg hyc, withOwner_withOwner,
              withOwner_withOwner, withOwner_congr o x y hxy]
      · rw [if_pos hym, if_neg hxm]
        by_cases hyc : isComplete y = true
        · rw [if_pos hyc, ownerLoop_cons devID o y l hy, if_pos hym, if_pos hyc]
        · rw [if_neg hyc, ownerLoop_cons devID _ x l hx, if_neg hxm,
            ownerLoop_cons devID o y l hy, if_pos hym, if_neg hyc]
    · rw [if_neg hym]
      by_cases hxm : matchesDevID devID x = true
      · rw [if_pos hxm, ownerLoop_cons devID o x l hx, if_pos hxm]
        by_cases hxc : isComplete x = true
        · rw [if_pos hxc, if_pos hxc]
        · rw [if_neg hxc, if_neg hxc, ownerLoop_cons devID _ y l hy, if_neg hym]
      · rw [if_neg hxm, ownerLoop_cons devID o x l hx, if_neg hxm,
          ownerLoop_cons devID o y l hy, if_neg hym]
  | trans hp1 hp2 ih1 ih2 =>
    rename_i l1 l2 l3
    intro ht ha o
    have ht2 : ∀ c ∈ l2, ownerTyped c = true := fun c hc => ht c (hp1.mem_iff.mpr hc)
    have ha2 : ownersAgree devID l2 :=
      ownersAgree_of_subset devID _ _ (fun c hc => hp1.mem_iff.mpr hc) ha
    rw [ih1 ht ha o, ih2 ht2 ha2 o]

theorem ownerLoop_total (devID : String) (l : List RawRecord) :
    (∀ c ∈ l, ownerTyped c = true) → ∀ o, ∃ o', ownerLoop devID o l = Except.ok o' := by
  induction l with
  | nil => intro _ o; exact ⟨o, rfl⟩
  | cons c l ih =>
    intro ht o
    have ht' : ∀ x ∈ l, ownerTyped x = true := fun x hx => ht x (List.mem_cons_of_mem _ hx)
    rw [ownerLoop_cons devID o c l (ht c (List.mem_cons_self _ _))]
    by_cases hm : matchesDevID devID c = true
    · rw [if_pos hm]
      by_cases hc : isComplete c = true
      · rw [if_pos hc]; exact ⟨_, rfl⟩
      · rw [if_neg hc]; exact ih ht' _
    · rw [if_neg hm]; exact ih ht' o

theorem platformEntry_perm (topologyInfo : IntMap TopologyInfo) (l l' : List RawRecord)
    (hp : l.Perm l') (ht : ∀ c ∈ l, ownerTyped c = true) (ha : ∀ d, ownersAgree d l)
    (s : ScanState × Owner) (name : String) :
    platformEntry topologyInfo l s name = platformEntry topologyInfo l' s name := by
  unfold platformEntry
  simp only [ownerLoop_perm _ l l' hp ht (ha _)]

/-- C18, the difference: in the sample state two driver-bound devices hold the
same device id and, the `drm` directory of the second being empty, the same
card and render indices. The pseudo-device `amdgpu_xcp_1` gets the PCI address
of the first when the owner loop visits the records in the order of insertion
and that of the second when it visits them in the opposite order; and the
inventory entry `gpu-1-128` built from one and the same map of records has the
parent address of the second device when the records are enumerated in the order
of insertion and that of the first when they are enumerated in the opposite
order. -/
theorem visiting_order_example :
    (∀ m, (visitReversed m).Perm (visitInOrder m)) ∧
    (GetAMDGPUs visitInOrder sharedIdKernel).map
        (fun m => (m.get "amdgpu_xcp_1").map (fun r => strField r "pciAddr")) =
      Except.ok (some "0000:19:00.0") ∧
    (GetAMDGPUs visitReversed sharedIdKernel).map
        (fun m => (m.get "amdgpu_xcp_1").map (fun r => strField r "pciAddr")) =
      Except.ok (some "0000:1a:00.0") ∧
    (discoverDevices sampleEnv samplePCIeRoot visitInOrder id sharedIdKernel).map
        (fun inv => (inv.get "gpu-1-128").bind (fun d => d.AmdPartition.bind
          (fun p => p.Parent.map (fun g => g.PCIAddress)))) =
      Except.ok (some "0000:1a:00.0") ∧
    (discoverDevices sampleEnv samplePCIeRoot visitInOrder List.reverse sharedIdKernel).map
        (fun inv => (inv.get "gpu-1-128").bind (fun d => d.AmdPartition.bind
          (fun p => p.Parent.map (fun g => g.PCIAddress)))) =
      Except.ok (some "0000:19:00.0") :=
  ⟨fun m => List.reverse_perm _, by rfl, by rfl, by rfl, by rfl⟩

/-- C18, as amended: for well-typed records whose canonical names, taken over
the records with a non-empty compute partition type, are pairwise distinct,
`enumerateAllPossibleDevices` returns for any two visiting orders inventories
with the same entries: every name is bound once, to the same device, which
renders alike. The owner loop of `GetAMDGPUs` returns the same owner values for
any two visiting orders of candidates with well-typed entries, provided the
candidates that hold the device id agree on PCI address, NUMA node, family and
product name and, among those with both partition types set, on the partition
types; then an iteration of the second loop gives the same result for any two
visiting orders. -/
theorem discovery_order_independent (E : Env) (pcie : PCIeRoot) :
    (∀ l l' : List (String × RawRecord), l.Perm l' → (∀ e ∈ l, wellTyped e.2 = true) →
      E.AmdGpuDeviceType ≠ E.AmdPartitionDeviceType → (allocatableNames l).Nodup →
      ∃ inv inv', enumerateAllPossibleDevices E pcie l = Except.ok inv ∧
        enumerateAllPossibleDevices E pcie l' = Except.ok inv' ∧
        inv.Perm inv' ∧ inv.keys.Nodup ∧ (∀ k, inv.get k = inv'.get k) ∧
        ∀ k, (inv.get k).map (AllocatableDevice.GetDevice E) =
          (inv'.get k).map (AllocatableDevice.GetDevice E)) ∧
    (∀ (devID : String) (o : Owner) (candidates candidates' : List RawRecord),
      candidates.Perm candidates' → (∀ c ∈ candidates, ownerTyped c = true) →
      ownersAgree devID candidates →
      ∃ o', ownerLoop devID o candidates = Except.ok o' ∧
        ownerLoop devID o candidates' = Except.ok o') ∧
    (∀ (visit visit' : GoMap RawRecord → List RawRecord) (topologyInfo : IntMap TopologyInfo)
        (k : Kernel) (s : ScanState × GoMap RawRecord) (dir : PlatformDir),
      (visit s.2).Perm (visit' s.2) → (∀ c ∈ visit s.2, ownerTyped c = true) →
      (∀ d, ownersAgree d (visit s.2)) →
      platformStep visit topologyInfo k s dir = platformStep visit' topologyInfo k s dir) := by
  refine ⟨?_, ?_, ?_⟩
  · intro l l' hp hw hE hn
    have hw' : ∀ e ∈ l', wellTyped e.2 = true := fun e he => hw e (hp.mem_iff.mpr he)
    have hnd : ((l.filterMap (entryOf pcie)).map Prod.fst).Nodup := by
      rw [entry_names]; exact hn
    have hperm : (l.filterMap (entryOf pcie)).Perm (l'.filterMap (entryOf pcie)) :=
      hp.filterMap _
    have hnd' : ((l'.filterMap (entryOf pcie)).map Prod.fst).Nodup :=
      (hperm.map Prod.fst).nodup_iff.mp hnd
    have hget : ∀ k, GoMap.get (l.filterMap (entryOf pcie)) k =
        GoMap.get (l'.filterMap (entryOf pcie)) k :=
      fun k => GoMap.get_perm _ _ hperm hnd k
    refine ⟨_, _, enumerate_wellTyped E pcie l hw hE, enumerate_wellTyped E pcie l' hw' hE,
      ?_, ?_, ?_, ?_⟩
    · rw [inventoryOf_nodup pcie l hnd, inventoryOf_nodup pcie l' hnd']
      exact hperm
    · rw [inventoryOf_nodup pcie l hnd]
      exact hnd
    · intro k
      rw [inventoryOf_nodup pcie l hnd, inventoryOf_nodup pcie l' hnd']
      exact hget k
    · intro k
      rw [inventoryOf_nodup pcie l hnd, inventoryOf_nodup pcie l' hnd', hget k]
  · intro devID o candidates candidates' hp ht ha
    obtain ⟨o', ho'⟩ := ownerLoop_total devID candidates ht o
    exact ⟨o', ho', by rw [← ownerLoop_perm devID candidates candidates' hp ht ha o]; exact ho'⟩
  · intro visit visit' topologyInfo k s dir hp ht ha
    unfold platformStep
    rw [foldPanic_congr _ _ (platformEntry_perm topologyInfo _ _ hp ht ha)]

/-! ## Records returned by the device scan -/

theorem deviceInfoMap_typed (card renderD : Int) (devID pciAddr dv dsv cpt mpt : String)
    (numaNode nodeId : Int) (family productName : String) (topo : Option TopologyInfo) :
    wellTyped (deviceInfoMap card renderD devID pciAddr dv dsv cpt mpt numaNode nodeId family
      productName topo) = true ∧
    ownerTyped (deviceInfoMap card renderD devID pciAddr dv dsv cpt mpt numaNode nodeId family
      productName topo) = true := by
  cases topo <;>
    simp [deviceInfoMap, wellTyped, ownerTyped, hasStr, hasInt, GoMap.get, GoMap.set]

/-- Every record of the map returned by `GetAMDGPUs` holds the entries that
`enumerateAllPossibleDevices` and the owner loop read, with the types they
assert. -/
theorem getAMDGPUs_typed (visit : GoMap RawRecord → List RawRecord) (k : Kernel)
    (devices : GoMap RawRecord) (h : GetAMDGPUs visit k = Except.ok devices) :
    ∀ e ∈ devices, wellTyped e.2 = true ∧ ownerTyped e.2 = true := by
  unfold GetAMDGPUs at h
  split at h
  · split at h
    · cases h
    · rename_i topologyInfo htop
      split at h
      · cases h
      · rename_i s1 hloop1
        split at h
        · cases h
        · rename_i s2 hloop2
          simp only [Except.ok.injEq] at h
          rw [← h]
          have h1 : ∀ e ∈ s1.2, wellTyped e.2 = true ∧ ownerTyped e.2 = true := by
            refine foldPanic_invariant (driverStep topologyInfo k)
              (fun x => ∀ e ∈ x.2, wellTyped e.2 = true ∧ ownerTyped e.2 = true) ?_ k.devices
              (initialScanState, []) s1 (fun _ he => absurd he (List.not_mem_nil _)) hloop1
            intro a d b hP hstep e he
            unfold driverStep at hstep
            split at hstep
            · simp only [Except.ok.injEq] at hstep
              rw [← hstep] at he; exact hP e he
            · split at hstep
              · simp only [Except.ok.injEq] at hstep
                rw [← hstep] at he; exact hP e he
              · split at hstep
                · cases hstep
                · simp only [Except.ok.injEq] at hstep
                  rw [← hstep] at he
                  rcases GoMap.mem_of_mem_set _ _ _ _ he with h' | h'
                  · rw [h']; exact deviceInfoMap_typed _ _ _ _ _ _ _ _ _ _ _ _ _
                  · exact hP e h'
          refine foldPanic_invariant (platformStep visit topologyInfo k)
            (fun x => ∀ e ∈ x.2, wellTyped e.2 = true ∧ ownerTyped e.2 = true) ?_ k.platform
            s1 s2 h1 hloop2
          intro a q b hP hstep e he
          obtain ⟨o, _, hcases⟩ := platformStep_cases visit topologyInfo k a b q hstep
          rcases hcases with ⟨heq, _⟩ | ⟨info, _, _, _, heq⟩
          · rw [heq] at he; exact hP e he
          · rw [heq] at he
            rcases GoMap.mem_of_mem_set _ _ _ _ he with h' | h'
            · rw [h']
              exact deviceInfoMap_typed b.1.card b.1.renderD b.1.devID o.parentPciAddr
                k.driverVersion.1 k.driverVersion.2 o.computePartitionType o.memoryPartitionType
                o.numaNode b.1.nodeId o.familyName o.productName (some info)
            · exact hP e h'
  · simp only [Except.ok.injEq] at h
    rw [← h]
    intro e he
    cases he

/-- With distinct device-type constants the enumeration of the records returned
by `GetAMDGPUs`, visited in any order, returns. -/
theorem discoverDevices_total (E : Env) (pcie : PCIeRoot)
    (visit : GoMap RawRecord → List RawRecord)
    (order : GoMap RawRecord → List (String × RawRecord)) (k : Kernel)
    (hE : E.AmdGpuDeviceType ≠ E.AmdPartitionDeviceType)
    (horder : ∀ m, ∀ e ∈ order m, e ∈ m) (devices : GoMap RawRecord)
    (h : GetAMDGPUs visit k = Except.ok devices) :
    discoverDevices E pcie visit order k = Except.ok (inventoryOf pcie (order devices)) := by
  unfold discoverDevices
  rw [h]
  exact enumerate_wellTyped E pcie (order devices)
    (fun e he => (getAMDGPUs_typed visit k devices h e (horder devices e he)).1) hE

/-! ## Canonical names read back -/

theorem isDigit_scan_facts (c : Char) (h : isDigit c = true) :
    isScanDigit c = true ∧ isScanSpace c = false ∧ c ≠ '\r' ∧ c ≠ '\n' ∧ c ≠ '+' ∧ c ≠ '-' := by
  have hb : 48 ≤ c.toNat ∧ c.toNat ≤ 57 := by simpa [isDigit] using h
  refine ⟨by simp [isScanDigit, h], ?_, ?_, ?_, ?_, ?_⟩
  · unfold isScanSpace
    simp only [decide_eq_false_iff_not]
    omega
  · rintro rfl; revert h; decide
  · rintro rfl; revert h; decide
  · rintro rfl; revert h; decide
  · rintro rfl; revert h; decide

theorem skipSpace_digit (c : Char) (rest : List Char) (h : isDigit c = true) :
    skipSpace (c :: rest) = Except.ok (c :: rest) := by
  obtain ⟨_, hs, hr, hn, _, _⟩ := isDigit_scan_facts c h
  simp [skipSpace, hs, hr, hn]

theorem skipSpace_minus (rest : List Char) :
    skipSpace ('-' :: rest) = Except.ok ('-' :: rest) := by
  have hs : isScanSpace '-' = false := by decide
  simp [skipSpace, hs]

theorem takeWhile_run (p : Char → Bool) (l rest : List Char) (hl : ∀ c ∈ l, p c = true)
    (hrest : ∀ c, rest.head? = some c → p c = false) :
    (l ++ rest).takeWhile p = l ∧ (l ++ rest).dropWhile p = rest := by
  induction l with
  | nil =>
    cases rest with
    | nil => simp
    | cons c rest =>
      have := hrest c rfl
      simp [List.takeWhile, List.dropWhile, this]
  | cons a l ih =>
    have ha := hl a (List.mem_cons_self _ _)
    have := ih (fun c hc => hl c (List.mem_cons_of_mem _ hc))
    simp [List.takeWhile, List.dropWhile, ha, this.1, this.2]

theorem fmtNat_head (n : Nat) : ∃ d ds, fmtNat n = d :: ds ∧ isDigit d = true := by
  cases h : fmtNat n with
  | nil => exact absurd h (fmtNat_ne_nil n)
  | cons d ds =>
    exact ⟨d, ds, rfl, fmtNat_isDigit n d (by rw [h]; exact List.mem_cons_self _ _)⟩

theorem le_foldl_digits (ds : List Char) (n : Nat) :
    n ≤ ds.foldl (fun a c => 10 * a + (c.toNat - 48)) n := by
  induction ds generalizing n with
  | nil => exact Nat.le_refl n
  | cons c ds ih =>
    simp only [List.foldl_cons]
    exact Nat.le_trans (by omega) (ih (10 * n + (c.toNat - 48)))

/-- The digit loop of `ParseUint` returns the value of a run of digits that
stays within 64 bits. -/
theorem parseUintLoop_digits (ds : List Char) (n : Nat) (hall : ds.all isDigit = true)
    (h : ds.foldl (fun a c => 10 * a + (c.toNat - 48)) n < 2 ^ 64) :
    parseUintLoop ds n = some (some (ds.foldl (fun a c => 10 * a + (c.toNat - 48)) n)) := by
  induction ds generalizing n with
  | nil => rfl
  | cons c ds ih =>
    simp only [List.all_cons, Bool.and_eq_true] at hall
    simp only [List.foldl_cons] at h ⊢
    have hle := le_foldl_digits ds (10 * n + (c.toNat - 48))
    simp only [parseUintLoop, hall.1, if_true]
    rw [if_pos (by omega)]
    exact ih _ hall.2 h

theorem parseUintLoop_value (ds : List Char) (hall : ds.all isDigit = true)
    (h : digitsValue ds < 2 ^ 64) : parseUintLoop ds 0 = some (some (digitsValue ds)) :=
  parseUintLoop_digits ds 0 hall h

/-- `strconv.Atoi` reads back the decimal rendering of a 64-bit `int`. -/
theorem Atoi_fmtInt (v : Int) (hlo : -2 ^ 63 ≤ v) (hhi : v < 2 ^ 63) :
    Atoi (String.mk (fmtInt v)) = Except.ok v := by
  cases v with
  | ofNat n =>
    obtain ⟨d, ds, hd, hdig⟩ := fmtNat_head n
    obtain ⟨_, _, _, _, hplus, hminus⟩ := isDigit_scan_facts d hdig
    have hall : (d :: ds).all isDigit = true := by rw [← hd]; exact fmtNat_all_isDigit n
    have hval : digitsValue (d :: ds) = n := by rw [← hd]; exact digitsValue_fmtNat n
    have hn : (n : Int) < 2 ^ 63 := hhi
    have hloop := parseUintLoop_value (d :: ds) hall (by rw [hval]; omega)
    rw [hval] at hloop
    unfold Atoi
    simp only [fmtInt, hd, hminus, hplus, if_false]
    simp only [hloop]
    simp only [reduceCtorEq, if_false, Bool.false_eq_true]
    rw [if_neg (by omega), if_neg (by omega)]
  | negSucc n =>
    have hall : (fmtNat (n + 1)).all isDigit = true := fmtNat_all_isDigit (n + 1)
    have hval : digitsValue (fmtNat (n + 1)) = n + 1 := digitsValue_fmtNat (n + 1)
    have hne : fmtNat (n + 1) ≠ [] := fmtNat_ne_nil (n + 1)
    have hn : -2 ^ 63 ≤ Int.negSucc n := hlo
    have hnn : n + 1 ≤ 2 ^ 63 := by
      have e := Int.negSucc_eq n
      omega
    have hloop := parseUintLoop_value (fmtNat (n + 1)) hall (by rw [hval]; omega)
    rw [hval] at hloop
    unfold Atoi
    simp only [fmtInt, if_true]
    simp only [hloop, hne]
    simp only [if_false, if_true]
    have e : (-Int.ofNat (n + 1) : Int) = Int.negSucc n := rfl
    rw [e, if_neg (by omega), if_neg (by omega)]

/-- The verb `%d` reads back a rendered 64-bit `int` that is followed by the end
of the input or by a character that is not a decimal digit. -/
theorem scanInt_fmtInt (v : Int) (rest : List Char) (hlo : -2 ^ 63 ≤ v) (hhi : v < 2 ^ 63)
    (hrest : ∀ c, rest.head? = some c → isScanDigit c = false) :
    scanInt (fmtInt v ++ rest) = Except.ok (v, rest) := by
  have hatoi := Atoi_fmtInt v hlo hhi
  cases v with
  | ofNat n =>
    obtain ⟨d, ds, hd, hdig⟩ := fmtNat_head n
    obtain ⟨hsd, _, _, _, hplus, hminus⟩ := isDigit_scan_facts d hdig
    have hrun := takeWhile_run isScanDigit (d :: ds) rest
      (fun c hc => (isDigit_scan_facts c (by
        have := fmtNat_isDigit n c (by rw [hd]; exact hc)
        exact this)).1) hrest
    simp only [fmtInt, hd] at hatoi ⊢
    unfold scanInt
    simp only [List.cons_append, skipSpace_digit d _ hdig, hplus, hminus, or_self, if_false,
      hsd, if_true, List.nil_append]
    rw [← List.cons_append, hrun.1, hrun.2, hatoi]
  | negSucc n =>
    obtain ⟨d, ds, hd, hdig⟩ := fmtNat_head (n + 1)
    obtain ⟨hsd, _, _, _, _, _⟩ := isDigit_scan_facts d hdig
    have hrun := takeWhile_run isScanDigit (d :: ds) rest
      (fun c hc => (isDigit_scan_facts c (by
        have := fmtNat_isDigit (n + 1) c (by rw [hd]; exact hc)
        exact this)).1) hrest
    simp only [fmtInt, hd] at hatoi ⊢
    unfold scanInt
    have hrun1 : List.takeWhile isScanDigit (d :: (ds ++ rest)) = d :: ds := hrun.1
    have hrun2 : List.dropWhile isScanDigit (d :: (ds ++ rest)) = rest := hrun.2
    simp only [List.cons_append, skipSpace_minus, or_true, if_true, hsd]
    rw [hrun1, hrun2]
    show (match Atoi (String.mk ('-' :: d :: ds)) with
      | Except.error _ => Except.error ScanError.number
      | Except.ok v => Except.ok (v, rest)) = _
    rw [hatoi]

theorem parseDeviceName_roundtrip (card renderD : Int) (hc : -2 ^ 63 ≤ card ∧ card < 2 ^ 63)
    (hr : -2 ^ 63 ≤ renderD ∧ renderD < 2 ^ 63) :
    parseDeviceName (getDeviceName card renderD) = Except.ok (card, renderD) := by
  unfold parseDeviceName getDeviceName
  have h1 : matchLiteral "gpu-".data ("gpu-".data ++ fmtInt card ++ "-".data ++ fmtInt renderD)
      = Except.ok (fmtInt card ++ ('-' :: fmtInt renderD)) := by
    simp [matchLiteral]
  have h2 : scanInt (fmtInt card ++ ('-' :: fmtInt renderD))
      = Except.ok (card, '-' :: fmtInt renderD) :=
    scanInt_fmtInt card _ hc.1 hc.2 (by
      intro c hc'
      simp only [List.head?_cons, Option.some.injEq] at hc'
      rw [← hc']
      decide)
  have h3 : scanInt (fmtInt renderD) = Except.ok (renderD, []) := by
    have := scanInt_fmtInt renderD [] hr.1 hr.2 (by intro c hc'; cases hc')
    simpa using this
  simp only [h1, h2]
  simp only [matchLiteral, if_true, h3]

/-- Distinct pairs of indices have distinct canonical names, whatever the size
of the indices. -/
theorem getDeviceName_injective (c₁ r₁ c₂ r₂ : Int)
    (h : getDeviceName c₁ r₁ = getDeviceName c₂ r₂) : c₁ = c₂ ∧ r₁ = r₂ := by
  have h0 : fmtInt c₁ ++ '-' :: fmtInt r₁ = fmtInt c₂ ++ '-' :: fmtInt r₂ := by
    have := congrArg String.data h
    simpa [getDeviceName] using this
  have hnot : ∀ n, '-' ∉ fmtNat n := by
    intro n hmem
    have := fmtNat_isDigit n '-' hmem
    revert this; decide
  have hsplit : ∀ a b x y, fmtNat a ++ '-' :: x = fmtNat b ++ '-' :: y → a = b ∧ x = y := by
    intro a b x y hab
    obtain ⟨h1, h2⟩ := split_first_unique '-' _ _ _ _ (hnot a) (hnot b) hab
    exact ⟨fmtNat_injective h1, h2⟩
  have hmixed : ∀ a b x y, fmtNat a ++ '-' :: x ≠ ('-' :: fmtNat b) ++ '-' :: y := by
    intro a b x y hab
    obtain ⟨d, ds, hd, hdig⟩ := fmtNat_head a
    rw [hd] at hab
    simp only [List.cons_append, List.cons.injEq] at hab
    rw [hab.1] at hdig
    revert hdig; decide
  cases c₁ with
  | ofNat a =>
    cases c₂ with
    | ofNat b =>
      obtain ⟨hab, hxy⟩ := hsplit a b _ _ h0
      exact ⟨by rw [hab], fmtInt_injective hxy⟩
    | negSucc b => exact absurd h0 (hmixed a (b + 1) _ _)
  | negSucc a =>
    cases c₂ with
    | ofNat b => exact absurd h0.symm (hmixed b (a + 1) _ _)
    | negSucc b =>
      simp only [fmtInt, List.cons_append, List.cons.injEq, true_and] at h0
      obtain ⟨hab, hxy⟩ := hsplit (a + 1) (b + 1) _ _ h0
      have : a = b := by omega
      exact ⟨by rw [this], fmtInt_injective hxy⟩

/-- C21: for all `card` and `renderD` of the 64-bit type `int`,
`parseDeviceName` applied to `getDeviceName card renderD` returns
`(card, renderD)` and no error; and `getDeviceName` is injective: a name that is
also the name of `card'` and `renderD'` forces `card = card'` and
`renderD = renderD'`. -/
theorem parseDeviceName_undoes_getDeviceName (card renderD : Int)
    (hc : -2 ^ 63 ≤ card ∧ card < 2 ^ 63) (hr : -2 ^ 63 ≤ renderD ∧ renderD < 2 ^ 63) :
    parseDeviceName (getDeviceName card renderD) = Except.ok (card, renderD) ∧
    ∀ card' renderD' : Int, getDeviceName card renderD = getDeviceName card' renderD' →
      card = card' ∧ renderD = renderD' :=
  ⟨parseDeviceName_roundtrip card renderD hc hr,
    fun card' renderD' h => getDeviceName_injective card renderD card' renderD' h⟩

/-- The name `gpu--7-128` of the indices `-7` and `128`. -/
theorem parseDeviceName_undoes_getDeviceName_sample :
    getDeviceName (-7) 128 = "gpu--7-128" ∧
    parseDeviceName (getDeviceName (-7) 128) = Except.ok (-7, 128) ∧
    ∀ card' renderD' : Int, getDeviceName (-7) 128 = getDeviceName card' renderD' →
      -7 = card' ∧ 128 = renderD' :=
  ⟨by decide, parseDeviceName_undoes_getDeviceName (-7) 128 (by decide) (by decide)⟩

/-! ## Scan variables carried between directories -/

/-- The `switch` of the first loop: its fault depends on the name alone, its
effect on the scan variables is `entryEffect`. -/
theorem driverEntry_eq (topologyInfo : IntMap TopologyInfo) (st : ScanState) (name : String) :
    driverEntry topologyInfo st name =
      match entryFault name with
      | some p => Except.error p
      | none => Except.ok (entryEffect topologyInfo st name) := by
  unfold driverEntry sliceTo entryFault entryEffect isCardEntry isRenderEntry
  by_cases h4 : (utf8Encode name.data).length < 4
  · rw [if_neg (by omega), if_pos h4]
  · rw [if_pos (by omega), if_neg h4]
    dsimp only
    by_cases hc : (utf8Encode name.data).take 4 = utf8Encode "card".data
    · simp only [hc, if_true, decide_True]
    · simp only [hc, if_false, decide_False, Bool.false_eq_true]
      by_cases h7 : (utf8Encode name.data).length < 7
      · rw [if_neg (by omega), if_pos h7]
      · rw [if_pos (by omega), if_neg h7]
        dsimp only
        by_cases hr : (utf8Encode name.data).take 7 = utf8Encode "renderD".data
        · simp only [hr, if_true, ne_eq, hc, not_false_eq_true, and_self, decide_True]
          cases IntMap.get topologyInfo (AtoiValue (sliceFrom name 7)) <;> rfl
        · simp [hr]

/-- The scan of the entries of one `drm` directory in the first loop: the
first fault, or the effects of all entries. -/
theorem driverScan_eq (topologyInfo : IntMap TopologyInfo) (drm : List String) :
    ∀ st, foldPanic (driverEntry topologyInfo) st drm =
      match drm.findSome? entryFault with
      | some p => Except.error p
      | none => Except.ok (drm.foldl (entryEffect topologyInfo) st) := by
  induction drm with
  | nil => intro st; rfl
  | cons name drm ih =>
    intro st
    simp only [foldPanic, driverEntry_eq, List.findSome?_cons, List.foldl_cons]
    cases entryFault name with
    | some p => rfl
    | none => exact ih _

theorem scan_card (topologyInfo : IntMap TopologyInfo) (drm : List String) :
    ∀ (st : ScanState) (acc : Option Int) (x : Int), acc.getD x = st.card →
      (drm.foldl (entryEffect topologyInfo) st).card =
        (drm.foldl (fun acc name =>
          if isCardEntry name then some (AtoiValue (sliceFrom name 4)) else acc) acc).getD x := by
  induction drm with
  | nil => intro st acc x h; exact h.symm
  | cons name drm ih =>
    intro st acc x h
    simp only [List.foldl_cons]
    apply ih
    unfold entryEffect
    by_cases hc : isCardEntry name = true
    · simp [hc]
    · simp only [hc, if_false, Bool.false_eq_true]
      split
      · split <;> exact h
      · exact h

theorem scan_renderD (topologyInfo : IntMap TopologyInfo) (drm : List String) :
    ∀ (st : ScanState) (acc : Option Int) (x : Int), acc.getD x = st.renderD →
      (drm.foldl (entryEffect topologyInfo) st).renderD =
        (drm.foldl (fun acc name =>
          if isRenderEntry name then some (AtoiValue (sliceFrom name 7)) else acc) acc).getD x := by
  induction drm with
  | nil => intro st acc x h; exact h.symm
  | cons name drm ih =>
    intro st acc x h
    simp only [List.foldl_cons]
    apply ih
    have hexcl : isCardEntry name = true → isRenderEntry name = false := by
      unfold isCardEntry isRenderEntry
      intro hc
      simp only [decide_eq_true_eq] at hc
      simp [hc]
    unfold entryEffect
    by_cases hc : isCardEntry name = true
    · simp [hc, hexcl hc, h]
    · simp only [hc, if_false, Bool.false_eq_true]
      by_cases hr : isRenderEntry name = true
      · simp only [hr, if_true]
        split <;> rfl
      · simp [hr, h]

theorem scan_identity (topologyInfo : IntMap TopologyInfo) (drm : List String) :
    ∀ (st : ScanState) (acc : Option (String × Int)) (x : String × Int),
      acc.getD x = (st.devID, st.nodeId) →
      ((drm.foldl (entryEffect topologyInfo) st).devID,
        (drm.foldl (entryEffect topologyInfo) st).nodeId) =
        (drm.foldl (fun acc name =>
          if isRenderEntry name then
            match topologyInfo.get (AtoiValue (sliceFrom name 7)) with
            | some info => some (info.UniqueID, info.NodeID)
            | none => acc
          else acc) acc).getD x := by
  induction drm with
  | nil => intro st acc x h; exact h.symm
  | cons name drm ih =>
    intro st acc x h
    simp only [List.foldl_cons]
    apply ih
    have hexcl : isCardEntry name = true → isRenderEntry name = false := by
      unfold isCardEntry isRenderEntry
      intro hc
      simp only [decide_eq_true_eq] at hc
      simp [hc]
    unfold entryEffect
    by_cases hc : isCardEntry name = true
    · simp [hc, hexcl hc, h]
    · simp only [hc, if_false, Bool.false_eq_true]
      by_cases hr : isRenderEntry name = true
      · simp only [hr, if_true]
        cases IntMap.get topologyInfo (AtoiValue (sliceFrom name 7)) with
        | none => exact h
        | some info => rfl
      · simp [hr, h]

/-- When the last render entry has a topology record, the identity assigned is
that of this record. -/
theorem identity_of_render (topologyInfo : IntMap TopologyInfo) (drm : List String) :
    ∀ (accR : Option Int) (accI : Option (String × Int)),
      (∀ n info, accR = some n → topologyInfo.get n = some info →
        accI = some (info.UniqueID, info.NodeID)) →
      ∀ n info,
        drm.foldl (fun acc name =>
          if isRenderEntry name then some (AtoiValue (sliceFrom name 7)) else acc) accR = some n →
        topologyInfo.get n = some info →
        drm.foldl (fun acc name =>
          if isRenderEntry name then
            match topologyInfo.get (AtoiValue (sliceFrom name 7)) with
            | some info => some (info.UniqueID, info.NodeID)
            | none => acc
          else acc) accI = some (info.UniqueID, info.NodeID) := by
  induction drm with
  | nil => intro accR accI h n info hn hinfo; exact h n info hn hinfo
  | cons name drm ih =>
    intro accR accI h n info hn hinfo
    simp only [List.foldl_cons] at hn ⊢
    refine ih _ _ ?_ n info hn hinfo
    intro m infom hm hinfom
    by_cases hr : isRenderEntry name = true
    · simp only [hr, if_true, Option.some.injEq] at hm ⊢
      rw [hm, hinfom]
    · simp only [hr, if_false, Bool.false_eq_true] at hm ⊢
      exact h m infom hm hinfom

/-- The scan variables after the entries of one `drm` directory: each is the
value assigned by the entries, or the value carried into the directory when the
entries assign none. -/
theorem driverScan_state (topologyInfo : IntMap TopologyInfo) (st st' : ScanState)
    (drm : List String) (h : foldPanic (driverEntry topologyInfo) st drm = Except.ok st') :
    st'.card = (cardOf drm).getD st.card ∧
    st'.renderD = (renderIdOf drm).getD st.renderD ∧
    st'.devID = ((identityOf topologyInfo drm).map Prod.fst).getD st.devID ∧
    st'.nodeId = ((identityOf topologyInfo drm).map Prod.snd).getD st.nodeId := by
  rw [driverScan_eq] at h
  split at h
  · cases h
  · simp only [Except.ok.injEq] at h
    have hid := scan_identity topologyInfo drm st none (st.devID, st.nodeId) rfl
    have hid1 := congrArg Prod.fst hid
    have hid2 := congrArg Prod.snd hid
    simp only at hid1 hid2
    rw [← h]
    refine ⟨scan_card topologyInfo drm st none st.card rfl,
      scan_renderD topologyInfo drm st none st.renderD rfl, ?_, ?_⟩
    · rw [hid1]
      unfold identityOf
      cases List.foldl _ none drm <;> rfl
    · rw [hid2]
      unfold identityOf
      cases List.foldl _ none drm <;> rfl

/-- A directory with a card entry and a last render entry that has a topology
record gets the same record whatever values are carried into it. -/
theorem driverStep_own (topologyInfo : IntMap TopologyInfo) (k : Kernel) (dir : DeviceDir)
    (c n : Int) (info : TopologyInfo) (hc : cardOf dir.drm = some c)
    (hn : renderIdOf dir.drm = some n) (hinfo : topologyInfo.get n = some info)
    (v : Int) (hnuma : Option.map Atoi dir.numaNode = some (Except.ok v))
    (st₁ st₂ : ScanState) (devices : GoMap RawRecord) :
    driverStep topologyInfo k (st₁, devices) dir = driverStep topologyInfo k (st₂, devices) dir := by
  have hident : identityOf topologyInfo dir.drm = some (info.UniqueID, info.NodeID) :=
    identity_of_render topologyInfo dir.drm none none (fun _ _ h _ => by cases h) n info hn hinfo
  have hstate : ∀ st st', foldPanic (driverEntry topologyInfo) st dir.drm = Except.ok st' →
      st' = { card := c, renderD := n, nodeId := info.NodeID, devID := info.UniqueID } := by
    intro st st' h
    obtain ⟨h1, h2, h3, h4⟩ := driverScan_state topologyInfo st st' dir.drm h
    rw [hc] at h1
    rw [hn] at h2
    rw [hident] at h3 h4
    cases st'
    simp only [Option.getD_some, Option.map_some'] at h1 h2 h3 h4
    simp [h1, h2, h3, h4]
  have hscan : foldPanic (driverEntry topologyInfo) st₁ dir.drm =
      foldPanic (driverEntry topologyInfo) st₂ dir.drm := by
    cases h1 : foldPanic (driverEntry topologyInfo) st₁ dir.drm with
    | error p =>
      rw [driverScan_eq] at h1 ⊢
      split at h1
      · exact h1.symm
      · cases h1
    | ok s1 =>
      cases h2 : foldPanic (driverEntry topologyInfo) st₂ dir.drm with
      | error p =>
        rw [driverScan_eq] at h1 h2
        split at h2
        · rename_i p' hp'
          rw [hp'] at h1
          cases h1
        · cases h2
      | ok s2 => rw [hstate st₁ s1 h1, hstate st₂ s2 h2]
  unfold driverStep
  cases hnn : dir.numaNode with
  | none => rw [hnn] at hnuma; cases hnuma
  | some str =>
    rw [hnn] at hnuma
    simp only [Option.map_some', Option.some.injEq] at hnuma
    simp only [hnuma, hscan]

/-- C22, the fault: `card`, `renderD`, `nodeId` and `devID` are declared once
before the loops of `GetAMDGPUs`, so after the entries of a `drm` directory each
of them holds the value assigned by these entries or, when they assign none, the
value left by the directories read before. A directory without entries gets a
record made of the carried values alone. Only a directory with a card entry and
a last render entry that has a topology record gets a record that does not
depend on the carried values. In the sample states the device `0000:1a:00.0`,
whose render id 140 has no topology record, gets the device id `1234567890` and
node id 2 of the device read before it, and the empty device id and node id 0
when it is the only device; the device `0000:1b:00.0`, whose `drm` directory is
empty, gets card 1, render id 128 and the device id of the device read before
it, and card 0 and the empty device id when it is the only device. -/
theorem scan_variables_carried_over :
    (∀ (topologyInfo : IntMap TopologyInfo) (st st' : ScanState) (drm : List String),
      foldPanic (driverEntry topologyInfo) st drm = Except.ok st' →
      st'.card = (cardOf drm).getD st.card ∧
      st'.renderD = (renderIdOf drm).getD st.renderD ∧
      st'.devID = ((identityOf topologyInfo drm).map Prod.fst).getD st.devID ∧
      st'.nodeId = ((identityOf topologyInfo drm).map Prod.snd).getD st.nodeId) ∧
    (∀ (topologyInfo : IntMap TopologyInfo) (k : Kernel) (s : ScanState × GoMap RawRecord)
        (dir : DeviceDir) (v : Int), dir.drm = [] →
      Option.map Atoi dir.numaNode = some (Except.ok v) →
      driverStep topologyInfo k s dir = Except.ok (s.1, s.2.set dir.base
        (deviceInfoMap s.1.card s.1.renderD s.1.devID dir.base k.driverVersion.1
          k.driverVersion.2 (dir.computePartition.getD "") (dir.memoryPartition.getD "") v
          s.1.nodeId ((k.family s.1.card).getD "")
          (match k.productName s.1.card with
            | none => ""
            | some b => replaceProductName b)
          (topologyInfo.get s.1.renderD)))) ∧
    (∀ (topologyInfo : IntMap TopologyInfo) (k : Kernel) (dir : DeviceDir) (c n v : Int)
        (info : TopologyInfo) (st₁ st₂ : ScanState) (devices : GoMap RawRecord),
      cardOf dir.drm = some c → renderIdOf dir.drm = some n →
      topologyInfo.get n = some info → Option.map Atoi dir.numaNode = some (Except.ok v) →
      driverStep topologyInfo k (st₁, devices) dir =
        driverStep topologyInfo k (st₂, devices) dir) ∧
    (∀ visit, (GetAMDGPUs visit (kernelOf [listedDir, unlistedDir])).map
        (fun m => m.get "0000:1a:00.0") =
      Except.ok (some (deviceInfoMap 2 140 "1234567890" "0000:1a:00.0" "6.10.5" "ABCDEF" "spx"
        "nps1" 1 2 "AI" "AMD_Instinct_MI300X" none))) ∧
    (∀ visit, (GetAMDGPUs visit (kernelOf [unlistedDir])).map
        (fun m => m.get "0000:1a:00.0") =
      Except.ok (some (deviceInfoMap 2 140 "" "0000:1a:00.0" "6.10.5" "ABCDEF" "spx"
        "nps1" 1 0 "AI" "AMD_Instinct_MI300X" none))) ∧
    (∀ visit, (GetAMDGPUs visit (kernelOf [listedDir, emptyDrmDir])).map
        (fun m => m.get "0000:1b:00.0") =
      Except.ok (some (deviceInfoMap 1 128 "1234567890" "0000:1b:00.0" "6.10.5" "ABCDEF" "spx"
        "nps1" 1 2 "AI" "AMD_Instinct_MI300X" (some (xcpInfo 2 128))))) ∧
    (∀ visit, (GetAMDGPUs visit (kernelOf [emptyDrmDir])).map
        (fun m => m.get "0000:1b:00.0") =
      Except.ok (some (deviceInfoMap 0 128 "" "0000:1b:00.0" "6.10.5" "ABCDEF" "spx"
        "nps1" 1 0 "AI" "AMD_Instinct_MI300X" (some (xcpInfo 2 128))))) := by
  refine ⟨driverScan_state, ?_, ?_, fun _ => by rfl, fun _ => by rfl, fun _ => by rfl,
    fun _ => by rfl⟩
  · intro topologyInfo k s dir v hdrm hnuma
    unfold driverStep
    cases hnn : dir.numaNode with
    | none => rw [hnn] at hnuma; cases hnuma
    | some str =>
      rw [hnn] at hnuma
      simp only [Option.map_some', Option.some.injEq] at hnuma
      simp only [hnuma, hdrm, foldPanic]
  · intro topologyInfo k dir c n v info st₁ st₂ devices hc hn hinfo hnuma
    exact driverStep_own topologyInfo k dir c n info hc hn hinfo v hnuma st₁ st₂ devices

end GpuDra
